import Mathlib

/-!
UnityReflectionViewer: the frame reader and the schema decoder.

A shallow embedding of `reflection_data.h` and `reflection_data.cpp` (the
hand-written JSON-like decoder), of `ipc_client.cpp` (the length-prefixed
frame reader and the listener loop), and of the consumer of the decoded
snapshot (the data callback of `main.cpp` and `MainWindow::SetAssemblyData` of
`ui/main_window.cpp`), followed by theorems about them.  The decoder is
embedded twice: first as total functions, then in the monad `Except Fault`
with out-of-range accesses and unfinished loops as explicit faults; the two
are proved to agree.

Conventions of the embedding.

* A `std::string` is a `List Char`; one `Char` stands for one `char` of the
  C++ string.  `s += c` is `s ++ [c]`.
* The parser object `SimpleJsonParser` has two members: the immutable text
  `json_` and the cursor `pos_`.  Every member function takes `json` and the
  current `pos` and returns the new `pos` next to its C++ return value.
* Output arguments taken by reference (`AssemblyData&`, `std::vector<T>&`,
  `TypeInfo&`, ...) are passed in and returned.
* Every `while` loop is a function that recurses structurally on a fuel
  argument.  Its callers pass the number of characters left,
  `json.length - pos`, as fuel; each iteration that continues advances the
  cursor, and the branch for fuel 0 returns what the C++ loop returns when its
  condition `pos_ < json_.size()` fails.  The theorems `..._fuel` show that
  the result of a loop is the same for every fuel that covers the characters
  left, so that no loop ever stops for lack of fuel.
-/

namespace UnityReflection

/-! ## reflection_data.h -/

structure ParameterInfo where
  name : List Char := []
  parameterType : List Char := []
deriving DecidableEq, Repr

structure MethodInfo where
  name : List Char := []
  returnType : List Char := []
  isPublic : Bool := false
  isStatic : Bool := false
  parameters : List ParameterInfo := []
deriving DecidableEq, Repr

structure FieldInfo where
  name : List Char := []
  fieldType : List Char := []
  isPublic : Bool := false
  isStatic : Bool := false
  isReadOnly : Bool := false
deriving DecidableEq, Repr

structure PropertyInfo where
  name : List Char := []
  propertyType : List Char := []
  canRead : Bool := false
  canWrite : Bool := false
deriving DecidableEq, Repr

structure TypeInfo where
  name : List Char := []
  fullName : List Char := []
  namespaceName : List Char := []
  baseType : List Char := []
  isClass : Bool := false
  isStruct : Bool := false
  isEnum : Bool := false
  isInterface : Bool := false
  fields : List FieldInfo := []
  methods : List MethodInfo := []
  properties : List PropertyInfo := []
deriving DecidableEq, Repr

structure AssemblyData where
  assemblyName : List Char := []
  timestamp : List Char := []
  types : List TypeInfo := []
deriving DecidableEq, Repr

/-! ## reflection_data.cpp: `SimpleJsonParser` -/

/-- `Peek`: the character under the cursor, or NUL at the end of the text. -/
def Peek (json : List Char) (pos : Nat) : Char :=
  if h : pos < json.length then json[pos] else '\x00'

/-- `Expect(c)`: advance by one when the character under the cursor is `c`. -/
def Expect (json : List Char) (pos : Nat) (c : Char) : Bool × Nat :=
  if Peek json pos = c then (true, pos + 1) else (false, pos)

/-- The four characters `SkipWhitespace` steps over. -/
def isWhitespace (c : Char) : Bool :=
  c = ' ' || c = '\n' || c = '\r' || c = '\t'

/-- The loop of `SkipWhitespace`. -/
def SkipWhitespaceLoop (json : List Char) : Nat → Nat → Nat
  | 0, pos => pos
  | fuel + 1, pos =>
    if h : pos < json.length then
      if isWhitespace json[pos] then SkipWhitespaceLoop json fuel (pos + 1) else pos
    else pos

def SkipWhitespace (json : List Char) (pos : Nat) : Nat :=
  SkipWhitespaceLoop json (json.length - pos) pos

/-- The `switch` of `ParseString` on the character after a backslash. -/
def unescape (c : Char) : Char :=
  if c = 'n' then '\n'
  else if c = 'r' then '\r'
  else if c = 't' then '\t'
  else if c = '\\' then '\\'
  else if c = '"' then '"'
  else c

/-- The loop of `ParseString`: runs up to the closing quote or the end. -/
def ParseStringLoop (json : List Char) : Nat → Nat → List Char → List Char × Nat
  | 0, pos, result => (result, pos)
  | fuel + 1, pos, result =>
    if h : pos < json.length then
      if json[pos] ≠ '"' then
        if json[pos] = '\\' ∧ pos + 1 < json.length then
          ParseStringLoop json fuel (pos + 1 + 1) (result ++ [unescape (Peek json (pos + 1))])
        else
          ParseStringLoop json fuel (pos + 1) (result ++ [json[pos]])
      else (result, pos)
    else (result, pos)

def ParseString (json : List Char) (pos : Nat) : List Char × Nat :=
  match Expect json pos '"' with
  | (false, _) => ([], pos)
  | (true, pos1) =>
    let r := ParseStringLoop json (json.length - pos1) pos1 []
    (r.1, (Expect json r.2 '"').2)

/-- The test `json_.compare(pos, len, lit) == 0`: the substring of at most
`len` characters starting at `pos` equals `lit`.  (The C++ call throws
`std::out_of_range` when `pos > json_.size()`; the cursor never exceeds the
size, and here that substring is empty.) -/
def compareEq (json : List Char) (pos len : Nat) (lit : List Char) : Bool :=
  (json.drop pos).take len = lit

def ParseBool (json : List Char) (pos : Nat) : Bool × Nat :=
  if compareEq json pos 4 "true".toList then (true, pos + 4)
  else if compareEq json pos 5 "false".toList then (false, pos + 5)
  else (false, pos)

/-- The loop shared by `SkipObject` (`o = '{'`, `c = '}'`) and `SkipArray`
(`o = '['`, `c = ']'`); `depth` is the C++ `int depth`. -/
def SkipNestedLoop (o c : Char) (json : List Char) : Nat → Nat → Int → Nat
  | 0, pos, _ => pos
  | fuel + 1, pos, depth =>
    if h : pos < json.length then
      if depth > 0 then
        SkipNestedLoop o c json fuel (pos + 1)
          (if json[pos] = o then depth + 1 else if json[pos] = c then depth - 1 else depth)
      else pos
    else pos

def SkipObject (json : List Char) (pos : Nat) : Nat :=
  match Expect json pos '{' with
  | (false, _) => pos
  | (true, pos1) => SkipNestedLoop '{' '}' json (json.length - pos1) pos1 1

def SkipArray (json : List Char) (pos : Nat) : Nat :=
  match Expect json pos '[' with
  | (false, _) => pos
  | (true, pos1) => SkipNestedLoop '[' ']' json (json.length - pos1) pos1 1

/-- The last branch of `SkipValue`: run to the next `,`, `}` or `]`. -/
def SkipScalarLoop (json : List Char) : Nat → Nat → Nat
  | 0, pos => pos
  | fuel + 1, pos =>
    if h : pos < json.length then
      if json[pos] ≠ ',' ∧ json[pos] ≠ '}' ∧ json[pos] ≠ ']' then
        SkipScalarLoop json fuel (pos + 1)
      else pos
    else pos

def SkipValue (json : List Char) (pos : Nat) : Nat :=
  let pos := SkipWhitespace json pos
  let c := Peek json pos
  if c = '"' then (ParseString json pos).2
  else if c = '{' then SkipObject json pos
  else if c = '[' then SkipArray json pos
  else if c = 't' ∨ c = 'f' then (ParseBool json pos).2
  else SkipScalarLoop json (json.length - pos) pos

/-- The statement `if (Peek() == ',') pos_++;` that ends every loop body. -/
def SkipComma (json : List Char) (pos : Nat) : Nat :=
  if Peek json pos = ',' then pos + 1 else pos

/-! ### Parameters -/

/-- The key dispatch of `ParseParameterInfo`. -/
def ParameterMember (json : List Char) (key : List Char) (pos : Nat) (param : ParameterInfo) :
    Nat × ParameterInfo :=
  if key = "name".toList then
    let r := ParseString json pos; (r.2, { param with name := r.1 })
  else if key = "parameterType".toList then
    let r := ParseString json pos; (r.2, { param with parameterType := r.1 })
  else (SkipValue json pos, param)

/-- The loop of `ParseParameterInfo`. -/
def ParseParameterInfoLoop (json : List Char) :
    Nat → Nat → ParameterInfo → Bool × Nat × ParameterInfo
  | 0, pos, param => (true, pos, param)
  | fuel + 1, pos, param =>
    if pos < json.length then
      let pos := SkipWhitespace json pos
      if Peek json pos = '}' then (true, pos + 1, param)
      else
        let k := ParseString json pos
        let pos := SkipWhitespace json k.2
        match Expect json pos ':' with
        | (false, pos) => (false, pos, param)
        | (true, pos) =>
          let pos := SkipWhitespace json pos
          let m := ParameterMember json k.1 pos param
          let pos := SkipWhitespace json m.1
          ParseParameterInfoLoop json fuel (SkipComma json pos) m.2
    else (true, pos, param)

def ParseParameterInfo (json : List Char) (pos : Nat) (param : ParameterInfo) :
    Bool × Nat × ParameterInfo :=
  match Expect json pos '{' with
  | (false, pos) => (false, pos, param)
  | (true, pos) => ParseParameterInfoLoop json (json.length - pos) pos param

/-- The loop of `ParseParametersArray`. -/
def ParseParametersArrayLoop (json : List Char) :
    Nat → Nat → List ParameterInfo → Bool × Nat × List ParameterInfo
  | 0, pos, parameters => (true, pos, parameters)
  | fuel + 1, pos, parameters =>
    if pos < json.length then
      let pos := SkipWhitespace json pos
      if Peek json pos = ']' then (true, pos + 1, parameters)
      else
        match ParseParameterInfo json pos {} with
        | (false, pos, _) => (false, pos, parameters)
        | (true, pos, param) =>
          let pos := SkipWhitespace json pos
          ParseParametersArrayLoop json fuel (SkipComma json pos) (parameters ++ [param])
    else (true, pos, parameters)

def ParseParametersArray (json : List Char) (pos : Nat) (parameters : List ParameterInfo) :
    Bool × Nat × List ParameterInfo :=
  match Expect json pos '[' with
  | (false, pos) => (false, pos, parameters)
  | (true, pos) => ParseParametersArrayLoop json (json.length - pos) pos parameters

/-! ### Methods -/

/-- The key dispatch of `ParseMethodInfo`; the result of
`ParseParametersArray` is discarded there. -/
def MethodMember (json : List Char) (key : List Char) (pos : Nat) (method : MethodInfo) :
    Nat × MethodInfo :=
  if key = "name".toList then
    let r := ParseString json pos; (r.2, { method with name := r.1 })
  else if key = "returnType".toList then
    let r := ParseString json pos; (r.2, { method with returnType := r.1 })
  else if key = "isPublic".toList then
    let r := ParseBool json pos; (r.2, { method with isPublic := r.1 })
  else if key = "isStatic".toList then
    let r := ParseBool json pos; (r.2, { method with isStatic := r.1 })
  else if key = "parameters".toList then
    let r := ParseParametersArray json pos method.parameters
    (r.2.1, { method with parameters := r.2.2 })
  else (SkipValue json pos, method)

/-- The loop of `ParseMethodInfo`. -/
def ParseMethodInfoLoop (json : List Char) :
    Nat → Nat → MethodInfo → Bool × Nat × MethodInfo
  | 0, pos, method => (true, pos, method)
  | fuel + 1, pos, method =>
    if pos < json.length then
      let pos := SkipWhitespace json pos
      if Peek json pos = '}' then (true, pos + 1, method)
      else
        let k := ParseString json pos
        let pos := SkipWhitespace json k.2
        match Expect json pos ':' with
        | (false, pos) => (false, pos, method)
        | (true, pos) =>
          let pos := SkipWhitespace json pos
          let m := MethodMember json k.1 pos method
          let pos := SkipWhitespace json m.1
          ParseMethodInfoLoop json fuel (SkipComma json pos) m.2
    else (true, pos, method)

def ParseMethodInfo (json : List Char) (pos : Nat) (method : MethodInfo) :
    Bool × Nat × MethodInfo :=
  match Expect json pos '{' with
  | (false, pos) => (false, pos, method)
  | (true, pos) => ParseMethodInfoLoop json (json.length - pos) pos method

/-- The loop of `ParseMethodsArray`. -/
def ParseMethodsArrayLoop (json : List Char) :
    Nat → Nat → List MethodInfo → Bool × Nat × List MethodInfo
  | 0, pos, methods => (true, pos, methods)
  | fuel + 1, pos, methods =>
    if pos < json.length then
      let pos := SkipWhitespace json pos
      if Peek json pos = ']' then (true, pos + 1, methods)
      else
        match ParseMethodInfo json pos {} with
        | (false, pos, _) => (false, pos, methods)
        | (true, pos, method) =>
          let pos := SkipWhitespace json pos
          ParseMethodsArrayLoop json fuel (SkipComma json pos) (methods ++ [method])
    else (true, pos, methods)

def ParseMethodsArray (json : List Char) (pos : Nat) (methods : List MethodInfo) :
    Bool × Nat × List MethodInfo :=
  match Expect json pos '[' with
  | (false, pos) => (false, pos, methods)
  | (true, pos) => ParseMethodsArrayLoop json (json.length - pos) pos methods

/-! ### Fields -/

/-- The key dispatch of `ParseFieldInfo`. -/
def FieldMember (json : List Char) (key : List Char) (pos : Nat) (field : FieldInfo) :
    Nat × FieldInfo :=
  if key = "name".toList then
    let r := ParseString json pos; (r.2, { field with name := r.1 })
  else if key = "fieldType".toList then
    let r := ParseString json pos; (r.2, { field with fieldType := r.1 })
  else if key = "isPublic".toList then
    let r := ParseBool json pos; (r.2, { field with isPublic := r.1 })
  else if key = "isStatic".toList then
    let r := ParseBool json pos; (r.2, { field with isStatic := r.1 })
  else if key = "isReadOnly".toList then
    let r := ParseBool json pos; (r.2, { field with isReadOnly := r.1 })
  else (SkipValue json pos, field)

/-- The loop of `ParseFieldInfo`. -/
def ParseFieldInfoLoop (json : List Char) :
    Nat → Nat → FieldInfo → Bool × Nat × FieldInfo
  | 0, pos, field => (true, pos, field)
  | fuel + 1, pos, field =>
    if pos < json.length then
      let pos := SkipWhitespace json pos
      if Peek json pos = '}' then (true, pos + 1, field)
      else
        let k := ParseString json pos
        let pos := SkipWhitespace json k.2
        match Expect json pos ':' with
        | (false, pos) => (false, pos, field)
        | (true, pos) =>
          let pos := SkipWhitespace json pos
          let m := FieldMember json k.1 pos field
          let pos := SkipWhitespace json m.1
          ParseFieldInfoLoop json fuel (SkipComma json pos) m.2
    else (true, pos, field)

def ParseFieldInfo (json : List Char) (pos : Nat) (field : FieldInfo) :
    Bool × Nat × FieldInfo :=
  match Expect json pos '{' with
  | (false, pos) => (false, pos, field)
  | (true, pos) => ParseFieldInfoLoop json (json.length - pos) pos field

/-- The loop of `ParseFieldsArray`. -/
def ParseFieldsArrayLoop (json : List Char) :
    Nat → Nat → List FieldInfo → Bool × Nat × List FieldInfo
  | 0, pos, fields => (true, pos, fields)
  | fuel + 1, pos, fields =>
    if pos < json.length then
      let pos := SkipWhitespace json pos
      if Peek json pos = ']' then (true, pos + 1, fields)
      else
        match ParseFieldInfo json pos {} with
        | (false, pos, _) => (false, pos, fields)
        | (true, pos, field) =>
          let pos := SkipWhitespace json pos
          ParseFieldsArrayLoop json fuel (SkipComma json pos) (fields ++ [field])
    else (true, pos, fields)

def ParseFieldsArray (json : List Char) (pos : Nat) (fields : List FieldInfo) :
    Bool × Nat × List FieldInfo :=
  match Expect json pos '[' with
  | (false, pos) => (false, pos, fields)
  | (true, pos) => ParseFieldsArrayLoop json (json.length - pos) pos fields

/-! ### Properties -/

/-- The key dispatch of `ParsePropertyInfo`. -/
def PropertyMember (json : List Char) (key : List Char) (pos : Nat) (prop : PropertyInfo) :
    Nat × PropertyInfo :=
  if key = "name".toList then
    let r := ParseString json pos; (r.2, { prop with name := r.1 })
  else if key = "propertyType".toList then
    let r := ParseString json pos; (r.2, { prop with propertyType := r.1 })
  else if key = "canRead".toList then
    let r := ParseBool json pos; (r.2, { prop with canRead := r.1 })
  else if key = "canWrite".toList then
    let r := ParseBool json pos; (r.2, { prop with canWrite := r.1 })
  else (SkipValue json pos, prop)

/-- The loop of `ParsePropertyInfo`. -/
def ParsePropertyInfoLoop (json : List Char) :
    Nat → Nat → PropertyInfo → Bool × Nat × PropertyInfo
  | 0, pos, prop => (true, pos, prop)
  | fuel + 1, pos, prop =>
    if pos < json.length then
      let pos := SkipWhitespace json pos
      if Peek json pos = '}' then (true, pos + 1, prop)
      else
        let k := ParseString json pos
        let pos := SkipWhitespace json k.2
        match Expect json pos ':' with
        | (false, pos) => (false, pos, prop)
        | (true, pos) =>
          let pos := SkipWhitespace json pos
          let m := PropertyMember json k.1 pos prop
          let pos := SkipWhitespace json m.1
          ParsePropertyInfoLoop json fuel (SkipComma json pos) m.2
    else (true, pos, prop)

def ParsePropertyInfo (json : List Char) (pos : Nat) (prop : PropertyInfo) :
    Bool × Nat × PropertyInfo :=
  match Expect json pos '{' with
  | (false, pos) => (false, pos, prop)
  | (true, pos) => ParsePropertyInfoLoop json (json.length - pos) pos prop

/-- The loop of `ParsePropertiesArray`. -/
def ParsePropertiesArrayLoop (json : List Char) :
    Nat → Nat → List PropertyInfo → Bool × Nat × List PropertyInfo
  | 0, pos, properties => (true, pos, properties)
  | fuel + 1, pos, properties =>
    if pos < json.length then
      let pos := SkipWhitespace json pos
      if Peek json pos = ']' then (true, pos + 1, properties)
      else
        match ParsePropertyInfo json pos {} with
        | (false, pos, _) => (false, pos, properties)
        | (true, pos, prop) =>
          let pos := SkipWhitespace json pos
          ParsePropertiesArrayLoop json fuel (SkipComma json pos) (properties ++ [prop])
    else (true, pos, properties)

def ParsePropertiesArray (json : List Char) (pos : Nat) (properties : List PropertyInfo) :
    Bool × Nat × List PropertyInfo :=
  match Expect json pos '[' with
  | (false, pos) => (false, pos, properties)
  | (true, pos) => ParsePropertiesArrayLoop json (json.length - pos) pos properties

/-! ### Types -/

/-- The key dispatch of `ParseTypeInfo`; the results of `ParseFieldsArray`,
`ParseMethodsArray` and `ParsePropertiesArray` are discarded there. -/
def TypeMember (json : List Char) (key : List Char) (pos : Nat) (type : TypeInfo) :
    Nat × TypeInfo :=
  if key = "name".toList then
    let r := ParseString json pos; (r.2, { type with name := r.1 })
  else if key = "fullName".toList then
    let r := ParseString json pos; (r.2, { type with fullName := r.1 })
  else if key = "namespace".toList then
    let r := ParseString json pos; (r.2, { type with namespaceName := r.1 })
  else if key = "baseType".toList then
    let r := ParseString json pos; (r.2, { type with baseType := r.1 })
  else if key = "isClass".toList then
    let r := ParseBool json pos; (r.2, { type with isClass := r.1 })
  else if key = "isStruct".toList then
    let r := ParseBool json pos; (r.2, { type with isStruct := r.1 })
  else if key = "isEnum".toList then
    let r := ParseBool json pos; (r.2, { type with isEnum := r.1 })
  else if key = "isInterface".toList then
    let r := ParseBool json pos; (r.2, { type with isInterface := r.1 })
  else if key = "fields".toList then
    let r := ParseFieldsArray json pos type.fields
    (r.2.1, { type with fields := r.2.2 })
  else if key = "methods".toList then
    let r := ParseMethodsArray json pos type.methods
    (r.2.1, { type with methods := r.2.2 })
  else if key = "properties".toList then
    let r := ParsePropertiesArray json pos type.properties
    (r.2.1, { type with properties := r.2.2 })
  else (SkipValue json pos, type)

/-- The loop of `ParseTypeInfo`. -/
def ParseTypeInfoLoop (json : List Char) :
    Nat → Nat → TypeInfo → Bool × Nat × TypeInfo
  | 0, pos, type => (true, pos, type)
  | fuel + 1, pos, type =>
    if pos < json.length then
      let pos := SkipWhitespace json pos
      if Peek json pos = '}' then (true, pos + 1, type)
      else
        let k := ParseString json pos
        let pos := SkipWhitespace json k.2
        match Expect json pos ':' with
        | (false, pos) => (false, pos, type)
        | (true, pos) =>
          let pos := SkipWhitespace json pos
          let m := TypeMember json k.1 pos type
          let pos := SkipWhitespace json m.1
          ParseTypeInfoLoop json fuel (SkipComma json pos) m.2
    else (true, pos, type)

def ParseTypeInfo (json : List Char) (pos : Nat) (type : TypeInfo) :
    Bool × Nat × TypeInfo :=
  match Expect json pos '{' with
  | (false, pos) => (false, pos, type)
  | (true, pos) => ParseTypeInfoLoop json (json.length - pos) pos type

/-- The loop of `ParseTypesArray`. -/
def ParseTypesArrayLoop (json : List Char) :
    Nat → Nat → List TypeInfo → Bool × Nat × List TypeInfo
  | 0, pos, types => (true, pos, types)
  | fuel + 1, pos, types =>
    if pos < json.length then
      let pos := SkipWhitespace json pos
      if Peek json pos = ']' then (true, pos + 1, types)
      else
        match ParseTypeInfo json pos {} with
        | (false, pos, _) => (false, pos, types)
        | (true, pos, type) =>
          let pos := SkipWhitespace json pos
          ParseTypesArrayLoop json fuel (SkipComma json pos) (types ++ [type])
    else (true, pos, types)

def ParseTypesArray (json : List Char) (pos : Nat) (types : List TypeInfo) :
    Bool × Nat × List TypeInfo :=
  match Expect json pos '[' with
  | (false, pos) => (false, pos, types)
  | (true, pos) => ParseTypesArrayLoop json (json.length - pos) pos types

/-! ### The root object -/

/-- The key dispatch of `SimpleJsonParser::ParseAssemblyData`; the flag is
`false` exactly when the branch executes `return false` (a failed
`ParseTypesArray`). -/
def AssemblyMember (json : List Char) (key : List Char) (pos : Nat) (data : AssemblyData) :
    Bool × Nat × AssemblyData :=
  if key = "assemblyName".toList then
    let r := ParseString json pos; (true, r.2, { data with assemblyName := r.1 })
  else if key = "timestamp".toList then
    let r := ParseString json pos; (true, r.2, { data with timestamp := r.1 })
  else if key = "types".toList then
    let r := ParseTypesArray json pos data.types
    (r.1, r.2.1, { data with types := r.2.2 })
  else (true, SkipValue json pos, data)

/-- The loop of `SimpleJsonParser::ParseAssemblyData`. -/
def ParseAssemblyDataLoop (json : List Char) :
    Nat → Nat → AssemblyData → Bool × Nat × AssemblyData
  | 0, pos, data => (true, pos, data)
  | fuel + 1, pos, data =>
    if pos < json.length then
      let pos := SkipWhitespace json pos
      if Peek json pos = '}' then (true, pos + 1, data)
      else
        let k := ParseString json pos
        let pos := SkipWhitespace json k.2
        match Expect json pos ':' with
        | (false, pos) => (false, pos, data)
        | (true, pos) =>
          let pos := SkipWhitespace json pos
          match AssemblyMember json k.1 pos data with
          | (false, pos, data) => (false, pos, data)
          | (true, pos, data) =>
            let pos := SkipWhitespace json pos
            ParseAssemblyDataLoop json fuel (SkipComma json pos) data
    else (true, pos, data)

/-- The member function `SimpleJsonParser::ParseAssemblyData`, started at
the cursor `pos`; the result carries the final cursor. -/
def SimpleJsonParser.ParseAssemblyData (json : List Char) (pos : Nat) (data : AssemblyData) :
    Bool × Nat × AssemblyData :=
  let pos := SkipWhitespace json pos
  match Expect json pos '{' with
  | (false, pos) => (false, pos, data)
  | (true, pos) => ParseAssemblyDataLoop json (json.length - pos) pos data

/-- The free function `ParseAssemblyData(json, data)`: a parser constructed
on `json` with cursor 0; returns the flag and the updated `data`. -/
def ParseAssemblyData (json : List Char) (data : AssemblyData) : Bool × AssemblyData :=
  let r := SimpleJsonParser.ParseAssemblyData json 0 data
  (r.1, r.2.2)


/-! ## ipc_client.cpp (the POSIX branch)

The descriptor `fd_` is read through the system call `read(fd, buf, count)`.
The stream behind the descriptor is the list of the outcomes it will give:
a chunk of bytes that is available (a read takes at most `count` of them and
leaves the others for the next read), or an error.  The empty list is a
stream at its end, where `read` returns 0.  A byte is a natural number, taken
modulo 256 where its value is used. -/

inductive ReadEvent where
  | bytes (bs : List Nat)
  | error
deriving DecidableEq, Repr

/-- The call `read(fd_, buf, count)`: the returned count (`-1` on error, `0`
at the end of the stream), the bytes stored in the buffer, and the stream
afterwards. -/
def read (stream : List ReadEvent) (count : Nat) : Int × List Nat × List ReadEvent :=
  match stream with
  | [] => (0, [], [])
  | ReadEvent.error :: rest => (-1, [], rest)
  | ReadEvent.bytes bs :: rest =>
    if bs.length ≤ count then (bs.length, bs, rest)
    else (count, bs.take count, ReadEvent.bytes (bs.drop count) :: rest)

/-- The value of an `int32_t` whose four bytes in memory are `bs`
(little-endian, two's complement). -/
def int32OfBytes (bs : List Nat) : Int :=
  let u := bs.getD 0 0 % 256 + 256 * (bs.getD 1 0 % 256) + 65536 * (bs.getD 2 0 % 256)
    + 16777216 * (bs.getD 3 0 % 256)
  if u < 2147483648 then (u : Int) else (u : Int) - 4294967296

/-- The four bytes in memory of an `int32_t` holding `n` (little-endian), as
the producer writes the length prefix. -/
def encodeLength (n : Nat) : List Nat :=
  [n % 256, n / 256 % 256, n / 65536 % 256, n / 16777216 % 256]

/-- The function `std::to_string(int)`. -/
def to_string (n : Int) : List Char :=
  if n < 0 then '-' :: (Nat.repr n.natAbs).toList else (Nat.repr n.natAbs).toList

/-- What a call of `ReadData` does: the returned string (empty on failure),
the messages passed to `errorCallback_`, and the stream afterwards. -/
structure ReadResult where
  data : List Nat
  errors : List (List Char)
  stream : List ReadEvent
deriving DecidableEq, Repr

/-- The statement `if (errorCallback_) errorCallback_(msg);`. -/
def reportError (errorCallback_ : Bool) (msg : List Char) : List (List Char) :=
  if errorCallback_ then [msg] else []

/-- The loop `while (totalRead < dataLength)` of `ReadData`; `data` holds the
`totalRead` bytes stored so far. -/
def ReadDataLoop (errorCallback_ : Bool) (dataLength : Nat) :
    Nat → List ReadEvent → List Nat → ReadResult
  | 0, stream, data => { data := data, errors := [], stream := stream }
  | fuel + 1, stream, data =>
    if data.length < dataLength then
      let r := read stream (dataLength - data.length)
      if r.1 ≤ 0 then
        { data := [], errors := reportError errorCallback_ "Failed to read data".toList,
          stream := r.2.2 }
      else ReadDataLoop errorCallback_ dataLength fuel r.2.2 (data ++ r.2.1)
    else { data := data, errors := [], stream := stream }

/-- The function `IPCClient::ReadData`; `errorCallback_` tells whether an
error callback is registered. -/
def ReadData (errorCallback_ : Bool) (stream : List ReadEvent) : ReadResult :=
  let r := read stream 4
  if r.1 ≠ 4 then
    { data := [], errors := reportError errorCallback_ "Failed to read data length".toList,
      stream := r.2.2 }
  else
    let dataLength := int32OfBytes r.2.1
    if dataLength ≤ 0 ∨ dataLength > 100 * 1024 * 1024 then
      { data := [],
        errors := reportError errorCallback_ ("Invalid data length: ".toList ++ to_string dataLength),
        stream := r.2.2 }
    else ReadDataLoop errorCallback_ dataLength.toNat dataLength.toNat r.2.2 []

/-- The members of `IPCClient` the listener reads and writes, the stream
behind `fd_`, and the calls made so far: `delivered` lists the arguments of
the calls of `dataCallback_`, `reported` those of `errorCallback_`, `reads`
counts the calls of `ReadData`. -/
structure IPCClient where
  dataCallback_ : Bool := false
  errorCallback_ : Bool := false
  isConnected_ : Bool := false
  isListening_ : Bool := false
  fd_ : Int := -1
  stream : List ReadEvent := []
  delivered : List (List Nat) := []
  reported : List (List Char) := []
  reads : Nat := 0
deriving DecidableEq, Repr

/-- The function `IPCClient::Disconnect`. -/
def Disconnect (c : IPCClient) : IPCClient :=
  { c with fd_ := if c.fd_ ≠ -1 then -1 else c.fd_, isConnected_ := false }

/-- One pass through the body of `while (isListening_)` in
`IPCClient::ListenThread`. -/
def ListenThreadBody (c : IPCClient) : IPCClient :=
  if !c.isConnected_ then c
  else
    let r := ReadData c.errorCallback_ c.stream
    let c1 := { c with stream := r.stream, reported := c.reported ++ r.errors,
                       reads := c.reads + 1 }
    let c2 := if r.data ≠ [] ∧ c1.dataCallback_ then
        { c1 with delivered := c1.delivered ++ [r.data] } else c1
    Disconnect c2

/-- A client as `main` sets it up (both callbacks registered) once it is
listening and connected, with `stream` behind its descriptor. -/
def connectedClient (stream : List ReadEvent) : IPCClient :=
  { dataCallback_ := true
    errorCallback_ := true
    isConnected_ := true
    isListening_ := true
    fd_ := 3
    stream := stream }


/-! ## Texts the theorems quantify over -/

/-- A string without `"` and without a backslash: its literal is the string
between two quotes. -/
def plain (s : List Char) : Prop := ∀ c ∈ s, c ≠ '"' ∧ c ≠ '\\'

instance (s : List Char) : Decidable (plain s) := by
  unfold plain; infer_instance

/-- The inside of a well-formed string literal: every `"` is preceded by a
backslash that escapes it, and no backslash is left without a character to
escape. -/
def wellFormedBody : List Char → Bool
  | [] => true
  | [c] => c ≠ '"' && c ≠ '\\'
  | c :: d :: rest =>
    if c = '\\' then wellFormedBody rest else c ≠ '"' && wellFormedBody (d :: rest)

/-- What the inside of a string literal stands for: a backslash and the
character `c` after it stand for `unescape c`, every other character for
itself. -/
def decodeBody : List Char → List Char
  | [] => []
  | [c] => [c]
  | c :: d :: rest =>
    if c = '\\' then unescape d :: decodeBody rest else c :: decodeBody (d :: rest)

/-- The literal of a plain string. -/
def quote (s : List Char) : List Char := '"' :: (s ++ ['"'])

/-- The object `{"name":"n"}`. -/
def nameObject (n : List Char) : List Char :=
  "\x7b\"name\":".toList ++ quote n ++ "\x7d".toList

/-- Texts separated by commas. -/
def commaSep : List (List Char) → List Char
  | [] => []
  | [x] => x
  | x :: y :: rest => x ++ ',' :: commaSep (y :: rest)

/-- The array `[e1,...,ek]` of the texts `e1`, ..., `ek`. -/
def arrayOf (elems : List (List Char)) : List Char :=
  '[' :: (commaSep elems ++ [']'])

/-- The payload `{"types":[{"name":"n1"},...,{"name":"nk"}]}`. -/
def typesPayload (names : List (List Char)) : List Char :=
  "\x7b\"types\":".toList ++ arrayOf (names.map nameObject) ++ "\x7d".toList

/-- The payload `{"types":[{"fields":[{"name":"n1"},...,{"name":"nk"}]}]}`. -/
def fieldsPayload (names : List (List Char)) : List Char :=
  "\x7b\"types\":[\x7b\"fields\":".toList ++ arrayOf (names.map nameObject) ++ "\x7d]\x7d".toList

/-- The payload `{"types":[{"methods":[{"name":"n1"},...,{"name":"nk"}]}]}`. -/
def methodsPayload (names : List (List Char)) : List Char :=
  "\x7b\"types\":[\x7b\"methods\":".toList ++ arrayOf (names.map nameObject) ++ "\x7d]\x7d".toList

/-- The payload
`{"types":[{"methods":[{"parameters":[{"name":"n1"},...,{"name":"nk"}]}]}]}`. -/
def parametersPayload (names : List (List Char)) : List Char :=
  "\x7b\"types\":[\x7b\"methods\":[\x7b\"parameters\":".toList ++ arrayOf (names.map nameObject)
    ++ "\x7d]\x7d]\x7d".toList

/-- The root object `{"k1":v1,"k2":v2}` with two members. -/
def twoMembers (k1 v1 k2 v2 : List Char) : List Char :=
  '{' :: (quote k1 ++ ':' :: (v1 ++ ',' :: (quote k2 ++ ':' :: (v2 ++ ['}']))))

/-- A text in which the characters `o` and `c` nest properly, read at
nesting depth `d`: the depth never falls below 0 and is 0 at the end. -/
def balanced (o c : Char) : List Char → Nat → Bool
  | [], d => d == 0
  | x :: xs, d =>
    if x = o then balanced o c xs (d + 1)
    else if x = c then d != 0 && balanced o c xs (d - 1)
    else balanced o c xs d

/-- The values of an unrecognised key that the theorems cover: a well-formed
string literal, `true`, `false`, an object text whose braces nest properly and
an array text whose brackets nest properly, counting every `{`, `}` (resp.
`[`, `]`) of the text, those inside string members included. -/
inductive SkippableValue : List Char → Prop
  | string (body : List Char) (h : wellFormedBody body = true) :
      SkippableValue ('"' :: (body ++ ['"']))
  | object (body : List Char) (h : balanced '{' '}' body 0 = true) :
      SkippableValue ('{' :: (body ++ ['}']))
  | array (body : List Char) (h : balanced '[' ']' body 0 = true) :
      SkippableValue ('[' :: (body ++ [']']))
  | true : SkippableValue "true".toList
  | false : SkippableValue "false".toList

/-- A key that `SimpleJsonParser::ParseAssemblyData` does not recognise. -/
def unknownRootKey (k : List Char) : Prop :=
  k ≠ "assemblyName".toList ∧ k ≠ "timestamp".toList ∧ k ≠ "types".toList

/-- The first character of a number or of `null`. -/
def startsNumberOrNull (c : Char) : Prop :=
  c.isDigit = true ∨ c = '-' ∨ c = 'n'

/-- The first character of `true` or of `false`. -/
def startsBool (c : Char) : Prop :=
  c = 't' ∨ c = 'f'

/-- The six objects the decoder recognises. -/
inductive ObjectKind where
  | root
  | type
  | field
  | method
  | property
  | parameter
deriving DecidableEq, Repr

/-- The keys of an object whose value is read by `ParseString`. -/
def stringKeys : ObjectKind → List (List Char)
  | ObjectKind.root => ["assemblyName".toList, "timestamp".toList]
  | ObjectKind.type =>
    ["name".toList, "fullName".toList, "namespace".toList, "baseType".toList]
  | ObjectKind.field => ["name".toList, "fieldType".toList]
  | ObjectKind.method => ["name".toList, "returnType".toList]
  | ObjectKind.property => ["name".toList, "propertyType".toList]
  | ObjectKind.parameter => ["name".toList, "parameterType".toList]

/-- The keys of an object whose value is read by `ParseBool`. -/
def boolKeys : ObjectKind → List (List Char)
  | ObjectKind.root => []
  | ObjectKind.type =>
    ["isClass".toList, "isStruct".toList, "isEnum".toList, "isInterface".toList]
  | ObjectKind.field => ["isPublic".toList, "isStatic".toList, "isReadOnly".toList]
  | ObjectKind.method => ["isPublic".toList, "isStatic".toList]
  | ObjectKind.property => ["canRead".toList, "canWrite".toList]
  | ObjectKind.parameter => []

/-- The beginning of a payload up to the `{` of its first object of a
kind. -/
def opening : ObjectKind → List Char
  | ObjectKind.root => "\x7b".toList
  | ObjectKind.type => "\x7b\"types\":[\x7b".toList
  | ObjectKind.field => "\x7b\"types\":[\x7b\"fields\":[\x7b".toList
  | ObjectKind.method => "\x7b\"types\":[\x7b\"methods\":[\x7b".toList
  | ObjectKind.property => "\x7b\"types\":[\x7b\"properties\":[\x7b".toList
  | ObjectKind.parameter => "\x7b\"types\":[\x7b\"methods\":[\x7b\"parameters\":[\x7b".toList

/-- The C++ object that the decoder fills from an object of a kind. -/
def StateOf : ObjectKind → Type
  | ObjectKind.root => AssemblyData
  | ObjectKind.type => TypeInfo
  | ObjectKind.field => FieldInfo
  | ObjectKind.method => MethodInfo
  | ObjectKind.property => PropertyInfo
  | ObjectKind.parameter => ParameterInfo

/-- The flag returned by the loop that reads the members of an object of a
kind. -/
def objectLoopFlag : (kind : ObjectKind) → List Char → Nat → Nat → StateOf kind → Bool
  | ObjectKind.root, json, fuel, pos, st => (ParseAssemblyDataLoop json fuel pos st).1
  | ObjectKind.type, json, fuel, pos, st => (ParseTypeInfoLoop json fuel pos st).1
  | ObjectKind.field, json, fuel, pos, st => (ParseFieldInfoLoop json fuel pos st).1
  | ObjectKind.method, json, fuel, pos, st => (ParseMethodInfoLoop json fuel pos st).1
  | ObjectKind.property, json, fuel, pos, st => (ParsePropertyInfoLoop json fuel pos st).1
  | ObjectKind.parameter, json, fuel, pos, st => (ParseParameterInfoLoop json fuel pos st).1

/-- A recognised key of an object of a kind, with the first character `c` of
a value of the wrong type that is not a string: a number, `null`, `true` or
`false` for a string-typed key, a number or `null` for a boolean-typed key. -/
def wrongScalar (kind : ObjectKind) (key : List Char) (c : Char) : Prop :=
  (key ∈ stringKeys kind ∧ (startsNumberOrNull c ∨ startsBool c))
    ∨ (key ∈ boolKeys kind ∧ startsNumberOrNull c)

/-- The payload of the concrete scenario of the specification. -/
def payloadC1 : List Char :=
  "\x7b\"assemblyName\":\"Core\",\"timestamp\":\"t1\",\"types\":[\x7b\"name\":\"Foo\",\"fullName\":\"NS.Foo\",\"namespace\":\"NS\",\"baseType\":\"\",\"isClass\":true,\"isStruct\":false,\"isEnum\":false,\"isInterface\":false,\"fields\":[\x7b\"name\":\"x\",\"fieldType\":\"int\",\"isPublic\":true,\"isStatic\":false,\"isReadOnly\":false\x7d],\"methods\":[],\"properties\":[]\x7d]\x7d".toList

/-- The snapshot the concrete scenario expects. -/
def expectedC1 : AssemblyData :=
  { assemblyName := "Core".toList
    timestamp := "t1".toList
    types := [
      { name := "Foo".toList
        fullName := "NS.Foo".toList
        namespaceName := "NS".toList
        baseType := []
        isClass := true
        isStruct := false
        isEnum := false
        isInterface := false
        fields := [
          { name := "x".toList
            fieldType := "int".toList
            isPublic := true
            isStatic := false
            isReadOnly := false }]
        methods := []
        properties := [] }] }


/-! ## String literals, as the specification describes them -/

/-- The relation `Decodes body out`: `body` is the inside of a double-quoted
string literal that ends at an unescaped `"`, and `out` is the string it
stands for.  An unescaped character (neither `"` nor a backslash) is copied;
`\n`, `\r`, `\t`, `\\` and `\"` stand for newline, carriage return, tab,
backslash and double quote; a backslash before any other character `c`
stands for `c` alone. -/
inductive Decodes : List Char → List Char → Prop
  | done : Decodes [] []
  | copy (c : Char) (body out : List Char) (hq : c ≠ '"') (hb : c ≠ '\\')
      (h : Decodes body out) : Decodes (c :: body) (c :: out)
  | newline (body out : List Char) (h : Decodes body out) :
      Decodes ('\\' :: 'n' :: body) ('\n' :: out)
  | carriageReturn (body out : List Char) (h : Decodes body out) :
      Decodes ('\\' :: 'r' :: body) ('\r' :: out)
  | tab (body out : List Char) (h : Decodes body out) :
      Decodes ('\\' :: 't' :: body) ('\t' :: out)
  | backslash (body out : List Char) (h : Decodes body out) :
      Decodes ('\\' :: '\\' :: body) ('\\' :: out)
  | doubleQuote (body out : List Char) (h : Decodes body out) :
      Decodes ('\\' :: '"' :: body) ('"' :: out)
  | other (c : Char) (body out : List Char)
      (hc : c ≠ 'n' ∧ c ≠ 'r' ∧ c ≠ 't' ∧ c ≠ '\\' ∧ c ≠ '"')
      (h : Decodes body out) : Decodes ('\\' :: c :: body) (c :: out)


/-! ## ui/main_window.h, ui/main_window.cpp and the data callback of main.cpp -/

/-- The data members of `UI::MainWindow`, with the initial values of
`main_window.h`.  The four counters are C++ `int`s; they count types of one
payload, and stay far below `2^31` for a payload of at most 100 MiB, the
largest the frame reader returns. -/
structure MainWindow where
  assemblyData_ : AssemblyData := {}
  selectedTypeIndex_ : Int := -1
  searchBuffer_ : List Char := []
  showPublicOnly_ : Bool := false
  showInheritedMembers_ : Bool := false
  currentTab_ : Int := 0
  totalClasses_ : Int := 0
  totalStructs_ : Int := 0
  totalEnums_ : Int := 0
  totalInterfaces_ : Int := 0
deriving DecidableEq, Repr

/-- The body of the loop `for (const auto& type : assemblyData_.types)` of
`MainWindow::SetAssemblyData`. -/
def countType (w : MainWindow) (type : TypeInfo) : MainWindow :=
  let w := if type.isClass then { w with totalClasses_ := w.totalClasses_ + 1 } else w
  let w := if type.isStruct then { w with totalStructs_ := w.totalStructs_ + 1 } else w
  let w := if type.isEnum then { w with totalEnums_ := w.totalEnums_ + 1 } else w
  if type.isInterface then { w with totalInterfaces_ := w.totalInterfaces_ + 1 } else w

/-- The function `MainWindow::SetAssemblyData`. -/
def SetAssemblyData (w : MainWindow) (data : AssemblyData) : MainWindow :=
  let w := { w with assemblyData_ := data }
  let w := { w with selectedTypeIndex_ := -1 }
  let w := { w with totalClasses_ := 0, totalStructs_ := 0, totalEnums_ := 0,
                    totalInterfaces_ := 0 }
  w.assemblyData_.types.foldl countType w

/-- The data callback that `main` registers: it decodes the payload into a
new `AssemblyData` and hands the result to the window when the decoder
returns `true`.  (Its lines on `std::cout` and `std::cerr` are left out.) -/
def dataCallback (mainWindow : MainWindow) (data : List Char) : MainWindow :=
  let r := ParseAssemblyData data {}
  if r.1 then SetAssemblyData mainWindow r.2 else mainWindow

/-! ## ipc_client.cpp: the calls `main` makes on the client -/

/-- The function `IPCClient::SetDataCallback`. -/
def SetDataCallback (c : IPCClient) : IPCClient :=
  { c with dataCallback_ := true }

/-- The function `IPCClient::SetErrorCallback`. -/
def SetErrorCallback (c : IPCClient) : IPCClient :=
  { c with errorCallback_ := true }

/-- The function `IPCClient::StartListening`; the thread it creates runs
the iterations of `ListenThread`. -/
def StartListening (c : IPCClient) : IPCClient :=
  if c.isListening_ then c else { c with isListening_ := true }

/-- The function `IPCClient::StopListening`. -/
def StopListening (c : IPCClient) : IPCClient :=
  { c with isListening_ := false }

/-- One step of the client as `main` drives it: a callback is registered,
listening starts or stops, or the listener thread runs one iteration of
`while (isListening_)`.  No step calls `Connect`. -/
inductive ListenerStep : IPCClient → IPCClient → Prop
  | setDataCallback (c : IPCClient) : ListenerStep c (SetDataCallback c)
  | setErrorCallback (c : IPCClient) : ListenerStep c (SetErrorCallback c)
  | startListening (c : IPCClient) : ListenerStep c (StartListening c)
  | iteration (c : IPCClient) (h : c.isListening_ = true) : ListenerStep c (ListenThreadBody c)
  | stopListening (c : IPCClient) : ListenerStep c (StopListening c)

/-- The states a client reaches from `c0` by steps of `ListenerStep`. -/
inductive Reachable (c0 : IPCClient) : IPCClient → Prop
  | start : Reachable c0 c0
  | step (c c2 : IPCClient) (h : Reachable c0 c) (s : ListenerStep c c2) : Reachable c0 c2


/-! ## reflection_data.cpp again, with the faults written out

The functions of `SimpleJsonParser` a second time, in the monad
`Except Fault`.  Here nothing is taken for granted about the cursor or about
the loops:

* `json_[pos_]` is `charAt`, which raises `out_of_range` when the cursor is
  not inside the text, and `json_.compare(pos_, len, lit)` is
  `compareChecked`, which raises `out_of_range` when the cursor is beyond the
  end of the text, as `std::string::compare` throws `std::out_of_range`;
* every `while` loop recurses on a fuel argument and raises `out_of_fuel` when
  the fuel is used up, so that a loop that has run out of fuel cannot be taken
  for a loop that has ended.  The argument `n` of a function is the fuel it
  gives to every loop it starts.

The theorems `..._eq` show that with `n` greater than the length of the text
no fault is raised and the result is that of the functions above. -/

inductive Fault where
  | out_of_range
  | out_of_fuel
deriving DecidableEq, Repr

/-- The access `json_[pos_]`. -/
def charAt (json : List Char) (pos : Nat) : Except Fault Char :=
  if h : pos < json.length then pure json[pos] else throw Fault.out_of_range

/-- The test `json_.compare(pos, len, lit) == 0`, which throws when `pos` is
greater than the size of the string. -/
def compareChecked (json : List Char) (pos len : Nat) (lit : List Char) : Except Fault Bool :=
  if pos ≤ json.length then pure (compareEq json pos len lit) else throw Fault.out_of_range

def PeekChecked (json : List Char) (pos : Nat) : Except Fault Char :=
  if pos < json.length then charAt json pos else pure '\x00'

def ExpectChecked (json : List Char) (pos : Nat) (c : Char) : Except Fault (Bool × Nat) := do
  let p ← PeekChecked json pos
  if p = c then pure (true, pos + 1) else pure (false, pos)

/-- The loop of `SkipWhitespace`. -/
def SkipWhitespaceLoopChecked (json : List Char) : Nat → Nat → Except Fault Nat
  | 0, _ => throw Fault.out_of_fuel
  | fuel + 1, pos =>
    if pos < json.length then do
      let c ← charAt json pos
      if isWhitespace c then SkipWhitespaceLoopChecked json fuel (pos + 1) else pure pos
    else pure pos

def SkipWhitespaceChecked (n : Nat) (json : List Char) (pos : Nat) : Except Fault Nat :=
  SkipWhitespaceLoopChecked json n pos

/-- The loop of `ParseString`. -/
def ParseStringLoopChecked (json : List Char) :
    Nat → Nat → List Char → Except Fault (List Char × Nat)
  | 0, _, _ => throw Fault.out_of_fuel
  | fuel + 1, pos, result =>
    if pos < json.length then do
      let c ← charAt json pos
      if c ≠ '"' then
        if c = '\\' ∧ pos + 1 < json.length then do
          let d ← charAt json (pos + 1)
          ParseStringLoopChecked json fuel (pos + 1 + 1) (result ++ [unescape d])
        else
          ParseStringLoopChecked json fuel (pos + 1) (result ++ [c])
      else pure (result, pos)
    else pure (result, pos)

def ParseStringChecked (n : Nat) (json : List Char) (pos : Nat) :
    Except Fault (List Char × Nat) := do
  match ← ExpectChecked json pos '"' with
  | (false, _) => pure ([], pos)
  | (true, pos1) =>
    let r ← ParseStringLoopChecked json n pos1 []
    let e ← ExpectChecked json r.2 '"'
    pure (r.1, e.2)

def ParseBoolChecked (json : List Char) (pos : Nat) : Except Fault (Bool × Nat) := do
  if ← compareChecked json pos 4 "true".toList then pure (true, pos + 4)
  else if ← compareChecked json pos 5 "false".toList then pure (false, pos + 5)
  else pure (false, pos)

/-- The loop shared by `SkipObject` and `SkipArray`.  The C++ `int depth` is
an `Int` here, as above; it stays within 32 bits on a text of fewer than
`2^31` characters. -/
def SkipNestedLoopChecked (o c : Char) (json : List Char) : Nat → Nat → Int → Except Fault Nat
  | 0, _, _ => throw Fault.out_of_fuel
  | fuel + 1, pos, depth =>
    if pos < json.length ∧ depth > 0 then do
      let x ← charAt json pos
      SkipNestedLoopChecked o c json fuel (pos + 1)
        (if x = o then depth + 1 else if x = c then depth - 1 else depth)
    else pure pos

def SkipObjectChecked (n : Nat) (json : List Char) (pos : Nat) : Except Fault Nat := do
  match ← ExpectChecked json pos '{' with
  | (false, _) => pure pos
  | (true, pos1) => SkipNestedLoopChecked '{' '}' json n pos1 1

def SkipArrayChecked (n : Nat) (json : List Char) (pos : Nat) : Except Fault Nat := do
  match ← ExpectChecked json pos '[' with
  | (false, _) => pure pos
  | (true, pos1) => SkipNestedLoopChecked '[' ']' json n pos1 1

/-- The last branch of `SkipValue`. -/
def SkipScalarLoopChecked (json : List Char) : Nat → Nat → Except Fault Nat
  | 0, _ => throw Fault.out_of_fuel
  | fuel + 1, pos =>
    if pos < json.length then do
      let x ← charAt json pos
      if x ≠ ',' ∧ x ≠ '}' ∧ x ≠ ']' then SkipScalarLoopChecked json fuel (pos + 1)
      else pure pos
    else pure pos

def SkipValueChecked (n : Nat) (json : List Char) (pos : Nat) : Except Fault Nat := do
  let pos ← SkipWhitespaceChecked n json pos
  let c ← PeekChecked json pos
  if c = '"' then
    let r ← ParseStringChecked n json pos
    pure r.2
  else if c = '{' then SkipObjectChecked n json pos
  else if c = '[' then SkipArrayChecked n json pos
  else if c = 't' ∨ c = 'f' then
    let r ← ParseBoolChecked json pos
    pure r.2
  else SkipScalarLoopChecked json n pos

/-- The statement `if (Peek() == ',') pos_++;`. -/
def SkipCommaChecked (json : List Char) (pos : Nat) : Except Fault Nat := do
  if (← PeekChecked json pos) = ',' then pure (pos + 1) else pure pos


/-! ### Parameters, with the faults written out -/

/-- The key dispatch of `ParseParameterInfo`. -/
def ParameterMemberChecked (n : Nat) (json : List Char) (key : List Char) (pos : Nat)
    (param : ParameterInfo) : Except Fault (Nat × ParameterInfo) := do
  if key = "name".toList then
    let r ← ParseStringChecked n json pos
    pure (r.2, { param with name := r.1 })
  else if key = "parameterType".toList then
    let r ← ParseStringChecked n json pos
    pure (r.2, { param with parameterType := r.1 })
  else
    let p ← SkipValueChecked n json pos
    pure (p, param)

/-- The loop of `ParseParameterInfo`. -/
def ParseParameterInfoLoopChecked (n : Nat) (json : List Char) :
    Nat → Nat → ParameterInfo → Except Fault (Bool × Nat × ParameterInfo)
  | 0, _, _ => throw Fault.out_of_fuel
  | fuel + 1, pos, param =>
    if pos < json.length then do
      let pos ← SkipWhitespaceChecked n json pos
      if (← PeekChecked json pos) = '}' then pure (true, pos + 1, param)
      else
        let k ← ParseStringChecked n json pos
        let pos ← SkipWhitespaceChecked n json k.2
        match ← ExpectChecked json pos ':' with
        | (false, pos) => pure (false, pos, param)
        | (true, pos) =>
          let pos ← SkipWhitespaceChecked n json pos
          let m ← ParameterMemberChecked n json k.1 pos param
          let pos ← SkipWhitespaceChecked n json m.1
          let pos ← SkipCommaChecked json pos
          ParseParameterInfoLoopChecked n json fuel pos m.2
    else pure (true, pos, param)

def ParseParameterInfoChecked (n : Nat) (json : List Char) (pos : Nat) (param : ParameterInfo) :
    Except Fault (Bool × Nat × ParameterInfo) := do
  match ← ExpectChecked json pos '{' with
  | (false, pos) => pure (false, pos, param)
  | (true, pos) => ParseParameterInfoLoopChecked n json n pos param

/-- The loop of `ParseParametersArray`. -/
def ParseParametersArrayLoopChecked (n : Nat) (json : List Char) :
    Nat → Nat → List ParameterInfo → Except Fault (Bool × Nat × List ParameterInfo)
  | 0, _, _ => throw Fault.out_of_fuel
  | fuel + 1, pos, parameters =>
    if pos < json.length then do
      let pos ← SkipWhitespaceChecked n json pos
      if (← PeekChecked json pos) = ']' then pure (true, pos + 1, parameters)
      else
        match ← ParseParameterInfoChecked n json pos {} with
        | (false, pos, _) => pure (false, pos, parameters)
        | (true, pos, param) =>
          let pos ← SkipWhitespaceChecked n json pos
          let pos ← SkipCommaChecked json pos
          ParseParametersArrayLoopChecked n json fuel pos (parameters ++ [param])
    else pure (true, pos, parameters)

def ParseParametersArrayChecked (n : Nat) (json : List Char) (pos : Nat)
    (parameters : List ParameterInfo) : Except Fault (Bool × Nat × List ParameterInfo) := do
  match ← ExpectChecked json pos '[' with
  | (false, pos) => pure (false, pos, parameters)
  | (true, pos) => ParseParametersArrayLoopChecked n json n pos parameters

/-! ### Methods, with the faults written out -/

/-- The key dispatch of `ParseMethodInfo`. -/
def MethodMemberChecked (n : Nat) (json : List Char) (key : List Char) (pos : Nat)
    (method : MethodInfo) : Except Fault (Nat × MethodInfo) := do
  if key = "name".toList then
    let r ← ParseStringChecked n json pos
    pure (r.2, { method with name := r.1 })
  else if key = "returnType".toList then
    let r ← ParseStringChecked n json pos
    pure (r.2, { method with returnType := r.1 })
  else if key = "isPublic".toList then
    let r ← ParseBoolChecked json pos
    pure (r.2, { method with isPublic := r.1 })
  else if key = "isStatic".toList then
    let r ← ParseBoolChecked json pos
    pure (r.2, { method with isStatic := r.1 })
  else if key = "parameters".toList then
    let r ← ParseParametersArrayChecked n json pos method.parameters
    pure (r.2.1, { method with parameters := r.2.2 })
  else
    let p ← SkipValueChecked n json pos
    pure (p, method)

/-- The loop of `ParseMethodInfo`. -/
def ParseMethodInfoLoopChecked (n : Nat) (json : List Char) :
    Nat → Nat → MethodInfo → Except Fault (Bool × Nat × MethodInfo)
  | 0, _, _ => throw Fault.out_of_fuel
  | fuel + 1, pos, method =>
    if pos < json.length then do
      let pos ← SkipWhitespaceChecked n json pos
      if (← PeekChecked json pos) = '}' then pure (true, pos + 1, method)
      else
        let k ← ParseStringChecked n json pos
        let pos ← SkipWhitespaceChecked n json k.2
        match ← ExpectChecked json pos ':' with
        | (false, pos) => pure (false, pos, method)
        | (true, pos) =>
          let pos ← SkipWhitespaceChecked n json pos
          let m ← MethodMemberChecked n json k.1 pos method
          let pos ← SkipWhitespaceChecked n json m.1
          let pos ← SkipCommaChecked json pos
          ParseMethodInfoLoopChecked n json fuel pos m.2
    else pure (true, pos, method)

def ParseMethodInfoChecked (n : Nat) (json : List Char) (pos : Nat) (method : MethodInfo) :
    Except Fault (Bool × Nat × MethodInfo) := do
  match ← ExpectChecked json pos '{' with
  | (false, pos) => pure (false, pos, method)
  | (true, pos) => ParseMethodInfoLoopChecked n json n pos method

/-- The loop of `ParseMethodsArray`. -/
def ParseMethodsArrayLoopChecked (n : Nat) (json : List Char) :
    Nat → Nat → List MethodInfo → Except Fault (Bool × Nat × List MethodInfo)
  | 0, _, _ => throw Fault.out_of_fuel
  | fuel + 1, pos, methods =>
    if pos < json.length then do
      let pos ← SkipWhitespaceChecked n json pos
      if (← PeekChecked json pos) = ']' then pure (true, pos + 1, methods)
      else
        match ← ParseMethodInfoChecked n json pos {} with
        | (false, pos, _) => pure (false, pos, methods)
        | (true, pos, method) =>
          let pos ← SkipWhitespaceChecked n json pos
          let pos ← SkipCommaChecked json pos
          ParseMethodsArrayLoopChecked n json fuel pos (methods ++ [method])
    else pure (true, pos, methods)

def ParseMethodsArrayChecked (n : Nat) (json : List Char) (pos : Nat)
    (methods : List MethodInfo) : Except Fault (Bool × Nat × List MethodInfo) := do
  match ← ExpectChecked json pos '[' with
  | (false, pos) => pure (false, pos, methods)
  | (true, pos) => ParseMethodsArrayLoopChecked n json n pos methods

/-! ### Fields, with the faults written out -/

/-- The key dispatch of `ParseFieldInfo`. -/
def FieldMemberChecked (n : Nat) (json : List Char) (key : List Char) (pos : Nat)
    (field : FieldInfo) : Except Fault (Nat × FieldInfo) := do
  if key = "name".toList then
    let r ← ParseStringChecked n json pos
    pure (r.2, { field with name := r.1 })
  else if key = "fieldType".toList then
    let r ← ParseStringChecked n json pos
    pure (r.2, { field with fieldType := r.1 })
  else if key = "isPublic".toList then
    let r ← ParseBoolChecked json pos
    pure (r.2, { field with isPublic := r.1 })
  else if key = "isStatic".toList then
    let r ← ParseBoolChecked json pos
    pure (r.2, { field with isStatic := r.1 })
  else if key = "isReadOnly".toList then
    let r ← ParseBoolChecked json pos
    pure (r.2, { field with isReadOnly := r.1 })
  else
    let p ← SkipValueChecked n json pos
    pure (p, field)

/-- The loop of `ParseFieldInfo`. -/
def ParseFieldInfoLoopChecked (n : Nat) (json : List Char) :
    Nat → Nat → FieldInfo → Except Fault (Bool × Nat × FieldInfo)
  | 0, _, _ => throw Fault.out_of_fuel
  | fuel + 1, pos, field =>
    if pos < json.length then do
      let pos ← SkipWhitespaceChecked n json pos
      if (← PeekChecked json pos) = '}' then pure (true, pos + 1, field)
      else
        let k ← ParseStringChecked n json pos
        let pos ← SkipWhitespaceChecked n json k.2
        match ← ExpectChecked json pos ':' with
        | (false, pos) => pure (false, pos, field)
        | (true, pos) =>
          let pos ← SkipWhitespaceChecked n json pos
          let m ← FieldMemberChecked n json k.1 pos field
          let pos ← SkipWhitespaceChecked n json m.1
          let pos ← SkipCommaChecked json pos
          ParseFieldInfoLoopChecked n json fuel pos m.2
    else pure (true, pos, field)

def ParseFieldInfoChecked (n : Nat) (json : List Char) (pos : Nat) (field : FieldInfo) :
    Except Fault (Bool × Nat × FieldInfo) := do
  match ← ExpectChecked json pos '{' with
  | (false, pos) => pure (false, pos, field)
  | (true, pos) => ParseFieldInfoLoopChecked n json n pos field

/-- The loop of `ParseFieldsArray`. -/
def ParseFieldsArrayLoopChecked (n : Nat) (json : List Char) :
    Nat → Nat → List FieldInfo → Except Fault (Bool × Nat × List FieldInfo)
  | 0, _, _ => throw Fault.out_of_fuel
  | fuel + 1, pos, fields =>
    if pos < json.length then do
      let pos ← SkipWhitespaceChecked n json pos
      if (← PeekChecked json pos) = ']' then pure (true, pos + 1, fields)
      else
        match ← ParseFieldInfoChecked n json pos {} with
        | (false, pos, _) => pure (false, pos, fields)
        | (true, pos, field) =>
          let pos ← SkipWhitespaceChecked n json pos
          let pos ← SkipCommaChecked json pos
          ParseFieldsArrayLoopChecked n json fuel pos (fields ++ [field])
    else pure (true, pos, fields)

def ParseFieldsArrayChecked (n : Nat) (json : List Char) (pos : Nat)
    (fields : List FieldInfo) : Except Fault (Bool × Nat × List FieldInfo) := do
  match ← ExpectChecked json pos '[' with
  | (false, pos) => pure (false, pos, fields)
  | (true, pos) => ParseFieldsArrayLoopChecked n json n pos fields

/-! ### Properties, with the faults written out -/

/-- The key dispatch of `ParsePropertyInfo`. -/
def PropertyMemberChecked (n : Nat) (json : List Char) (key : List Char) (pos : Nat)
    (prop : PropertyInfo) : Except Fault (Nat × PropertyInfo) := do
  if key = "name".toList then
    let r ← ParseStringChecked n json pos
    pure (r.2, { prop with name := r.1 })
  else if key = "propertyType".toList then
    let r ← ParseStringChecked n json pos
    pure (r.2, { prop with propertyType := r.1 })
  else if key = "canRead".toList then
    let r ← ParseBoolChecked json pos
    pure (r.2, { prop with canRead := r.1 })
  else if key = "canWrite".toList then
    let r ← ParseBoolChecked json pos
    pure (r.2, { prop with canWrite := r.1 })
  else
    let p ← SkipValueChecked n json pos
    pure (p, prop)

/-- The loop of `ParsePropertyInfo`. -/
def ParsePropertyInfoLoopChecked (n : Nat) (json : List Char) :
    Nat → Nat → PropertyInfo → Except Fault (Bool × Nat × PropertyInfo)
  | 0, _, _ => throw Fault.out_of_fuel
  | fuel + 1, pos, prop =>
    if pos < json.length then do
      let pos ← SkipWhitespaceChecked n json pos
      if (← PeekChecked json pos) = '}' then pure (true, pos + 1, prop)
      else
        let k ← ParseStringChecked n json pos
        let pos ← SkipWhitespaceChecked n json k.2
        match ← ExpectChecked json pos ':' with
        | (false, pos) => pure (false, pos, prop)
        | (true, pos) =>
          let pos ← SkipWhitespaceChecked n json pos
          let m ← PropertyMemberChecked n json k.1 pos prop
          let pos ← SkipWhitespaceChecked n json m.1
          let pos ← SkipCommaChecked json pos
          ParsePropertyInfoLoopChecked n json fuel pos m.2
    else pure (true, pos, prop)

def ParsePropertyInfoChecked (n : Nat) (json : List Char) (pos : Nat) (prop : PropertyInfo) :
    Except Fault (Bool × Nat × PropertyInfo) := do
  match ← ExpectChecked json pos '{' with
  | (false, pos) => pure (false, pos, prop)
  | (true, pos) => ParsePropertyInfoLoopChecked n json n pos prop

/-- The loop of `ParsePropertiesArray`. -/
def ParsePropertiesArrayLoopChecked (n : Nat) (json : List Char) :
    Nat → Nat → List PropertyInfo → Except Fault (Bool × Nat × List PropertyInfo)
  | 0, _, _ => throw Fault.out_of_fuel
  | fuel + 1, pos, properties =>
    if pos < json.length then do
      let pos ← SkipWhitespaceChecked n json pos
      if (← PeekChecked json pos) = ']' then pure (true, pos + 1, properties)
      else
        match ← ParsePropertyInfoChecked n json pos {} with
        | (false, pos, _) => pure (false, pos, properties)
        | (true, pos, prop) =>
          let pos ← SkipWhitespaceChecked n json pos
          let pos ← SkipCommaChecked json pos
          ParsePropertiesArrayLoopChecked n json fuel pos (properties ++ [prop])
    else pure (true, pos, properties)

def ParsePropertiesArrayChecked (n : Nat) (json : List Char) (pos : Nat)
    (properties : List PropertyInfo) : Except Fault (Bool × Nat × List PropertyInfo) := do
  match ← ExpectChecked json pos '[' with
  | (false, pos) => pure (false, pos, properties)
  | (true, pos) => ParsePropertiesArrayLoopChecked n json n pos properties

/-! ### Types, with the faults written out -/

/-- The key dispatch of `ParseTypeInfo`. -/
def TypeMemberChecked (n : Nat) (json : List Char) (key : List Char) (pos : Nat)
    (type : TypeInfo) : Except Fault (Nat × TypeInfo) := do
  if key = "name".toList then
    let r ← ParseStringChecked n json pos
    pure (r.2, { type with name := r.1 })
  else if key = "fullName".toList then
    let r ← ParseStringChecked n json pos
    pure (r.2, { type with fullName := r.1 })
  else if key = "namespace".toList then
    let r ← ParseStringChecked n json pos
    pure (r.2, { type with namespaceName := r.1 })
  else if key = "baseType".toList then
    let r ← ParseStringChecked n json pos
    pure (r.2, { type with baseType := r.1 })
  else if key = "isClass".toList then
    let r ← ParseBoolChecked json pos
    pure (r.2, { type with isClass := r.1 })
  else if key = "isStruct".toList then
    let r ← ParseBoolChecked json pos
    pure (r.2, { type with isStruct := r.1 })
  else if key = "isEnum".toList then
    let r ← ParseBoolChecked json pos
    pure (r.2, { type with isEnum := r.1 })
  else if key = "isInterface".toList then
    let r ← ParseBoolChecked json pos
    pure (r.2, { type with isInterface := r.1 })
  else if key = "fields".toList then
    let r ← ParseFieldsArrayChecked n json pos type.fields
    pure (r.2.1, { type with fields := r.2.2 })
  else if key = "methods".toList then
    let r ← ParseMethodsArrayChecked n json pos type.methods
    pure (r.2.1, { type with methods := r.2.2 })
  else if key = "properties".toList then
    let r ← ParsePropertiesArrayChecked n json pos type.properties
    pure (r.2.1, { type with properties := r.2.2 })
  else
    let p ← SkipValueChecked n json pos
    pure (p, type)

/-- The loop of `ParseTypeInfo`. -/
def ParseTypeInfoLoopChecked (n : Nat) (json : List Char) :
    Nat → Nat → TypeInfo → Except Fault (Bool × Nat × TypeInfo)
  | 0, _, _ => throw Fault.out_of_fuel
  | fuel + 1, pos, type =>
    if pos < json.length then do
      let pos ← SkipWhitespaceChecked n json pos
      if (← PeekChecked json pos) = '}' then pure (true, pos + 1, type)
      else
        let k ← ParseStringChecked n json pos
        let pos ← SkipWhitespaceChecked n json k.2
        match ← ExpectChecked json pos ':' with
        | (false, pos) => pure (false, pos, type)
        | (true, pos) =>
          let pos ← SkipWhitespaceChecked n json pos
          let m ← TypeMemberChecked n json k.1 pos type
          let pos ← SkipWhitespaceChecked n json m.1
          let pos ← SkipCommaChecked json pos
          ParseTypeInfoLoopChecked n json fuel pos m.2
    else pure (true, pos, type)

def ParseTypeInfoChecked (n : Nat) (json : List Char) (pos : Nat) (type : TypeInfo) :
    Except Fault (Bool × Nat × TypeInfo) := do
  match ← ExpectChecked json pos '{' with
  | (false, pos) => pure (false, pos, type)
  | (true, pos) => ParseTypeInfoLoopChecked n json n pos type

/-- The loop of `ParseTypesArray`. -/
def ParseTypesArrayLoopChecked (n : Nat) (json : List Char) :
    Nat → Nat → List TypeInfo → Except Fault (Bool × Nat × List TypeInfo)
  | 0, _, _ => throw Fault.out_of_fuel
  | fuel + 1, pos, types =>
    if pos < json.length then do
      let pos ← SkipWhitespaceChecked n json pos
      if (← PeekChecked json pos) = ']' then pure (true, pos + 1, types)
      else
        match ← ParseTypeInfoChecked n json pos {} with
        | (false, pos, _) => pure (false, pos, types)
        | (true, pos, type) =>
          let pos ← SkipWhitespaceChecked n json pos
          let pos ← SkipCommaChecked json pos
          ParseTypesArrayLoopChecked n json fuel pos (types ++ [type])
    else pure (true, pos, types)

def ParseTypesArrayChecked (n : Nat) (json : List Char) (pos : Nat)
    (types : List TypeInfo) : Except Fault (Bool × Nat × List TypeInfo) := do
  match ← ExpectChecked json pos '[' with
  | (false, pos) => pure (false, pos, types)
  | (true, pos) => ParseTypesArrayLoopChecked n json n pos types

/-! ### The root object, with the faults written out -/

/-- The key dispatch of `SimpleJsonParser::ParseAssemblyData`; the flag is
`false` exactly when the branch executes `return false`. -/
def AssemblyMemberChecked (n : Nat) (json : List Char) (key : List Char) (pos : Nat)
    (data : AssemblyData) : Except Fault (Bool × Nat × AssemblyData) := do
  if key = "assemblyName".toList then
    let r ← ParseStringChecked n json pos
    pure (true, r.2, { data with assemblyName := r.1 })
  else if key = "timestamp".toList then
    let r ← ParseStringChecked n json pos
    pure (true, r.2, { data with timestamp := r.1 })
  else if key = "types".toList then
    let r ← ParseTypesArrayChecked n json pos data.types
    pure (r.1, r.2.1, { data with types := r.2.2 })
  else
    let p ← SkipValueChecked n json pos
    pure (true, p, data)

/-- The loop of `SimpleJsonParser::ParseAssemblyData`. -/
def ParseAssemblyDataLoopChecked (n : Nat) (json : List Char) :
    Nat → Nat → AssemblyData → Except Fault (Bool × Nat × AssemblyData)
  | 0, _, _ => throw Fault.out_of_fuel
  | fuel + 1, pos, data =>
    if pos < json.length then do
      let pos ← SkipWhitespaceChecked n json pos
      if (← PeekChecked json pos) = '}' then pure (true, pos + 1, data)
      else
        let k ← ParseStringChecked n json pos
        let pos ← SkipWhitespaceChecked n json k.2
        match ← ExpectChecked json pos ':' with
        | (false, pos) => pure (false, pos, data)
        | (true, pos) =>
          let pos ← SkipWhitespaceChecked n json pos
          match ← AssemblyMemberChecked n json k.1 pos data with
          | (false, pos, data) => pure (false, pos, data)
          | (true, pos, data) =>
            let pos ← SkipWhitespaceChecked n json pos
            let pos ← SkipCommaChecked json pos
            ParseAssemblyDataLoopChecked n json fuel pos data
    else pure (true, pos, data)

/-- The member function `SimpleJsonParser::ParseAssemblyData`, started at the
cursor `pos`. -/
def SimpleJsonParser.ParseAssemblyDataChecked (n : Nat) (json : List Char) (pos : Nat)
    (data : AssemblyData) : Except Fault (Bool × Nat × AssemblyData) := do
  let pos ← SkipWhitespaceChecked n json pos
  match ← ExpectChecked json pos '{' with
  | (false, pos) => pure (false, pos, data)
  | (true, pos) => ParseAssemblyDataLoopChecked n json n pos data

/-- The free function `ParseAssemblyData(json, data)`, every loop of which
may run for `n` iterations. -/
def ParseAssemblyDataChecked (n : Nat) (json : List Char) (data : AssemblyData) :
    Except Fault (Bool × AssemblyData) := do
  let r ← SimpleJsonParser.ParseAssemblyDataChecked n json 0 data
  pure (r.1, r.2.2)

/-- The property `Advances len loop` of a loop with fuel, on a text of `len`
characters: started with the cursor `pos` within the text, an iteration
either returns, with a result that does not depend on the fuel left, or
hands over to the next iteration with the cursor strictly further and still
within the text. -/
def Advances {σ α : Type} (len : Nat) (loop : Nat → Nat → σ → Except Fault α) : Prop :=
  ∀ (pos : Nat) (st : σ), pos ≤ len →
    (∃ r, ∀ fuel, loop (fuel + 1) pos st = Except.ok r)
      ∨ (∃ pos2 st2, pos < pos2 ∧ pos2 ≤ len
          ∧ ∀ fuel, loop (fuel + 1) pos st = loop fuel pos2 st2)


/-! ## Reading the text through its suffix at the cursor -/

theorem lt_length_of_drop {json : List Char} {pos : Nat} {c : Char} {rest : List Char}
    (h : json.drop pos = c :: rest) : pos < json.length := by
  by_contra hlt
  rw [List.drop_of_length_le (by omega)] at h
  cases h

theorem getElem_of_drop {json : List Char} {pos : Nat} {c : Char} {rest : List Char}
    (h : json.drop pos = c :: rest) (hlt : pos < json.length) : json[pos] = c := by
  have h2 := List.drop_eq_getElem_cons hlt
  rw [h] at h2
  exact (List.cons.inj h2).1.symm

theorem drop_succ_of_drop {json : List Char} {pos : Nat} {c : Char} {rest : List Char}
    (h : json.drop pos = c :: rest) : json.drop (pos + 1) = rest := by
  have h2 := List.drop_eq_getElem_cons (lt_length_of_drop h)
  rw [h] at h2
  exact (List.cons.inj h2).2.symm

theorem drop_add_of_drop {json : List Char} {pos : Nat} (a : List Char) {r : List Char}
    (h : json.drop pos = a ++ r) : json.drop (pos + a.length) = r := by
  rw [← List.drop_drop, h, List.drop_left]

theorem length_sub_of_drop {json : List Char} {pos : Nat} {l : List Char}
    (h : json.drop pos = l) : json.length - pos = l.length := by
  rw [← h, List.length_drop]

theorem Peek_of_drop {json : List Char} {pos : Nat} {c : Char} {rest : List Char}
    (h : json.drop pos = c :: rest) : Peek json pos = c := by
  have hlt := lt_length_of_drop h
  simp [Peek, hlt, getElem_of_drop h hlt]

theorem Peek_of_drop_nil {json : List Char} {pos : Nat}
    (h : json.drop pos = []) : Peek json pos = '\x00' := by
  have : json.length ≤ pos := List.drop_eq_nil_iff.mp h
  simp [Peek, Nat.not_lt.mpr this]

/-! ## Whitespace, `Expect`, strings -/

theorem SkipWhitespaceLoop_of_drop {json : List Char} {pos : Nat} {c : Char} {rest : List Char}
    (h : json.drop pos = c :: rest) (hc : isWhitespace c = false) (fuel : Nat) :
    SkipWhitespaceLoop json fuel pos = pos := by
  cases fuel with
  | zero => rfl
  | succ n =>
    have hlt := lt_length_of_drop h
    simp [SkipWhitespaceLoop, hlt, getElem_of_drop h hlt, hc]

theorem SkipWhitespace_of_drop {json : List Char} {pos : Nat} {c : Char} {rest : List Char}
    (h : json.drop pos = c :: rest) (hc : isWhitespace c = false) :
    SkipWhitespace json pos = pos :=
  SkipWhitespaceLoop_of_drop h hc _

theorem SkipWhitespace_of_drop_nil {json : List Char} {pos : Nat}
    (h : json.drop pos = []) : SkipWhitespace json pos = pos := by
  have : json.length - pos = 0 := by rw [length_sub_of_drop h]; rfl
  simp [SkipWhitespace, this, SkipWhitespaceLoop]

theorem Expect_of_drop {json : List Char} {pos : Nat} {c : Char} {rest : List Char}
    (h : json.drop pos = c :: rest) : Expect json pos c = (true, pos + 1) := by
  simp [Expect, Peek_of_drop h]

theorem Expect_of_drop_ne {json : List Char} {pos : Nat} {c d : Char} {rest : List Char}
    (h : json.drop pos = c :: rest) (hne : c ≠ d) : Expect json pos d = (false, pos) := by
  simp [Expect, Peek_of_drop h, hne]

theorem Expect_of_drop_nil {json : List Char} {pos : Nat} {d : Char}
    (h : json.drop pos = []) (hd : d ≠ '\x00') : Expect json pos d = (false, pos) := by
  simp [Expect, Peek_of_drop_nil h, Ne.symm hd]

theorem SkipComma_of_drop {json : List Char} {pos : Nat} {rest : List Char}
    (h : json.drop pos = ',' :: rest) : SkipComma json pos = pos + 1 := by
  simp [SkipComma, Peek_of_drop h]

theorem SkipComma_of_drop_ne {json : List Char} {pos : Nat} {c : Char} {rest : List Char}
    (h : json.drop pos = c :: rest) (hne : c ≠ ',') : SkipComma json pos = pos := by
  simp [SkipComma, Peek_of_drop h, hne]

theorem SkipComma_of_drop_nil {json : List Char} {pos : Nat}
    (h : json.drop pos = []) : SkipComma json pos = pos := by
  simp [SkipComma, Peek_of_drop_nil h]

/-- The loop of `ParseString` over the inside of a well-formed literal: it
stops on the closing quote with the decoded text appended. -/
theorem ParseStringLoop_body (json : List Char) (rest : List Char) :
    ∀ (body : List Char) (pos fuel : Nat) (acc : List Char),
      json.drop pos = body ++ '"' :: rest → wellFormedBody body = true → body.length ≤ fuel →
      ParseStringLoop json fuel pos acc = (acc ++ decodeBody body, pos + body.length) := by
  intro body
  induction body using wellFormedBody.induct with
  | case1 =>
    intro pos fuel acc h _ _
    have hlt := lt_length_of_drop h
    cases fuel with
    | zero => simp [ParseStringLoop, decodeBody]
    | succ n => simp [ParseStringLoop, decodeBody, hlt, getElem_of_drop h hlt]
  | case2 c =>
    intro pos fuel acc h hw hf
    have hlt := lt_length_of_drop h
    have hc := getElem_of_drop h hlt
    simp [wellFormedBody] at hw
    obtain ⟨n, rfl⟩ : ∃ n, fuel = n + 1 := ⟨fuel - 1, by simp at hf; omega⟩
    have h1 : json.drop (pos + 1) = '"' :: rest := drop_succ_of_drop h
    have hlt1 := lt_length_of_drop h1
    have hc1 := getElem_of_drop h1 hlt1
    cases n with
    | zero => simp [ParseStringLoop, decodeBody, hlt, hc, hw.1, hw.2]
    | succ m => simp [ParseStringLoop, decodeBody, hlt, hc, hw.1, hw.2, hlt1, hc1]
  | case3 d body ih =>
    intro pos fuel acc h hw hf
    have hlt := lt_length_of_drop h
    have hc := getElem_of_drop h hlt
    have h1 : json.drop (pos + 1) = d :: (body ++ '"' :: rest) := drop_succ_of_drop h
    have hlt1 := lt_length_of_drop h1
    have h2 : json.drop (pos + 1 + 1) = body ++ '"' :: rest := drop_succ_of_drop h1
    obtain ⟨n, rfl⟩ : ∃ n, fuel = n + 1 := ⟨fuel - 1, by simp at hf; omega⟩
    simp [wellFormedBody] at hw
    have := ih (pos + 1 + 1) n (acc ++ [unescape d]) h2 hw (by simp at hf; omega)
    simp [ParseStringLoop, decodeBody, hlt, hc, hlt1, Peek_of_drop h1, this]
    omega
  | case4 c d body hcb ih =>
    intro pos fuel acc h hw hf
    have hlt := lt_length_of_drop h
    have hc := getElem_of_drop h hlt
    have h1 : json.drop (pos + 1) = (d :: body) ++ '"' :: rest := drop_succ_of_drop h
    obtain ⟨n, rfl⟩ : ∃ n, fuel = n + 1 := ⟨fuel - 1, by simp at hf; omega⟩
    simp [wellFormedBody, hcb] at hw
    have := ih (pos + 1) n (acc ++ [c]) h1 hw.2 (by simp at hf ⊢; omega)
    simp [ParseStringLoop, decodeBody, hlt, hc, hcb, hw.1, this]
    omega

/-- `ParseString` on a well-formed literal returns the decoded text and
leaves the cursor after the closing quote. -/
theorem ParseString_body {json : List Char} {pos : Nat} {body rest : List Char}
    (h : json.drop pos = '"' :: (body ++ '"' :: rest)) (hw : wellFormedBody body = true) :
    ParseString json pos = (decodeBody body, pos + (body.length + 2)) := by
  have h1 : json.drop (pos + 1) = body ++ '"' :: rest := drop_succ_of_drop h
  have hf : body.length ≤ json.length - (pos + 1) := by
    rw [length_sub_of_drop h1]; simp
  have h2 : json.drop (pos + 1 + body.length) = '"' :: rest := drop_add_of_drop body h1
  simp [ParseString, Expect_of_drop h, ParseStringLoop_body json rest body (pos + 1) _ [] h1 hw hf,
    Expect_of_drop h2]
  omega

theorem wellFormedBody_of_plain : ∀ (s : List Char), plain s → wellFormedBody s = true
  | [], _ => rfl
  | [c], h => by
    have := h c (by simp)
    simp [wellFormedBody, this.1, this.2]
  | c :: d :: rest, h => by
    have hc := h c (by simp)
    have ih := wellFormedBody_of_plain (d :: rest) (fun x hx => h x (List.mem_cons_of_mem _ hx))
    simp [wellFormedBody, hc.1, hc.2, ih]

theorem decodeBody_of_plain : ∀ (s : List Char), plain s → decodeBody s = s
  | [], _ => rfl
  | [c], _ => rfl
  | c :: d :: rest, h => by
    have hc := h c (by simp)
    have ih := decodeBody_of_plain (d :: rest) (fun x hx => h x (List.mem_cons_of_mem _ hx))
    simp [decodeBody, hc.2, ih]

theorem ParseString_plain {json : List Char} {pos : Nat} {s rest : List Char}
    (h : json.drop pos = '"' :: (s ++ '"' :: rest)) (hs : plain s) :
    ParseString json pos = (s, pos + (s.length + 2)) := by
  rw [ParseString_body h (wellFormedBody_of_plain s hs), decodeBody_of_plain s hs]

/-- `ParseString` does nothing when the cursor is not on a quote. -/
theorem ParseString_of_drop_ne {json : List Char} {pos : Nat} {c : Char} {rest : List Char}
    (h : json.drop pos = c :: rest) (hne : c ≠ '"') : ParseString json pos = ([], pos) := by
  simp [ParseString, Expect_of_drop_ne h hne]


/-! ## The frame reader -/

theorem int32OfBytes_encodeLength (n : Nat) (h : n < 2147483648) :
    int32OfBytes (encodeLength n) = (n : Int) := by
  simp only [int32OfBytes, encodeLength, List.getD_cons_zero, List.getD_cons_succ]
  have e : n % 256 % 256 + 256 * (n / 256 % 256 % 256) + 65536 * (n / 65536 % 256 % 256)
      + 16777216 * (n / 16777216 % 256 % 256) = n := by omega
  rw [e, if_pos h]

theorem read_bytes_le (bs : List Nat) (rest : List ReadEvent) (count : Nat)
    (h : bs.length ≤ count) :
    read (ReadEvent.bytes bs :: rest) count = ((bs.length : Int), bs, rest) := by
  simp [read, h]

theorem read_bytes_gt (bs : List Nat) (rest : List ReadEvent) (count : Nat)
    (h : count < bs.length) :
    read (ReadEvent.bytes bs :: rest) count
      = ((count : Int), bs.take count, ReadEvent.bytes (bs.drop count) :: rest) := by
  simp [read, Nat.not_le.mpr h]

/-- The body loop over chunks that hold exactly the missing bytes: every
chunk is taken whole and the loop ends with all of them stored. -/
theorem ReadDataLoop_chunks (cb : Bool) (dataLength : Nat) (tail : List ReadEvent) :
    ∀ (chunks : List (List Nat)) (fuel : Nat) (data : List Nat),
      (∀ c ∈ chunks, c ≠ []) → data.length + chunks.flatten.length = dataLength →
      dataLength - data.length ≤ fuel →
      ReadDataLoop cb dataLength fuel (chunks.map ReadEvent.bytes ++ tail) data
        = { data := data ++ chunks.flatten, errors := [], stream := tail } := by
  intro chunks
  induction chunks with
  | nil =>
    intro fuel data _ hlen _
    have : ¬ data.length < dataLength := by simp at hlen; omega
    cases fuel <;> simp [ReadDataLoop, this]
  | cons c cs ih =>
    intro fuel data hne hlen hf
    have hc : c ≠ [] := hne c (by simp)
    have hcl : 0 < c.length := List.length_pos.mpr hc
    rw [List.flatten_cons, List.length_append] at hlen
    obtain ⟨n, rfl⟩ : ∃ n, fuel = n + 1 := ⟨fuel - 1, by omega⟩
    have hlt : data.length < dataLength := by omega
    have hr := read_bytes_le c (cs.map ReadEvent.bytes ++ tail) (dataLength - data.length)
      (by omega)
    have hrec := ih n (data ++ c) (fun x hx => hne x (List.mem_cons_of_mem _ hx))
      (by rw [List.length_append]; omega) (by rw [List.length_append]; omega)
    simp only [List.map_cons, List.cons_append, ReadDataLoop, hlt, if_true, hr]
    rw [if_neg (by omega), hrec]
    simp

/-- The body loop over chunks that hold fewer bytes than are missing,
followed by the end of the stream or a read error: the loop fails. -/
theorem ReadDataLoop_short (cb : Bool) (dataLength : Nat) (term : List ReadEvent)
    (hterm : term = [] ∨ ∃ t, term = ReadEvent.error :: t) :
    ∀ (chunks : List (List Nat)) (fuel : Nat) (data : List Nat),
      (∀ c ∈ chunks, c ≠ []) → data.length + chunks.flatten.length < dataLength →
      dataLength - data.length ≤ fuel →
      ReadDataLoop cb dataLength fuel (chunks.map ReadEvent.bytes ++ term) data
        = { data := [], errors := reportError cb "Failed to read data".toList,
            stream := term.tail } := by
  intro chunks
  induction chunks with
  | nil =>
    intro fuel data _ hlen hf
    obtain ⟨n, rfl⟩ : ∃ n, fuel = n + 1 := ⟨fuel - 1, by simp at hlen; omega⟩
    have hlt : data.length < dataLength := by simp at hlen; omega
    rcases hterm with rfl | ⟨t, rfl⟩ <;> simp [ReadDataLoop, hlt, read]
  | cons c cs ih =>
    intro fuel data hne hlen hf
    have hc : c ≠ [] := hne c (by simp)
    have hcl : 0 < c.length := List.length_pos.mpr hc
    rw [List.flatten_cons, List.length_append] at hlen
    obtain ⟨n, rfl⟩ : ∃ n, fuel = n + 1 := ⟨fuel - 1, by omega⟩
    have hlt : data.length < dataLength := by omega
    have hr := read_bytes_le c (cs.map ReadEvent.bytes ++ term) (dataLength - data.length)
      (by omega)
    have hrec := ih n (data ++ c) (fun x hx => hne x (List.mem_cons_of_mem _ hx))
      (by rw [List.length_append]; omega) (by rw [List.length_append]; omega)
    simp only [List.map_cons, List.cons_append, ReadDataLoop, hlt, if_true, hr]
    rw [if_neg (by omega), hrec]

/-- A read that returns a positive count stores that many bytes. -/
theorem read_stored (stream : List ReadEvent) (count : Nat) (h : 0 < (read stream count).1) :
    ((read stream count).2.1.length : Int) = (read stream count).1 := by
  unfold read at h ⊢
  split
  · simp at h
  · simp at h
  · split
    · rfl
    · rename_i bs rest hlt
      simp only [List.length_take]
      omega

/-- The fuel of the body loop does not matter once it covers the bytes that
are missing: the loop never stops for lack of fuel. -/
theorem ReadDataLoop_fuel (cb : Bool) (dataLength : Nat) :
    ∀ (f1 f2 : Nat) (stream : List ReadEvent) (data : List Nat),
      dataLength - data.length ≤ f1 → dataLength - data.length ≤ f2 →
      ReadDataLoop cb dataLength f1 stream data = ReadDataLoop cb dataLength f2 stream data
  | 0, 0, _, _, _, _ => rfl
  | 0, f2 + 1, stream, data, h1, _ => by
    have : ¬ data.length < dataLength := by omega
    simp [ReadDataLoop, this]
  | f1 + 1, 0, stream, data, _, h2 => by
    have : ¬ data.length < dataLength := by omega
    simp [ReadDataLoop, this]
  | f1 + 1, f2 + 1, stream, data, h1, h2 => by
    unfold ReadDataLoop
    by_cases hlt : data.length < dataLength
    · rw [if_pos hlt, if_pos hlt]
      dsimp only
      by_cases hpos : (read stream (dataLength - data.length)).1 ≤ 0
      · rw [if_pos hpos, if_pos hpos]
      · rw [if_neg hpos, if_neg hpos]
        have hs := read_stored stream (dataLength - data.length) (by omega)
        have hl : 0 < (read stream (dataLength - data.length)).2.1.length := by omega
        exact ReadDataLoop_fuel cb dataLength f1 f2 _ _
          (by rw [List.length_append]; omega) (by rw [List.length_append]; omega)
    · rw [if_neg hlt, if_neg hlt]

/-- After a first read that returned four bytes with a valid length,
`ReadData` is its body loop. -/
theorem ReadData_after_length (cb : Bool) (n : Nat) (hn : 0 < n) (hmax : n ≤ 104857600)
    (more : List Nat) (rest : List ReadEvent) :
    ReadData cb (ReadEvent.bytes (encodeLength n ++ more) :: rest)
      = ReadDataLoop cb n n (if more = [] then rest else ReadEvent.bytes more :: rest) [] := by
  have hv : int32OfBytes (encodeLength n) = (n : Int) := int32OfBytes_encodeLength n (by omega)
  have hl : (encodeLength n).length = 4 := rfl
  by_cases hm : more = []
  · subst hm
    have hr := read_bytes_le (encodeLength n) rest 4 (by rw [hl])
    rw [List.append_nil]
    simp only [ReadData, hr, hl, hv]
    rw [if_neg (by simp), if_neg (by omega)]
    simp
  · have hml : 0 < more.length := List.length_pos.mpr hm
    have hr := read_bytes_gt (encodeLength n ++ more) rest 4 (by rw [List.length_append, hl]; omega)
    have ht : (encodeLength n ++ more).take 4 = encodeLength n := by
      rw [← hl]; exact List.take_left _ _
    have hd : (encodeLength n ++ more).drop 4 = more := by
      rw [← hl]; exact List.drop_left _ _
    simp only [ReadData, hr, ht, hd, hv]
    rw [if_neg (by simp), if_neg (by omega)]
    simp [hm]


/-- A first read of four bytes whose value is not a valid length: `ReadData`
reports the value and leaves the rest of the stream unread. -/
theorem ReadData_invalid_length (cb : Bool) (b0 b1 b2 b3 : Nat) (more : List Nat)
    (rest : List ReadEvent)
    (h : int32OfBytes [b0, b1, b2, b3] ≤ 0 ∨ int32OfBytes [b0, b1, b2, b3] > 104857600) :
    ReadData cb (ReadEvent.bytes ([b0, b1, b2, b3] ++ more) :: rest)
      = { data := [],
          errors := reportError cb
            ("Invalid data length: ".toList ++ to_string (int32OfBytes [b0, b1, b2, b3])),
          stream := if more = [] then rest else ReadEvent.bytes more :: rest } := by
  by_cases hm : more = []
  · subst hm
    have hr := read_bytes_le [b0, b1, b2, b3] rest 4 (by simp)
    simp only [List.append_nil, ReadData, hr]
    rw [if_neg (by simp), if_pos (by simpa using h)]
    simp
  · have hml : 0 < more.length := List.length_pos.mpr hm
    have hr := read_bytes_gt ([b0, b1, b2, b3] ++ more) rest 4 (by simp; omega)
    have ht : ([b0, b1, b2, b3] ++ more).take 4 = [b0, b1, b2, b3] := by simp
    have hd : ([b0, b1, b2, b3] ++ more).drop 4 = more := by simp
    simp only [ReadData, hr, ht, hd]
    rw [if_neg (by simp), if_pos (by simpa using h)]
    simp [hm]

/-- A stream that ends, or fails, before it has given four bytes: the first
read does not return 4 and `ReadData` reports that the length was not
read. -/
theorem ReadData_short_length (cb : Bool) (chunks : List (List Nat)) (term : List ReadEvent)
    (hterm : term = [] ∨ ∃ t, term = ReadEvent.error :: t)
    (hshort : chunks.flatten.length < 4) :
    ReadData cb (chunks.map ReadEvent.bytes ++ term)
      = { data := [], errors := reportError cb "Failed to read data length".toList,
          stream := (chunks.map ReadEvent.bytes ++ term).tail } := by
  cases chunks with
  | nil =>
    rcases hterm with rfl | ⟨t, rfl⟩ <;> simp [ReadData, read]
  | cons x xs =>
    rw [List.flatten_cons, List.length_append] at hshort
    have hr := read_bytes_le x (xs.map ReadEvent.bytes ++ term) 4 (by omega)
    simp only [List.map_cons, List.cons_append, ReadData, hr, List.tail_cons]
    rw [if_pos (by omega)]

/-- A connected listener whose `ReadData` returns the empty string: the pass
through the loop body reports the errors of the read and calls no data
callback. -/
theorem ListenThreadBody_of_failed_read (c : IPCClient) (errs : List (List Char))
    (rest : List ReadEvent) (hconn : c.isConnected_ = true)
    (hr : ReadData c.errorCallback_ c.stream = { data := [], errors := errs, stream := rest }) :
    (ListenThreadBody c).delivered = c.delivered
      ∧ (ListenThreadBody c).reported = c.reported ++ errs := by
  simp [ListenThreadBody, hconn, hr, Disconnect]


/-! ## The object and array loops on texts without whitespace

Every lemma below reads: when the text at the cursor is `t ++ rest`, the
function consumes exactly `t`, that is, it returns a cursor `p` with `rest` as
the text at `p`. -/

theorem isWhitespace_quote : isWhitespace '"' = false := by decide
theorem isWhitespace_colon : isWhitespace ':' = false := by decide
theorem isWhitespace_comma : isWhitespace ',' = false := by decide
theorem isWhitespace_lbrace : isWhitespace '{' = false := by decide
theorem isWhitespace_rbrace : isWhitespace '}' = false := by decide
theorem isWhitespace_lbracket : isWhitespace '[' = false := by decide
theorem isWhitespace_rbracket : isWhitespace ']' = false := by decide

theorem ParseString_consumes {json : List Char} {pos : Nat} {s rest : List Char}
    (h : json.drop pos = '"' :: (s ++ '"' :: rest)) (hs : plain s) :
    ∃ p, ParseString json pos = (s, p) ∧ json.drop p = rest := by
  refine ⟨pos + (s.length + 2), ParseString_plain h hs, ?_⟩
  have := drop_add_of_drop ('"' :: (s ++ ['"'])) (r := rest) (by simpa using h)
  simpa using this

/-- The head of every object-loop iteration on a member `"k":...`: the key
is read and the colon consumed. -/
theorem key_colon {json : List Char} {pos : Nat} {k rest : List Char}
    (h : json.drop pos = '"' :: (k ++ '"' :: ':' :: rest)) (hk : plain k) :
    ∃ p1 p2, pos < json.length ∧ SkipWhitespace json pos = pos ∧ Peek json pos ≠ '}'
      ∧ ParseString json pos = (k, p1) ∧ SkipWhitespace json p1 = p1
      ∧ Expect json p1 ':' = (true, p2) ∧ json.drop p2 = rest := by
  obtain ⟨p1, e1, d1⟩ := ParseString_consumes h hk
  refine ⟨p1, p1 + 1, lt_length_of_drop h, SkipWhitespace_of_drop h isWhitespace_quote, ?_,
    e1, SkipWhitespace_of_drop d1 isWhitespace_colon, Expect_of_drop d1, drop_succ_of_drop d1⟩
  rw [Peek_of_drop h]; decide

/-- After a member, before a comma: the comma is consumed. -/
theorem separator_comma {json : List Char} {p : Nat} {rest : List Char}
    (h : json.drop p = ',' :: rest) :
    SkipComma json (SkipWhitespace json p) = p + 1 ∧ json.drop (p + 1) = rest := by
  rw [SkipWhitespace_of_drop h isWhitespace_comma, SkipComma_of_drop h]
  exact ⟨rfl, drop_succ_of_drop h⟩

/-- After a member, before a character that is neither whitespace nor a
comma: the cursor stays. -/
theorem separator_none {json : List Char} {p : Nat} {c : Char} {rest : List Char}
    (h : json.drop p = c :: rest) (hws : isWhitespace c = false) (hc : c ≠ ',') :
    SkipComma json (SkipWhitespace json p) = p := by
  rw [SkipWhitespace_of_drop h hws, SkipComma_of_drop_ne h hc]

/-- After a member, at the end of the text: the cursor stays. -/
theorem separator_end {json : List Char} {p : Nat} (h : json.drop p = []) :
    SkipComma json (SkipWhitespace json p) = p := by
  rw [SkipWhitespace_of_drop_nil h, SkipComma_of_drop_nil h]

theorem fuel_succ {json : List Char} {pos fuel : Nat} {c : Char} {rest : List Char}
    (h : json.drop pos = c :: rest) (hf : json.length - pos ≤ fuel) :
    ∃ n, fuel = n + 1 := by
  have := length_sub_of_drop h
  exact ⟨fuel - 1, by simp at this; omega⟩

theorem fuel_two {json : List Char} {pos : Nat} {a b : Char} {rest : List Char}
    (h : json.drop pos = a :: b :: rest) : ∃ n, json.length - pos = n + 1 + 1 := by
  rw [length_sub_of_drop h]
  exact ⟨rest.length, rfl⟩

/-- Fuel that covers the text at `pos` covers, after one iteration, the text
at any later cursor. -/
theorem fuel_step {json : List Char} {pos p n : Nat} (hlt : pos < p)
    (hf : json.length - pos ≤ n + 1) : json.length - p ≤ n := by
  omega

theorem lt_of_drop_append {json : List Char} {pos p : Nat} {t rest : List Char}
    (h : json.drop pos = t ++ rest) (hp : json.drop p = rest) (ht : t ≠ []) : pos < p := by
  have h1 := length_sub_of_drop h
  have h2 := length_sub_of_drop hp
  have h3 : 0 < t.length := List.length_pos.mpr ht
  rw [List.length_append] at h1
  omega

theorem fuel_ge_two {json : List Char} {pos : Nat} {l : List Char}
    (h : json.drop pos = l) (hl : 2 ≤ l.length) : ∃ n, json.length - pos = n + 1 + 1 := by
  rw [length_sub_of_drop h]
  exact ⟨l.length - 2, by omega⟩

theorem fuel_ge_three {json : List Char} {pos : Nat} {l : List Char}
    (h : json.drop pos = l) (hl : 3 ≤ l.length) : ∃ n, json.length - pos = n + 1 + 1 + 1 := by
  rw [length_sub_of_drop h]
  exact ⟨l.length - 3, by omega⟩


theorem ParseParameterInfoLoop_key {json : List Char} {pos : Nat} {k rest : List Char}
    (h : json.drop pos = '"' :: (k ++ '"' :: ':' :: rest)) (hk : plain k) :
    ∃ p, json.drop p = rest ∧ ∀ (fuel : Nat) (param : ParameterInfo),
      ParseParameterInfoLoop json (fuel + 1) pos param
        = ParseParameterInfoLoop json fuel
            (SkipComma json (SkipWhitespace json
              (ParameterMember json k (SkipWhitespace json p) param).1))
            (ParameterMember json k (SkipWhitespace json p) param).2 := by
  obtain ⟨p1, p2, h1, h2, h3, h4, h5, h6, h7⟩ := key_colon h hk
  refine ⟨p2, h7, fun fuel param => ?_⟩
  simp [ParseParameterInfoLoop, h1, h2, h3, h4, h5, h6]

theorem ParseParameterInfoLoop_close {json : List Char} {pos : Nat} {rest : List Char}
    (fuel : Nat) (param : ParameterInfo) (h : json.drop pos = '}' :: rest) :
    ParseParameterInfoLoop json (fuel + 1) pos param = (true, pos + 1, param) := by
  simp [ParseParameterInfoLoop, lt_length_of_drop h, SkipWhitespace_of_drop h isWhitespace_rbrace,
    Peek_of_drop h]

theorem ParseParameterInfoLoop_end {json : List Char} {pos : Nat} (fuel : Nat) (param : ParameterInfo)
    (h : json.drop pos = []) : ParseParameterInfoLoop json fuel pos param = (true, pos, param) := by
  have : ¬ pos < json.length := Nat.not_lt.mpr (List.drop_eq_nil_iff.mp h)
  cases fuel <;> simp [ParseParameterInfoLoop, this]

theorem ParseParameterInfo_nameObject {json : List Char} {pos : Nat} {n rest : List Char}
    (param : ParameterInfo) (h : json.drop pos = nameObject n ++ rest) (hn : plain n) :
    ∃ p, ParseParameterInfo json pos param = (true, p, { param with name := n })
      ∧ json.drop p = rest := by
  have h0 : json.drop pos
      = '{' :: ('"' :: ("name".toList ++ '"' :: ':' :: '"' :: (n ++ '"' :: '}' :: rest))) := by
    simpa [nameObject, quote] using h
  have h1 := drop_succ_of_drop h0
  obtain ⟨p2, d2, step⟩ := ParseParameterInfoLoop_key h1 (by decide)
  obtain ⟨p3, e3, d3⟩ := ParseString_consumes d2 hn
  obtain ⟨f, hf⟩ := fuel_two h1
  refine ⟨p3 + 1, ?_, drop_succ_of_drop d3⟩
  rw [ParseParameterInfo, Expect_of_drop h0]
  simp only [hf]
  rw [step, SkipWhitespace_of_drop d2 isWhitespace_quote]
  have hm : ParameterMember json "name".toList p2 param = (p3, { param with name := n }) := by
    simp [ParameterMember, e3]
  rw [hm, separator_none d3 isWhitespace_rbrace (by decide), ParseParameterInfoLoop_close _ _ d3]

theorem ParseMethodInfoLoop_key {json : List Char} {pos : Nat} {k rest : List Char}
    (h : json.drop pos = '"' :: (k ++ '"' :: ':' :: rest)) (hk : plain k) :
    ∃ p, json.drop p = rest ∧ ∀ (fuel : Nat) (method : MethodInfo),
      ParseMethodInfoLoop json (fuel + 1) pos method
        = ParseMethodInfoLoop json fuel
            (SkipComma json (SkipWhitespace json
              (MethodMember json k (SkipWhitespace json p) method).1))
            (MethodMember json k (SkipWhitespace json p) method).2 := by
  obtain ⟨p1, p2, h1, h2, h3, h4, h5, h6, h7⟩ := key_colon h hk
  refine ⟨p2, h7, fun fuel method => ?_⟩
  simp [ParseMethodInfoLoop, h1, h2, h3, h4, h5, h6]

theorem ParseMethodInfoLoop_close {json : List Char} {pos : Nat} {rest : List Char}
    (fuel : Nat) (method : MethodInfo) (h : json.drop pos = '}' :: rest) :
    ParseMethodInfoLoop json (fuel + 1) pos method = (true, pos + 1, method) := by
  simp [ParseMethodInfoLoop, lt_length_of_drop h, SkipWhitespace_of_drop h isWhitespace_rbrace,
    Peek_of_drop h]

theorem ParseMethodInfoLoop_end {json : List Char} {pos : Nat} (fuel : Nat) (method : MethodInfo)
    (h : json.drop pos = []) : ParseMethodInfoLoop json fuel pos method = (true, pos, method) := by
  have : ¬ pos < json.length := Nat.not_lt.mpr (List.drop_eq_nil_iff.mp h)
  cases fuel <;> simp [ParseMethodInfoLoop, this]

theorem ParseMethodInfo_nameObject {json : List Char} {pos : Nat} {n rest : List Char}
    (method : MethodInfo) (h : json.drop pos = nameObject n ++ rest) (hn : plain n) :
    ∃ p, ParseMethodInfo json pos method = (true, p, { method with name := n })
      ∧ json.drop p = rest := by
  have h0 : json.drop pos
      = '{' :: ('"' :: ("name".toList ++ '"' :: ':' :: '"' :: (n ++ '"' :: '}' :: rest))) := by
    simpa [nameObject, quote] using h
  have h1 := drop_succ_of_drop h0
  obtain ⟨p2, d2, step⟩ := ParseMethodInfoLoop_key h1 (by decide)
  obtain ⟨p3, e3, d3⟩ := ParseString_consumes d2 hn
  obtain ⟨f, hf⟩ := fuel_two h1
  refine ⟨p3 + 1, ?_, drop_succ_of_drop d3⟩
  rw [ParseMethodInfo, Expect_of_drop h0]
  simp only [hf]
  rw [step, SkipWhitespace_of_drop d2 isWhitespace_quote]
  have hm : MethodMember json "name".toList p2 method = (p3, { method with name := n }) := by
    simp [MethodMember, e3]
  rw [hm, separator_none d3 isWhitespace_rbrace (by decide), ParseMethodInfoLoop_close _ _ d3]

theorem ParseFieldInfoLoop_key {json : List Char} {pos : Nat} {k rest : List Char}
    (h : json.drop pos = '"' :: (k ++ '"' :: ':' :: rest)) (hk : plain k) :
    ∃ p, json.drop p = rest ∧ ∀ (fuel : Nat) (field : FieldInfo),
      ParseFieldInfoLoop json (fuel + 1) pos field
        = ParseFieldInfoLoop json fuel
            (SkipComma json (SkipWhitespace json
              (FieldMember json k (SkipWhitespace json p) field).1))
            (FieldMember json k (SkipWhitespace json p) field).2 := by
  obtain ⟨p1, p2, h1, h2, h3, h4, h5, h6, h7⟩ := key_colon h hk
  refine ⟨p2, h7, fun fuel field => ?_⟩
  simp [ParseFieldInfoLoop, h1, h2, h3, h4, h5, h6]

theorem ParseFieldInfoLoop_close {json : List Char} {pos : Nat} {rest : List Char}
    (fuel : Nat) (field : FieldInfo) (h : json.drop pos = '}' :: rest) :
    ParseFieldInfoLoop json (fuel + 1) pos field = (true, pos + 1, field) := by
  simp [ParseFieldInfoLoop, lt_length_of_drop h, SkipWhitespace_of_drop h isWhitespace_rbrace,
    Peek_of_drop h]

theorem ParseFieldInfoLoop_end {json : List Char} {pos : Nat} (fuel : Nat) (field : FieldInfo)
    (h : json.drop pos = []) : ParseFieldInfoLoop json fuel pos field = (true, pos, field) := by
  have : ¬ pos < json.length := Nat.not_lt.mpr (List.drop_eq_nil_iff.mp h)
  cases fuel <;> simp [ParseFieldInfoLoop, this]

theorem ParseFieldInfo_nameObject {json : List Char} {pos : Nat} {n rest : List Char}
    (field : FieldInfo) (h : json.drop pos = nameObject n ++ rest) (hn : plain n) :
    ∃ p, ParseFieldInfo json pos field = (true, p, { field with name := n })
      ∧ json.drop p = rest := by
  have h0 : json.drop pos
      = '{' :: ('"' :: ("name".toList ++ '"' :: ':' :: '"' :: (n ++ '"' :: '}' :: rest))) := by
    simpa [nameObject, quote] using h
  have h1 := drop_succ_of_drop h0
  obtain ⟨p2, d2, step⟩ := ParseFieldInfoLoop_key h1 (by decide)
  obtain ⟨p3, e3, d3⟩ := ParseString_consumes d2 hn
  obtain ⟨f, hf⟩ := fuel_two h1
  refine ⟨p3 + 1, ?_, drop_succ_of_drop d3⟩
  rw [ParseFieldInfo, Expect_of_drop h0]
  simp only [hf]
  rw [step, SkipWhitespace_of_drop d2 isWhitespace_quote]
  have hm : FieldMember json "name".toList p2 field = (p3, { field with name := n }) := by
    simp [FieldMember, e3]
  rw [hm, separator_none d3 isWhitespace_rbrace (by decide), ParseFieldInfoLoop_close _ _ d3]

theorem ParsePropertyInfoLoop_key {json : List Char} {pos : Nat} {k rest : List Char}
    (h : json.drop pos = '"' :: (k ++ '"' :: ':' :: rest)) (hk : plain k) :
    ∃ p, json.drop p = rest ∧ ∀ (fuel : Nat) (prop : PropertyInfo),
      ParsePropertyInfoLoop json (fuel + 1) pos prop
        = ParsePropertyInfoLoop json fuel
            (SkipComma json (SkipWhitespace json
              (PropertyMember json k (SkipWhitespace json p) prop).1))
            (PropertyMember json k (SkipWhitespace json p) prop).2 := by
  obtain ⟨p1, p2, h1, h2, h3, h4, h5, h6, h7⟩ := key_colon h hk
  refine ⟨p2, h7, fun fuel prop => ?_⟩
  simp [ParsePropertyInfoLoop, h1, h2, h3, h4, h5, h6]

theorem ParsePropertyInfoLoop_close {json : List Char} {pos : Nat} {rest : List Char}
    (fuel : Nat) (prop : PropertyInfo) (h : json.drop pos = '}' :: rest) :
    ParsePropertyInfoLoop json (fuel + 1) pos prop = (true, pos + 1, prop) := by
  simp [ParsePropertyInfoLoop, lt_length_of_drop h, SkipWhitespace_of_drop h isWhitespace_rbrace,
    Peek_of_drop h]

theorem ParsePropertyInfoLoop_end {json : List Char} {pos : Nat} (fuel : Nat) (prop : PropertyInfo)
    (h : json.drop pos = []) : ParsePropertyInfoLoop json fuel pos prop = (true, pos, prop) := by
  have : ¬ pos < json.length := Nat.not_lt.mpr (List.drop_eq_nil_iff.mp h)
  cases fuel <;> simp [ParsePropertyInfoLoop, this]

theorem ParsePropertyInfo_nameObject {json : List Char} {pos : Nat} {n rest : List Char}
    (prop : PropertyInfo) (h : json.drop pos = nameObject n ++ rest) (hn : plain n) :
    ∃ p, ParsePropertyInfo json pos prop = (true, p, { prop with name := n })
      ∧ json.drop p = rest := by
  have h0 : json.drop pos
      = '{' :: ('"' :: ("name".toList ++ '"' :: ':' :: '"' :: (n ++ '"' :: '}' :: rest))) := by
    simpa [nameObject, quote] using h
  have h1 := drop_succ_of_drop h0
  obtain ⟨p2, d2, step⟩ := ParsePropertyInfoLoop_key h1 (by decide)
  obtain ⟨p3, e3, d3⟩ := ParseString_consumes d2 hn
  obtain ⟨f, hf⟩ := fuel_two h1
  refine ⟨p3 + 1, ?_, drop_succ_of_drop d3⟩
  rw [ParsePropertyInfo, Expect_of_drop h0]
  simp only [hf]
  rw [step, SkipWhitespace_of_drop d2 isWhitespace_quote]
  have hm : PropertyMember json "name".toList p2 prop = (p3, { prop with name := n }) := by
    simp [PropertyMember, e3]
  rw [hm, separator_none d3 isWhitespace_rbrace (by decide), ParsePropertyInfoLoop_close _ _ d3]

theorem ParseTypeInfoLoop_key {json : List Char} {pos : Nat} {k rest : List Char}
    (h : json.drop pos = '"' :: (k ++ '"' :: ':' :: rest)) (hk : plain k) :
    ∃ p, json.drop p = rest ∧ ∀ (fuel : Nat) (type : TypeInfo),
      ParseTypeInfoLoop json (fuel + 1) pos type
        = ParseTypeInfoLoop json fuel
            (SkipComma json (SkipWhitespace json
              (TypeMember json k (SkipWhitespace json p) type).1))
            (TypeMember json k (SkipWhitespace json p) type).2 := by
  obtain ⟨p1, p2, h1, h2, h3, h4, h5, h6, h7⟩ := key_colon h hk
  refine ⟨p2, h7, fun fuel type => ?_⟩
  simp [ParseTypeInfoLoop, h1, h2, h3, h4, h5, h6]

theorem ParseTypeInfoLoop_close {json : List Char} {pos : Nat} {rest : List Char}
    (fuel : Nat) (type : TypeInfo) (h : json.drop pos = '}' :: rest) :
    ParseTypeInfoLoop json (fuel + 1) pos type = (true, pos + 1, type) := by
  simp [ParseTypeInfoLoop, lt_length_of_drop h, SkipWhitespace_of_drop h isWhitespace_rbrace,
    Peek_of_drop h]

theorem ParseTypeInfoLoop_end {json : List Char} {pos : Nat} (fuel : Nat) (type : TypeInfo)
    (h : json.drop pos = []) : ParseTypeInfoLoop json fuel pos type = (true, pos, type) := by
  have : ¬ pos < json.length := Nat.not_lt.mpr (List.drop_eq_nil_iff.mp h)
  cases fuel <;> simp [ParseTypeInfoLoop, this]

theorem ParseTypeInfo_nameObject {json : List Char} {pos : Nat} {n rest : List Char}
    (type : TypeInfo) (h : json.drop pos = nameObject n ++ rest) (hn : plain n) :
    ∃ p, ParseTypeInfo json pos type = (true, p, { type with name := n })
      ∧ json.drop p = rest := by
  have h0 : json.drop pos
      = '{' :: ('"' :: ("name".toList ++ '"' :: ':' :: '"' :: (n ++ '"' :: '}' :: rest))) := by
    simpa [nameObject, quote] using h
  have h1 := drop_succ_of_drop h0
  obtain ⟨p2, d2, step⟩ := ParseTypeInfoLoop_key h1 (by decide)
  obtain ⟨p3, e3, d3⟩ := ParseString_consumes d2 hn
  obtain ⟨f, hf⟩ := fuel_two h1
  refine ⟨p3 + 1, ?_, drop_succ_of_drop d3⟩
  rw [ParseTypeInfo, Expect_of_drop h0]
  simp only [hf]
  rw [step, SkipWhitespace_of_drop d2 isWhitespace_quote]
  have hm : TypeMember json "name".toList p2 type = (p3, { type with name := n }) := by
    simp [TypeMember, e3]
  rw [hm, separator_none d3 isWhitespace_rbrace (by decide), ParseTypeInfoLoop_close _ _ d3]

/-- An iteration of `ParseParameterInfoLoop` on a character that opens neither a key nor
the end of the object: no colon follows the empty key, the result is
`false`. -/
theorem ParseParameterInfoLoop_nokey {json : List Char} {pos : Nat} {c : Char} {rest : List Char}
    (fuel : Nat) (param : ParameterInfo) (h : json.drop pos = c :: rest)
    (hws : isWhitespace c = false) (hq : c ≠ '"') (hb : c ≠ '}') (hcol : c ≠ ':') :
    ParseParameterInfoLoop json (fuel + 1) pos param = (false, pos, param) := by
  have hp : Peek json pos ≠ '}' := by rw [Peek_of_drop h]; exact hb
  simp [ParseParameterInfoLoop, lt_length_of_drop h, SkipWhitespace_of_drop h hws, hp,
    ParseString_of_drop_ne h hq, Expect_of_drop_ne h hcol]

/-- An iteration of `ParseParameterInfoLoop` on a string literal that no colon follows:
the result is `false`. -/
theorem ParseParameterInfoLoop_key_nocolon {json : List Char} {pos : Nat} {s : List Char} {c : Char}
    {rest : List Char} (fuel : Nat) (param : ParameterInfo)
    (h : json.drop pos = '"' :: (s ++ '"' :: c :: rest)) (hs : plain s)
    (hws : isWhitespace c = false) (hcol : c ≠ ':') :
    ∃ p, ParseParameterInfoLoop json (fuel + 1) pos param = (false, p, param) := by
  obtain ⟨p, e, d⟩ := ParseString_consumes h hs
  have hp : Peek json pos ≠ '}' := by rw [Peek_of_drop h]; decide
  refine ⟨p, ?_⟩
  simp [ParseParameterInfoLoop, lt_length_of_drop h, SkipWhitespace_of_drop h isWhitespace_quote, hp, e,
    SkipWhitespace_of_drop d hws, Expect_of_drop_ne d hcol]

/-- An iteration of `ParseMethodInfoLoop` on a character that opens neither a key nor
the end of the object: no colon follows the empty key, the result is
`false`. -/
theorem ParseMethodInfoLoop_nokey {json : List Char} {pos : Nat} {c : Char} {rest : List Char}
    (fuel : Nat) (method : MethodInfo) (h : json.drop pos = c :: rest)
    (hws : isWhitespace c = false) (hq : c ≠ '"') (hb : c ≠ '}') (hcol : c ≠ ':') :
    ParseMethodInfoLoop json (fuel + 1) pos method = (false, pos, method) := by
  have hp : Peek json pos ≠ '}' := by rw [Peek_of_drop h]; exact hb
  simp [ParseMethodInfoLoop, lt_length_of_drop h, SkipWhitespace_of_drop h hws, hp,
    ParseString_of_drop_ne h hq, Expect_of_drop_ne h hcol]

/-- An iteration of `ParseMethodInfoLoop` on a string literal that no colon follows:
the result is `false`. -/
theorem ParseMethodInfoLoop_key_nocolon {json : List Char} {pos : Nat} {s : List Char} {c : Char}
    {rest : List Char} (fuel : Nat) (method : MethodInfo)
    (h : json.drop pos = '"' :: (s ++ '"' :: c :: rest)) (hs : plain s)
    (hws : isWhitespace c = false) (hcol : c ≠ ':') :
    ∃ p, ParseMethodInfoLoop json (fuel + 1) pos method = (false, p, method) := by
  obtain ⟨p, e, d⟩ := ParseString_consumes h hs
  have hp : Peek json pos ≠ '}' := by rw [Peek_of_drop h]; decide
  refine ⟨p, ?_⟩
  simp [ParseMethodInfoLoop, lt_length_of_drop h, SkipWhitespace_of_drop h isWhitespace_quote, hp, e,
    SkipWhitespace_of_drop d hws, Expect_of_drop_ne d hcol]

/-- An iteration of `ParseFieldInfoLoop` on a character that opens neither a key nor
the end of the object: no colon follows the empty key, the result is
`false`. -/
theorem ParseFieldInfoLoop_nokey {json : List Char} {pos : Nat} {c : Char} {rest : List Char}
    (fuel : Nat) (field : FieldInfo) (h : json.drop pos = c :: rest)
    (hws : isWhitespace c = false) (hq : c ≠ '"') (hb : c ≠ '}') (hcol : c ≠ ':') :
    ParseFieldInfoLoop json (fuel + 1) pos field = (false, pos, field) := by
  have hp : Peek json pos ≠ '}' := by rw [Peek_of_drop h]; exact hb
  simp [ParseFieldInfoLoop, lt_length_of_drop h, SkipWhitespace_of_drop h hws, hp,
    ParseString_of_drop_ne h hq, Expect_of_drop_ne h hcol]

/-- An iteration of `ParseFieldInfoLoop` on a string literal that no colon follows:
the result is `false`. -/
theorem ParseFieldInfoLoop_key_nocolon {json : List Char} {pos : Nat} {s : List Char} {c : Char}
    {rest : List Char} (fuel : Nat) (field : FieldInfo)
    (h : json.drop pos = '"' :: (s ++ '"' :: c :: rest)) (hs : plain s)
    (hws : isWhitespace c = false) (hcol : c ≠ ':') :
    ∃ p, ParseFieldInfoLoop json (fuel + 1) pos field = (false, p, field) := by
  obtain ⟨p, e, d⟩ := ParseString_consumes h hs
  have hp : Peek json pos ≠ '}' := by rw [Peek_of_drop h]; decide
  refine ⟨p, ?_⟩
  simp [ParseFieldInfoLoop, lt_length_of_drop h, SkipWhitespace_of_drop h isWhitespace_quote, hp, e,
    SkipWhitespace_of_drop d hws, Expect_of_drop_ne d hcol]

/-- An iteration of `ParsePropertyInfoLoop` on a character that opens neither a key nor
the end of the object: no colon follows the empty key, the result is
`false`. -/
theorem ParsePropertyInfoLoop_nokey {json : List Char} {pos : Nat} {c : Char} {rest : List Char}
    (fuel : Nat) (prop : PropertyInfo) (h : json.drop pos = c :: rest)
    (hws : isWhitespace c = false) (hq : c ≠ '"') (hb : c ≠ '}') (hcol : c ≠ ':') :
    ParsePropertyInfoLoop json (fuel + 1) pos prop = (false, pos, prop) := by
  have hp : Peek json pos ≠ '}' := by rw [Peek_of_drop h]; exact hb
  simp [ParsePropertyInfoLoop, lt_length_of_drop h, SkipWhitespace_of_drop h hws, hp,
    ParseString_of_drop_ne h hq, Expect_of_drop_ne h hcol]

/-- An iteration of `ParsePropertyInfoLoop` on a string literal that no colon follows:
the result is `false`. -/
theorem ParsePropertyInfoLoop_key_nocolon {json : List Char} {pos : Nat} {s : List Char} {c : Char}
    {rest : List Char} (fuel : Nat) (prop : PropertyInfo)
    (h : json.drop pos = '"' :: (s ++ '"' :: c :: rest)) (hs : plain s)
    (hws : isWhitespace c = false) (hcol : c ≠ ':') :
    ∃ p, ParsePropertyInfoLoop json (fuel + 1) pos prop = (false, p, prop) := by
  obtain ⟨p, e, d⟩ := ParseString_consumes h hs
  have hp : Peek json pos ≠ '}' := by rw [Peek_of_drop h]; decide
  refine ⟨p, ?_⟩
  simp [ParsePropertyInfoLoop, lt_length_of_drop h, SkipWhitespace_of_drop h isWhitespace_quote, hp, e,
    SkipWhitespace_of_drop d hws, Expect_of_drop_ne d hcol]

/-- An iteration of `ParseTypeInfoLoop` on a character that opens neither a key nor
the end of the object: no colon follows the empty key, the result is
`false`. -/
theorem ParseTypeInfoLoop_nokey {json : List Char} {pos : Nat} {c : Char} {rest : List Char}
    (fuel : Nat) (type : TypeInfo) (h : json.drop pos = c :: rest)
    (hws : isWhitespace c = false) (hq : c ≠ '"') (hb : c ≠ '}') (hcol : c ≠ ':') :
    ParseTypeInfoLoop json (fuel + 1) pos type = (false, pos, type) := by
  have hp : Peek json pos ≠ '}' := by rw [Peek_of_drop h]; exact hb
  simp [ParseTypeInfoLoop, lt_length_of_drop h, SkipWhitespace_of_drop h hws, hp,
    ParseString_of_drop_ne h hq, Expect_of_drop_ne h hcol]

/-- An iteration of `ParseTypeInfoLoop` on a string literal that no colon follows:
the result is `false`. -/
theorem ParseTypeInfoLoop_key_nocolon {json : List Char} {pos : Nat} {s : List Char} {c : Char}
    {rest : List Char} (fuel : Nat) (type : TypeInfo)
    (h : json.drop pos = '"' :: (s ++ '"' :: c :: rest)) (hs : plain s)
    (hws : isWhitespace c = false) (hcol : c ≠ ':') :
    ∃ p, ParseTypeInfoLoop json (fuel + 1) pos type = (false, p, type) := by
  obtain ⟨p, e, d⟩ := ParseString_consumes h hs
  have hp : Peek json pos ≠ '}' := by rw [Peek_of_drop h]; decide
  refine ⟨p, ?_⟩
  simp [ParseTypeInfoLoop, lt_length_of_drop h, SkipWhitespace_of_drop h isWhitespace_quote, hp, e,
    SkipWhitespace_of_drop d hws, Expect_of_drop_ne d hcol]

/-- An iteration of `ParseAssemblyDataLoop` on a character that opens neither a key nor
the end of the object: no colon follows the empty key, the result is
`false`. -/
theorem ParseAssemblyDataLoop_nokey {json : List Char} {pos : Nat} {c : Char} {rest : List Char}
    (fuel : Nat) (data : AssemblyData) (h : json.drop pos = c :: rest)
    (hws : isWhitespace c = false) (hq : c ≠ '"') (hb : c ≠ '}') (hcol : c ≠ ':') :
    ParseAssemblyDataLoop json (fuel + 1) pos data = (false, pos, data) := by
  have hp : Peek json pos ≠ '}' := by rw [Peek_of_drop h]; exact hb
  simp [ParseAssemblyDataLoop, lt_length_of_drop h, SkipWhitespace_of_drop h hws, hp,
    ParseString_of_drop_ne h hq, Expect_of_drop_ne h hcol]

/-- An iteration of `ParseAssemblyDataLoop` on a string literal that no colon follows:
the result is `false`. -/
theorem ParseAssemblyDataLoop_key_nocolon {json : List Char} {pos : Nat} {s : List Char} {c : Char}
    {rest : List Char} (fuel : Nat) (data : AssemblyData)
    (h : json.drop pos = '"' :: (s ++ '"' :: c :: rest)) (hs : plain s)
    (hws : isWhitespace c = false) (hcol : c ≠ ':') :
    ∃ p, ParseAssemblyDataLoop json (fuel + 1) pos data = (false, p, data) := by
  obtain ⟨p, e, d⟩ := ParseString_consumes h hs
  have hp : Peek json pos ≠ '}' := by rw [Peek_of_drop h]; decide
  refine ⟨p, ?_⟩
  simp [ParseAssemblyDataLoop, lt_length_of_drop h, SkipWhitespace_of_drop h isWhitespace_quote, hp, e,
    SkipWhitespace_of_drop d hws, Expect_of_drop_ne d hcol]

theorem ParseParametersArrayLoop_close {json : List Char} {pos : Nat} {rest : List Char}
    (fuel : Nat) (acc : List ParameterInfo) (h : json.drop pos = ']' :: rest) :
    ParseParametersArrayLoop json (fuel + 1) pos acc = (true, pos + 1, acc) := by
  simp [ParseParametersArrayLoop, lt_length_of_drop h, SkipWhitespace_of_drop h isWhitespace_rbracket,
    Peek_of_drop h]

theorem ParseParametersArrayLoop_end {json : List Char} {pos : Nat} (fuel : Nat) (acc : List ParameterInfo)
    (h : json.drop pos = []) : ParseParametersArrayLoop json fuel pos acc = (true, pos, acc) := by
  have : ¬ pos < json.length := Nat.not_lt.mpr (List.drop_eq_nil_iff.mp h)
  cases fuel <;> simp [ParseParametersArrayLoop, this]

/-- One iteration of the array loop on an element that `ParseParameterInfo`
accepts. -/
theorem ParseParametersArrayLoop_elem {json : List Char} {pos p : Nat} {r : List Char}
    {x : ParameterInfo} (fuel : Nat) (acc : List ParameterInfo)
    (h : json.drop pos = '{' :: r) (he : ParseParameterInfo json pos {} = (true, p, x)) :
    ParseParametersArrayLoop json (fuel + 1) pos acc
      = ParseParametersArrayLoop json fuel (SkipComma json (SkipWhitespace json p)) (acc ++ [x]) := by
  have hp : Peek json pos ≠ ']' := by rw [Peek_of_drop h]; decide
  simp [ParseParametersArrayLoop, lt_length_of_drop h, SkipWhitespace_of_drop h isWhitespace_lbrace,
    hp, he]

/-- One iteration of the array loop on an element that `ParseParameterInfo`
rejects. -/
theorem ParseParametersArrayLoop_elem_false {json : List Char} {pos p : Nat} {c : Char}
    {r : List Char} {x : ParameterInfo} (fuel : Nat) (acc : List ParameterInfo)
    (h : json.drop pos = c :: r) (hws : isWhitespace c = false) (hc : c ≠ ']')
    (he : ParseParameterInfo json pos {} = (false, p, x)) :
    ParseParametersArrayLoop json (fuel + 1) pos acc = (false, p, acc) := by
  have hp : Peek json pos ≠ ']' := by rw [Peek_of_drop h]; exact hc
  simp [ParseParametersArrayLoop, lt_length_of_drop h, SkipWhitespace_of_drop h hws, hp, he]

theorem ParseMethodsArrayLoop_close {json : List Char} {pos : Nat} {rest : List Char}
    (fuel : Nat) (acc : List MethodInfo) (h : json.drop pos = ']' :: rest) :
    ParseMethodsArrayLoop json (fuel + 1) pos acc = (true, pos + 1, acc) := by
  simp [ParseMethodsArrayLoop, lt_length_of_drop h, SkipWhitespace_of_drop h isWhitespace_rbracket,
    Peek_of_drop h]

theorem ParseMethodsArrayLoop_end {json : List Char} {pos : Nat} (fuel : Nat) (acc : List MethodInfo)
    (h : json.drop pos = []) : ParseMethodsArrayLoop json fuel pos acc = (true, pos, acc) := by
  have : ¬ pos < json.length := Nat.not_lt.mpr (List.drop_eq_nil_iff.mp h)
  cases fuel <;> simp [ParseMethodsArrayLoop, this]

/-- One iteration of the array loop on an element that `ParseMethodInfo`
accepts. -/
theorem ParseMethodsArrayLoop_elem {json : List Char} {pos p : Nat} {r : List Char}
    {x : MethodInfo} (fuel : Nat) (acc : List MethodInfo)
    (h : json.drop pos = '{' :: r) (he : ParseMethodInfo json pos {} = (true, p, x)) :
    ParseMethodsArrayLoop json (fuel + 1) pos acc
      = ParseMethodsArrayLoop json fuel (SkipComma json (SkipWhitespace json p)) (acc ++ [x]) := by
  have hp : Peek json pos ≠ ']' := by rw [Peek_of_drop h]; decide
  simp [ParseMethodsArrayLoop, lt_length_of_drop h, SkipWhitespace_of_drop h isWhitespace_lbrace,
    hp, he]

/-- One iteration of the array loop on an element that `ParseMethodInfo`
rejects. -/
theorem ParseMethodsArrayLoop_elem_false {json : List Char} {pos p : Nat} {c : Char}
    {r : List Char} {x : MethodInfo} (fuel : Nat) (acc : List MethodInfo)
    (h : json.drop pos = c :: r) (hws : isWhitespace c = false) (hc : c ≠ ']')
    (he : ParseMethodInfo json pos {} = (false, p, x)) :
    ParseMethodsArrayLoop json (fuel + 1) pos acc = (false, p, acc) := by
  have hp : Peek json pos ≠ ']' := by rw [Peek_of_drop h]; exact hc
  simp [ParseMethodsArrayLoop, lt_length_of_drop h, SkipWhitespace_of_drop h hws, hp, he]

theorem ParseFieldsArrayLoop_close {json : List Char} {pos : Nat} {rest : List Char}
    (fuel : Nat) (acc : List FieldInfo) (h : json.drop pos = ']' :: rest) :
    ParseFieldsArrayLoop json (fuel + 1) pos acc = (true, pos + 1, acc) := by
  simp [ParseFieldsArrayLoop, lt_length_of_drop h, SkipWhitespace_of_drop h isWhitespace_rbracket,
    Peek_of_drop h]

theorem ParseFieldsArrayLoop_end {json : List Char} {pos : Nat} (fuel : Nat) (acc : List FieldInfo)
    (h : json.drop pos = []) : ParseFieldsArrayLoop json fuel pos acc = (true, pos, acc) := by
  have : ¬ pos < json.length := Nat.not_lt.mpr (List.drop_eq_nil_iff.mp h)
  cases fuel <;> simp [ParseFieldsArrayLoop, this]

/-- One iteration of the array loop on an element that `ParseFieldInfo`
accepts. -/
theorem ParseFieldsArrayLoop_elem {json : List Char} {pos p : Nat} {r : List Char}
    {x : FieldInfo} (fuel : Nat) (acc : List FieldInfo)
    (h : json.drop pos = '{' :: r) (he : ParseFieldInfo json pos {} = (true, p, x)) :
    ParseFieldsArrayLoop json (fuel + 1) pos acc
      = ParseFieldsArrayLoop json fuel (SkipComma json (SkipWhitespace json p)) (acc ++ [x]) := by
  have hp : Peek json pos ≠ ']' := by rw [Peek_of_drop h]; decide
  simp [ParseFieldsArrayLoop, lt_length_of_drop h, SkipWhitespace_of_drop h isWhitespace_lbrace,
    hp, he]

/-- One iteration of the array loop on an element that `ParseFieldInfo`
rejects. -/
theorem ParseFieldsArrayLoop_elem_false {json : List Char} {pos p : Nat} {c : Char}
    {r : List Char} {x : FieldInfo} (fuel : Nat) (acc : List FieldInfo)
    (h : json.drop pos = c :: r) (hws : isWhitespace c = false) (hc : c ≠ ']')
    (he : ParseFieldInfo json pos {} = (false, p, x)) :
    ParseFieldsArrayLoop json (fuel + 1) pos acc = (false, p, acc) := by
  have hp : Peek json pos ≠ ']' := by rw [Peek_of_drop h]; exact hc
  simp [ParseFieldsArrayLoop, lt_length_of_drop h, SkipWhitespace_of_drop h hws, hp, he]

theorem ParsePropertiesArrayLoop_close {json : List Char} {pos : Nat} {rest : List Char}
    (fuel : Nat) (acc : List PropertyInfo) (h : json.drop pos = ']' :: rest) :
    ParsePropertiesArrayLoop json (fuel + 1) pos acc = (true, pos + 1, acc) := by
  simp [ParsePropertiesArrayLoop, lt_length_of_drop h, SkipWhitespace_of_drop h isWhitespace_rbracket,
    Peek_of_drop h]

theorem ParsePropertiesArrayLoop_end {json : List Char} {pos : Nat} (fuel : Nat) (acc : List PropertyInfo)
    (h : json.drop pos = []) : ParsePropertiesArrayLoop json fuel pos acc = (true, pos, acc) := by
  have : ¬ pos < json.length := Nat.not_lt.mpr (List.drop_eq_nil_iff.mp h)
  cases fuel <;> simp [ParsePropertiesArrayLoop, this]

/-- One iteration of the array loop on an element that `ParsePropertyInfo`
accepts. -/
theorem ParsePropertiesArrayLoop_elem {json : List Char} {pos p : Nat} {r : List Char}
    {x : PropertyInfo} (fuel : Nat) (acc : List PropertyInfo)
    (h : json.drop pos = '{' :: r) (he : ParsePropertyInfo json pos {} = (true, p, x)) :
    ParsePropertiesArrayLoop json (fuel + 1) pos acc
      = ParsePropertiesArrayLoop json fuel (SkipComma json (SkipWhitespace json p)) (acc ++ [x]) := by
  have hp : Peek json pos ≠ ']' := by rw [Peek_of_drop h]; decide
  simp [ParsePropertiesArrayLoop, lt_length_of_drop h, SkipWhitespace_of_drop h isWhitespace_lbrace,
    hp, he]

/-- One iteration of the array loop on an element that `ParsePropertyInfo`
rejects. -/
theorem ParsePropertiesArrayLoop_elem_false {json : List Char} {pos p : Nat} {c : Char}
    {r : List Char} {x : PropertyInfo} (fuel : Nat) (acc : List PropertyInfo)
    (h : json.drop pos = c :: r) (hws : isWhitespace c = false) (hc : c ≠ ']')
    (he : ParsePropertyInfo json pos {} = (false, p, x)) :
    ParsePropertiesArrayLoop json (fuel + 1) pos acc = (false, p, acc) := by
  have hp : Peek json pos ≠ ']' := by rw [Peek_of_drop h]; exact hc
  simp [ParsePropertiesArrayLoop, lt_length_of_drop h, SkipWhitespace_of_drop h hws, hp, he]

theorem ParseTypesArrayLoop_close {json : List Char} {pos : Nat} {rest : List Char}
    (fuel : Nat) (acc : List TypeInfo) (h : json.drop pos = ']' :: rest) :
    ParseTypesArrayLoop json (fuel + 1) pos acc = (true, pos + 1, acc) := by
  simp [ParseTypesArrayLoop, lt_length_of_drop h, SkipWhitespace_of_drop h isWhitespace_rbracket,
    Peek_of_drop h]

theorem ParseTypesArrayLoop_end {json : List Char} {pos : Nat} (fuel : Nat) (acc : List TypeInfo)
    (h : json.drop pos = []) : ParseTypesArrayLoop json fuel pos acc = (true, pos, acc) := by
  have : ¬ pos < json.length := Nat.not_lt.mpr (List.drop_eq_nil_iff.mp h)
  cases fuel <;> simp [ParseTypesArrayLoop, this]

/-- One iteration of the array loop on an element that `ParseTypeInfo`
accepts. -/
theorem ParseTypesArrayLoop_elem {json : List Char} {pos p : Nat} {r : List Char}
    {x : TypeInfo} (fuel : Nat) (acc : List TypeInfo)
    (h : json.drop pos = '{' :: r) (he : ParseTypeInfo json pos {} = (true, p, x)) :
    ParseTypesArrayLoop json (fuel + 1) pos acc
      = ParseTypesArrayLoop json fuel (SkipComma json (SkipWhitespace json p)) (acc ++ [x]) := by
  have hp : Peek json pos ≠ ']' := by rw [Peek_of_drop h]; decide
  simp [ParseTypesArrayLoop, lt_length_of_drop h, SkipWhitespace_of_drop h isWhitespace_lbrace,
    hp, he]

/-- One iteration of the array loop on an element that `ParseTypeInfo`
rejects. -/
theorem ParseTypesArrayLoop_elem_false {json : List Char} {pos p : Nat} {c : Char}
    {r : List Char} {x : TypeInfo} (fuel : Nat) (acc : List TypeInfo)
    (h : json.drop pos = c :: r) (hws : isWhitespace c = false) (hc : c ≠ ']')
    (he : ParseTypeInfo json pos {} = (false, p, x)) :
    ParseTypesArrayLoop json (fuel + 1) pos acc = (false, p, acc) := by
  have hp : Peek json pos ≠ ']' := by rw [Peek_of_drop h]; exact hc
  simp [ParseTypesArrayLoop, lt_length_of_drop h, SkipWhitespace_of_drop h hws, hp, he]

/-- The array loop of `ParseParametersArray` on `{"name":"n1"},...,{"name":"nk"}`
followed by the closing bracket, or by the end of the text: one element is
appended per name, in the order of the text. -/
theorem ParseParametersArrayLoop_names (json : List Char) (closing : List Char)
    (hcl : closing = [] ∨ ∃ rest, closing = ']' :: rest) :
    ∀ (names : List (List Char)) (pos fuel : Nat) (acc : List ParameterInfo),
      (∀ n ∈ names, plain n) →
      json.drop pos = commaSep (names.map nameObject) ++ closing →
      json.length - pos ≤ fuel →
      ∃ p, ParseParametersArrayLoop json fuel pos acc
          = (true, p, acc ++ names.map (fun n => { name := n }))
        ∧ json.drop p = closing.tail
  | [], pos, fuel, acc, _, h, hf => by
    simp only [List.map_nil, commaSep, List.nil_append] at h
    rcases hcl with rfl | ⟨rest, rfl⟩
    · exact ⟨pos, by simp [ParseParametersArrayLoop_end fuel acc h], h⟩
    · obtain ⟨n, rfl⟩ := fuel_succ h hf
      exact ⟨pos + 1, by simp [ParseParametersArrayLoop_close n acc h], drop_succ_of_drop h⟩
  | [x], pos, fuel, acc, hpl, h, hf => by
    simp only [List.map_cons, List.map_nil, commaSep] at h
    have hx : plain x := hpl x (by simp)
    obtain ⟨p, e, d⟩ := @ParseParameterInfo_nameObject json pos x _ {} h hx
    have h0 : json.drop pos = '{' :: ("\"name\":".toList ++ quote x ++ "\x7d".toList ++ closing) := by
      simpa [nameObject] using h
    obtain ⟨n, rfl⟩ := fuel_succ h0 hf
    have hlt : pos < p := lt_of_drop_append h d (by simp [nameObject])
    rw [ParseParametersArrayLoop_elem n acc h0 e]
    rcases hcl with rfl | ⟨rest, rfl⟩
    · rw [separator_end d]
      exact ⟨p, by simp [ParseParametersArrayLoop_end n _ d], d⟩
    · rw [separator_none d isWhitespace_rbracket (by decide)]
      obtain ⟨m, rfl⟩ := fuel_succ d (fuel_step hlt hf)
      exact ⟨p + 1, by simp [ParseParametersArrayLoop_close m _ d], drop_succ_of_drop d⟩
  | x :: y :: names, pos, fuel, acc, hpl, h, hf => by
    simp only [List.map_cons, commaSep, List.append_assoc, List.cons_append] at h
    have hx : plain x := hpl x (by simp)
    obtain ⟨p, e, d⟩ := @ParseParameterInfo_nameObject json pos x _ {} h hx
    have h0 : json.drop pos = '{' :: ("\"name\":".toList ++ quote x ++ "\x7d".toList
        ++ ',' :: (commaSep (nameObject y :: names.map nameObject) ++ closing)) := by
      simpa [nameObject] using h
    obtain ⟨n, rfl⟩ := fuel_succ h0 hf
    have hlt : pos < p := lt_of_drop_append h d (by simp [nameObject])
    obtain ⟨e1, d1⟩ := separator_comma d
    have ih := ParseParametersArrayLoop_names json closing hcl (y :: names) (p + 1) n
      (acc ++ [{ name := x }]) (fun z hz => hpl z (List.mem_cons_of_mem _ hz))
      (by simpa using d1) (by omega)
    obtain ⟨q, eq, dq⟩ := ih
    refine ⟨q, ?_, dq⟩
    rw [ParseParametersArrayLoop_elem n acc h0 e, e1, eq]
    simp

theorem ParseParametersArray_names {json : List Char} {pos : Nat} (closing : List Char)
    (hcl : closing = [] ∨ ∃ rest, closing = ']' :: rest)
    (names : List (List Char)) (acc : List ParameterInfo) (hpl : ∀ n ∈ names, plain n)
    (h : json.drop pos = '[' :: (commaSep (names.map nameObject) ++ closing)) :
    ∃ p, ParseParametersArray json pos acc
        = (true, p, acc ++ names.map (fun n => { name := n }))
      ∧ json.drop p = closing.tail := by
  rw [ParseParametersArray, Expect_of_drop h]
  exact ParseParametersArrayLoop_names json closing hcl names (pos + 1) _ acc hpl
    (drop_succ_of_drop h) (Nat.le_refl _)

/-- The array loop of `ParseMethodsArray` on `{"name":"n1"},...,{"name":"nk"}`
followed by the closing bracket, or by the end of the text: one element is
appended per name, in the order of the text. -/
theorem ParseMethodsArrayLoop_names (json : List Char) (closing : List Char)
    (hcl : closing = [] ∨ ∃ rest, closing = ']' :: rest) :
    ∀ (names : List (List Char)) (pos fuel : Nat) (acc : List MethodInfo),
      (∀ n ∈ names, plain n) →
      json.drop pos = commaSep (names.map nameObject) ++ closing →
      json.length - pos ≤ fuel →
      ∃ p, ParseMethodsArrayLoop json fuel pos acc
          = (true, p, acc ++ names.map (fun n => { name := n }))
        ∧ json.drop p = closing.tail
  | [], pos, fuel, acc, _, h, hf => by
    simp only [List.map_nil, commaSep, List.nil_append] at h
    rcases hcl with rfl | ⟨rest, rfl⟩
    · exact ⟨pos, by simp [ParseMethodsArrayLoop_end fuel acc h], h⟩
    · obtain ⟨n, rfl⟩ := fuel_succ h hf
      exact ⟨pos + 1, by simp [ParseMethodsArrayLoop_close n acc h], drop_succ_of_drop h⟩
  | [x], pos, fuel, acc, hpl, h, hf => by
    simp only [List.map_cons, List.map_nil, commaSep] at h
    have hx : plain x := hpl x (by simp)
    obtain ⟨p, e, d⟩ := @ParseMethodInfo_nameObject json pos x _ {} h hx
    have h0 : json.drop pos = '{' :: ("\"name\":".toList ++ quote x ++ "\x7d".toList ++ closing) := by
      simpa [nameObject] using h
    obtain ⟨n, rfl⟩ := fuel_succ h0 hf
    have hlt : pos < p := lt_of_drop_append h d (by simp [nameObject])
    rw [ParseMethodsArrayLoop_elem n acc h0 e]
    rcases hcl with rfl | ⟨rest, rfl⟩
    · rw [separator_end d]
      exact ⟨p, by simp [ParseMethodsArrayLoop_end n _ d], d⟩
    · rw [separator_none d isWhitespace_rbracket (by decide)]
      obtain ⟨m, rfl⟩ := fuel_succ d (fuel_step hlt hf)
      exact ⟨p + 1, by simp [ParseMethodsArrayLoop_close m _ d], drop_succ_of_drop d⟩
  | x :: y :: names, pos, fuel, acc, hpl, h, hf => by
    simp only [List.map_cons, commaSep, List.append_assoc, List.cons_append] at h
    have hx : plain x := hpl x (by simp)
    obtain ⟨p, e, d⟩ := @ParseMethodInfo_nameObject json pos x _ {} h hx
    have h0 : json.drop pos = '{' :: ("\"name\":".toList ++ quote x ++ "\x7d".toList
        ++ ',' :: (commaSep (nameObject y :: names.map nameObject) ++ closing)) := by
      simpa [nameObject] using h
    obtain ⟨n, rfl⟩ := fuel_succ h0 hf
    have hlt : pos < p := lt_of_drop_append h d (by simp [nameObject])
    obtain ⟨e1, d1⟩ := separator_comma d
    have ih := ParseMethodsArrayLoop_names json closing hcl (y :: names) (p + 1) n
      (acc ++ [{ name := x }]) (fun z hz => hpl z (List.mem_cons_of_mem _ hz))
      (by simpa using d1) (by omega)
    obtain ⟨q, eq, dq⟩ := ih
    refine ⟨q, ?_, dq⟩
    rw [ParseMethodsArrayLoop_elem n acc h0 e, e1, eq]
    simp

theorem ParseMethodsArray_names {json : List Char} {pos : Nat} (closing : List Char)
    (hcl : closing = [] ∨ ∃ rest, closing = ']' :: rest)
    (names : List (List Char)) (acc : List MethodInfo) (hpl : ∀ n ∈ names, plain n)
    (h : json.drop pos = '[' :: (commaSep (names.map nameObject) ++ closing)) :
    ∃ p, ParseMethodsArray json pos acc
        = (true, p, acc ++ names.map (fun n => { name := n }))
      ∧ json.drop p = closing.tail := by
  rw [ParseMethodsArray, Expect_of_drop h]
  exact ParseMethodsArrayLoop_names json closing hcl names (pos + 1) _ acc hpl
    (drop_succ_of_drop h) (Nat.le_refl _)

/-- The array loop of `ParseFieldsArray` on `{"name":"n1"},...,{"name":"nk"}`
followed by the closing bracket, or by the end of the text: one element is
appended per name, in the order of the text. -/
theorem ParseFieldsArrayLoop_names (json : List Char) (closing : List Char)
    (hcl : closing = [] ∨ ∃ rest, closing = ']' :: rest) :
    ∀ (names : List (List Char)) (pos fuel : Nat) (acc : List FieldInfo),
      (∀ n ∈ names, plain n) →
      json.drop pos = commaSep (names.map nameObject) ++ closing →
      json.length - pos ≤ fuel →
      ∃ p, ParseFieldsArrayLoop json fuel pos acc
          = (true, p, acc ++ names.map (fun n => { name := n }))
        ∧ json.drop p = closing.tail
  | [], pos, fuel, acc, _, h, hf => by
    simp only [List.map_nil, commaSep, List.nil_append] at h
    rcases hcl with rfl | ⟨rest, rfl⟩
    · exact ⟨pos, by simp [ParseFieldsArrayLoop_end fuel acc h], h⟩
    · obtain ⟨n, rfl⟩ := fuel_succ h hf
      exact ⟨pos + 1, by simp [ParseFieldsArrayLoop_close n acc h], drop_succ_of_drop h⟩
  | [x], pos, fuel, acc, hpl, h, hf => by
    simp only [List.map_cons, List.map_nil, commaSep] at h
    have hx : plain x := hpl x (by simp)
    obtain ⟨p, e, d⟩ := @ParseFieldInfo_nameObject json pos x _ {} h hx
    have h0 : json.drop pos = '{' :: ("\"name\":".toList ++ quote x ++ "\x7d".toList ++ closing) := by
      simpa [nameObject] using h
    obtain ⟨n, rfl⟩ := fuel_succ h0 hf
    have hlt : pos < p := lt_of_drop_append h d (by simp [nameObject])
    rw [ParseFieldsArrayLoop_elem n acc h0 e]
    rcases hcl with rfl | ⟨rest, rfl⟩
    · rw [separator_end d]
      exact ⟨p, by simp [ParseFieldsArrayLoop_end n _ d], d⟩
    · rw [separator_none d isWhitespace_rbracket (by decide)]
      obtain ⟨m, rfl⟩ := fuel_succ d (fuel_step hlt hf)
      exact ⟨p + 1, by simp [ParseFieldsArrayLoop_close m _ d], drop_succ_of_drop d⟩
  | x :: y :: names, pos, fuel, acc, hpl, h, hf => by
    simp only [List.map_cons, commaSep, List.append_assoc, List.cons_append] at h
    have hx : plain x := hpl x (by simp)
    obtain ⟨p, e, d⟩ := @ParseFieldInfo_nameObject json pos x _ {} h hx
    have h0 : json.drop pos = '{' :: ("\"name\":".toList ++ quote x ++ "\x7d".toList
        ++ ',' :: (commaSep (nameObject y :: names.map nameObject) ++ closing)) := by
      simpa [nameObject] using h
    obtain ⟨n, rfl⟩ := fuel_succ h0 hf
    have hlt : pos < p := lt_of_drop_append h d (by simp [nameObject])
    obtain ⟨e1, d1⟩ := separator_comma d
    have ih := ParseFieldsArrayLoop_names json closing hcl (y :: names) (p + 1) n
      (acc ++ [{ name := x }]) (fun z hz => hpl z (List.mem_cons_of_mem _ hz))
      (by simpa using d1) (by omega)
    obtain ⟨q, eq, dq⟩ := ih
    refine ⟨q, ?_, dq⟩
    rw [ParseFieldsArrayLoop_elem n acc h0 e, e1, eq]
    simp

theorem ParseFieldsArray_names {json : List Char} {pos : Nat} (closing : List Char)
    (hcl : closing = [] ∨ ∃ rest, closing = ']' :: rest)
    (names : List (List Char)) (acc : List FieldInfo) (hpl : ∀ n ∈ names, plain n)
    (h : json.drop pos = '[' :: (commaSep (names.map nameObject) ++ closing)) :
    ∃ p, ParseFieldsArray json pos acc
        = (true, p, acc ++ names.map (fun n => { name := n }))
      ∧ json.drop p = closing.tail := by
  rw [ParseFieldsArray, Expect_of_drop h]
  exact ParseFieldsArrayLoop_names json closing hcl names (pos + 1) _ acc hpl
    (drop_succ_of_drop h) (Nat.le_refl _)

/-- The array loop of `ParseTypesArray` on `{"name":"n1"},...,{"name":"nk"}`
followed by the closing bracket, or by the end of the text: one element is
appended per name, in the order of the text. -/
theorem ParseTypesArrayLoop_names (json : List Char) (closing : List Char)
    (hcl : closing = [] ∨ ∃ rest, closing = ']' :: rest) :
    ∀ (names : List (List Char)) (pos fuel : Nat) (acc : List TypeInfo),
      (∀ n ∈ names, plain n) →
      json.drop pos = commaSep (names.map nameObject) ++ closing →
      json.length - pos ≤ fuel →
      ∃ p, ParseTypesArrayLoop json fuel pos acc
          = (true, p, acc ++ names.map (fun n => { name := n }))
        ∧ json.drop p = closing.tail
  | [], pos, fuel, acc, _, h, hf => by
    simp only [List.map_nil, commaSep, List.nil_append] at h
    rcases hcl with rfl | ⟨rest, rfl⟩
    · exact ⟨pos, by simp [ParseTypesArrayLoop_end fuel acc h], h⟩
    · obtain ⟨n, rfl⟩ := fuel_succ h hf
      exact ⟨pos + 1, by simp [ParseTypesArrayLoop_close n acc h], drop_succ_of_drop h⟩
  | [x], pos, fuel, acc, hpl, h, hf => by
    simp only [List.map_cons, List.map_nil, commaSep] at h
    have hx : plain x := hpl x (by simp)
    obtain ⟨p, e, d⟩ := @ParseTypeInfo_nameObject json pos x _ {} h hx
    have h0 : json.drop pos = '{' :: ("\"name\":".toList ++ quote x ++ "\x7d".toList ++ closing) := by
      simpa [nameObject] using h
    obtain ⟨n, rfl⟩ := fuel_succ h0 hf
    have hlt : pos < p := lt_of_drop_append h d (by simp [nameObject])
    rw [ParseTypesArrayLoop_elem n acc h0 e]
    rcases hcl with rfl | ⟨rest, rfl⟩
    · rw [separator_end d]
      exact ⟨p, by simp [ParseTypesArrayLoop_end n _ d], d⟩
    · rw [separator_none d isWhitespace_rbracket (by decide)]
      obtain ⟨m, rfl⟩ := fuel_succ d (fuel_step hlt hf)
      exact ⟨p + 1, by simp [ParseTypesArrayLoop_close m _ d], drop_succ_of_drop d⟩
  | x :: y :: names, pos, fuel, acc, hpl, h, hf => by
    simp only [List.map_cons, commaSep, List.append_assoc, List.cons_append] at h
    have hx : plain x := hpl x (by simp)
    obtain ⟨p, e, d⟩ := @ParseTypeInfo_nameObject json pos x _ {} h hx
    have h0 : json.drop pos = '{' :: ("\"name\":".toList ++ quote x ++ "\x7d".toList
        ++ ',' :: (commaSep (nameObject y :: names.map nameObject) ++ closing)) := by
      simpa [nameObject] using h
    obtain ⟨n, rfl⟩ := fuel_succ h0 hf
    have hlt : pos < p := lt_of_drop_append h d (by simp [nameObject])
    obtain ⟨e1, d1⟩ := separator_comma d
    have ih := ParseTypesArrayLoop_names json closing hcl (y :: names) (p + 1) n
      (acc ++ [{ name := x }]) (fun z hz => hpl z (List.mem_cons_of_mem _ hz))
      (by simpa using d1) (by omega)
    obtain ⟨q, eq, dq⟩ := ih
    refine ⟨q, ?_, dq⟩
    rw [ParseTypesArrayLoop_elem n acc h0 e, e1, eq]
    simp

theorem ParseTypesArray_names {json : List Char} {pos : Nat} (closing : List Char)
    (hcl : closing = [] ∨ ∃ rest, closing = ']' :: rest)
    (names : List (List Char)) (acc : List TypeInfo) (hpl : ∀ n ∈ names, plain n)
    (h : json.drop pos = '[' :: (commaSep (names.map nameObject) ++ closing)) :
    ∃ p, ParseTypesArray json pos acc
        = (true, p, acc ++ names.map (fun n => { name := n }))
      ∧ json.drop p = closing.tail := by
  rw [ParseTypesArray, Expect_of_drop h]
  exact ParseTypesArrayLoop_names json closing hcl names (pos + 1) _ acc hpl
    (drop_succ_of_drop h) (Nat.le_refl _)

/-- An iteration of `ParseParameterInfoLoop` on a member after which the cursor is left on
a character `c` that opens neither a key nor a separator: the next iteration
finds no colon and the loop returns `false` with the cursor on `c`. -/
theorem ParseParameterInfoLoop_member_fail {json : List Char} {pos : Nat} {key r : List Char} {c : Char}
    {rest : List Char} (fuel : Nat) (param : ParameterInfo)
    (h : json.drop pos = '"' :: (key ++ '"' :: ':' :: r)) (hk : plain key)
    (hm : ∀ p, json.drop p = r →
      json.drop (ParameterMember json key (SkipWhitespace json p) param).1 = c :: rest)
    (hws : isWhitespace c = false) (hq : c ≠ '"') (hcomma : c ≠ ',') (hb : c ≠ '}')
    (hcol : c ≠ ':') :
    ∃ q x, ParseParameterInfoLoop json (fuel + 2) pos param = (false, q, x) ∧ json.drop q = c :: rest := by
  obtain ⟨p, d, step⟩ := ParseParameterInfoLoop_key h hk
  have dq := hm p d
  refine ⟨(ParameterMember json key (SkipWhitespace json p) param).1,
    (ParameterMember json key (SkipWhitespace json p) param).2, ?_, dq⟩
  rw [step, separator_none dq hws hcomma, ParseParameterInfoLoop_nokey fuel _ dq hws hq hb hcol]

/-- `ParseParameterInfo` on an object that opens with such a member. -/
theorem ParseParameterInfo_member_fail {json : List Char} {pos : Nat} {key r : List Char}
    {c : Char} {rest : List Char} (param : ParameterInfo)
    (h : json.drop pos = '{' :: '"' :: (key ++ '"' :: ':' :: r)) (hk : plain key)
    (hm : ∀ p, json.drop p = r →
      json.drop (ParameterMember json key (SkipWhitespace json p) param).1 = c :: rest)
    (hws : isWhitespace c = false) (hq : c ≠ '"') (hcomma : c ≠ ',') (hb : c ≠ '}')
    (hcol : c ≠ ':') :
    ∃ q x, ParseParameterInfo json pos param = (false, q, x) ∧ json.drop q = c :: rest := by
  have h1 := drop_succ_of_drop h
  obtain ⟨f, hf⟩ := fuel_ge_two h1 (by simp; omega)
  rw [ParseParameterInfo, Expect_of_drop h]
  simp only [hf]
  exact ParseParameterInfoLoop_member_fail f param h1 hk hm hws hq hcomma hb hcol

/-- An iteration of `ParseMethodInfoLoop` on a member after which the cursor is left on
a character `c` that opens neither a key nor a separator: the next iteration
finds no colon and the loop returns `false` with the cursor on `c`. -/
theorem ParseMethodInfoLoop_member_fail {json : List Char} {pos : Nat} {key r : List Char} {c : Char}
    {rest : List Char} (fuel : Nat) (method : MethodInfo)
    (h : json.drop pos = '"' :: (key ++ '"' :: ':' :: r)) (hk : plain key)
    (hm : ∀ p, json.drop p = r →
      json.drop (MethodMember json key (SkipWhitespace json p) method).1 = c :: rest)
    (hws : isWhitespace c = false) (hq : c ≠ '"') (hcomma : c ≠ ',') (hb : c ≠ '}')
    (hcol : c ≠ ':') :
    ∃ q x, ParseMethodInfoLoop json (fuel + 2) pos method = (false, q, x) ∧ json.drop q = c :: rest := by
  obtain ⟨p, d, step⟩ := ParseMethodInfoLoop_key h hk
  have dq := hm p d
  refine ⟨(MethodMember json key (SkipWhitespace json p) method).1,
    (MethodMember json key (SkipWhitespace json p) method).2, ?_, dq⟩
  rw [step, separator_none dq hws hcomma, ParseMethodInfoLoop_nokey fuel _ dq hws hq hb hcol]

/-- `ParseMethodInfo` on an object that opens with such a member. -/
theorem ParseMethodInfo_member_fail {json : List Char} {pos : Nat} {key r : List Char}
    {c : Char} {rest : List Char} (method : MethodInfo)
    (h : json.drop pos = '{' :: '"' :: (key ++ '"' :: ':' :: r)) (hk : plain key)
    (hm : ∀ p, json.drop p = r →
      json.drop (MethodMember json key (SkipWhitespace json p) method).1 = c :: rest)
    (hws : isWhitespace c = false) (hq : c ≠ '"') (hcomma : c ≠ ',') (hb : c ≠ '}')
    (hcol : c ≠ ':') :
    ∃ q x, ParseMethodInfo json pos method = (false, q, x) ∧ json.drop q = c :: rest := by
  have h1 := drop_succ_of_drop h
  obtain ⟨f, hf⟩ := fuel_ge_two h1 (by simp; omega)
  rw [ParseMethodInfo, Expect_of_drop h]
  simp only [hf]
  exact ParseMethodInfoLoop_member_fail f method h1 hk hm hws hq hcomma hb hcol

/-- An iteration of `ParseFieldInfoLoop` on a member after which the cursor is left on
a character `c` that opens neither a key nor a separator: the next iteration
finds no colon and the loop returns `false` with the cursor on `c`. -/
theorem ParseFieldInfoLoop_member_fail {json : List Char} {pos : Nat} {key r : List Char} {c : Char}
    {rest : List Char} (fuel : Nat) (field : FieldInfo)
    (h : json.drop pos = '"' :: (key ++ '"' :: ':' :: r)) (hk : plain key)
    (hm : ∀ p, json.drop p = r →
      json.drop (FieldMember json key (SkipWhitespace json p) field).1 = c :: rest)
    (hws : isWhitespace c = false) (hq : c ≠ '"') (hcomma : c ≠ ',') (hb : c ≠ '}')
    (hcol : c ≠ ':') :
    ∃ q x, ParseFieldInfoLoop json (fuel + 2) pos field = (false, q, x) ∧ json.drop q = c :: rest := by
  obtain ⟨p, d, step⟩ := ParseFieldInfoLoop_key h hk
  have dq := hm p d
  refine ⟨(FieldMember json key (SkipWhitespace json p) field).1,
    (FieldMember json key (SkipWhitespace json p) field).2, ?_, dq⟩
  rw [step, separator_none dq hws hcomma, ParseFieldInfoLoop_nokey fuel _ dq hws hq hb hcol]

/-- `ParseFieldInfo` on an object that opens with such a member. -/
theorem ParseFieldInfo_member_fail {json : List Char} {pos : Nat} {key r : List Char}
    {c : Char} {rest : List Char} (field : FieldInfo)
    (h : json.drop pos = '{' :: '"' :: (key ++ '"' :: ':' :: r)) (hk : plain key)
    (hm : ∀ p, json.drop p = r →
      json.drop (FieldMember json key (SkipWhitespace json p) field).1 = c :: rest)
    (hws : isWhitespace c = false) (hq : c ≠ '"') (hcomma : c ≠ ',') (hb : c ≠ '}')
    (hcol : c ≠ ':') :
    ∃ q x, ParseFieldInfo json pos field = (false, q, x) ∧ json.drop q = c :: rest := by
  have h1 := drop_succ_of_drop h
  obtain ⟨f, hf⟩ := fuel_ge_two h1 (by simp; omega)
  rw [ParseFieldInfo, Expect_of_drop h]
  simp only [hf]
  exact ParseFieldInfoLoop_member_fail f field h1 hk hm hws hq hcomma hb hcol

/-- An iteration of `ParsePropertyInfoLoop` on a member after which the cursor is left on
a character `c` that opens neither a key nor a separator: the next iteration
finds no colon and the loop returns `false` with the cursor on `c`. -/
theorem ParsePropertyInfoLoop_member_fail {json : List Char} {pos : Nat} {key r : List Char} {c : Char}
    {rest : List Char} (fuel : Nat) (prop : PropertyInfo)
    (h : json.drop pos = '"' :: (key ++ '"' :: ':' :: r)) (hk : plain key)
    (hm : ∀ p, json.drop p = r →
      json.drop (PropertyMember json key (SkipWhitespace json p) prop).1 = c :: rest)
    (hws : isWhitespace c = false) (hq : c ≠ '"') (hcomma : c ≠ ',') (hb : c ≠ '}')
    (hcol : c ≠ ':') :
    ∃ q x, ParsePropertyInfoLoop json (fuel + 2) pos prop = (false, q, x) ∧ json.drop q = c :: rest := by
  obtain ⟨p, d, step⟩ := ParsePropertyInfoLoop_key h hk
  have dq := hm p d
  refine ⟨(PropertyMember json key (SkipWhitespace json p) prop).1,
    (PropertyMember json key (SkipWhitespace json p) prop).2, ?_, dq⟩
  rw [step, separator_none dq hws hcomma, ParsePropertyInfoLoop_nokey fuel _ dq hws hq hb hcol]

/-- `ParsePropertyInfo` on an object that opens with such a member. -/
theorem ParsePropertyInfo_member_fail {json : List Char} {pos : Nat} {key r : List Char}
    {c : Char} {rest : List Char} (prop : PropertyInfo)
    (h : json.drop pos = '{' :: '"' :: (key ++ '"' :: ':' :: r)) (hk : plain key)
    (hm : ∀ p, json.drop p = r →
      json.drop (PropertyMember json key (SkipWhitespace json p) prop).1 = c :: rest)
    (hws : isWhitespace c = false) (hq : c ≠ '"') (hcomma : c ≠ ',') (hb : c ≠ '}')
    (hcol : c ≠ ':') :
    ∃ q x, ParsePropertyInfo json pos prop = (false, q, x) ∧ json.drop q = c :: rest := by
  have h1 := drop_succ_of_drop h
  obtain ⟨f, hf⟩ := fuel_ge_two h1 (by simp; omega)
  rw [ParsePropertyInfo, Expect_of_drop h]
  simp only [hf]
  exact ParsePropertyInfoLoop_member_fail f prop h1 hk hm hws hq hcomma hb hcol

/-- An iteration of `ParseTypeInfoLoop` on a member after which the cursor is left on
a character `c` that opens neither a key nor a separator: the next iteration
finds no colon and the loop returns `false` with the cursor on `c`. -/
theorem ParseTypeInfoLoop_member_fail {json : List Char} {pos : Nat} {key r : List Char} {c : Char}
    {rest : List Char} (fuel : Nat) (type : TypeInfo)
    (h : json.drop pos = '"' :: (key ++ '"' :: ':' :: r)) (hk : plain key)
    (hm : ∀ p, json.drop p = r →
      json.drop (TypeMember json key (SkipWhitespace json p) type).1 = c :: rest)
    (hws : isWhitespace c = false) (hq : c ≠ '"') (hcomma : c ≠ ',') (hb : c ≠ '}')
    (hcol : c ≠ ':') :
    ∃ q x, ParseTypeInfoLoop json (fuel + 2) pos type = (false, q, x) ∧ json.drop q = c :: rest := by
  obtain ⟨p, d, step⟩ := ParseTypeInfoLoop_key h hk
  have dq := hm p d
  refine ⟨(TypeMember json key (SkipWhitespace json p) type).1,
    (TypeMember json key (SkipWhitespace json p) type).2, ?_, dq⟩
  rw [step, separator_none dq hws hcomma, ParseTypeInfoLoop_nokey fuel _ dq hws hq hb hcol]

/-- `ParseTypeInfo` on an object that opens with such a member. -/
theorem ParseTypeInfo_member_fail {json : List Char} {pos : Nat} {key r : List Char}
    {c : Char} {rest : List Char} (type : TypeInfo)
    (h : json.drop pos = '{' :: '"' :: (key ++ '"' :: ':' :: r)) (hk : plain key)
    (hm : ∀ p, json.drop p = r →
      json.drop (TypeMember json key (SkipWhitespace json p) type).1 = c :: rest)
    (hws : isWhitespace c = false) (hq : c ≠ '"') (hcomma : c ≠ ',') (hb : c ≠ '}')
    (hcol : c ≠ ':') :
    ∃ q x, ParseTypeInfo json pos type = (false, q, x) ∧ json.drop q = c :: rest := by
  have h1 := drop_succ_of_drop h
  obtain ⟨f, hf⟩ := fuel_ge_two h1 (by simp; omega)
  rw [ParseTypeInfo, Expect_of_drop h]
  simp only [hf]
  exact ParseTypeInfoLoop_member_fail f type h1 hk hm hws hq hcomma hb hcol

/-- `ParseParametersArray` on an array whose first element `ParseParameterInfo`
rejects. -/
theorem ParseParametersArray_first_fail {json : List Char} {pos q : Nat} {r : List Char}
    {x : ParameterInfo} (acc : List ParameterInfo) (h : json.drop pos = '[' :: '{' :: r)
    (he : ParseParameterInfo json (pos + 1) {} = (false, q, x)) :
    ParseParametersArray json pos acc = (false, q, acc) := by
  have h1 := drop_succ_of_drop h
  obtain ⟨f, hf⟩ := fuel_succ h1 (Nat.le_refl _)
  rw [ParseParametersArray, Expect_of_drop h]
  simp only [hf]
  exact ParseParametersArrayLoop_elem_false f acc h1 isWhitespace_lbrace (by decide) he

/-- `ParseMethodsArray` on an array whose first element `ParseMethodInfo`
rejects. -/
theorem ParseMethodsArray_first_fail {json : List Char} {pos q : Nat} {r : List Char}
    {x : MethodInfo} (acc : List MethodInfo) (h : json.drop pos = '[' :: '{' :: r)
    (he : ParseMethodInfo json (pos + 1) {} = (false, q, x)) :
    ParseMethodsArray json pos acc = (false, q, acc) := by
  have h1 := drop_succ_of_drop h
  obtain ⟨f, hf⟩ := fuel_succ h1 (Nat.le_refl _)
  rw [ParseMethodsArray, Expect_of_drop h]
  simp only [hf]
  exact ParseMethodsArrayLoop_elem_false f acc h1 isWhitespace_lbrace (by decide) he

/-- `ParseFieldsArray` on an array whose first element `ParseFieldInfo`
rejects. -/
theorem ParseFieldsArray_first_fail {json : List Char} {pos q : Nat} {r : List Char}
    {x : FieldInfo} (acc : List FieldInfo) (h : json.drop pos = '[' :: '{' :: r)
    (he : ParseFieldInfo json (pos + 1) {} = (false, q, x)) :
    ParseFieldsArray json pos acc = (false, q, acc) := by
  have h1 := drop_succ_of_drop h
  obtain ⟨f, hf⟩ := fuel_succ h1 (Nat.le_refl _)
  rw [ParseFieldsArray, Expect_of_drop h]
  simp only [hf]
  exact ParseFieldsArrayLoop_elem_false f acc h1 isWhitespace_lbrace (by decide) he

/-- `ParsePropertiesArray` on an array whose first element `ParsePropertyInfo`
rejects. -/
theorem ParsePropertiesArray_first_fail {json : List Char} {pos q : Nat} {r : List Char}
    {x : PropertyInfo} (acc : List PropertyInfo) (h : json.drop pos = '[' :: '{' :: r)
    (he : ParsePropertyInfo json (pos + 1) {} = (false, q, x)) :
    ParsePropertiesArray json pos acc = (false, q, acc) := by
  have h1 := drop_succ_of_drop h
  obtain ⟨f, hf⟩ := fuel_succ h1 (Nat.le_refl _)
  rw [ParsePropertiesArray, Expect_of_drop h]
  simp only [hf]
  exact ParsePropertiesArrayLoop_elem_false f acc h1 isWhitespace_lbrace (by decide) he

/-- `ParseTypesArray` on an array whose first element `ParseTypeInfo`
rejects. -/
theorem ParseTypesArray_first_fail {json : List Char} {pos q : Nat} {r : List Char}
    {x : TypeInfo} (acc : List TypeInfo) (h : json.drop pos = '[' :: '{' :: r)
    (he : ParseTypeInfo json (pos + 1) {} = (false, q, x)) :
    ParseTypesArray json pos acc = (false, q, acc) := by
  have h1 := drop_succ_of_drop h
  obtain ⟨f, hf⟩ := fuel_succ h1 (Nat.le_refl _)
  rw [ParseTypesArray, Expect_of_drop h]
  simp only [hf]
  exact ParseTypesArrayLoop_elem_false f acc h1 isWhitespace_lbrace (by decide) he



/-- `ParseParameterInfo` on an object with one member `"k":value`, given what the
key dispatch does on the value. -/
theorem ParseParameterInfo_single {json : List Char} {pos : Nat} {k r rest : List Char}
    (param param1 : ParameterInfo)
    (h : json.drop pos = '{' :: '"' :: (k ++ '"' :: ':' :: r)) (hk : plain k)
    (hm : ∀ p2, json.drop p2 = r →
      ∃ p3, ParameterMember json k (SkipWhitespace json p2) param = (p3, param1)
        ∧ json.drop p3 = '}' :: rest) :
    ∃ q, ParseParameterInfo json pos param = (true, q, param1) ∧ json.drop q = rest := by
  have h1 := drop_succ_of_drop h
  obtain ⟨p2, d2, step⟩ := ParseParameterInfoLoop_key h1 hk
  obtain ⟨p3, e3, d3⟩ := hm p2 d2
  obtain ⟨f, hf⟩ := fuel_ge_two h1 (by simp; omega)
  refine ⟨p3 + 1, ?_, drop_succ_of_drop d3⟩
  rw [ParseParameterInfo, Expect_of_drop h]
  simp only [hf]
  rw [step, e3, separator_none d3 isWhitespace_rbrace (by decide), ParseParameterInfoLoop_close _ _ d3]

/-- `ParseMethodInfo` on an object with one member `"k":value`, given what the
key dispatch does on the value. -/
theorem ParseMethodInfo_single {json : List Char} {pos : Nat} {k r rest : List Char}
    (method method1 : MethodInfo)
    (h : json.drop pos = '{' :: '"' :: (k ++ '"' :: ':' :: r)) (hk : plain k)
    (hm : ∀ p2, json.drop p2 = r →
      ∃ p3, MethodMember json k (SkipWhitespace json p2) method = (p3, method1)
        ∧ json.drop p3 = '}' :: rest) :
    ∃ q, ParseMethodInfo json pos method = (true, q, method1) ∧ json.drop q = rest := by
  have h1 := drop_succ_of_drop h
  obtain ⟨p2, d2, step⟩ := ParseMethodInfoLoop_key h1 hk
  obtain ⟨p3, e3, d3⟩ := hm p2 d2
  obtain ⟨f, hf⟩ := fuel_ge_two h1 (by simp; omega)
  refine ⟨p3 + 1, ?_, drop_succ_of_drop d3⟩
  rw [ParseMethodInfo, Expect_of_drop h]
  simp only [hf]
  rw [step, e3, separator_none d3 isWhitespace_rbrace (by decide), ParseMethodInfoLoop_close _ _ d3]

/-- `ParseFieldInfo` on an object with one member `"k":value`, given what the
key dispatch does on the value. -/
theorem ParseFieldInfo_single {json : List Char} {pos : Nat} {k r rest : List Char}
    (field field1 : FieldInfo)
    (h : json.drop pos = '{' :: '"' :: (k ++ '"' :: ':' :: r)) (hk : plain k)
    (hm : ∀ p2, json.drop p2 = r →
      ∃ p3, FieldMember json k (SkipWhitespace json p2) field = (p3, field1)
        ∧ json.drop p3 = '}' :: rest) :
    ∃ q, ParseFieldInfo json pos field = (true, q, field1) ∧ json.drop q = rest := by
  have h1 := drop_succ_of_drop h
  obtain ⟨p2, d2, step⟩ := ParseFieldInfoLoop_key h1 hk
  obtain ⟨p3, e3, d3⟩ := hm p2 d2
  obtain ⟨f, hf⟩ := fuel_ge_two h1 (by simp; omega)
  refine ⟨p3 + 1, ?_, drop_succ_of_drop d3⟩
  rw [ParseFieldInfo, Expect_of_drop h]
  simp only [hf]
  rw [step, e3, separator_none d3 isWhitespace_rbrace (by decide), ParseFieldInfoLoop_close _ _ d3]

/-- `ParsePropertyInfo` on an object with one member `"k":value`, given what the
key dispatch does on the value. -/
theorem ParsePropertyInfo_single {json : List Char} {pos : Nat} {k r rest : List Char}
    (prop prop1 : PropertyInfo)
    (h : json.drop pos = '{' :: '"' :: (k ++ '"' :: ':' :: r)) (hk : plain k)
    (hm : ∀ p2, json.drop p2 = r →
      ∃ p3, PropertyMember json k (SkipWhitespace json p2) prop = (p3, prop1)
        ∧ json.drop p3 = '}' :: rest) :
    ∃ q, ParsePropertyInfo json pos prop = (true, q, prop1) ∧ json.drop q = rest := by
  have h1 := drop_succ_of_drop h
  obtain ⟨p2, d2, step⟩ := ParsePropertyInfoLoop_key h1 hk
  obtain ⟨p3, e3, d3⟩ := hm p2 d2
  obtain ⟨f, hf⟩ := fuel_ge_two h1 (by simp; omega)
  refine ⟨p3 + 1, ?_, drop_succ_of_drop d3⟩
  rw [ParsePropertyInfo, Expect_of_drop h]
  simp only [hf]
  rw [step, e3, separator_none d3 isWhitespace_rbrace (by decide), ParsePropertyInfoLoop_close _ _ d3]

/-- `ParseTypeInfo` on an object with one member `"k":value`, given what the
key dispatch does on the value. -/
theorem ParseTypeInfo_single {json : List Char} {pos : Nat} {k r rest : List Char}
    (type type1 : TypeInfo)
    (h : json.drop pos = '{' :: '"' :: (k ++ '"' :: ':' :: r)) (hk : plain k)
    (hm : ∀ p2, json.drop p2 = r →
      ∃ p3, TypeMember json k (SkipWhitespace json p2) type = (p3, type1)
        ∧ json.drop p3 = '}' :: rest) :
    ∃ q, ParseTypeInfo json pos type = (true, q, type1) ∧ json.drop q = rest := by
  have h1 := drop_succ_of_drop h
  obtain ⟨p2, d2, step⟩ := ParseTypeInfoLoop_key h1 hk
  obtain ⟨p3, e3, d3⟩ := hm p2 d2
  obtain ⟨f, hf⟩ := fuel_ge_two h1 (by simp; omega)
  refine ⟨p3 + 1, ?_, drop_succ_of_drop d3⟩
  rw [ParseTypeInfo, Expect_of_drop h]
  simp only [hf]
  rw [step, e3, separator_none d3 isWhitespace_rbrace (by decide), ParseTypeInfoLoop_close _ _ d3]

/-- `ParseParametersArray` on an array with one element that `ParseParameterInfo`
accepts. -/
theorem ParseParametersArray_single {json : List Char} {pos p : Nat} {r rest : List Char}
    {x : ParameterInfo} (acc : List ParameterInfo)
    (h : json.drop pos = '[' :: '{' :: r) (hr : r ≠ [])
    (he : ParseParameterInfo json (pos + 1) {} = (true, p, x)) (hd : json.drop p = ']' :: rest) :
    ∃ q, ParseParametersArray json pos acc = (true, q, acc ++ [x]) ∧ json.drop q = rest := by
  have h1 := drop_succ_of_drop h
  obtain ⟨f, hf⟩ := fuel_ge_two h1 (by
    have := List.length_pos.mpr hr
    simp; omega)
  refine ⟨p + 1, ?_, drop_succ_of_drop hd⟩
  rw [ParseParametersArray, Expect_of_drop h]
  simp only [hf]
  rw [ParseParametersArrayLoop_elem _ acc h1 he, separator_none hd isWhitespace_rbracket (by decide),
    ParseParametersArrayLoop_close _ _ hd]

/-- `ParseMethodsArray` on an array with one element that `ParseMethodInfo`
accepts. -/
theorem ParseMethodsArray_single {json : List Char} {pos p : Nat} {r rest : List Char}
    {x : MethodInfo} (acc : List MethodInfo)
    (h : json.drop pos = '[' :: '{' :: r) (hr : r ≠ [])
    (he : ParseMethodInfo json (pos + 1) {} = (true, p, x)) (hd : json.drop p = ']' :: rest) :
    ∃ q, ParseMethodsArray json pos acc = (true, q, acc ++ [x]) ∧ json.drop q = rest := by
  have h1 := drop_succ_of_drop h
  obtain ⟨f, hf⟩ := fuel_ge_two h1 (by
    have := List.length_pos.mpr hr
    simp; omega)
  refine ⟨p + 1, ?_, drop_succ_of_drop hd⟩
  rw [ParseMethodsArray, Expect_of_drop h]
  simp only [hf]
  rw [ParseMethodsArrayLoop_elem _ acc h1 he, separator_none hd isWhitespace_rbracket (by decide),
    ParseMethodsArrayLoop_close _ _ hd]

/-- `ParseFieldsArray` on an array with one element that `ParseFieldInfo`
accepts. -/
theorem ParseFieldsArray_single {json : List Char} {pos p : Nat} {r rest : List Char}
    {x : FieldInfo} (acc : List FieldInfo)
    (h : json.drop pos = '[' :: '{' :: r) (hr : r ≠ [])
    (he : ParseFieldInfo json (pos + 1) {} = (true, p, x)) (hd : json.drop p = ']' :: rest) :
    ∃ q, ParseFieldsArray json pos acc = (true, q, acc ++ [x]) ∧ json.drop q = rest := by
  have h1 := drop_succ_of_drop h
  obtain ⟨f, hf⟩ := fuel_ge_two h1 (by
    have := List.length_pos.mpr hr
    simp; omega)
  refine ⟨p + 1, ?_, drop_succ_of_drop hd⟩
  rw [ParseFieldsArray, Expect_of_drop h]
  simp only [hf]
  rw [ParseFieldsArrayLoop_elem _ acc h1 he, separator_none hd isWhitespace_rbracket (by decide),
    ParseFieldsArrayLoop_close _ _ hd]

/-- `ParsePropertiesArray` on an array with one element that `ParsePropertyInfo`
accepts. -/
theorem ParsePropertiesArray_single {json : List Char} {pos p : Nat} {r rest : List Char}
    {x : PropertyInfo} (acc : List PropertyInfo)
    (h : json.drop pos = '[' :: '{' :: r) (hr : r ≠ [])
    (he : ParsePropertyInfo json (pos + 1) {} = (true, p, x)) (hd : json.drop p = ']' :: rest) :
    ∃ q, ParsePropertiesArray json pos acc = (true, q, acc ++ [x]) ∧ json.drop q = rest := by
  have h1 := drop_succ_of_drop h
  obtain ⟨f, hf⟩ := fuel_ge_two h1 (by
    have := List.length_pos.mpr hr
    simp; omega)
  refine ⟨p + 1, ?_, drop_succ_of_drop hd⟩
  rw [ParsePropertiesArray, Expect_of_drop h]
  simp only [hf]
  rw [ParsePropertiesArrayLoop_elem _ acc h1 he, separator_none hd isWhitespace_rbracket (by decide),
    ParsePropertiesArrayLoop_close _ _ hd]

/-- `ParseTypesArray` on an array with one element that `ParseTypeInfo`
accepts. -/
theorem ParseTypesArray_single {json : List Char} {pos p : Nat} {r rest : List Char}
    {x : TypeInfo} (acc : List TypeInfo)
    (h : json.drop pos = '[' :: '{' :: r) (hr : r ≠ [])
    (he : ParseTypeInfo json (pos + 1) {} = (true, p, x)) (hd : json.drop p = ']' :: rest) :
    ∃ q, ParseTypesArray json pos acc = (true, q, acc ++ [x]) ∧ json.drop q = rest := by
  have h1 := drop_succ_of_drop h
  obtain ⟨f, hf⟩ := fuel_ge_two h1 (by
    have := List.length_pos.mpr hr
    simp; omega)
  refine ⟨p + 1, ?_, drop_succ_of_drop hd⟩
  rw [ParseTypesArray, Expect_of_drop h]
  simp only [hf]
  rw [ParseTypesArrayLoop_elem _ acc h1 he, separator_none hd isWhitespace_rbracket (by decide),
    ParseTypesArrayLoop_close _ _ hd]

theorem ParseAssemblyDataLoop_key {json : List Char} {pos : Nat} {k rest : List Char}
    (h : json.drop pos = '"' :: (k ++ '"' :: ':' :: rest)) (hk : plain k) :
    ∃ p, json.drop p = rest ∧ ∀ (fuel : Nat) (data : AssemblyData),
      ParseAssemblyDataLoop json (fuel + 1) pos data
        = match AssemblyMember json k (SkipWhitespace json p) data with
          | (false, pos, data) => (false, pos, data)
          | (true, pos, data) =>
            ParseAssemblyDataLoop json fuel (SkipComma json (SkipWhitespace json pos)) data := by
  obtain ⟨p1, p2, h1, h2, h3, h4, h5, h6, h7⟩ := key_colon h hk
  refine ⟨p2, h7, fun fuel data => ?_⟩
  simp [ParseAssemblyDataLoop, h1, h2, h3, h4, h5, h6]

theorem ParseAssemblyDataLoop_close {json : List Char} {pos : Nat} {rest : List Char}
    (fuel : Nat) (data : AssemblyData) (h : json.drop pos = '}' :: rest) :
    ParseAssemblyDataLoop json (fuel + 1) pos data = (true, pos + 1, data) := by
  simp [ParseAssemblyDataLoop, lt_length_of_drop h,
    SkipWhitespace_of_drop h isWhitespace_rbrace, Peek_of_drop h]

theorem ParseAssemblyDataLoop_end {json : List Char} {pos : Nat} (fuel : Nat)
    (data : AssemblyData) (h : json.drop pos = []) :
    ParseAssemblyDataLoop json fuel pos data = (true, pos, data) := by
  have : ¬ pos < json.length := Nat.not_lt.mpr (List.drop_eq_nil_iff.mp h)
  cases fuel <;> simp [ParseAssemblyDataLoop, this]

/-- `ParseAssemblyData` on a root object `{"k":value}` with one member,
closed or cut off after the value, given what the key dispatch does on the
value. -/
theorem ParseAssemblyData_single {json k r : List Char} (closing : List Char)
    (hcl : closing = [] ∨ ∃ rest, closing = '}' :: rest)
    (data data1 : AssemblyData) (hj : json = '{' :: '"' :: (k ++ '"' :: ':' :: r))
    (hk : plain k)
    (hm : ∀ p2, json.drop p2 = r →
      ∃ p3, AssemblyMember json k (SkipWhitespace json p2) data = (true, p3, data1)
        ∧ json.drop p3 = closing) :
    ParseAssemblyData json data = (true, data1) := by
  have h : json.drop 0 = '{' :: '"' :: (k ++ '"' :: ':' :: r) := by rw [List.drop_zero, hj]
  have h1 := drop_succ_of_drop h
  obtain ⟨p2, d2, step⟩ := ParseAssemblyDataLoop_key h1 hk
  obtain ⟨p3, e3, d3⟩ := hm p2 d2
  obtain ⟨f, hf⟩ := fuel_ge_two h1 (by simp; omega)
  simp only [ParseAssemblyData, SimpleJsonParser.ParseAssemblyData,
    SkipWhitespace_of_drop h isWhitespace_lbrace, Expect_of_drop h, hf]
  rw [step, e3]
  rcases hcl with rfl | ⟨rest, rfl⟩
  · simp only [separator_end d3, ParseAssemblyDataLoop_end _ _ d3]
  · simp only [separator_none d3 isWhitespace_rbrace (by decide),
      ParseAssemblyDataLoop_close _ _ d3]


/-! ## Order of the decoded sequences -/

theorem ParseAssemblyData_typesPayload (names : List (List Char)) (hpl : ∀ n ∈ names, plain n) :
    ParseAssemblyData (typesPayload names) {}
      = (true, { types := names.map (fun n => { name := n }) }) := by
  have e : typesPayload names = '{' :: '"' :: ("types".toList ++ '"' :: ':'
      :: ('[' :: (commaSep (names.map nameObject) ++ ']' :: '}' :: []))) := by
    simp [typesPayload, arrayOf]
  refine ParseAssemblyData_single ['}'] (Or.inr ⟨[], rfl⟩) _ _ e (by decide) ?_
  intro p2 d2
  obtain ⟨p3, e3, d3⟩ := ParseTypesArray_names (']' :: '}' :: []) (Or.inr ⟨_, rfl⟩) names
    [] hpl d2
  refine ⟨p3, ?_, d3⟩
  rw [SkipWhitespace_of_drop d2 isWhitespace_lbracket]
  simp [AssemblyMember, e3]

theorem ParseAssemblyData_fieldsPayload (names : List (List Char)) (hpl : ∀ n ∈ names, plain n) :
    ParseAssemblyData (fieldsPayload names) {}
      = (true, { types := [{ fields := names.map (fun n => { name := n }) }] }) := by
  have e : fieldsPayload names = '{' :: '"' :: ("types".toList ++ '"' :: ':'
      :: ('[' :: '{' :: '"' :: ("fields".toList ++ '"' :: ':'
        :: ('[' :: (commaSep (names.map nameObject) ++ ']' :: '}' :: ']' :: '}' :: []))))) := by
    simp [fieldsPayload, arrayOf]
  refine ParseAssemblyData_single ['}'] (Or.inr ⟨[], rfl⟩) _ _ e (by decide) ?_
  intro p2 d2
  obtain ⟨q, eq, dq⟩ := @ParseTypeInfo_single _ _ _ _ (']' :: '}' :: []) {}
    { fields := names.map (fun n => { name := n }) } (drop_succ_of_drop d2) (by decide)
    (by
      intro p4 d4
      obtain ⟨p5, e5, d5⟩ := ParseFieldsArray_names (']' :: '}' :: ']' :: '}' :: [])
        (Or.inr ⟨_, rfl⟩) names [] hpl d4
      refine ⟨p5, ?_, d5⟩
      rw [SkipWhitespace_of_drop d4 isWhitespace_lbracket]
      simp [TypeMember, e5])
  obtain ⟨p3, e3, d3⟩ := ParseTypesArray_single [] d2 (by simp) eq dq
  refine ⟨p3, ?_, d3⟩
  rw [SkipWhitespace_of_drop d2 isWhitespace_lbracket]
  simp [AssemblyMember, e3]

theorem ParseAssemblyData_methodsPayload (names : List (List Char))
    (hpl : ∀ n ∈ names, plain n) :
    ParseAssemblyData (methodsPayload names) {}
      = (true, { types := [{ methods := names.map (fun n => { name := n }) }] }) := by
  have e : methodsPayload names = '{' :: '"' :: ("types".toList ++ '"' :: ':'
      :: ('[' :: '{' :: '"' :: ("methods".toList ++ '"' :: ':'
        :: ('[' :: (commaSep (names.map nameObject) ++ ']' :: '}' :: ']' :: '}' :: []))))) := by
    simp [methodsPayload, arrayOf]
  refine ParseAssemblyData_single ['}'] (Or.inr ⟨[], rfl⟩) _ _ e (by decide) ?_
  intro p2 d2
  obtain ⟨q, eq, dq⟩ := @ParseTypeInfo_single _ _ _ _ (']' :: '}' :: []) {}
    { methods := names.map (fun n => { name := n }) } (drop_succ_of_drop d2) (by decide)
    (by
      intro p4 d4
      obtain ⟨p5, e5, d5⟩ := ParseMethodsArray_names (']' :: '}' :: ']' :: '}' :: [])
        (Or.inr ⟨_, rfl⟩) names [] hpl d4
      refine ⟨p5, ?_, d5⟩
      rw [SkipWhitespace_of_drop d4 isWhitespace_lbracket]
      simp [TypeMember, e5])
  obtain ⟨p3, e3, d3⟩ := ParseTypesArray_single [] d2 (by simp) eq dq
  refine ⟨p3, ?_, d3⟩
  rw [SkipWhitespace_of_drop d2 isWhitespace_lbracket]
  simp [AssemblyMember, e3]

theorem ParseAssemblyData_parametersPayload (names : List (List Char))
    (hpl : ∀ n ∈ names, plain n) :
    ParseAssemblyData (parametersPayload names) {}
      = (true, { types := [{ methods := [{ parameters := names.map (fun n => { name := n }) }] }] })
    := by
  have e : parametersPayload names = '{' :: '"' :: ("types".toList ++ '"' :: ':'
      :: ('[' :: '{' :: '"' :: ("methods".toList ++ '"' :: ':'
        :: ('[' :: '{' :: '"' :: ("parameters".toList ++ '"' :: ':'
          :: ('[' :: (commaSep (names.map nameObject)
            ++ ']' :: '}' :: ']' :: '}' :: ']' :: '}' :: []))))))) := by
    simp [parametersPayload, arrayOf]
  refine ParseAssemblyData_single ['}'] (Or.inr ⟨[], rfl⟩) _ _ e (by decide) ?_
  intro p2 d2
  obtain ⟨q, eq, dq⟩ := @ParseTypeInfo_single _ _ _ _ (']' :: '}' :: []) {}
    { methods := [{ parameters := names.map (fun n => { name := n }) }] }
    (drop_succ_of_drop d2) (by decide)
    (by
      intro p4 d4
      obtain ⟨q6, eq6, dq6⟩ := @ParseMethodInfo_single _ _ _ _ (']' :: '}' :: ']' :: '}' :: []) {}
        { parameters := names.map (fun n => { name := n }) } (drop_succ_of_drop d4) (by decide)
        (by
          intro p7 d7
          obtain ⟨p8, e8, d8⟩ := ParseParametersArray_names
            (']' :: '}' :: ']' :: '}' :: ']' :: '}' :: []) (Or.inr ⟨_, rfl⟩) names [] hpl d7
          refine ⟨p8, ?_, d8⟩
          rw [SkipWhitespace_of_drop d7 isWhitespace_lbracket]
          simp [MethodMember, e8])
      obtain ⟨p5, e5, d5⟩ := ParseMethodsArray_single [] d4 (by simp) eq6 dq6
      refine ⟨p5, ?_, d5⟩
      rw [SkipWhitespace_of_drop d4 isWhitespace_lbracket]
      simp [TypeMember, e5])
  obtain ⟨p3, e3, d3⟩ := ParseTypesArray_single [] d2 (by simp) eq dq
  refine ⟨p3, ?_, d3⟩
  rw [SkipWhitespace_of_drop d2 isWhitespace_lbracket]
  simp [AssemblyMember, e3]


/-! ## String literals built from pieces -/

theorem wellFormedBody_append (t : List Char) (ht : wellFormedBody t = true) :
    ∀ (s : List Char), wellFormedBody s = true → wellFormedBody (s ++ t) = true := by
  intro s
  induction s using wellFormedBody.induct with
  | case1 => intro _; simpa using ht
  | case2 c =>
    intro h
    simp [wellFormedBody] at h
    cases t with
    | nil => simp [wellFormedBody, h.1, h.2]
    | cons d t' => simp [wellFormedBody, h.1, h.2, ht]
  | case3 d s ih =>
    intro h
    simp [wellFormedBody] at h
    simpa [wellFormedBody] using ih h
  | case4 c d s hc ih =>
    intro h
    simp [wellFormedBody, hc] at h
    have := ih h.2
    simp only [List.cons_append] at this ⊢
    simp [wellFormedBody, hc, h.1, this]

theorem decodeBody_append (t : List Char) :
    ∀ (s : List Char), wellFormedBody s = true →
      decodeBody (s ++ t) = decodeBody s ++ decodeBody t := by
  intro s
  induction s using wellFormedBody.induct with
  | case1 => intro _; simp [decodeBody]
  | case2 c =>
    intro h
    simp [wellFormedBody] at h
    cases t with
    | nil => simp [decodeBody]
    | cons d t' => simp [decodeBody, h.2]
  | case3 d s ih =>
    intro h
    simp [wellFormedBody] at h
    simp [decodeBody, ih h]
  | case4 c d s hc ih =>
    intro h
    simp [wellFormedBody, hc] at h
    have := ih h.2
    simp only [List.cons_append] at this ⊢
    simp [decodeBody, hc, this]

/-- An escape `\c` followed by a well-formed body is a well-formed body, and
stands for `unescape c` followed by what the body stands for. -/
theorem escape_cons (c : Char) (s : List Char) (hs : wellFormedBody s = true) :
    wellFormedBody ('\\' :: c :: s) = true
      ∧ decodeBody ('\\' :: c :: s) = unescape c :: decodeBody s := by
  simp [wellFormedBody, decodeBody, hs]

/-- The general form of `SkipWhitespace`: a run of whitespace before the end
of the text or before a character that is not whitespace is consumed. -/
theorem SkipWhitespaceLoop_run (json : List Char) (rest : List Char)
    (hrest : rest = [] ∨ ∃ c r, rest = c :: r ∧ isWhitespace c = false) :
    ∀ (ws : List Char) (pos fuel : Nat), (∀ w ∈ ws, isWhitespace w = true) →
      json.drop pos = ws ++ rest → ws.length ≤ fuel →
      ∃ p, SkipWhitespaceLoop json fuel pos = p ∧ json.drop p = rest
  | [], pos, fuel, _, h, _ => by
    refine ⟨pos, ?_, by simpa using h⟩
    rcases hrest with rfl | ⟨c, r, rfl, hc⟩
    · have : ¬ pos < json.length := Nat.not_lt.mpr (List.drop_eq_nil_iff.mp (by simpa using h))
      cases fuel <;> simp [SkipWhitespaceLoop, this]
    · exact SkipWhitespaceLoop_of_drop (by simpa using h) hc fuel
  | w :: ws, pos, fuel, hws, h, hf => by
    obtain ⟨n, rfl⟩ : ∃ n, fuel = n + 1 := ⟨fuel - 1, by simp at hf; omega⟩
    have h0 : json.drop pos = w :: (ws ++ rest) := by simpa using h
    have hlt := lt_length_of_drop h0
    obtain ⟨p, e, d⟩ := SkipWhitespaceLoop_run json rest hrest ws (pos + 1) n
      (fun x hx => hws x (List.mem_cons_of_mem _ hx)) (drop_succ_of_drop h0)
      (by simp at hf; omega)
    refine ⟨p, ?_, d⟩
    simp [SkipWhitespaceLoop, hlt, getElem_of_drop h0 hlt, hws w (by simp), e]

theorem SkipWhitespace_run {json : List Char} {pos : Nat} {ws rest : List Char}
    (hws : ∀ w ∈ ws, isWhitespace w = true)
    (hrest : rest = [] ∨ ∃ c r, rest = c :: r ∧ isWhitespace c = false)
    (h : json.drop pos = ws ++ rest) :
    ∃ p, SkipWhitespace json pos = p ∧ json.drop p = rest :=
  SkipWhitespaceLoop_run json rest hrest ws pos _ hws h (by
    rw [length_sub_of_drop h]; simp)

/-- The root is rejected when, after leading whitespace, the text ends or
continues with a character other than `{`; `data` is left as it was. -/
theorem ParseAssemblyData_no_open (ws rest : List Char) (data : AssemblyData)
    (hws : ∀ w ∈ ws, isWhitespace w = true)
    (hrest : rest = [] ∨ ∃ c r, rest = c :: r ∧ isWhitespace c = false ∧ c ≠ '{') :
    ParseAssemblyData (ws ++ rest) data = (false, data) := by
  obtain ⟨json, hj⟩ : ∃ json, json = ws ++ rest := ⟨_, rfl⟩
  have h : json.drop 0 = ws ++ rest := by rw [List.drop_zero, hj]
  rw [← hj]
  rcases hrest with hr | ⟨c, r, hr, hcw, hc⟩
  · obtain ⟨p, e, d⟩ := SkipWhitespace_run hws (Or.inl hr) h
    rw [hr] at d
    simp [ParseAssemblyData, SimpleJsonParser.ParseAssemblyData, e,
      Expect_of_drop_nil d (show '{' ≠ '\x00' by decide)]
  · obtain ⟨p, e, d⟩ := SkipWhitespace_run hws (Or.inr ⟨c, r, hr, hcw⟩) h
    rw [hr] at d
    simp [ParseAssemblyData, SimpleJsonParser.ParseAssemblyData, e, Expect_of_drop_ne d hc]


/-! ## Skipping the value of an unrecognised key -/

theorem SkipNestedLoop_zero (o c : Char) (json : List Char) (fuel pos : Nat) :
    SkipNestedLoop o c json fuel pos 0 = pos := by
  cases fuel <;> simp [SkipNestedLoop]

/-- The loop of `SkipObject` / `SkipArray` over a properly nested text: it is
crossed with the depth it was entered with. -/
theorem SkipNestedLoop_balanced (o c : Char) (hoc : o ≠ c) (json rest : List Char) :
    ∀ (body : List Char) (d pos fuel k : Nat), balanced o c body d = true →
      json.drop pos = body ++ rest → 1 ≤ k →
      ∃ p, SkipNestedLoop o c json (fuel + body.length) pos ((k + d : Nat) : Int)
          = SkipNestedLoop o c json fuel p (k : Int)
        ∧ json.drop p = rest
  | [], d, pos, fuel, k, hb, h, _ => by
    have hd : d = 0 := by simpa [balanced] using hb
    subst hd
    exact ⟨pos, by simp, by simpa using h⟩
  | x :: xs, d, pos, fuel, k, hb, h, hk => by
    have h0 : json.drop pos = x :: (xs ++ rest) := by simpa using h
    have hlt := lt_length_of_drop h0
    have hx := getElem_of_drop h0 hlt
    have h1 := drop_succ_of_drop h0
    have hpos : ((k + d : Nat) : Int) > 0 := by omega
    have hstep : SkipNestedLoop o c json (fuel + (x :: xs).length) pos ((k + d : Nat) : Int)
        = SkipNestedLoop o c json (fuel + xs.length) (pos + 1)
            (if x = o then ((k + d : Nat) : Int) + 1
              else if x = c then ((k + d : Nat) : Int) - 1 else ((k + d : Nat) : Int)) := by
      have : fuel + (x :: xs).length = (fuel + xs.length) + 1 := by simp; omega
      rw [this]
      simp only [SkipNestedLoop, hlt, hx, dite_true, if_pos hpos]
    rw [hstep]
    by_cases hxo : x = o
    · simp only [balanced, hxo, if_true] at hb
      obtain ⟨p, e, dp⟩ := SkipNestedLoop_balanced o c hoc json rest xs (d + 1) (pos + 1) fuel k
        hb h1 hk
      refine ⟨p, ?_, dp⟩
      rw [if_pos hxo, ← e]
      congr 1
    · by_cases hxc : x = c
      · have hxo' : ¬ c = o := fun h => hoc h.symm
        simp only [balanced, hxc, hxo', if_false, if_true] at hb
        rw [Bool.and_eq_true, bne_iff_ne] at hb
        obtain ⟨p, e, dp⟩ := SkipNestedLoop_balanced o c hoc json rest xs (d - 1) (pos + 1) fuel k
          hb.2 h1 hk
        refine ⟨p, ?_, dp⟩
        rw [if_neg hxo, if_pos hxc, ← e]
        congr 1
        have := hb.1
        omega
      · simp only [balanced, hxo, hxc, if_false] at hb
        obtain ⟨p, e, dp⟩ := SkipNestedLoop_balanced o c hoc json rest xs d (pos + 1) fuel k
          hb h1 hk
        refine ⟨p, ?_, dp⟩
        rw [if_neg hxo, if_neg hxc, ← e]

/-- `Expect(o)` followed by the nesting loop on `o body c`, with `body`
properly nested: exactly that text is consumed. -/
theorem SkipNested_consumes (o c : Char) (hoc : o ≠ c) {json : List Char} {pos : Nat}
    {body rest : List Char} (hb : balanced o c body 0 = true)
    (h : json.drop pos = o :: (body ++ c :: rest)) :
    ∃ p, SkipNestedLoop o c json (json.length - (pos + 1)) (pos + 1) 1 = p
      ∧ json.drop p = rest := by
  have h1 := drop_succ_of_drop h
  obtain ⟨p, e, dp⟩ := SkipNestedLoop_balanced o c hoc json (c :: rest) body 0 (pos + 1)
    (rest.length + 1) 1 hb h1 (Nat.le_refl 1)
  have hf : json.length - (pos + 1) = rest.length + 1 + body.length := by
    rw [length_sub_of_drop h1]; simp; omega
  have hlt := lt_length_of_drop dp
  have hx := getElem_of_drop dp hlt
  refine ⟨p + 1, ?_, drop_succ_of_drop dp⟩
  rw [hf]
  have e' : SkipNestedLoop o c json (rest.length + 1 + body.length) (pos + 1) 1
      = SkipNestedLoop o c json (rest.length + 1) p 1 := by simpa using e
  rw [e']
  have hco : ¬ c = o := fun h => hoc h.symm
  simp [SkipNestedLoop, hlt, hx, hco, SkipNestedLoop_zero]

theorem ParseBool_true {json : List Char} {pos : Nat} {rest : List Char}
    (h : json.drop pos = "true".toList ++ rest) :
    ParseBool json pos = (true, pos + 4) ∧ json.drop (pos + 4) = rest := by
  refine ⟨?_, drop_add_of_drop "true".toList h⟩
  simp [ParseBool, compareEq, h]

theorem ParseBool_false {json : List Char} {pos : Nat} {rest : List Char}
    (h : json.drop pos = "false".toList ++ rest) :
    ParseBool json pos = (false, pos + 5) ∧ json.drop (pos + 5) = rest := by
  refine ⟨?_, drop_add_of_drop "false".toList h⟩
  simp [ParseBool, compareEq, h]

/-- `ParseBool` does nothing when the cursor is on a character other than
`t` and `f`. -/
theorem ParseBool_of_drop_ne {json : List Char} {pos : Nat} {c : Char} {rest : List Char}
    (h : json.drop pos = c :: rest) (ht : c ≠ 't') (hf : c ≠ 'f') :
    ParseBool json pos = (false, pos) := by
  simp [ParseBool, compareEq, h, ht, hf]

/-- `SkipValue` consumes exactly a value of the covered kinds. -/
theorem SkipValue_consumes {json : List Char} {pos : Nat} {v rest : List Char}
    (hv : SkippableValue v) (h : json.drop pos = v ++ rest) :
    ∃ p, SkipValue json pos = p ∧ json.drop p = rest := by
  cases hv with
  | string body hb =>
    have h0 : json.drop pos = '"' :: (body ++ '"' :: rest) := by simpa using h
    refine ⟨pos + (body.length + 2), ?_, ?_⟩
    · simp [SkipValue, SkipWhitespace_of_drop h0 isWhitespace_quote, Peek_of_drop h0,
        ParseString_body h0 hb]
    · have := drop_add_of_drop ('"' :: (body ++ ['"'])) (r := rest) (by simpa using h)
      simpa using this
  | object body hb =>
    have h0 : json.drop pos = '{' :: (body ++ '}' :: rest) := by simpa using h
    obtain ⟨p, e, dp⟩ := SkipNested_consumes '{' '}' (by decide) hb h0
    refine ⟨p, ?_, dp⟩
    simp [SkipValue, SkipWhitespace_of_drop h0 isWhitespace_lbrace, Peek_of_drop h0,
      SkipObject, Expect_of_drop h0, e]
  | array body hb =>
    have h0 : json.drop pos = '[' :: (body ++ ']' :: rest) := by simpa using h
    obtain ⟨p, e, dp⟩ := SkipNested_consumes '[' ']' (by decide) hb h0
    refine ⟨p, ?_, dp⟩
    simp [SkipValue, SkipWhitespace_of_drop h0 isWhitespace_lbracket, Peek_of_drop h0,
      SkipArray, Expect_of_drop h0, e]
  | true =>
    have h0 : json.drop pos = 't' :: ("rue".toList ++ rest) := by simpa using h
    obtain ⟨e, d⟩ := ParseBool_true h
    refine ⟨pos + 4, ?_, d⟩
    simp [SkipValue, SkipWhitespace_of_drop h0 (by decide), Peek_of_drop h0, e]
  | false =>
    have h0 : json.drop pos = 'f' :: ("alse".toList ++ rest) := by simpa using h
    obtain ⟨e, d⟩ := ParseBool_false h
    refine ⟨pos + 5, ?_, d⟩
    simp [SkipValue, SkipWhitespace_of_drop h0 (by decide), Peek_of_drop h0, e]

theorem SkippableValue_ne_nil {v : List Char} (hv : SkippableValue v) :
    ∃ c r, v = c :: r ∧ isWhitespace c = false := by
  cases hv with
  | string body hb => exact ⟨_, _, rfl, by decide⟩
  | object body hb => exact ⟨_, _, rfl, by decide⟩
  | array body hb => exact ⟨_, _, rfl, by decide⟩
  | true => exact ⟨'t', "rue".toList, by simp, by decide⟩
  | false => exact ⟨'f', "alse".toList, by simp, by decide⟩

/-! ## The members of the root object -/

theorem AssemblyMember_unknown {json : List Char} {p : Nat} {k v rest : List Char}
    (data : AssemblyData) (hk : unknownRootKey k) (hv : SkippableValue v)
    (h : json.drop p = v ++ rest) :
    ∃ q, AssemblyMember json k (SkipWhitespace json p) data = (true, q, data)
      ∧ json.drop q = rest := by
  obtain ⟨c, r, hc, hws⟩ := SkippableValue_ne_nil hv
  have h0 : json.drop p = c :: (r ++ rest) := by rw [h, hc]; rfl
  obtain ⟨q, e, dq⟩ := SkipValue_consumes hv h
  refine ⟨q, ?_, dq⟩
  rw [SkipWhitespace_of_drop h0 hws]
  obtain ⟨hk1, hk2, hk3⟩ := hk
  rw [AssemblyMember, if_neg hk1, if_neg hk2, if_neg hk3, e]

theorem AssemblyMember_assemblyName {json : List Char} {p : Nat} {x rest : List Char}
    (data : AssemblyData) (hx : plain x) (h : json.drop p = quote x ++ rest) :
    ∃ q, AssemblyMember json "assemblyName".toList (SkipWhitespace json p) data
        = (true, q, { data with assemblyName := x })
      ∧ json.drop q = rest := by
  have h0 : json.drop p = '"' :: (x ++ '"' :: rest) := by simpa [quote] using h
  obtain ⟨q, e, dq⟩ := ParseString_consumes h0 hx
  refine ⟨q, ?_, dq⟩
  rw [SkipWhitespace_of_drop h0 isWhitespace_quote]
  simp [AssemblyMember, e]

theorem AssemblyMember_timestamp {json : List Char} {p : Nat} {x rest : List Char}
    (data : AssemblyData) (hx : plain x) (h : json.drop p = quote x ++ rest) :
    ∃ q, AssemblyMember json "timestamp".toList (SkipWhitespace json p) data
        = (true, q, { data with timestamp := x })
      ∧ json.drop q = rest := by
  have h0 : json.drop p = '"' :: (x ++ '"' :: rest) := by simpa [quote] using h
  obtain ⟨q, e, dq⟩ := ParseString_consumes h0 hx
  refine ⟨q, ?_, dq⟩
  rw [SkipWhitespace_of_drop h0 isWhitespace_quote]
  simp [AssemblyMember, e]

theorem AssemblyMember_types {json : List Char} {p : Nat} {rest : List Char}
    (data : AssemblyData) (names : List (List Char)) (hpl : ∀ n ∈ names, plain n)
    (h : json.drop p = arrayOf (names.map nameObject) ++ rest) :
    ∃ q, AssemblyMember json "types".toList (SkipWhitespace json p) data
        = (true, q, { data with types := data.types ++ names.map (fun n => { name := n }) })
      ∧ json.drop q = rest := by
  have h0 : json.drop p = '[' :: (commaSep (names.map nameObject) ++ ']' :: rest) := by
    simpa [arrayOf] using h
  obtain ⟨q, e, dq⟩ := ParseTypesArray_names (']' :: rest) (Or.inr ⟨_, rfl⟩) names
    data.types hpl h0
  refine ⟨q, ?_, dq⟩
  rw [SkipWhitespace_of_drop h0 isWhitespace_lbracket]
  simp [AssemblyMember, e]

/-- `ParseAssemblyData` on a root object `{"k1":v1,"k2":v2}`, given what the
key dispatch does on each value. -/
theorem ParseAssemblyData_two {json k1 r1 k2 r2 : List Char}
    (data data1 data2 : AssemblyData)
    (hj : json = '{' :: '"' :: (k1 ++ '"' :: ':' :: r1)) (hk1 : plain k1) (hk2 : plain k2)
    (hm1 : ∀ p, json.drop p = r1 →
      ∃ q, AssemblyMember json k1 (SkipWhitespace json p) data = (true, q, data1)
        ∧ json.drop q = ',' :: '"' :: (k2 ++ '"' :: ':' :: r2))
    (hm2 : ∀ p, json.drop p = r2 →
      ∃ q, AssemblyMember json k2 (SkipWhitespace json p) data1 = (true, q, data2)
        ∧ json.drop q = ['}']) :
    ParseAssemblyData json data = (true, data2) := by
  have h : json.drop 0 = '{' :: '"' :: (k1 ++ '"' :: ':' :: r1) := by rw [List.drop_zero, hj]
  have h1 := drop_succ_of_drop h
  obtain ⟨p2, d2, step1⟩ := ParseAssemblyDataLoop_key h1 hk1
  obtain ⟨p3, e3, d3⟩ := hm1 p2 d2
  obtain ⟨e4, d4⟩ := separator_comma d3
  obtain ⟨p5, d5, step2⟩ := ParseAssemblyDataLoop_key d4 hk2
  obtain ⟨p6, e6, d6⟩ := hm2 p5 d5
  have hlen : 3 ≤ ('"' :: (k1 ++ '"' :: ':' :: r1)).length := by simp; omega
  obtain ⟨f, hf⟩ := fuel_ge_three h1 hlen
  simp only [ParseAssemblyData, SimpleJsonParser.ParseAssemblyData,
    SkipWhitespace_of_drop h isWhitespace_lbrace, Expect_of_drop h, hf]
  rw [step1, e3]
  simp only [e4]
  rw [step2, e6]
  simp only [separator_none d6 isWhitespace_rbrace (by decide),
    ParseAssemblyDataLoop_close _ _ d6]


/-! ## Root objects with one or two members -/

theorem twoMembers_eq (k1 v1 k2 v2 : List Char) :
    twoMembers k1 v1 k2 v2
      = '{' :: '"' :: (k1 ++ '"' :: ':' :: (v1 ++ ',' :: '"' :: (k2 ++ '"' :: ':' :: (v2 ++ ['}']))))
    := by
  simp [twoMembers, quote]

/-- An unrecognised member followed by a member that the key dispatch
handles as `hr` says. -/
theorem ParseAssemblyData_unknown_first {k v key value : List Char} {data1 : AssemblyData}
    (hk : plain k) (hku : unknownRootKey k) (hv : SkippableValue v) (hkey : plain key)
    (hr : ∀ (json : List Char) (p : Nat), json.drop p = value ++ ['}'] →
      ∃ q, AssemblyMember json key (SkipWhitespace json p) {} = (true, q, data1)
        ∧ json.drop q = ['}']) :
    ParseAssemblyData (twoMembers k v key value) {} = (true, data1) := by
  refine @ParseAssemblyData_two _ _ _ _ (value ++ ['}']) {} {} data1
    (twoMembers_eq k v key value) hk hkey ?_ ?_
  · intro p dp
    exact AssemblyMember_unknown {} hku hv dp
  · intro p dp
    exact hr _ p dp

/-- A member that the key dispatch handles as `hr` says, followed by an
unrecognised member. -/
theorem ParseAssemblyData_unknown_last {k v key value : List Char} {data1 : AssemblyData}
    (hk : plain k) (hku : unknownRootKey k) (hv : SkippableValue v) (hkey : plain key)
    (hr : ∀ (json : List Char) (p : Nat) (rest : List Char), json.drop p = value ++ rest →
      ∃ q, AssemblyMember json key (SkipWhitespace json p) {} = (true, q, data1)
        ∧ json.drop q = rest) :
    ParseAssemblyData (twoMembers key value k v) {} = (true, data1) := by
  refine @ParseAssemblyData_two _ _ _ _ (v ++ ['}']) {} data1 data1
    (twoMembers_eq key value k v) hkey hk ?_ ?_
  · intro p dp
    exact hr _ p _ dp
  · intro p dp
    exact AssemblyMember_unknown data1 hku hv dp

theorem ParseAssemblyData_unclosed_assemblyName (x : List Char) (hx : plain x) :
    ParseAssemblyData ("\x7b\"assemblyName\":".toList ++ quote x) {}
      = (true, { assemblyName := x }) := by
  have e : "\x7b\"assemblyName\":".toList ++ quote x
      = '{' :: '"' :: ("assemblyName".toList ++ '"' :: ':' :: (quote x ++ [])) := by
    simp
  obtain ⟨json, hj⟩ : ∃ json, json = "\x7b\"assemblyName\":".toList ++ quote x := ⟨_, rfl⟩
  rw [← hj]
  refine ParseAssemblyData_single [] (Or.inl rfl) _ _ (hj.trans e) (by decide) ?_
  intro p2 d2
  exact AssemblyMember_assemblyName {} hx d2

theorem ParseAssemblyData_unclosed_types (names : List (List Char))
    (hpl : ∀ n ∈ names, plain n) :
    ParseAssemblyData ("\x7b\"types\":[".toList ++ commaSep (names.map nameObject)) {}
      = (true, { types := names.map (fun n => { name := n }) }) := by
  have e : "\x7b\"types\":[".toList ++ commaSep (names.map nameObject)
      = '{' :: '"' :: ("types".toList ++ '"' :: ':'
        :: ('[' :: (commaSep (names.map nameObject) ++ []))) := by
    simp
  obtain ⟨json, hj⟩ : ∃ json, json = "\x7b\"types\":[".toList ++ commaSep (names.map nameObject) :=
    ⟨_, rfl⟩
  rw [← hj]
  refine ParseAssemblyData_single [] (Or.inl rfl) _ _ (hj.trans e) (by decide) ?_
  intro p2 d2
  obtain ⟨p3, e3, d3⟩ := ParseTypesArray_names [] (Or.inl rfl) names [] hpl d2
  refine ⟨p3, ?_, d3⟩
  rw [SkipWhitespace_of_drop d2 isWhitespace_lbracket]
  simp [AssemblyMember, e3]

/-- `ParseString` on a literal that holds `\u` and four characters. -/
theorem ParseString_unicode (s1 s2 rest : List Char) (x1 x2 x3 x4 : Char)
    (hs1 : wellFormedBody s1 = true) (hs2 : wellFormedBody s2 = true)
    (hx : plain [x1, x2, x3, x4]) :
    ParseString ('"' :: (s1 ++ '\\' :: 'u' :: x1 :: x2 :: x3 :: x4 :: (s2 ++ '"' :: rest))) 0
      = (decodeBody s1 ++ 'u' :: x1 :: x2 :: x3 :: x4 :: decodeBody s2,
          s1.length + s2.length + 8) := by
  have hw2 : wellFormedBody ([x1, x2, x3, x4] ++ s2) = true :=
    wellFormedBody_append s2 hs2 _ (wellFormedBody_of_plain _ hx)
  have hd2 : decodeBody ([x1, x2, x3, x4] ++ s2) = [x1, x2, x3, x4] ++ decodeBody s2 := by
    rw [decodeBody_append s2 _ (wellFormedBody_of_plain _ hx), decodeBody_of_plain _ hx]
  obtain ⟨hw3, hd3⟩ := escape_cons 'u' ([x1, x2, x3, x4] ++ s2) hw2
  have hw : wellFormedBody (s1 ++ '\\' :: 'u' :: ([x1, x2, x3, x4] ++ s2)) = true :=
    wellFormedBody_append _ hw3 s1 hs1
  have hd : decodeBody (s1 ++ '\\' :: 'u' :: ([x1, x2, x3, x4] ++ s2))
      = decodeBody s1 ++ 'u' :: x1 :: x2 :: x3 :: x4 :: decodeBody s2 := by
    rw [decodeBody_append _ s1 hs1, hd3, hd2]
    simp [unescape]
  have h : ('"' :: (s1 ++ '\\' :: 'u' :: x1 :: x2 :: x3 :: x4 :: (s2 ++ '"' :: rest))).drop 0
      = '"' :: ((s1 ++ '\\' :: 'u' :: ([x1, x2, x3, x4] ++ s2)) ++ '"' :: rest) := by
    simp
  rw [ParseString_body h hw, hd]
  simp
  omega


/-! ## Values of the wrong type -/

/-- What the decoder needs of the first character of a number, of `null`,
of `true` or of `false` when it reads it where a string is expected. -/
theorem not_string_start {c : Char} (hc : startsNumberOrNull c ∨ startsBool c) :
    isWhitespace c = false ∧ c ≠ '"' ∧ c ≠ ',' ∧ c ≠ '}' ∧ c ≠ ':' := by
  rcases hc with (hd | rfl | rfl) | (rfl | rfl)
  · refine ⟨?_, ?_, ?_, ?_, ?_⟩
    · cases hw : isWhitespace c
      · rfl
      · simp only [isWhitespace, Bool.or_eq_true, decide_eq_true_eq] at hw
        rcases hw with ((rfl | rfl) | rfl) | rfl <;> exact absurd hd (by decide)
    all_goals (rintro rfl; exact absurd hd (by decide))
  all_goals decide

theorem not_bool_start {c : Char} (hc : startsNumberOrNull c) : c ≠ 't' ∧ c ≠ 'f' := by
  rcases hc with hd | rfl | rfl
  · constructor <;> (rintro rfl; exact absurd hd (by decide))
  all_goals decide

theorem wrongScalar_start {kind : ObjectKind} {key : List Char} {c : Char}
    (h : wrongScalar kind key c) :
    isWhitespace c = false ∧ c ≠ '"' ∧ c ≠ ',' ∧ c ≠ '}' ∧ c ≠ ':' := by
  rcases h with ⟨_, hc⟩ | ⟨_, hc⟩
  · exact not_string_start hc
  · exact not_string_start (Or.inl hc)

theorem plain_of_mem_keys {kind : ObjectKind} {key : List Char}
    (h : key ∈ stringKeys kind ∨ key ∈ boolKeys kind) : plain key := by
  cases kind <;>
    simp only [stringKeys, boolKeys, List.mem_cons, List.mem_singleton, List.not_mem_nil,
      or_false, false_or] at h <;>
    rcases h with (h | h) <;> (try rcases h with rfl | rfl | rfl | rfl) <;>
    decide

theorem wrongScalar_plain {kind : ObjectKind} {key : List Char} {c : Char}
    (h : wrongScalar kind key c) : plain key := by
  rcases h with ⟨hk, _⟩ | ⟨hk, _⟩
  · exact plain_of_mem_keys (Or.inl hk)
  · exact plain_of_mem_keys (Or.inr hk)

/-! ### The key dispatch leaves the cursor on the value -/

theorem AssemblyMember_stays {json : List Char} {p : Nat} {key : List Char} {c : Char}
    {rest : List Char} (data : AssemblyData) (h : wrongScalar ObjectKind.root key c)
    (d : json.drop p = c :: rest) :
    (AssemblyMember json key p data).1 = true ∧ (AssemblyMember json key p data).2.1 = p := by
  obtain ⟨_, hq, _, _, _⟩ := wrongScalar_start h
  rcases h with ⟨hk, _⟩ | ⟨hk, _⟩
  · simp only [stringKeys, List.mem_cons, List.mem_singleton, List.not_mem_nil,
      or_false] at hk
    rcases hk with rfl | rfl <;> simp [AssemblyMember, ParseString_of_drop_ne d hq]
  · simp [boolKeys] at hk

theorem TypeMember_stays {json : List Char} {p : Nat} {key : List Char} {c : Char}
    {rest : List Char} (type : TypeInfo) (h : wrongScalar ObjectKind.type key c)
    (d : json.drop p = c :: rest) : (TypeMember json key p type).1 = p := by
  obtain ⟨_, hq, _, _, _⟩ := wrongScalar_start h
  rcases h with ⟨hk, _⟩ | ⟨hk, hc⟩
  · simp only [stringKeys, List.mem_cons, List.mem_singleton, List.not_mem_nil,
      or_false] at hk
    rcases hk with rfl | rfl | rfl | rfl <;> simp [TypeMember, ParseString_of_drop_ne d hq]
  · obtain ⟨ht, hf⟩ := not_bool_start hc
    simp only [boolKeys, List.mem_cons, List.mem_singleton, List.not_mem_nil,
      or_false] at hk
    rcases hk with rfl | rfl | rfl | rfl <;> simp [TypeMember, ParseBool_of_drop_ne d ht hf]

theorem FieldMember_stays {json : List Char} {p : Nat} {key : List Char} {c : Char}
    {rest : List Char} (field : FieldInfo) (h : wrongScalar ObjectKind.field key c)
    (d : json.drop p = c :: rest) : (FieldMember json key p field).1 = p := by
  obtain ⟨_, hq, _, _, _⟩ := wrongScalar_start h
  rcases h with ⟨hk, _⟩ | ⟨hk, hc⟩
  · simp only [stringKeys, List.mem_cons, List.mem_singleton, List.not_mem_nil,
      or_false] at hk
    rcases hk with rfl | rfl <;> simp [FieldMember, ParseString_of_drop_ne d hq]
  · obtain ⟨ht, hf⟩ := not_bool_start hc
    simp only [boolKeys, List.mem_cons, List.mem_singleton, List.not_mem_nil,
      or_false] at hk
    rcases hk with rfl | rfl | rfl <;> simp [FieldMember, ParseBool_of_drop_ne d ht hf]

theorem MethodMember_stays {json : List Char} {p : Nat} {key : List Char} {c : Char}
    {rest : List Char} (method : MethodInfo) (h : wrongScalar ObjectKind.method key c)
    (d : json.drop p = c :: rest) : (MethodMember json key p method).1 = p := by
  obtain ⟨_, hq, _, _, _⟩ := wrongScalar_start h
  rcases h with ⟨hk, _⟩ | ⟨hk, hc⟩
  · simp only [stringKeys, List.mem_cons, List.mem_singleton, List.not_mem_nil,
      or_false] at hk
    rcases hk with rfl | rfl <;> simp [MethodMember, ParseString_of_drop_ne d hq]
  · obtain ⟨ht, hf⟩ := not_bool_start hc
    simp only [boolKeys, List.mem_cons, List.mem_singleton, List.not_mem_nil,
      or_false] at hk
    rcases hk with rfl | rfl <;> simp [MethodMember, ParseBool_of_drop_ne d ht hf]

theorem PropertyMember_stays {json : List Char} {p : Nat} {key : List Char} {c : Char}
    {rest : List Char} (prop : PropertyInfo) (h : wrongScalar ObjectKind.property key c)
    (d : json.drop p = c :: rest) : (PropertyMember json key p prop).1 = p := by
  obtain ⟨_, hq, _, _, _⟩ := wrongScalar_start h
  rcases h with ⟨hk, _⟩ | ⟨hk, hc⟩
  · simp only [stringKeys, List.mem_cons, List.mem_singleton, List.not_mem_nil,
      or_false] at hk
    rcases hk with rfl | rfl <;> simp [PropertyMember, ParseString_of_drop_ne d hq]
  · obtain ⟨ht, hf⟩ := not_bool_start hc
    simp only [boolKeys, List.mem_cons, List.mem_singleton, List.not_mem_nil,
      or_false] at hk
    rcases hk with rfl | rfl <;> simp [PropertyMember, ParseBool_of_drop_ne d ht hf]

theorem ParameterMember_stays {json : List Char} {p : Nat} {key : List Char} {c : Char}
    {rest : List Char} (param : ParameterInfo) (h : wrongScalar ObjectKind.parameter key c)
    (d : json.drop p = c :: rest) : (ParameterMember json key p param).1 = p := by
  obtain ⟨_, hq, _, _, _⟩ := wrongScalar_start h
  rcases h with ⟨hk, _⟩ | ⟨hk, hc⟩
  · simp only [stringKeys, List.mem_cons, List.mem_singleton, List.not_mem_nil,
      or_false] at hk
    rcases hk with rfl | rfl <;> simp [ParameterMember, ParseString_of_drop_ne d hq]
  · simp [boolKeys] at hk

/-- A boolean-typed key given a string literal: `ParseBool` leaves the cursor
on the opening quote. -/
theorem boolMember_stays {json : List Char} {p : Nat} {rest : List Char}
    (d : json.drop p = '"' :: rest) : (ParseBool json p).2 = p := by
  rw [ParseBool_of_drop_ne d (by decide) (by decide)]

/-- The root loop on `"assemblyName":` or `"timestamp":` followed by a value
that does not start with a quote. -/
theorem ParseAssemblyDataLoop_wrong_scalar {json : List Char} {pos : Nat} {key : List Char}
    {c : Char} {rest : List Char} (fuel : Nat) (data : AssemblyData)
    (hw : wrongScalar ObjectKind.root key c)
    (h : json.drop pos = quote key ++ ':' :: c :: rest) :
    (ParseAssemblyDataLoop json (fuel + 2) pos data).1 = false := by
  obtain ⟨hws, hq, hcomma, hbrace, hcol⟩ := wrongScalar_start hw
  have h0 : json.drop pos = '"' :: (key ++ '"' :: ':' :: c :: rest) := by
    simpa [quote] using h
  obtain ⟨p, d, step⟩ := ParseAssemblyDataLoop_key h0 (wrongScalar_plain hw)
  obtain ⟨m1, m2⟩ := AssemblyMember_stays data hw d
  have hm : AssemblyMember json key (SkipWhitespace json p) data
      = (true, p, (AssemblyMember json key p data).2.2) := by
    rw [SkipWhitespace_of_drop d hws]
    exact Prod.ext m1 (Prod.ext m2 rfl)
  rw [step, hm]
  simp only [separator_none d hws hcomma]
  rw [ParseAssemblyDataLoop_nokey fuel _ d hws hq hbrace hcol]

/-- A root object that opens with `"types":[{` and a text on which the loop
of `ParseTypeInfo` fails is rejected. -/
theorem ParseAssemblyData_first_type_false (t : List Char) (data : AssemblyData)
    (ht : 2 ≤ t.length)
    (hloop : ∀ (json : List Char) (pos fuel : Nat) (type : TypeInfo), json.drop pos = t →
      (ParseTypeInfoLoop json (fuel + 2) pos type).1 = false) :
    (ParseAssemblyData ("\x7b\"types\":[\x7b".toList ++ t) data).1 = false := by
  obtain ⟨json, hj⟩ : ∃ json, json = "\x7b\"types\":[\x7b".toList ++ t := ⟨_, rfl⟩
  rw [← hj]
  have h : json.drop 0 = '{' :: '"' :: ("types".toList ++ '"' :: ':' :: '[' :: '{' :: t) := by
    rw [List.drop_zero, hj]; simp
  have h1 := drop_succ_of_drop h
  obtain ⟨p2, d2, step⟩ := ParseAssemblyDataLoop_key h1 (by decide)
  have d3 := drop_succ_of_drop d2
  have d4 := drop_succ_of_drop d3
  obtain ⟨f4, hf4⟩ := fuel_ge_two d4 ht
  have e4 : (ParseTypeInfo json (p2 + 1) {}).1 = false := by
    rw [ParseTypeInfo, Expect_of_drop d3]
    simp only [hf4]
    exact hloop json _ f4 {} d4
  obtain ⟨f3, hf3⟩ := fuel_ge_two d3 (by simp; omega)
  have e3 : (ParseTypesArray json p2 data.types).1 = false := by
    rw [ParseTypesArray, Expect_of_drop d2]
    simp only [hf3]
    rw [ParseTypesArrayLoop_elem_false (p := (ParseTypeInfo json (p2 + 1) {}).2.1)
      (x := (ParseTypeInfo json (p2 + 1) {}).2.2) _ _ d3 isWhitespace_lbrace (by decide)
      (Prod.ext e4 rfl)]
  obtain ⟨f, hf⟩ := fuel_ge_two h1 (by simp)
  have hm : (AssemblyMember json "types".toList (SkipWhitespace json p2) data).1 = false := by
    rw [SkipWhitespace_of_drop d2 isWhitespace_lbracket]
    simp [AssemblyMember, e3]
  simp only [ParseAssemblyData, SimpleJsonParser.ParseAssemblyData,
    SkipWhitespace_of_drop h isWhitespace_lbrace, Expect_of_drop h, hf]
  rw [step]
  generalize AssemblyMember json "types".toList (SkipWhitespace json p2) data = r at hm
  obtain ⟨b, q, dd⟩ := r
  simp only at hm
  subst hm
  rfl

/-- A root object that opens with a text on which the root loop fails is
rejected. -/
theorem ParseAssemblyData_first_member_false (t : List Char) (data : AssemblyData)
    (ht : 2 ≤ t.length)
    (hloop : ∀ (json : List Char) (pos fuel : Nat) (data : AssemblyData), json.drop pos = t →
      (ParseAssemblyDataLoop json (fuel + 2) pos data).1 = false) :
    (ParseAssemblyData ('{' :: t) data).1 = false := by
  obtain ⟨json, hj⟩ : ∃ json, json = '{' :: t := ⟨_, rfl⟩
  rw [← hj]
  have h : json.drop 0 = '{' :: t := by rw [List.drop_zero, hj]
  have h1 := drop_succ_of_drop h
  obtain ⟨f, hf⟩ := fuel_ge_two h1 ht
  simp only [ParseAssemblyData, SimpleJsonParser.ParseAssemblyData,
    SkipWhitespace_of_drop h isWhitespace_lbrace, Expect_of_drop h, hf]
  exact hloop json _ f data h1


/-! ## A value of the wrong type in each kind of object -/

/-- The loop of `ParseTypeInfo` on a recognised key followed by a number, `null`,
`true` or `false` that its type does not admit: the loop returns `false`
with the cursor on the value. -/
theorem ParseTypeInfoLoop_wrong_scalar {json : List Char} {pos : Nat} {key : List Char}
    {c : Char} {rest : List Char} (fuel : Nat) (type : TypeInfo)
    (hw : wrongScalar ObjectKind.type key c)
    (h : json.drop pos = quote key ++ ':' :: c :: rest) :
    ∃ q x, ParseTypeInfoLoop json (fuel + 2) pos type = (false, q, x) ∧ json.drop q = c :: rest := by
  obtain ⟨hws, hq, hcomma, hb, hcol⟩ := wrongScalar_start hw
  have h0 : json.drop pos = '"' :: (key ++ '"' :: ':' :: c :: rest) := by
    simpa [quote] using h
  refine ParseTypeInfoLoop_member_fail fuel type h0 (wrongScalar_plain hw) (fun p d => ?_) hws hq hcomma
    hb hcol
  rw [SkipWhitespace_of_drop d hws, TypeMember_stays type hw d]
  exact d

/-- `ParseTypeInfo` on an object that opens with a recognised key followed by a
number, `null`, `true` or `false` that its type does not admit. -/
theorem ParseTypeInfo_wrong_scalar {json : List Char} {pos : Nat} {key : List Char}
    {c : Char} {rest : List Char} (type : TypeInfo)
    (hw : wrongScalar ObjectKind.type key c)
    (h : json.drop pos = '{' :: (quote key ++ ':' :: c :: rest)) :
    ∃ q x, ParseTypeInfo json pos type = (false, q, x) ∧ json.drop q = c :: rest := by
  obtain ⟨hws, hq, hcomma, hb, hcol⟩ := wrongScalar_start hw
  have h0 : json.drop pos = '{' :: '"' :: (key ++ '"' :: ':' :: c :: rest) := by
    simpa [quote] using h
  refine ParseTypeInfo_member_fail type h0 (wrongScalar_plain hw) (fun p d => ?_) hws hq hcomma
    hb hcol
  rw [SkipWhitespace_of_drop d hws, TypeMember_stays type hw d]
  exact d

/-- The loop of `ParseTypeInfo` on a boolean-typed key followed by a string
literal and then `,` or `}`: the literal is read as the next key, no colon
follows it, and the loop returns `false`. -/
theorem ParseTypeInfoLoop_bool_string {json : List Char} {pos : Nat} {key s : List Char}
    {c : Char} {rest : List Char} (fuel : Nat) (type : TypeInfo)
    (hkey : key ∈ boolKeys ObjectKind.type) (hs : plain s) (hc : c = ',' ∨ c = '}')
    (h : json.drop pos = quote key ++ ':' :: (quote s ++ c :: rest)) :
    (ParseTypeInfoLoop json (fuel + 2) pos type).1 = false := by
  have hcw : isWhitespace c = false ∧ c ≠ ':' := by
    rcases hc with rfl | rfl <;> decide
  have h0 : json.drop pos = '"' :: (key ++ '"' :: ':' :: '"' :: (s ++ '"' :: c :: rest)) := by
    simpa [quote] using h
  obtain ⟨p, d, step⟩ := ParseTypeInfoLoop_key h0 (plain_of_mem_keys (Or.inr hkey))
  have hm : TypeMember json key (SkipWhitespace json p) type
      = (p, (TypeMember json key p type).2) := by
    rw [SkipWhitespace_of_drop d isWhitespace_quote]
    refine Prod.ext ?_ rfl
    simp only [boolKeys, List.mem_cons, List.mem_singleton, List.not_mem_nil,
      or_false] at hkey
    rcases hkey with rfl | rfl | rfl | rfl <;> simp [TypeMember, boolMember_stays d]
  rw [step, hm]
  simp only [separator_none d isWhitespace_quote (by decide)]
  obtain ⟨q, e⟩ := ParseTypeInfoLoop_key_nocolon fuel (TypeMember json key p type).2 d hs hcw.1 hcw.2
  rw [e]

/-- The loop of `ParseFieldInfo` on a recognised key followed by a number, `null`,
`true` or `false` that its type does not admit: the loop returns `false`
with the cursor on the value. -/
theorem ParseFieldInfoLoop_wrong_scalar {json : List Char} {pos : Nat} {key : List Char}
    {c : Char} {rest : List Char} (fuel : Nat) (field : FieldInfo)
    (hw : wrongScalar ObjectKind.field key c)
    (h : json.drop pos = quote key ++ ':' :: c :: rest) :
    ∃ q x, ParseFieldInfoLoop json (fuel + 2) pos field = (false, q, x) ∧ json.drop q = c :: rest := by
  obtain ⟨hws, hq, hcomma, hb, hcol⟩ := wrongScalar_start hw
  have h0 : json.drop pos = '"' :: (key ++ '"' :: ':' :: c :: rest) := by
    simpa [quote] using h
  refine ParseFieldInfoLoop_member_fail fuel field h0 (wrongScalar_plain hw) (fun p d => ?_) hws hq hcomma
    hb hcol
  rw [SkipWhitespace_of_drop d hws, FieldMember_stays field hw d]
  exact d

/-- `ParseFieldInfo` on an object that opens with a recognised key followed by a
number, `null`, `true` or `false` that its type does not admit. -/
theorem ParseFieldInfo_wrong_scalar {json : List Char} {pos : Nat} {key : List Char}
    {c : Char} {rest : List Char} (field : FieldInfo)
    (hw : wrongScalar ObjectKind.field key c)
    (h : json.drop pos = '{' :: (quote key ++ ':' :: c :: rest)) :
    ∃ q x, ParseFieldInfo json pos field = (false, q, x) ∧ json.drop q = c :: rest := by
  obtain ⟨hws, hq, hcomma, hb, hcol⟩ := wrongScalar_start hw
  have h0 : json.drop pos = '{' :: '"' :: (key ++ '"' :: ':' :: c :: rest) := by
    simpa [quote] using h
  refine ParseFieldInfo_member_fail field h0 (wrongScalar_plain hw) (fun p d => ?_) hws hq hcomma
    hb hcol
  rw [SkipWhitespace_of_drop d hws, FieldMember_stays field hw d]
  exact d

/-- The loop of `ParseFieldInfo` on a boolean-typed key followed by a string
literal and then `,` or `}`: the literal is read as the next key, no colon
follows it, and the loop returns `false`. -/
theorem ParseFieldInfoLoop_bool_string {json : List Char} {pos : Nat} {key s : List Char}
    {c : Char} {rest : List Char} (fuel : Nat) (field : FieldInfo)
    (hkey : key ∈ boolKeys ObjectKind.field) (hs : plain s) (hc : c = ',' ∨ c = '}')
    (h : json.drop pos = quote key ++ ':' :: (quote s ++ c :: rest)) :
    (ParseFieldInfoLoop json (fuel + 2) pos field).1 = false := by
  have hcw : isWhitespace c = false ∧ c ≠ ':' := by
    rcases hc with rfl | rfl <;> decide
  have h0 : json.drop pos = '"' :: (key ++ '"' :: ':' :: '"' :: (s ++ '"' :: c :: rest)) := by
    simpa [quote] using h
  obtain ⟨p, d, step⟩ := ParseFieldInfoLoop_key h0 (plain_of_mem_keys (Or.inr hkey))
  have hm : FieldMember json key (SkipWhitespace json p) field
      = (p, (FieldMember json key p field).2) := by
    rw [SkipWhitespace_of_drop d isWhitespace_quote]
    refine Prod.ext ?_ rfl
    simp only [boolKeys, List.mem_cons, List.mem_singleton, List.not_mem_nil,
      or_false] at hkey
    rcases hkey with rfl | rfl | rfl <;> simp [FieldMember, boolMember_stays d]
  rw [step, hm]
  simp only [separator_none d isWhitespace_quote (by decide)]
  obtain ⟨q, e⟩ := ParseFieldInfoLoop_key_nocolon fuel (FieldMember json key p field).2 d hs hcw.1 hcw.2
  rw [e]

/-- The loop of `ParseMethodInfo` on a recognised key followed by a number, `null`,
`true` or `false` that its type does not admit: the loop returns `false`
with the cursor on the value. -/
theorem ParseMethodInfoLoop_wrong_scalar {json : List Char} {pos : Nat} {key : List Char}
    {c : Char} {rest : List Char} (fuel : Nat) (method : MethodInfo)
    (hw : wrongScalar ObjectKind.method key c)
    (h : json.drop pos = quote key ++ ':' :: c :: rest) :
    ∃ q x, ParseMethodInfoLoop json (fuel + 2) pos method = (false, q, x) ∧ json.drop q = c :: rest := by
  obtain ⟨hws, hq, hcomma, hb, hcol⟩ := wrongScalar_start hw
  have h0 : json.drop pos = '"' :: (key ++ '"' :: ':' :: c :: rest) := by
    simpa [quote] using h
  refine ParseMethodInfoLoop_member_fail fuel method h0 (wrongScalar_plain hw) (fun p d => ?_) hws hq hcomma
    hb hcol
  rw [SkipWhitespace_of_drop d hws, MethodMember_stays method hw d]
  exact d

/-- `ParseMethodInfo` on an object that opens with a recognised key followed by a
number, `null`, `true` or `false` that its type does not admit. -/
theorem ParseMethodInfo_wrong_scalar {json : List Char} {pos : Nat} {key : List Char}
    {c : Char} {rest : List Char} (method : MethodInfo)
    (hw : wrongScalar ObjectKind.method key c)
    (h : json.drop pos = '{' :: (quote key ++ ':' :: c :: rest)) :
    ∃ q x, ParseMethodInfo json pos method = (false, q, x) ∧ json.drop q = c :: rest := by
  obtain ⟨hws, hq, hcomma, hb, hcol⟩ := wrongScalar_start hw
  have h0 : json.drop pos = '{' :: '"' :: (key ++ '"' :: ':' :: c :: rest) := by
    simpa [quote] using h
  refine ParseMethodInfo_member_fail method h0 (wrongScalar_plain hw) (fun p d => ?_) hws hq hcomma
    hb hcol
  rw [SkipWhitespace_of_drop d hws, MethodMember_stays method hw d]
  exact d

/-- The loop of `ParseMethodInfo` on a boolean-typed key followed by a string
literal and then `,` or `}`: the literal is read as the next key, no colon
follows it, and the loop returns `false`. -/
theorem ParseMethodInfoLoop_bool_string {json : List Char} {pos : Nat} {key s : List Char}
    {c : Char} {rest : List Char} (fuel : Nat) (method : MethodInfo)
    (hkey : key ∈ boolKeys ObjectKind.method) (hs : plain s) (hc : c = ',' ∨ c = '}')
    (h : json.drop pos = quote key ++ ':' :: (quote s ++ c :: rest)) :
    (ParseMethodInfoLoop json (fuel + 2) pos method).1 = false := by
  have hcw : isWhitespace c = false ∧ c ≠ ':' := by
    rcases hc with rfl | rfl <;> decide
  have h0 : json.drop pos = '"' :: (key ++ '"' :: ':' :: '"' :: (s ++ '"' :: c :: rest)) := by
    simpa [quote] using h
  obtain ⟨p, d, step⟩ := ParseMethodInfoLoop_key h0 (plain_of_mem_keys (Or.inr hkey))
  have hm : MethodMember json key (SkipWhitespace json p) method
      = (p, (MethodMember json key p method).2) := by
    rw [SkipWhitespace_of_drop d isWhitespace_quote]
    refine Prod.ext ?_ rfl
    simp only [boolKeys, List.mem_cons, List.mem_singleton, List.not_mem_nil,
      or_false] at hkey
    rcases hkey with rfl | rfl <;> simp [MethodMember, boolMember_stays d]
  rw [step, hm]
  simp only [separator_none d isWhitespace_quote (by decide)]
  obtain ⟨q, e⟩ := ParseMethodInfoLoop_key_nocolon fuel (MethodMember json key p method).2 d hs hcw.1 hcw.2
  rw [e]

/-- The loop of `ParsePropertyInfo` on a recognised key followed by a number, `null`,
`true` or `false` that its type does not admit: the loop returns `false`
with the cursor on the value. -/
theorem ParsePropertyInfoLoop_wrong_scalar {json : List Char} {pos : Nat} {key : List Char}
    {c : Char} {rest : List Char} (fuel : Nat) (prop : PropertyInfo)
    (hw : wrongScalar ObjectKind.property key c)
    (h : json.drop pos = quote key ++ ':' :: c :: rest) :
    ∃ q x, ParsePropertyInfoLoop json (fuel + 2) pos prop = (false, q, x) ∧ json.drop q = c :: rest := by
  obtain ⟨hws, hq, hcomma, hb, hcol⟩ := wrongScalar_start hw
  have h0 : json.drop pos = '"' :: (key ++ '"' :: ':' :: c :: rest) := by
    simpa [quote] using h
  refine ParsePropertyInfoLoop_member_fail fuel prop h0 (wrongScalar_plain hw) (fun p d => ?_) hws hq hcomma
    hb hcol
  rw [SkipWhitespace_of_drop d hws, PropertyMember_stays prop hw d]
  exact d

/-- `ParsePropertyInfo` on an object that opens with a recognised key followed by a
number, `null`, `true` or `false` that its type does not admit. -/
theorem ParsePropertyInfo_wrong_scalar {json : List Char} {pos : Nat} {key : List Char}
    {c : Char} {rest : List Char} (prop : PropertyInfo)
    (hw : wrongScalar ObjectKind.property key c)
    (h : json.drop pos = '{' :: (quote key ++ ':' :: c :: rest)) :
    ∃ q x, ParsePropertyInfo json pos prop = (false, q, x) ∧ json.drop q = c :: rest := by
  obtain ⟨hws, hq, hcomma, hb, hcol⟩ := wrongScalar_start hw
  have h0 : json.drop pos = '{' :: '"' :: (key ++ '"' :: ':' :: c :: rest) := by
    simpa [quote] using h
  refine ParsePropertyInfo_member_fail prop h0 (wrongScalar_plain hw) (fun p d => ?_) hws hq hcomma
    hb hcol
  rw [SkipWhitespace_of_drop d hws, PropertyMember_stays prop hw d]
  exact d

/-- The loop of `ParsePropertyInfo` on a boolean-typed key followed by a string
literal and then `,` or `}`: the literal is read as the next key, no colon
follows it, and the loop returns `false`. -/
theorem ParsePropertyInfoLoop_bool_string {json : List Char} {pos : Nat} {key s : List Char}
    {c : Char} {rest : List Char} (fuel : Nat) (prop : PropertyInfo)
    (hkey : key ∈ boolKeys ObjectKind.property) (hs : plain s) (hc : c = ',' ∨ c = '}')
    (h : json.drop pos = quote key ++ ':' :: (quote s ++ c :: rest)) :
    (ParsePropertyInfoLoop json (fuel + 2) pos prop).1 = false := by
  have hcw : isWhitespace c = false ∧ c ≠ ':' := by
    rcases hc with rfl | rfl <;> decide
  have h0 : json.drop pos = '"' :: (key ++ '"' :: ':' :: '"' :: (s ++ '"' :: c :: rest)) := by
    simpa [quote] using h
  obtain ⟨p, d, step⟩ := ParsePropertyInfoLoop_key h0 (plain_of_mem_keys (Or.inr hkey))
  have hm : PropertyMember json key (SkipWhitespace json p) prop
      = (p, (PropertyMember json key p prop).2) := by
    rw [SkipWhitespace_of_drop d isWhitespace_quote]
    refine Prod.ext ?_ rfl
    simp only [boolKeys, List.mem_cons, List.mem_singleton, List.not_mem_nil,
      or_false] at hkey
    rcases hkey with rfl | rfl <;> simp [PropertyMember, boolMember_stays d]
  rw [step, hm]
  simp only [separator_none d isWhitespace_quote (by decide)]
  obtain ⟨q, e⟩ := ParsePropertyInfoLoop_key_nocolon fuel (PropertyMember json key p prop).2 d hs hcw.1 hcw.2
  rw [e]

/-- The loop of `ParseParameterInfo` on a recognised key followed by a number, `null`,
`true` or `false` that its type does not admit: the loop returns `false`
with the cursor on the value. -/
theorem ParseParameterInfoLoop_wrong_scalar {json : List Char} {pos : Nat} {key : List Char}
    {c : Char} {rest : List Char} (fuel : Nat) (param : ParameterInfo)
    (hw : wrongScalar ObjectKind.parameter key c)
    (h : json.drop pos = quote key ++ ':' :: c :: rest) :
    ∃ q x, ParseParameterInfoLoop json (fuel + 2) pos param = (false, q, x) ∧ json.drop q = c :: rest := by
  obtain ⟨hws, hq, hcomma, hb, hcol⟩ := wrongScalar_start hw
  have h0 : json.drop pos = '"' :: (key ++ '"' :: ':' :: c :: rest) := by
    simpa [quote] using h
  refine ParseParameterInfoLoop_member_fail fuel param h0 (wrongScalar_plain hw) (fun p d => ?_) hws hq hcomma
    hb hcol
  rw [SkipWhitespace_of_drop d hws, ParameterMember_stays param hw d]
  exact d

/-- `ParseParameterInfo` on an object that opens with a recognised key followed by a
number, `null`, `true` or `false` that its type does not admit. -/
theorem ParseParameterInfo_wrong_scalar {json : List Char} {pos : Nat} {key : List Char}
    {c : Char} {rest : List Char} (param : ParameterInfo)
    (hw : wrongScalar ObjectKind.parameter key c)
    (h : json.drop pos = '{' :: (quote key ++ ':' :: c :: rest)) :
    ∃ q x, ParseParameterInfo json pos param = (false, q, x) ∧ json.drop q = c :: rest := by
  obtain ⟨hws, hq, hcomma, hb, hcol⟩ := wrongScalar_start hw
  have h0 : json.drop pos = '{' :: '"' :: (key ++ '"' :: ':' :: c :: rest) := by
    simpa [quote] using h
  refine ParseParameterInfo_member_fail param h0 (wrongScalar_plain hw) (fun p d => ?_) hws hq hcomma
    hb hcol
  rw [SkipWhitespace_of_drop d hws, ParameterMember_stays param hw d]
  exact d

/-- The loop of `ParseTypeInfo` on `"fields":[{` followed by a member of the
wrong type. -/
theorem ParseTypeInfoLoop_fields_wrong_scalar {json : List Char} {pos : Nat} {key : List Char}
    {c : Char} {rest : List Char} (fuel : Nat) (type : TypeInfo)
    (hw : wrongScalar ObjectKind.field key c)
    (h : json.drop pos
      = quote "fields".toList ++ ':' :: '[' :: '{' :: (quote key ++ ':' :: c :: rest)) :
    (ParseTypeInfoLoop json (fuel + 2) pos type).1 = false := by
  obtain ⟨hws, hq, hcomma, hb, hcol⟩ := wrongScalar_start hw
  have h0 : json.drop pos = '"' :: ("fields".toList ++ '"' :: ':' :: '[' :: '{'
      :: (quote key ++ ':' :: c :: rest)) := by
    simpa [quote] using h
  have hfail : ∃ q x, ParseTypeInfoLoop json (fuel + 2) pos type = (false, q, x)
      ∧ json.drop q = c :: rest := by
    refine ParseTypeInfoLoop_member_fail fuel type h0 (by decide) (fun p d => ?_) hws hq
      hcomma hb hcol
    rw [SkipWhitespace_of_drop d isWhitespace_lbracket]
    obtain ⟨q, x, e, dq⟩ := ParseFieldInfo_wrong_scalar {} hw (drop_succ_of_drop d)
    have ea := ParseFieldsArray_first_fail type.fields d e
    simp only [TypeMember, ea]
    simpa using dq
  obtain ⟨q, x, e, -⟩ := hfail
  rw [e]

/-- The loop of `ParseTypeInfo` on `"methods":[{` followed by a member of the
wrong type. -/
theorem ParseTypeInfoLoop_methods_wrong_scalar {json : List Char} {pos : Nat} {key : List Char}
    {c : Char} {rest : List Char} (fuel : Nat) (type : TypeInfo)
    (hw : wrongScalar ObjectKind.method key c)
    (h : json.drop pos
      = quote "methods".toList ++ ':' :: '[' :: '{' :: (quote key ++ ':' :: c :: rest)) :
    (ParseTypeInfoLoop json (fuel + 2) pos type).1 = false := by
  obtain ⟨hws, hq, hcomma, hb, hcol⟩ := wrongScalar_start hw
  have h0 : json.drop pos = '"' :: ("methods".toList ++ '"' :: ':' :: '[' :: '{'
      :: (quote key ++ ':' :: c :: rest)) := by
    simpa [quote] using h
  have hfail : ∃ q x, ParseTypeInfoLoop json (fuel + 2) pos type = (false, q, x)
      ∧ json.drop q = c :: rest := by
    refine ParseTypeInfoLoop_member_fail fuel type h0 (by decide) (fun p d => ?_) hws hq
      hcomma hb hcol
    rw [SkipWhitespace_of_drop d isWhitespace_lbracket]
    obtain ⟨q, x, e, dq⟩ := ParseMethodInfo_wrong_scalar {} hw (drop_succ_of_drop d)
    have ea := ParseMethodsArray_first_fail type.methods d e
    simp only [TypeMember, ea]
    simpa using dq
  obtain ⟨q, x, e, -⟩ := hfail
  rw [e]

/-- The loop of `ParseTypeInfo` on `"properties":[{` followed by a member of the
wrong type. -/
theorem ParseTypeInfoLoop_properties_wrong_scalar {json : List Char} {pos : Nat} {key : List Char}
    {c : Char} {rest : List Char} (fuel : Nat) (type : TypeInfo)
    (hw : wrongScalar ObjectKind.property key c)
    (h : json.drop pos
      = quote "properties".toList ++ ':' :: '[' :: '{' :: (quote key ++ ':' :: c :: rest)) :
    (ParseTypeInfoLoop json (fuel + 2) pos type).1 = false := by
  obtain ⟨hws, hq, hcomma, hb, hcol⟩ := wrongScalar_start hw
  have h0 : json.drop pos = '"' :: ("properties".toList ++ '"' :: ':' :: '[' :: '{'
      :: (quote key ++ ':' :: c :: rest)) := by
    simpa [quote] using h
  have hfail : ∃ q x, ParseTypeInfoLoop json (fuel + 2) pos type = (false, q, x)
      ∧ json.drop q = c :: rest := by
    refine ParseTypeInfoLoop_member_fail fuel type h0 (by decide) (fun p d => ?_) hws hq
      hcomma hb hcol
    rw [SkipWhitespace_of_drop d isWhitespace_lbracket]
    obtain ⟨q, x, e, dq⟩ := ParsePropertyInfo_wrong_scalar {} hw (drop_succ_of_drop d)
    have ea := ParsePropertiesArray_first_fail type.properties d e
    simp only [TypeMember, ea]
    simpa using dq
  obtain ⟨q, x, e, -⟩ := hfail
  rw [e]

/-- The loop of `ParseMethodInfo` on `"parameters":[{` followed by a member of
the wrong type. -/
theorem ParseMethodInfo_parameters_wrong_scalar {json : List Char} {pos : Nat}
    {key : List Char} {c : Char} {rest : List Char} (method : MethodInfo)
    (hw : wrongScalar ObjectKind.parameter key c)
    (h : json.drop pos = '{' :: '"' :: ("parameters".toList ++ '"' :: ':' :: '[' :: '{'
      :: (quote key ++ ':' :: c :: rest))) :
    ∃ q x, ParseMethodInfo json pos method = (false, q, x) ∧ json.drop q = c :: rest := by
  obtain ⟨hws, hq, hcomma, hb, hcol⟩ := wrongScalar_start hw
  refine ParseMethodInfo_member_fail method h (by decide) (fun p d => ?_) hws hq hcomma hb hcol
  rw [SkipWhitespace_of_drop d isWhitespace_lbracket]
  obtain ⟨q, x, e, dq⟩ := ParseParameterInfo_wrong_scalar {} hw (drop_succ_of_drop d)
  have ea := ParseParametersArray_first_fail method.parameters d e
  simp only [MethodMember, ea]
  simpa using dq

/-- The loop of `ParseTypeInfo` on `"methods":[{"parameters":[{` followed by a
member of the wrong type. -/
theorem ParseTypeInfoLoop_parameters_wrong_scalar {json : List Char} {pos : Nat}
    {key : List Char} {c : Char} {rest : List Char} (fuel : Nat) (type : TypeInfo)
    (hw : wrongScalar ObjectKind.parameter key c)
    (h : json.drop pos
      = quote "methods".toList ++ ':' :: '[' :: '{' :: (quote "parameters".toList
          ++ ':' :: '[' :: '{' :: (quote key ++ ':' :: c :: rest))) :
    (ParseTypeInfoLoop json (fuel + 2) pos type).1 = false := by
  obtain ⟨hws, hq, hcomma, hb, hcol⟩ := wrongScalar_start hw
  have h0 : json.drop pos = '"' :: ("methods".toList ++ '"' :: ':' :: '[' :: '{'
      :: '"' :: ("parameters".toList ++ '"' :: ':' :: '[' :: '{'
      :: (quote key ++ ':' :: c :: rest))) := by
    simpa [quote] using h
  have hfail : ∃ q x, ParseTypeInfoLoop json (fuel + 2) pos type = (false, q, x)
      ∧ json.drop q = c :: rest := by
    refine ParseTypeInfoLoop_member_fail fuel type h0 (by decide) (fun p d => ?_) hws hq
      hcomma hb hcol
    rw [SkipWhitespace_of_drop d isWhitespace_lbracket]
    obtain ⟨q, x, e, dq⟩ := ParseMethodInfo_parameters_wrong_scalar {} hw
      (drop_succ_of_drop d)
    have ea := ParseMethodsArray_first_fail type.methods d e
    simp only [TypeMember, ea]
    simpa using dq
  obtain ⟨q, x, e, -⟩ := hfail
  rw [e]


/-! ## A value of the wrong type, for every kind of object -/

/-- The loop of an object of any kind on a recognised key followed by a
number, `null`, `true` or `false` that its type does not admit returns
`false`. -/
theorem objectLoopFlag_wrong_scalar (kind : ObjectKind) {json : List Char} {pos : Nat}
    {key : List Char} {c : Char} {rest : List Char} (fuel : Nat) (st : StateOf kind)
    (hw : wrongScalar kind key c) (h : json.drop pos = quote key ++ ':' :: c :: rest) :
    objectLoopFlag kind json (fuel + 2) pos st = false := by
  cases kind
  · exact ParseAssemblyDataLoop_wrong_scalar fuel st hw h
  · obtain ⟨q, x, e, -⟩ := ParseTypeInfoLoop_wrong_scalar fuel st hw h
    simp only [objectLoopFlag, e]
  · obtain ⟨q, x, e, -⟩ := ParseFieldInfoLoop_wrong_scalar fuel st hw h
    simp only [objectLoopFlag, e]
  · obtain ⟨q, x, e, -⟩ := ParseMethodInfoLoop_wrong_scalar fuel st hw h
    simp only [objectLoopFlag, e]
  · obtain ⟨q, x, e, -⟩ := ParsePropertyInfoLoop_wrong_scalar fuel st hw h
    simp only [objectLoopFlag, e]
  · obtain ⟨q, x, e, -⟩ := ParseParameterInfoLoop_wrong_scalar fuel st hw h
    simp only [objectLoopFlag, e]

/-- The loop of an object of any kind on a boolean-typed key followed by a
string literal and then `,` or `}` returns `false`. -/
theorem objectLoopFlag_bool_string (kind : ObjectKind) {json : List Char} {pos : Nat}
    {key s : List Char} {c : Char} {rest : List Char} (fuel : Nat) (st : StateOf kind)
    (hkey : key ∈ boolKeys kind) (hs : plain s) (hc : c = ',' ∨ c = '}')
    (h : json.drop pos = quote key ++ ':' :: (quote s ++ c :: rest)) :
    objectLoopFlag kind json (fuel + 2) pos st = false := by
  cases kind
  · simp [boolKeys] at hkey
  · exact ParseTypeInfoLoop_bool_string fuel st hkey hs hc h
  · exact ParseFieldInfoLoop_bool_string fuel st hkey hs hc h
  · exact ParseMethodInfoLoop_bool_string fuel st hkey hs hc h
  · exact ParsePropertyInfoLoop_bool_string fuel st hkey hs hc h
  · simp [boolKeys] at hkey

/-- A payload whose first object of a kind opens with a recognised key
followed by a number, `null`, `true` or `false` that its type does not admit
is rejected. -/
theorem ParseAssemblyData_wrong_scalar (kind : ObjectKind) (key rest : List Char) (c : Char)
    (data : AssemblyData) (hw : wrongScalar kind key c) :
    (ParseAssemblyData (opening kind ++ (quote key ++ ':' :: c :: rest)) data).1 = false := by
  cases kind
  · exact ParseAssemblyData_first_member_false _ data (by simp [quote]; omega)
      (fun json pos f d h => ParseAssemblyDataLoop_wrong_scalar f d hw h)
  · exact ParseAssemblyData_first_type_false _ data (by simp [quote]; omega)
      (fun json pos f t h => by
        obtain ⟨q, x, e, -⟩ := ParseTypeInfoLoop_wrong_scalar f t hw h
        rw [e])
  · have e := ParseAssemblyData_first_type_false
      (quote "fields".toList ++ ':' :: '[' :: '{' :: (quote key ++ ':' :: c :: rest)) data
      (by simp [quote])
      (fun json pos f t h => ParseTypeInfoLoop_fields_wrong_scalar f t hw h)
    simpa [opening, quote] using e
  · have e := ParseAssemblyData_first_type_false
      (quote "methods".toList ++ ':' :: '[' :: '{' :: (quote key ++ ':' :: c :: rest)) data
      (by simp [quote])
      (fun json pos f t h => ParseTypeInfoLoop_methods_wrong_scalar f t hw h)
    simpa [opening, quote] using e
  · have e := ParseAssemblyData_first_type_false
      (quote "properties".toList ++ ':' :: '[' :: '{' :: (quote key ++ ':' :: c :: rest)) data
      (by simp [quote])
      (fun json pos f t h => ParseTypeInfoLoop_properties_wrong_scalar f t hw h)
    simpa [opening, quote] using e
  · have e := ParseAssemblyData_first_type_false
      (quote "methods".toList ++ ':' :: '[' :: '{' :: (quote "parameters".toList
        ++ ':' :: '[' :: '{' :: (quote key ++ ':' :: c :: rest))) data
      (by simp [quote])
      (fun json pos f t h => ParseTypeInfoLoop_parameters_wrong_scalar f t hw h)
    simpa [opening, quote] using e

/-- A payload whose first type object opens with a boolean-typed key followed
by a string literal and then `,` or `}` is rejected. -/
theorem ParseAssemblyData_bool_string (key s rest : List Char) (c : Char) (data : AssemblyData)
    (hkey : key ∈ boolKeys ObjectKind.type) (hs : plain s) (hc : c = ',' ∨ c = '}') :
    (ParseAssemblyData (opening ObjectKind.type ++ (quote key ++ ':' :: (quote s ++ c :: rest)))
      data).1 = false :=
  ParseAssemblyData_first_type_false _ data (by simp [quote]; omega)
    (fun _ _ f t h => ParseTypeInfoLoop_bool_string f t hkey hs hc h)


/-! ## Progress of the cursor and adequacy of the fuel -/

theorem Expect_le (json : List Char) (pos : Nat) (c : Char) : pos ≤ (Expect json pos c).2 := by
  unfold Expect; split <;> simp

theorem Expect_true {json : List Char} {pos p : Nat} {c : Char}
    (h : Expect json pos c = (true, p)) : p = pos + 1 := by
  unfold Expect at h
  split at h <;> simp at h
  omega

theorem Expect_false {json : List Char} {pos p : Nat} {c : Char}
    (h : Expect json pos c = (false, p)) : p = pos := by
  unfold Expect at h
  split at h <;> simp at h
  omega

theorem SkipWhitespaceLoop_le (json : List Char) :
    ∀ (fuel pos : Nat), pos ≤ SkipWhitespaceLoop json fuel pos
  | 0, pos => by simp [SkipWhitespaceLoop]
  | fuel + 1, pos => by
    unfold SkipWhitespaceLoop
    split
    · split
      · exact Nat.le_trans (Nat.le_succ pos) (SkipWhitespaceLoop_le json fuel (pos + 1))
      · exact Nat.le_refl _
    · exact Nat.le_refl _

theorem SkipWhitespace_le (json : List Char) (pos : Nat) : pos ≤ SkipWhitespace json pos :=
  SkipWhitespaceLoop_le json _ pos

theorem ParseStringLoop_le (json : List Char) :
    ∀ (fuel pos : Nat) (acc : List Char), pos ≤ (ParseStringLoop json fuel pos acc).2
  | 0, pos, acc => by simp [ParseStringLoop]
  | fuel + 1, pos, acc => by
    unfold ParseStringLoop
    split
    · split
      · split
        · have := ParseStringLoop_le json fuel (pos + 1 + 1) (acc ++ [unescape (Peek json (pos + 1))])
          omega
        · have := ParseStringLoop_le json fuel (pos + 1) (acc ++ [json[pos]])
          omega
      · exact Nat.le_refl _
    · exact Nat.le_refl _

theorem ParseString_le (json : List Char) (pos : Nat) : pos ≤ (ParseString json pos).2 := by
  unfold ParseString
  split
  · exact Nat.le_refl _
  · rename_i p1 h
    have h1 := Expect_true h
    have h2 := ParseStringLoop_le json (json.length - p1) p1 []
    have h3 := Expect_le json (ParseStringLoop json (json.length - p1) p1 []).2 '"'
    simp only
    omega

theorem ParseBool_le (json : List Char) (pos : Nat) : pos ≤ (ParseBool json pos).2 := by
  unfold ParseBool
  split
  · simp
  · split <;> simp

theorem SkipNestedLoop_le (o c : Char) (json : List Char) :
    ∀ (fuel pos : Nat) (depth : Int), pos ≤ SkipNestedLoop o c json fuel pos depth
  | 0, pos, depth => by simp [SkipNestedLoop]
  | fuel + 1, pos, depth => by
    unfold SkipNestedLoop
    split
    · split
      · exact Nat.le_trans (Nat.le_succ pos) (SkipNestedLoop_le o c json fuel (pos + 1) _)
      · exact Nat.le_refl _
    · exact Nat.le_refl _

theorem SkipObject_le (json : List Char) (pos : Nat) : pos ≤ SkipObject json pos := by
  unfold SkipObject
  split
  · exact Nat.le_refl _
  · rename_i p1 h
    have h1 := Expect_true h
    have h2 := SkipNestedLoop_le '{' '}' json (json.length - p1) p1 1
    omega

theorem SkipArray_le (json : List Char) (pos : Nat) : pos ≤ SkipArray json pos := by
  unfold SkipArray
  split
  · exact Nat.le_refl _
  · rename_i p1 h
    have h1 := Expect_true h
    have h2 := SkipNestedLoop_le '[' ']' json (json.length - p1) p1 1
    omega

theorem SkipScalarLoop_le (json : List Char) :
    ∀ (fuel pos : Nat), pos ≤ SkipScalarLoop json fuel pos
  | 0, pos => by simp [SkipScalarLoop]
  | fuel + 1, pos => by
    unfold SkipScalarLoop
    split
    · split
      · exact Nat.le_trans (Nat.le_succ pos) (SkipScalarLoop_le json fuel (pos + 1))
      · exact Nat.le_refl _
    · exact Nat.le_refl _

theorem SkipValue_le (json : List Char) (pos : Nat) : pos ≤ SkipValue json pos := by
  have h0 := SkipWhitespace_le json pos
  unfold SkipValue
  simp only
  split
  · exact Nat.le_trans h0 (ParseString_le json _)
  · split
    · exact Nat.le_trans h0 (SkipObject_le json _)
    · split
      · exact Nat.le_trans h0 (SkipArray_le json _)
      · split
        · exact Nat.le_trans h0 (ParseBool_le json _)
        · exact Nat.le_trans h0 (SkipScalarLoop_le json _ _)

theorem SkipComma_le (json : List Char) (pos : Nat) : pos ≤ SkipComma json pos := by
  unfold SkipComma; split <;> simp

theorem lt_length_of_Peek {json : List Char} {pos : Nat} {c : Char}
    (h : Peek json pos = c) (hc : c ≠ '\x00') : pos < json.length := by
  by_contra hlt
  simp [Peek, hlt] at h
  exact hc h.symm

theorem Expect_bound (json : List Char) (pos : Nat) (c : Char) (hc : c ≠ '\x00')
    (h : pos ≤ json.length) : (Expect json pos c).2 ≤ json.length := by
  unfold Expect
  split
  · rename_i hp
    have := lt_length_of_Peek hp hc
    simp only; omega
  · exact h

theorem SkipWhitespaceLoop_bound (json : List Char) :
    ∀ (fuel pos : Nat), pos ≤ json.length → SkipWhitespaceLoop json fuel pos ≤ json.length
  | 0, pos, h => by simpa [SkipWhitespaceLoop] using h
  | fuel + 1, pos, h => by
    unfold SkipWhitespaceLoop
    split
    · split
      · exact SkipWhitespaceLoop_bound json fuel (pos + 1) (by omega)
      · exact h
    · exact h

theorem SkipWhitespace_bound (json : List Char) (pos : Nat) (h : pos ≤ json.length) :
    SkipWhitespace json pos ≤ json.length :=
  SkipWhitespaceLoop_bound json _ pos h

theorem ParseStringLoop_bound (json : List Char) :
    ∀ (fuel pos : Nat) (acc : List Char), pos ≤ json.length →
      (ParseStringLoop json fuel pos acc).2 ≤ json.length
  | 0, pos, acc, h => by simpa [ParseStringLoop] using h
  | fuel + 1, pos, acc, h => by
    unfold ParseStringLoop
    split
    · split
      · split
        · rename_i h3
          exact ParseStringLoop_bound json fuel (pos + 1 + 1) _ (by omega)
        · exact ParseStringLoop_bound json fuel (pos + 1) _ (by omega)
      · exact h
    · exact h

theorem ParseString_bound (json : List Char) (pos : Nat) (h : pos ≤ json.length) :
    (ParseString json pos).2 ≤ json.length := by
  unfold ParseString
  split
  · exact h
  · rename_i p1 hp
    have h1 := Expect_bound json pos '"' (by decide) h
    rw [hp] at h1
    exact Expect_bound json _ '"' (by decide) (ParseStringLoop_bound json _ p1 [] h1)

theorem ParseBool_bound (json : List Char) (pos : Nat) (h : pos ≤ json.length) :
    (ParseBool json pos).2 ≤ json.length := by
  unfold ParseBool compareEq
  split
  · rename_i h1
    have h2 := congrArg List.length (of_decide_eq_true h1)
    simp only [List.length_take, List.length_drop] at h2
    have : "true".toList.length = 4 := rfl
    simp only; omega
  · split
    · rename_i h1
      have h2 := congrArg List.length (of_decide_eq_true h1)
      simp only [List.length_take, List.length_drop] at h2
      have : "false".toList.length = 5 := rfl
      simp only; omega
    · exact h

theorem SkipNestedLoop_bound (o c : Char) (json : List Char) :
    ∀ (fuel pos : Nat) (depth : Int), pos ≤ json.length →
      SkipNestedLoop o c json fuel pos depth ≤ json.length
  | 0, pos, depth, h => by simpa [SkipNestedLoop] using h
  | fuel + 1, pos, depth, h => by
    unfold SkipNestedLoop
    split
    · split
      · exact SkipNestedLoop_bound o c json fuel (pos + 1) _ (by omega)
      · exact h
    · exact h

theorem SkipObject_bound (json : List Char) (pos : Nat) (h : pos ≤ json.length) :
    SkipObject json pos ≤ json.length := by
  unfold SkipObject
  split
  · exact h
  · rename_i p1 hp
    have h1 := Expect_bound json pos '{' (by decide) h
    rw [hp] at h1
    exact SkipNestedLoop_bound '{' '}' json _ p1 1 h1

theorem SkipArray_bound (json : List Char) (pos : Nat) (h : pos ≤ json.length) :
    SkipArray json pos ≤ json.length := by
  unfold SkipArray
  split
  · exact h
  · rename_i p1 hp
    have h1 := Expect_bound json pos '[' (by decide) h
    rw [hp] at h1
    exact SkipNestedLoop_bound '[' ']' json _ p1 1 h1

theorem SkipScalarLoop_bound (json : List Char) :
    ∀ (fuel pos : Nat), pos ≤ json.length → SkipScalarLoop json fuel pos ≤ json.length
  | 0, pos, h => by simpa [SkipScalarLoop] using h
  | fuel + 1, pos, h => by
    unfold SkipScalarLoop
    split
    · split
      · exact SkipScalarLoop_bound json fuel (pos + 1) (by omega)
      · exact h
    · exact h

theorem SkipValue_bound (json : List Char) (pos : Nat) (h : pos ≤ json.length) :
    SkipValue json pos ≤ json.length := by
  have h0 := SkipWhitespace_bound json pos h
  unfold SkipValue
  simp only
  split
  · exact ParseString_bound json _ h0
  · split
    · exact SkipObject_bound json _ h0
    · split
      · exact SkipArray_bound json _ h0
      · split
        · exact ParseBool_bound json _ h0
        · exact SkipScalarLoop_bound json _ _ h0

theorem SkipComma_bound (json : List Char) (pos : Nat) (h : pos ≤ json.length) :
    SkipComma json pos ≤ json.length := by
  unfold SkipComma
  split
  · rename_i hp
    have := lt_length_of_Peek hp (by decide)
    omega
  · exact h

/-- The fuel of `SkipWhitespace` does not matter once it covers the rest of
the text. -/
theorem SkipWhitespaceLoop_fuel (json : List Char) :
    ∀ (f1 f2 pos : Nat), json.length - pos ≤ f1 → json.length - pos ≤ f2 →
      SkipWhitespaceLoop json f1 pos = SkipWhitespaceLoop json f2 pos
  | 0, 0, _, _, _ => rfl
  | 0, f2 + 1, pos, h1, _ => by
    have : ¬ pos < json.length := by omega
    simp [SkipWhitespaceLoop, this]
  | f1 + 1, 0, pos, _, h2 => by
    have : ¬ pos < json.length := by omega
    simp [SkipWhitespaceLoop, this]
  | f1 + 1, f2 + 1, pos, h1, h2 => by
    unfold SkipWhitespaceLoop
    split
    · split
      · exact SkipWhitespaceLoop_fuel json f1 f2 (pos + 1) (by omega) (by omega)
      · rfl
    · rfl

/-- The fuel of the loop of `ParseString` does not matter once it covers the
rest of the text. -/
theorem ParseStringLoop_fuel (json : List Char) :
    ∀ (f1 f2 pos : Nat) (acc : List Char), json.length - pos ≤ f1 → json.length - pos ≤ f2 →
      ParseStringLoop json f1 pos acc = ParseStringLoop json f2 pos acc
  | 0, 0, _, _, _, _ => rfl
  | 0, f2 + 1, pos, acc, h1, _ => by
    have : ¬ pos < json.length := by omega
    simp [ParseStringLoop, this]
  | f1 + 1, 0, pos, acc, _, h2 => by
    have : ¬ pos < json.length := by omega
    simp [ParseStringLoop, this]
  | f1 + 1, f2 + 1, pos, acc, h1, h2 => by
    unfold ParseStringLoop
    split
    · split
      · split
        · exact ParseStringLoop_fuel json f1 f2 _ _ (by omega) (by omega)
        · exact ParseStringLoop_fuel json f1 f2 _ _ (by omega) (by omega)
      · rfl
    · rfl

/-- The fuel of the loop of `SkipObject` / `SkipArray` does not matter once
it covers the rest of the text. -/
theorem SkipNestedLoop_fuel (o c : Char) (json : List Char) :
    ∀ (f1 f2 pos : Nat) (depth : Int), json.length - pos ≤ f1 → json.length - pos ≤ f2 →
      SkipNestedLoop o c json f1 pos depth = SkipNestedLoop o c json f2 pos depth
  | 0, 0, _, _, _, _ => rfl
  | 0, f2 + 1, pos, depth, h1, _ => by
    have : ¬ pos < json.length := by omega
    simp [SkipNestedLoop, this]
  | f1 + 1, 0, pos, depth, _, h2 => by
    have : ¬ pos < json.length := by omega
    simp [SkipNestedLoop, this]
  | f1 + 1, f2 + 1, pos, depth, h1, h2 => by
    unfold SkipNestedLoop
    split
    · split
      · exact SkipNestedLoop_fuel o c json f1 f2 _ _ (by omega) (by omega)
      · rfl
    · rfl

/-- The fuel of the scalar branch of `SkipValue` does not matter once it
covers the rest of the text. -/
theorem SkipScalarLoop_fuel (json : List Char) :
    ∀ (f1 f2 pos : Nat), json.length - pos ≤ f1 → json.length - pos ≤ f2 →
      SkipScalarLoop json f1 pos = SkipScalarLoop json f2 pos
  | 0, 0, _, _, _ => rfl
  | 0, f2 + 1, pos, h1, _ => by
    have : ¬ pos < json.length := by omega
    simp [SkipScalarLoop, this]
  | f1 + 1, 0, pos, _, h2 => by
    have : ¬ pos < json.length := by omega
    simp [SkipScalarLoop, this]
  | f1 + 1, f2 + 1, pos, h1, h2 => by
    unfold SkipScalarLoop
    split
    · split
      · exact SkipScalarLoop_fuel json f1 f2 (pos + 1) (by omega) (by omega)
      · rfl
    · rfl


theorem ParameterMember_le (json key : List Char) (pos : Nat) (param : ParameterInfo) :
    pos ≤ (ParameterMember json key pos param).1 := by
  unfold ParameterMember
  by_cases h0 : key = "name".toList
  · rw [if_pos h0]; exact ParseString_le json pos
  rw [if_neg h0]
  by_cases h1 : key = "parameterType".toList
  · rw [if_pos h1]; exact ParseString_le json pos
  rw [if_neg h1]
  exact SkipValue_le json pos

theorem ParameterMember_bound (json key : List Char) (pos : Nat) (param : ParameterInfo) (h : pos ≤ json.length) :
    (ParameterMember json key pos param).1 ≤ json.length := by
  unfold ParameterMember
  by_cases h0 : key = "name".toList
  · rw [if_pos h0]; exact ParseString_bound json pos h
  rw [if_neg h0]
  by_cases h1 : key = "parameterType".toList
  · rw [if_pos h1]; exact ParseString_bound json pos h
  rw [if_neg h1]
  exact SkipValue_bound json pos h

/-- One iteration of the loop of `ParseParameterInfo`, with the outcome of
`Expect(':')` written as a test. -/
theorem ParseParameterInfoLoop_succ (json : List Char) (fuel pos : Nat) (param : ParameterInfo) :
    ParseParameterInfoLoop json (fuel + 1) pos param
      = if pos < json.length then
          if Peek json (SkipWhitespace json pos) = '}' then
            (true, SkipWhitespace json pos + 1, param)
          else if Peek json (SkipWhitespace json (ParseString json (SkipWhitespace json pos)).2) = ':' then
            ParseParameterInfoLoop json fuel
              (SkipComma json (SkipWhitespace json (ParameterMember json (ParseString json (SkipWhitespace json pos)).1 (SkipWhitespace json (SkipWhitespace json (ParseString json (SkipWhitespace json pos)).2 + 1)) param).1))
              (ParameterMember json (ParseString json (SkipWhitespace json pos)).1 (SkipWhitespace json (SkipWhitespace json (ParseString json (SkipWhitespace json pos)).2 + 1)) param).2
          else (false, SkipWhitespace json (ParseString json (SkipWhitespace json pos)).2, param)
        else (true, pos, param) := by
  simp only [ParseParameterInfoLoop, Expect]
  split_ifs <;> rfl

/-- The cursor after an iteration of the loop of `ParseParameterInfo` that
continues is beyond the cursor before it. -/
theorem ParseParameterInfoLoop_next_lt (json : List Char) (pos : Nat) (param : ParameterInfo) :
    pos < SkipComma json (SkipWhitespace json (ParameterMember json (ParseString json (SkipWhitespace json pos)).1 (SkipWhitespace json (SkipWhitespace json (ParseString json (SkipWhitespace json pos)).2 + 1)) param).1) := by
  have h1 := SkipWhitespace_le json pos
  have h2 := ParseString_le json (SkipWhitespace json pos)
  have h3 := SkipWhitespace_le json (ParseString json (SkipWhitespace json pos)).2
  have h4 := SkipWhitespace_le json (SkipWhitespace json (ParseString json (SkipWhitespace json pos)).2 + 1)
  have h5 := ParameterMember_le json (ParseString json (SkipWhitespace json pos)).1 (SkipWhitespace json (SkipWhitespace json (ParseString json (SkipWhitespace json pos)).2 + 1)) param
  have h6 := SkipWhitespace_le json (ParameterMember json (ParseString json (SkipWhitespace json pos)).1 (SkipWhitespace json (SkipWhitespace json (ParseString json (SkipWhitespace json pos)).2 + 1)) param).1
  have h7 := SkipComma_le json (SkipWhitespace json (ParameterMember json (ParseString json (SkipWhitespace json pos)).1 (SkipWhitespace json (SkipWhitespace json (ParseString json (SkipWhitespace json pos)).2 + 1)) param).1)
  omega

/-- The cursor after an iteration of the loop of `ParseParameterInfo` that
continues is within the text. -/
theorem ParseParameterInfoLoop_next_bound (json : List Char) (pos : Nat) (param : ParameterInfo)
    (h : pos ≤ json.length) (hc : Peek json (SkipWhitespace json (ParseString json (SkipWhitespace json pos)).2) = ':') :
    SkipComma json (SkipWhitespace json (ParameterMember json (ParseString json (SkipWhitespace json pos)).1 (SkipWhitespace json (SkipWhitespace json (ParseString json (SkipWhitespace json pos)).2 + 1)) param).1) ≤ json.length := by
  have h1 := SkipWhitespace_bound json pos h
  have h2 := ParseString_bound json (SkipWhitespace json pos) h1
  have h3 := SkipWhitespace_bound json (ParseString json (SkipWhitespace json pos)).2 h2
  have h4 : SkipWhitespace json (ParseString json (SkipWhitespace json pos)).2 + 1 ≤ json.length := lt_length_of_Peek hc (by decide)
  have h5 := SkipWhitespace_bound json (SkipWhitespace json (ParseString json (SkipWhitespace json pos)).2 + 1) h4
  have h6 := ParameterMember_bound json (ParseString json (SkipWhitespace json pos)).1 (SkipWhitespace json (SkipWhitespace json (ParseString json (SkipWhitespace json pos)).2 + 1)) param h5
  exact SkipComma_bound json _ (SkipWhitespace_bound json _ h6)

theorem ParseParameterInfoLoop_le (json : List Char) :
    ∀ (fuel pos : Nat) (param : ParameterInfo), pos ≤ (ParseParameterInfoLoop json fuel pos param).2.1
  | 0, pos, param => by simp [ParseParameterInfoLoop]
  | fuel + 1, pos, param => by
    rw [ParseParameterInfoLoop_succ]
    have h1 := SkipWhitespace_le json pos
    have h2 := ParseString_le json (SkipWhitespace json pos)
    have h3 := SkipWhitespace_le json (ParseString json (SkipWhitespace json pos)).2
    split_ifs
    · simp only; omega
    · exact Nat.le_trans (Nat.le_of_lt (ParseParameterInfoLoop_next_lt json pos param)) (ParseParameterInfoLoop_le json fuel _ _)
    · simp only; omega
    · exact Nat.le_refl _

theorem ParseParameterInfoLoop_bound (json : List Char) :
    ∀ (fuel pos : Nat) (param : ParameterInfo), pos ≤ json.length →
      (ParseParameterInfoLoop json fuel pos param).2.1 ≤ json.length
  | 0, pos, param, h => by simpa [ParseParameterInfoLoop] using h
  | fuel + 1, pos, param, h => by
    rw [ParseParameterInfoLoop_succ]
    have h1 := SkipWhitespace_bound json pos h
    have h2 := ParseString_bound json (SkipWhitespace json pos) h1
    have h3 := SkipWhitespace_bound json (ParseString json (SkipWhitespace json pos)).2 h2
    split_ifs with _ hb hc
    · exact lt_length_of_Peek hb (by decide)
    · exact ParseParameterInfoLoop_bound json fuel _ _ (ParseParameterInfoLoop_next_bound json pos param h hc)
    · exact h3
    · exact h

/-- The fuel does not matter once it covers the rest of the text: the loop
of `ParseParameterInfo` never stops for lack of fuel. -/
theorem ParseParameterInfoLoop_fuel (json : List Char) :
    ∀ (f1 f2 pos : Nat) (param : ParameterInfo),
      json.length - pos ≤ f1 → json.length - pos ≤ f2 →
      ParseParameterInfoLoop json f1 pos param = ParseParameterInfoLoop json f2 pos param
  | 0, 0, _, _, _, _ => rfl
  | 0, f2 + 1, pos, param, h1, _ => by
    rw [ParseParameterInfoLoop_succ, if_neg (by omega)]; rfl
  | f1 + 1, 0, pos, param, _, h2 => by
    rw [ParseParameterInfoLoop_succ, if_neg (by omega)]; rfl
  | f1 + 1, f2 + 1, pos, param, h1, h2 => by
    rw [ParseParameterInfoLoop_succ, ParseParameterInfoLoop_succ]
    have hlt := ParseParameterInfoLoop_next_lt json pos param
    split_ifs
    · rfl
    · exact ParseParameterInfoLoop_fuel json f1 f2 _ _ (by omega) (by omega)
    · rfl
    · rfl

theorem ParseParameterInfo_le (json : List Char) (pos : Nat) (param : ParameterInfo) :
    pos ≤ (ParseParameterInfo json pos param).2.1 := by
  unfold ParseParameterInfo
  split
  · rename_i p h
    have := Expect_false h
    simp only; omega
  · rename_i p h
    have h1 := Expect_true h
    have h2 := ParseParameterInfoLoop_le json (json.length - p) p param
    omega

theorem ParseParameterInfo_bound (json : List Char) (pos : Nat) (param : ParameterInfo)
    (h : pos ≤ json.length) : (ParseParameterInfo json pos param).2.1 ≤ json.length := by
  have h0 := Expect_bound json pos '{' (by decide) h
  unfold ParseParameterInfo
  split
  · rename_i p hp
    rw [hp] at h0
    exact h0
  · rename_i p hp
    rw [hp] at h0
    exact ParseParameterInfoLoop_bound json _ p param h0

/-- `ParseParameterInfo` returns `true` only after it has consumed a `{`. -/
theorem ParseParameterInfo_lt (json : List Char) (pos p : Nat) (param x : ParameterInfo)
    (h : ParseParameterInfo json pos param = (true, p, x)) : pos < p := by
  unfold ParseParameterInfo at h
  split at h
  · simp at h
  · rename_i q hq
    have h1 := Expect_true hq
    have h2 := ParseParameterInfoLoop_le json (json.length - q) q param
    rw [h] at h2
    simp only at h2
    omega

/-- One iteration of the loop of `ParseParametersArray`, with the outcome of
`ParseParameterInfo` written as a test. -/
theorem ParseParametersArrayLoop_succ (json : List Char) (fuel pos : Nat) (acc : List ParameterInfo) :
    ParseParametersArrayLoop json (fuel + 1) pos acc
      = if pos < json.length then
          if Peek json (SkipWhitespace json pos) = ']' then
            (true, SkipWhitespace json pos + 1, acc)
          else if (ParseParameterInfo json (SkipWhitespace json pos) {}).1 = true then
            ParseParametersArrayLoop json fuel (SkipComma json (SkipWhitespace json (ParseParameterInfo json (SkipWhitespace json pos) {}).2.1))
              (acc ++ [(ParseParameterInfo json (SkipWhitespace json pos) {}).2.2])
          else (false, (ParseParameterInfo json (SkipWhitespace json pos) {}).2.1, acc)
        else (true, pos, acc) := by
  simp only [ParseParametersArrayLoop]
  split_ifs with h1 h2 h3
  · rfl
  · generalize ParseParameterInfo json (SkipWhitespace json pos) {} = r at h3 ⊢
    obtain ⟨b, q, x⟩ := r
    simp only at h3
    subst h3
    rfl
  · generalize ParseParameterInfo json (SkipWhitespace json pos) {} = r at h3 ⊢
    obtain ⟨b, q, x⟩ := r
    simp only [Bool.not_eq_true] at h3
    subst h3
    rfl
  · rfl

/-- The cursor after an iteration of the loop of `ParseParametersArray` that
continues is beyond the cursor before it. -/
theorem ParseParametersArrayLoop_next_lt (json : List Char) (pos : Nat) (h : (ParseParameterInfo json (SkipWhitespace json pos) {}).1 = true) :
    pos < SkipComma json (SkipWhitespace json (ParseParameterInfo json (SkipWhitespace json pos) {}).2.1) := by
  have h1 := SkipWhitespace_le json pos
  have h2 := ParseParameterInfo_lt json (SkipWhitespace json pos) (ParseParameterInfo json (SkipWhitespace json pos) {}).2.1 {} (ParseParameterInfo json (SkipWhitespace json pos) {}).2.2 (Prod.ext h rfl)
  have h3 := SkipWhitespace_le json (ParseParameterInfo json (SkipWhitespace json pos) {}).2.1
  have h4 := SkipComma_le json (SkipWhitespace json (ParseParameterInfo json (SkipWhitespace json pos) {}).2.1)
  omega

theorem ParseParametersArrayLoop_le (json : List Char) :
    ∀ (fuel pos : Nat) (acc : List ParameterInfo), pos ≤ (ParseParametersArrayLoop json fuel pos acc).2.1
  | 0, pos, acc => by simp [ParseParametersArrayLoop]
  | fuel + 1, pos, acc => by
    rw [ParseParametersArrayLoop_succ]
    have h1 := SkipWhitespace_le json pos
    have h2 := ParseParameterInfo_le json (SkipWhitespace json pos) {}
    split_ifs with _ _ h3
    · simp only; omega
    · exact Nat.le_trans (Nat.le_of_lt (ParseParametersArrayLoop_next_lt json pos h3)) (ParseParametersArrayLoop_le json fuel _ _)
    · simp only; omega
    · exact Nat.le_refl _

theorem ParseParametersArrayLoop_bound (json : List Char) :
    ∀ (fuel pos : Nat) (acc : List ParameterInfo), pos ≤ json.length →
      (ParseParametersArrayLoop json fuel pos acc).2.1 ≤ json.length
  | 0, pos, acc, h => by simpa [ParseParametersArrayLoop] using h
  | fuel + 1, pos, acc, h => by
    rw [ParseParametersArrayLoop_succ]
    have h1 := SkipWhitespace_bound json pos h
    have h2 := ParseParameterInfo_bound json (SkipWhitespace json pos) {} h1
    split_ifs with _ hb h3
    · exact lt_length_of_Peek hb (by decide)
    · exact ParseParametersArrayLoop_bound json fuel _ _
        (SkipComma_bound json _ (SkipWhitespace_bound json _ h2))
    · exact h2
    · exact h

/-- The fuel does not matter once it covers the rest of the text: the loop
of `ParseParametersArray` never stops for lack of fuel. -/
theorem ParseParametersArrayLoop_fuel (json : List Char) :
    ∀ (f1 f2 pos : Nat) (acc : List ParameterInfo),
      json.length - pos ≤ f1 → json.length - pos ≤ f2 →
      ParseParametersArrayLoop json f1 pos acc = ParseParametersArrayLoop json f2 pos acc
  | 0, 0, _, _, _, _ => rfl
  | 0, f2 + 1, pos, acc, h1, _ => by
    rw [ParseParametersArrayLoop_succ, if_neg (by omega)]; rfl
  | f1 + 1, 0, pos, acc, _, h2 => by
    rw [ParseParametersArrayLoop_succ, if_neg (by omega)]; rfl
  | f1 + 1, f2 + 1, pos, acc, h1, h2 => by
    rw [ParseParametersArrayLoop_succ, ParseParametersArrayLoop_succ]
    split_ifs with _ _ h3
    · rfl
    · have hlt := ParseParametersArrayLoop_next_lt json pos h3
      exact ParseParametersArrayLoop_fuel json f1 f2 _ _ (by omega) (by omega)
    · rfl
    · rfl

theorem ParseParametersArray_le (json : List Char) (pos : Nat) (acc : List ParameterInfo) :
    pos ≤ (ParseParametersArray json pos acc).2.1 := by
  unfold ParseParametersArray
  split
  · rename_i p h
    have := Expect_false h
    simp only; omega
  · rename_i p h
    have h1 := Expect_true h
    have h2 := ParseParametersArrayLoop_le json (json.length - p) p acc
    omega

theorem ParseParametersArray_bound (json : List Char) (pos : Nat) (acc : List ParameterInfo)
    (h : pos ≤ json.length) : (ParseParametersArray json pos acc).2.1 ≤ json.length := by
  have h0 := Expect_bound json pos '[' (by decide) h
  unfold ParseParametersArray
  split
  · rename_i p hp
    rw [hp] at h0
    exact h0
  · rename_i p hp
    rw [hp] at h0
    exact ParseParametersArrayLoop_bound json _ p acc h0

theorem MethodMember_le (json key : List Char) (pos : Nat) (method : MethodInfo) :
    pos ≤ (MethodMember json key pos method).1 := by
  unfold MethodMember
  by_cases h0 : key = "name".toList
  · rw [if_pos h0]; exact ParseString_le json pos
  rw [if_neg h0]
  by_cases h1 : key = "returnType".toList
  · rw [if_pos h1]; exact ParseString_le json pos
  rw [if_neg h1]
  by_cases h2 : key = "isPublic".toList
  · rw [if_pos h2]; exact ParseBool_le json pos
  rw [if_neg h2]
  by_cases h3 : key = "isStatic".toList
  · rw [if_pos h3]; exact ParseBool_le json pos
  rw [if_neg h3]
  by_cases h4 : key = "parameters".toList
  · rw [if_pos h4]; exact ParseParametersArray_le json pos _
  rw [if_neg h4]
  exact SkipValue_le json pos

theorem MethodMember_bound (json key : List Char) (pos : Nat) (method : MethodInfo) (h : pos ≤ json.length) :
    (MethodMember json key pos method).1 ≤ json.length := by
  unfold MethodMember
  by_cases h0 : key = "name".toList
  · rw [if_pos h0]; exact ParseString_bound json pos h
  rw [if_neg h0]
  by_cases h1 : key = "returnType".toList
  · rw [if_pos h1]; exact ParseString_bound json pos h
  rw [if_neg h1]
  by_cases h2 : key = "isPublic".toList
  · rw [if_pos h2]; exact ParseBool_bound json pos h
  rw [if_neg h2]
  by_cases h3 : key = "isStatic".toList
  · rw [if_pos h3]; exact ParseBool_bound json pos h
  rw [if_neg h3]
  by_cases h4 : key = "parameters".toList
  · rw [if_pos h4]; exact ParseParametersArray_bound json pos _ h
  rw [if_neg h4]
  exact SkipValue_bound json pos h

/-- One iteration of the loop of `ParseMethodInfo`, with the outcome of
`Expect(':')` written as a test. -/
theorem ParseMethodInfoLoop_succ (json : List Char) (fuel pos : Nat) (method : MethodInfo) :
    ParseMethodInfoLoop json (fuel + 1) pos method
      = if pos < json.length then
          if Peek json (SkipWhitespace json pos) = '}' then
            (true, SkipWhitespace json pos + 1, method)
          else if Peek json (SkipWhitespace json (ParseString json (SkipWhitespace json pos)).2) = ':' then
            ParseMethodInfoLoop json fuel
              (SkipComma json (SkipWhitespace json (MethodMember json (ParseString json (SkipWhitespace json pos)).1 (SkipWhitespace json (SkipWhitespace json (ParseString json (SkipWhitespace json pos)).2 + 1)) method).1))
              (MethodMember json (ParseString json (SkipWhitespace json pos)).1 (SkipWhitespace json (SkipWhitespace json (ParseString json (SkipWhitespace json pos)).2 + 1)) method).2
          else (false, SkipWhitespace json (ParseString json (SkipWhitespace json pos)).2, method)
        else (true, pos, method) := by
  simp only [ParseMethodInfoLoop, Expect]
  split_ifs <;> rfl

/-- The cursor after an iteration of the loop of `ParseMethodInfo` that
continues is beyond the cursor before it. -/
theorem ParseMethodInfoLoop_next_lt (json : List Char) (pos : Nat) (method : MethodInfo) :
    pos < SkipComma json (SkipWhitespace json (MethodMember json (ParseString json (SkipWhitespace json pos)).1 (SkipWhitespace json (SkipWhitespace json (ParseString json (SkipWhitespace json pos)).2 + 1)) method).1) := by
  have h1 := SkipWhitespace_le json pos
  have h2 := ParseString_le json (SkipWhitespace json pos)
  have h3 := SkipWhitespace_le json (ParseString json (SkipWhitespace json pos)).2
  have h4 := SkipWhitespace_le json (SkipWhitespace json (ParseString json (SkipWhitespace json pos)).2 + 1)
  have h5 := MethodMember_le json (ParseString json (SkipWhitespace json pos)).1 (SkipWhitespace json (SkipWhitespace json (ParseString json (SkipWhitespace json pos)).2 + 1)) method
  have h6 := SkipWhitespace_le json (MethodMember json (ParseString json (SkipWhitespace json pos)).1 (SkipWhitespace json (SkipWhitespace json (ParseString json (SkipWhitespace json pos)).2 + 1)) method).1
  have h7 := SkipComma_le json (SkipWhitespace json (MethodMember json (ParseString json (SkipWhitespace json pos)).1 (SkipWhitespace json (SkipWhitespace json (ParseString json (SkipWhitespace json pos)).2 + 1)) method).1)
  omega

/-- The cursor after an iteration of the loop of `ParseMethodInfo` that
continues is within the text. -/
theorem ParseMethodInfoLoop_next_bound (json : List Char) (pos : Nat) (method : MethodInfo)
    (h : pos ≤ json.length) (hc : Peek json (SkipWhitespace json (ParseString json (SkipWhitespace json pos)).2) = ':') :
    SkipComma json (SkipWhitespace json (MethodMember json (ParseString json (SkipWhitespace json pos)).1 (SkipWhitespace json (SkipWhitespace json (ParseString json (SkipWhitespace json pos)).2 + 1)) method).1) ≤ json.length := by
  have h1 := SkipWhitespace_bound json pos h
  have h2 := ParseString_bound json (SkipWhitespace json pos) h1
  have h3 := SkipWhitespace_bound json (ParseString json (SkipWhitespace json pos)).2 h2
  have h4 : SkipWhitespace json (ParseString json (SkipWhitespace json pos)).2 + 1 ≤ json.length := lt_length_of_Peek hc (by decide)
  have h5 := SkipWhitespace_bound json (SkipWhitespace json (ParseString json (SkipWhitespace json pos)).2 + 1) h4
  have h6 := MethodMember_bound json (ParseString json (SkipWhitespace json pos)).1 (SkipWhitespace json (SkipWhitespace json (ParseString json (SkipWhitespace json pos)).2 + 1)) method h5
  exact SkipComma_bound json _ (SkipWhitespace_bound json _ h6)

theorem ParseMethodInfoLoop_le (json : List Char) :
    ∀ (fuel pos : Nat) (method : MethodInfo), pos ≤ (ParseMethodInfoLoop json fuel pos method).2.1
  | 0, pos, method => by simp [ParseMethodInfoLoop]
  | fuel + 1, pos, method => by
    rw [ParseMethodInfoLoop_succ]
    have h1 := SkipWhitespace_le json pos
    have h2 := ParseString_le json (SkipWhitespace json pos)
    have h3 := SkipWhitespace_le json (ParseString json (SkipWhitespace json pos)).2
    split_ifs
    · simp only; omega
    · exact Nat.le_trans (Nat.le_of_lt (ParseMethodInfoLoop_next_lt json pos method)) (ParseMethodInfoLoop_le json fuel _ _)
    · simp only; omega
    · exact Nat.le_refl _

theorem ParseMethodInfoLoop_bound (json : List Char) :
    ∀ (fuel pos : Nat) (method : MethodInfo), pos ≤ json.length →
      (ParseMethodInfoLoop json fuel pos method).2.1 ≤ json.length
  | 0, pos, method, h => by simpa [ParseMethodInfoLoop] using h
  | fuel + 1, pos, method, h => by
    rw [ParseMethodInfoLoop_succ]
    have h1 := SkipWhitespace_bound json pos h
    have h2 := ParseString_bound json (SkipWhitespace json pos) h1
    have h3 := SkipWhitespace_bound json (ParseString json (SkipWhitespace json pos)).2 h2
    split_ifs with _ hb hc
    · exact lt_length_of_Peek hb (by decide)
    · exact ParseMethodInfoLoop_bound json fuel _ _ (ParseMethodInfoLoop_next_bound json pos method h hc)
    · exact h3
    · exact h

/-- The fuel does not matter once it covers the rest of the text: the loop
of `ParseMethodInfo` never stops for lack of fuel. -/
theorem ParseMethodInfoLoop_fuel (json : List Char) :
    ∀ (f1 f2 pos : Nat) (method : MethodInfo),
      json.length - pos ≤ f1 → json.length - pos ≤ f2 →
      ParseMethodInfoLoop json f1 pos method = ParseMethodInfoLoop json f2 pos method
  | 0, 0, _, _, _, _ => rfl
  | 0, f2 + 1, pos, method, h1, _ => by
    rw [ParseMethodInfoLoop_succ, if_neg (by omega)]; rfl
  | f1 + 1, 0, pos, method, _, h2 => by
    rw [ParseMethodInfoLoop_succ, if_neg (by omega)]; rfl
  | f1 + 1, f2 + 1, pos, method, h1, h2 => by
    rw [ParseMethodInfoLoop_succ, ParseMethodInfoLoop_succ]
    have hlt := ParseMethodInfoLoop_next_lt json pos method
    split_ifs
    · rfl
    · exact ParseMethodInfoLoop_fuel json f1 f2 _ _ (by omega) (by omega)
    · rfl
    · rfl

theorem ParseMethodInfo_le (json : List Char) (pos : Nat) (method : MethodInfo) :
    pos ≤ (ParseMethodInfo json pos method).2.1 := by
  unfold ParseMethodInfo
  split
  · rename_i p h
    have := Expect_false h
    simp only; omega
  · rename_i p h
    have h1 := Expect_true h
    have h2 := ParseMethodInfoLoop_le json (json.length - p) p method
    omega

theorem ParseMethodInfo_bound (json : List Char) (pos : Nat) (method : MethodInfo)
    (h : pos ≤ json.length) : (ParseMethodInfo json pos method).2.1 ≤ json.length := by
  have h0 := Expect_bound json pos '{' (by decide) h
  unfold ParseMethodInfo
  split
  · rename_i p hp
    rw [hp] at h0
    exact h0
  · rename_i p hp
    rw [hp] at h0
    exact ParseMethodInfoLoop_bound json _ p method h0

/-- `ParseMethodInfo` returns `true` only after it has consumed a `{`. -/
theorem ParseMethodInfo_lt (json : List Char) (pos p : Nat) (method x : MethodInfo)
    (h : ParseMethodInfo json pos method = (true, p, x)) : pos < p := by
  unfold ParseMethodInfo at h
  split at h
  · simp at h
  · rename_i q hq
    have h1 := Expect_true hq
    have h2 := ParseMethodInfoLoop_le json (json.length - q) q method
    rw [h] at h2
    simp only at h2
    omega

/-- One iteration of the loop of `ParseMethodsArray`, with the outcome of
`ParseMethodInfo` written as a test. -/
theorem ParseMethodsArrayLoop_succ (json : List Char) (fuel pos : Nat) (acc : List MethodInfo) :
    ParseMethodsArrayLoop json (fuel + 1) pos acc
      = if pos < json.length then
          if Peek json (SkipWhitespace json pos) = ']' then
            (true, SkipWhitespace json pos + 1, acc)
          else if (ParseMethodInfo json (SkipWhitespace json pos) {}).1 = true then
            ParseMethodsArrayLoop json fuel (SkipComma json (SkipWhitespace json (ParseMethodInfo json (SkipWhitespace json pos) {}).2.1))
              (acc ++ [(ParseMethodInfo json (SkipWhitespace json pos) {}).2.2])
          else (false, (ParseMethodInfo json (SkipWhitespace json pos) {}).2.1, acc)
        else (true, pos, acc) := by
  simp only [ParseMethodsArrayLoop]
  split_ifs with h1 h2 h3
  · rfl
  · generalize ParseMethodInfo json (SkipWhitespace json pos) {} = r at h3 ⊢
    obtain ⟨b, q, x⟩ := r
    simp only at h3
    subst h3
    rfl
  · generalize ParseMethodInfo json (SkipWhitespace json pos) {} = r at h3 ⊢
    obtain ⟨b, q, x⟩ := r
    simp only [Bool.not_eq_true] at h3
    subst h3
    rfl
  · rfl

/-- The cursor after an iteration of the loop of `ParseMethodsArray` that
continues is beyond the cursor before it. -/
theorem ParseMethodsArrayLoop_next_lt (json : List Char) (pos : Nat) (h : (ParseMethodInfo json (SkipWhitespace json pos) {}).1 = true) :
    pos < SkipComma json (SkipWhitespace json (ParseMethodInfo json (SkipWhitespace json pos) {}).2.1) := by
  have h1 := SkipWhitespace_le json pos
  have h2 := ParseMethodInfo_lt json (SkipWhitespace json pos) (ParseMethodInfo json (SkipWhitespace json pos) {}).2.1 {} (ParseMethodInfo json (SkipWhitespace json pos) {}).2.2 (Prod.ext h rfl)
  have h3 := SkipWhitespace_le json (ParseMethodInfo json (SkipWhitespace json pos) {}).2.1
  have h4 := SkipComma_le json (SkipWhitespace json (ParseMethodInfo json (SkipWhitespace json pos) {}).2.1)
  omega

theorem ParseMethodsArrayLoop_le (json : List Char) :
    ∀ (fuel pos : Nat) (acc : List MethodInfo), pos ≤ (ParseMethodsArrayLoop json fuel pos acc).2.1
  | 0, pos, acc => by simp [ParseMethodsArrayLoop]
  | fuel + 1, pos, acc => by
    rw [ParseMethodsArrayLoop_succ]
    have h1 := SkipWhitespace_le json pos
    have h2 := ParseMethodInfo_le json (SkipWhitespace json pos) {}
    split_ifs with _ _ h3
    · simp only; omega
    · exact Nat.le_trans (Nat.le_of_lt (ParseMethodsArrayLoop_next_lt json pos h3)) (ParseMethodsArrayLoop_le json fuel _ _)
    · simp only; omega
    · exact Nat.le_refl _

theorem ParseMethodsArrayLoop_bound (json : List Char) :
    ∀ (fuel pos : Nat) (acc : List MethodInfo), pos ≤ json.length →
      (ParseMethodsArrayLoop json fuel pos acc).2.1 ≤ json.length
  | 0, pos, acc, h => by simpa [ParseMethodsArrayLoop] using h
  | fuel + 1, pos, acc, h => by
    rw [ParseMethodsArrayLoop_succ]
    have h1 := SkipWhitespace_bound json pos h
    have h2 := ParseMethodInfo_bound json (SkipWhitespace json pos) {} h1
    split_ifs with _ hb h3
    · exact lt_length_of_Peek hb (by decide)
    · exact ParseMethodsArrayLoop_bound json fuel _ _
        (SkipComma_bound json _ (SkipWhitespace_bound json _ h2))
    · exact h2
    · exact h

/-- The fuel does not matter once it covers the rest of the text: the loop
of `ParseMethodsArray` never stops for lack of fuel. -/
theorem ParseMethodsArrayLoop_fuel (json : List Char) :
    ∀ (f1 f2 pos : Nat) (acc : List MethodInfo),
      json.length - pos ≤ f1 → json.length - pos ≤ f2 →
      ParseMethodsArrayLoop json f1 pos acc = ParseMethodsArrayLoop json f2 pos acc
  | 0, 0, _, _, _, _ => rfl
  | 0, f2 + 1, pos, acc, h1, _ => by
    rw [ParseMethodsArrayLoop_succ, if_neg (by omega)]; rfl
  | f1 + 1, 0, pos, acc, _, h2 => by
    rw [ParseMethodsArrayLoop_succ, if_neg (by omega)]; rfl
  | f1 + 1, f2 + 1, pos, acc, h1, h2 => by
    rw [ParseMethodsArrayLoop_succ, ParseMethodsArrayLoop_succ]
    split_ifs with _ _ h3
    · rfl
    · have hlt := ParseMethodsArrayLoop_next_lt json pos h3
      exact ParseMethodsArrayLoop_fuel json f1 f2 _ _ (by omega) (by omega)
    · rfl
    · rfl

theorem ParseMethodsArray_le (json : List Char) (pos : Nat) (acc : List MethodInfo) :
    pos ≤ (ParseMethodsArray json pos acc).2.1 := by
  unfold ParseMethodsArray
  split
  · rename_i p h
    have := Expect_false h
    simp only; omega
  · rename_i p h
    have h1 := Expect_true h
    have h2 := ParseMethodsArrayLoop_le json (json.length - p) p acc
    omega

theorem ParseMethodsArray_bound (json : List Char) (pos : Nat) (acc : List MethodInfo)
    (h : pos ≤ json.length) : (ParseMethodsArray json pos acc).2.1 ≤ json.length := by
  have h0 := Expect_bound json pos '[' (by decide) h
  unfold ParseMethodsArray
  split
  · rename_i p hp
    rw [hp] at h0
    exact h0
  · rename_i p hp
    rw [hp] at h0
    exact ParseMethodsArrayLoop_bound json _ p acc h0

theorem FieldMember_le (json key : List Char) (pos : Nat) (field : FieldInfo) :
    pos ≤ (FieldMember json key pos field).1 := by
  unfold FieldMember
  by_cases h0 : key = "name".toList
  · rw [if_pos h0]; exact ParseString_le json pos
  rw [if_neg h0]
  by_cases h1 : key = "fieldType".toList
  · rw [if_pos h1]; exact ParseString_le json pos
  rw [if_neg h1]
  by_cases h2 : key = "isPublic".toList
  · rw [if_pos h2]; exact ParseBool_le json pos
  rw [if_neg h2]
  by_cases h3 : key = "isStatic".toList
  · rw [if_pos h3]; exact ParseBool_le json pos
  rw [if_neg h3]
  by_cases h4 : key = "isReadOnly".toList
  · rw [if_pos h4]; exact ParseBool_le json pos
  rw [if_neg h4]
  exact SkipValue_le json pos

theorem FieldMember_bound (json key : List Char) (pos : Nat) (field : FieldInfo) (h : pos ≤ json.length) :
    (FieldMember json key pos field).1 ≤ json.length := by
  unfold FieldMember
  by_cases h0 : key = "name".toList
  · rw [if_pos h0]; exact ParseString_bound json pos h
  rw [if_neg h0]
  by_cases h1 : key = "fieldType".toList
  · rw [if_pos h1]; exact ParseString_bound json pos h
  rw [if_neg h1]
  by_cases h2 : key = "isPublic".toList
  · rw [if_pos h2]; exact ParseBool_bound json pos h
  rw [if_neg h2]
  by_cases h3 : key = "isStatic".toList
  · rw [if_pos h3]; exact ParseBool_bound json pos h
  rw [if_neg h3]
  by_cases h4 : key = "isReadOnly".toList
  · rw [if_pos h4]; exact ParseBool_bound json pos h
  rw [if_neg h4]
  exact SkipValue_bound json pos h

/-- One iteration of the loop of `ParseFieldInfo`, with the outcome of
`Expect(':')` written as a test. -/
theorem ParseFieldInfoLoop_succ (json : List Char) (fuel pos : Nat) (field : FieldInfo) :
    ParseFieldInfoLoop json (fuel + 1) pos field
      = if pos < json.length then
          if Peek json (SkipWhitespace json pos) = '}' then
            (true, SkipWhitespace json pos + 1, field)
          else if Peek json (SkipWhitespace json (ParseString json (SkipWhitespace json pos)).2) = ':' then
            ParseFieldInfoLoop json fuel
              (SkipComma json (SkipWhitespace json (FieldMember json (ParseString json (SkipWhitespace json pos)).1 (SkipWhitespace json (SkipWhitespace json (ParseString json (SkipWhitespace json pos)).2 + 1)) field).1))
              (FieldMember json (ParseString json (SkipWhitespace json pos)).1 (SkipWhitespace json (SkipWhitespace json (ParseString json (SkipWhitespace json pos)).2 + 1)) field).2
          else (false, SkipWhitespace json (ParseString json (SkipWhitespace json pos)).2, field)
        else (true, pos, field) := by
  simp only [ParseFieldInfoLoop, Expect]
  split_ifs <;> rfl

/-- The cursor after an iteration of the loop of `ParseFieldInfo` that
continues is beyond the cursor before it. -/
theorem ParseFieldInfoLoop_next_lt (json : List Char) (pos : Nat) (field : FieldInfo) :
    pos < SkipComma json (SkipWhitespace json (FieldMember json (ParseString json (SkipWhitespace json pos)).1 (SkipWhitespace json (SkipWhitespace json (ParseString json (SkipWhitespace json pos)).2 + 1)) field).1) := by
  have h1 := SkipWhitespace_le json pos
  have h2 := ParseString_le json (SkipWhitespace json pos)
  have h3 := SkipWhitespace_le json (ParseString json (SkipWhitespace json pos)).2
  have h4 := SkipWhitespace_le json (SkipWhitespace json (ParseString json (SkipWhitespace json pos)).2 + 1)
  have h5 := FieldMember_le json (ParseString json (SkipWhitespace json pos)).1 (SkipWhitespace json (SkipWhitespace json (ParseString json (SkipWhitespace json pos)).2 + 1)) field
  have h6 := SkipWhitespace_le json (FieldMember json (ParseString json (SkipWhitespace json pos)).1 (SkipWhitespace json (SkipWhitespace json (ParseString json (SkipWhitespace json pos)).2 + 1)) field).1
  have h7 := SkipComma_le json (SkipWhitespace json (FieldMember json (ParseString json (SkipWhitespace json pos)).1 (SkipWhitespace json (SkipWhitespace json (ParseString json (SkipWhitespace json pos)).2 + 1)) field).1)
  omega

/-- The cursor after an iteration of the loop of `ParseFieldInfo` that
continues is within the text. -/
theorem ParseFieldInfoLoop_next_bound (json : List Char) (pos : Nat) (field : FieldInfo)
    (h : pos ≤ json.length) (hc : Peek json (SkipWhitespace json (ParseString json (SkipWhitespace json pos)).2) = ':') :
    SkipComma json (SkipWhitespace json (FieldMember json (ParseString json (SkipWhitespace json pos)).1 (SkipWhitespace json (SkipWhitespace json (ParseString json (SkipWhitespace json pos)).2 + 1)) field).1) ≤ json.length := by
  have h1 := SkipWhitespace_bound json pos h
  have h2 := ParseString_bound json (SkipWhitespace json pos) h1
  have h3 := SkipWhitespace_bound json (ParseString json (SkipWhitespace json pos)).2 h2
  have h4 : SkipWhitespace json (ParseString json (SkipWhitespace json pos)).2 + 1 ≤ json.length := lt_length_of_Peek hc (by decide)
  have h5 := SkipWhitespace_bound json (SkipWhitespace json (ParseString json (SkipWhitespace json pos)).2 + 1) h4
  have h6 := FieldMember_bound json (ParseString json (SkipWhitespace json pos)).1 (SkipWhitespace json (SkipWhitespace json (ParseString json (SkipWhitespace json pos)).2 + 1)) field h5
  exact SkipComma_bound json _ (SkipWhitespace_bound json _ h6)

theorem ParseFieldInfoLoop_le (json : List Char) :
    ∀ (fuel pos : Nat) (field : FieldInfo), pos ≤ (ParseFieldInfoLoop json fuel pos field).2.1
  | 0, pos, field => by simp [ParseFieldInfoLoop]
  | fuel + 1, pos, field => by
    rw [ParseFieldInfoLoop_succ]
    have h1 := SkipWhitespace_le json pos
    have h2 := ParseString_le json (SkipWhitespace json pos)
    have h3 := SkipWhitespace_le json (ParseString json (SkipWhitespace json pos)).2
    split_ifs
    · simp only; omega
    · exact Nat.le_trans (Nat.le_of_lt (ParseFieldInfoLoop_next_lt json pos field)) (ParseFieldInfoLoop_le json fuel _ _)
    · simp only; omega
    · exact Nat.le_refl _

theorem ParseFieldInfoLoop_bound (json : List Char) :
    ∀ (fuel pos : Nat) (field : FieldInfo), pos ≤ json.length →
      (ParseFieldInfoLoop json fuel pos field).2.1 ≤ json.length
  | 0, pos, field, h => by simpa [ParseFieldInfoLoop] using h
  | fuel + 1, pos, field, h => by
    rw [ParseFieldInfoLoop_succ]
    have h1 := SkipWhitespace_bound json pos h
    have h2 := ParseString_bound json (SkipWhitespace json pos) h1
    have h3 := SkipWhitespace_bound json (ParseString json (SkipWhitespace json pos)).2 h2
    split_ifs with _ hb hc
    · exact lt_length_of_Peek hb (by decide)
    · exact ParseFieldInfoLoop_bound json fuel _ _ (ParseFieldInfoLoop_next_bound json pos field h hc)
    · exact h3
    · exact h

/-- The fuel does not matter once it covers the rest of the text: the loop
of `ParseFieldInfo` never stops for lack of fuel. -/
theorem ParseFieldInfoLoop_fuel (json : List Char) :
    ∀ (f1 f2 pos : Nat) (field : FieldInfo),
      json.length - pos ≤ f1 → json.length - pos ≤ f2 →
      ParseFieldInfoLoop json f1 pos field = ParseFieldInfoLoop json f2 pos field
  | 0, 0, _, _, _, _ => rfl
  | 0, f2 + 1, pos, field, h1, _ => by
    rw [ParseFieldInfoLoop_succ, if_neg (by omega)]; rfl
  | f1 + 1, 0, pos, field, _, h2 => by
    rw [ParseFieldInfoLoop_succ, if_neg (by omega)]; rfl
  | f1 + 1, f2 + 1, pos, field, h1, h2 => by
    rw [ParseFieldInfoLoop_succ, ParseFieldInfoLoop_succ]
    have hlt := ParseFieldInfoLoop_next_lt json pos field
    split_ifs
    · rfl
    · exact ParseFieldInfoLoop_fuel json f1 f2 _ _ (by omega) (by omega)
    · rfl
    · rfl

theorem ParseFieldInfo_le (json : List Char) (pos : Nat) (field : FieldInfo) :
    pos ≤ (ParseFieldInfo json pos field).2.1 := by
  unfold ParseFieldInfo
  split
  · rename_i p h
    have := Expect_false h
    simp only; omega
  · rename_i p h
    have h1 := Expect_true h
    have h2 := ParseFieldInfoLoop_le json (json.length - p) p field
    omega

theorem ParseFieldInfo_bound (json : List Char) (pos : Nat) (field : FieldInfo)
    (h : pos ≤ json.length) : (ParseFieldInfo json pos field).2.1 ≤ json.length := by
  have h0 := Expect_bound json pos '{' (by decide) h
  unfold ParseFieldInfo
  split
  · rename_i p hp
    rw [hp] at h0
    exact h0
  · rename_i p hp
    rw [hp] at h0
    exact ParseFieldInfoLoop_bound json _ p field h0

/-- `ParseFieldInfo` returns `true` only after it has consumed a `{`. -/
theorem ParseFieldInfo_lt (json : List Char) (pos p : Nat) (field x : FieldInfo)
    (h : ParseFieldInfo json pos field = (true, p, x)) : pos < p := by
  unfold ParseFieldInfo at h
  split at h
  · simp at h
  · rename_i q hq
    have h1 := Expect_true hq
    have h2 := ParseFieldInfoLoop_le json (json.length - q) q field
    rw [h] at h2
    simp only at h2
    omega

/-- One iteration of the loop of `ParseFieldsArray`, with the outcome of
`ParseFieldInfo` written as a test. -/
theorem ParseFieldsArrayLoop_succ (json : List Char) (fuel pos : Nat) (acc : List FieldInfo) :
    ParseFieldsArrayLoop json (fuel + 1) pos acc
      = if pos < json.length then
          if Peek json (SkipWhitespace json pos) = ']' then
            (true, SkipWhitespace json pos + 1, acc)
          else if (ParseFieldInfo json (SkipWhitespace json pos) {}).1 = true then
            ParseFieldsArrayLoop json fuel (SkipComma json (SkipWhitespace json (ParseFieldInfo json (SkipWhitespace json pos) {}).2.1))
              (acc ++ [(ParseFieldInfo json (SkipWhitespace json pos) {}).2.2])
          else (false, (ParseFieldInfo json (SkipWhitespace json pos) {}).2.1, acc)
        else (true, pos, acc) := by
  simp only [ParseFieldsArrayLoop]
  split_ifs with h1 h2 h3
  · rfl
  · generalize ParseFieldInfo json (SkipWhitespace json pos) {} = r at h3 ⊢
    obtain ⟨b, q, x⟩ := r
    simp only at h3
    subst h3
    rfl
  · generalize ParseFieldInfo json (SkipWhitespace json pos) {} = r at h3 ⊢
    obtain ⟨b, q, x⟩ := r
    simp only [Bool.not_eq_true] at h3
    subst h3
    rfl
  · rfl

/-- The cursor after an iteration of the loop of `ParseFieldsArray` that
continues is beyond the cursor before it. -/
theorem ParseFieldsArrayLoop_next_lt (json : List Char) (pos : Nat) (h : (ParseFieldInfo json (SkipWhitespace json pos) {}).1 = true) :
    pos < SkipComma json (SkipWhitespace json (ParseFieldInfo json (SkipWhitespace json pos) {}).2.1) := by
  have h1 := SkipWhitespace_le json pos
  have h2 := ParseFieldInfo_lt json (SkipWhitespace json pos) (ParseFieldInfo json (SkipWhitespace json pos) {}).2.1 {} (ParseFieldInfo json (SkipWhitespace json pos) {}).2.2 (Prod.ext h rfl)
  have h3 := SkipWhitespace_le json (ParseFieldInfo json (SkipWhitespace json pos) {}).2.1
  have h4 := SkipComma_le json (SkipWhitespace json (ParseFieldInfo json (SkipWhitespace json pos) {}).2.1)
  omega

theorem ParseFieldsArrayLoop_le (json : List Char) :
    ∀ (fuel pos : Nat) (acc : List FieldInfo), pos ≤ (ParseFieldsArrayLoop json fuel pos acc).2.1
  | 0, pos, acc => by simp [ParseFieldsArrayLoop]
  | fuel + 1, pos, acc => by
    rw [ParseFieldsArrayLoop_succ]
    have h1 := SkipWhitespace_le json pos
    have h2 := ParseFieldInfo_le json (SkipWhitespace json pos) {}
    split_ifs with _ _ h3
    · simp only; omega
    · exact Nat.le_trans (Nat.le_of_lt (ParseFieldsArrayLoop_next_lt json pos h3)) (ParseFieldsArrayLoop_le json fuel _ _)
    · simp only; omega
    · exact Nat.le_refl _

theorem ParseFieldsArrayLoop_bound (json : List Char) :
    ∀ (fuel pos : Nat) (acc : List FieldInfo), pos ≤ json.length →
      (ParseFieldsArrayLoop json fuel pos acc).2.1 ≤ json.length
  | 0, pos, acc, h => by simpa [ParseFieldsArrayLoop] using h
  | fuel + 1, pos, acc, h => by
    rw [ParseFieldsArrayLoop_succ]
    have h1 := SkipWhitespace_bound json pos h
    have h2 := ParseFieldInfo_bound json (SkipWhitespace json pos) {} h1
    split_ifs with _ hb h3
    · exact lt_length_of_Peek hb (by decide)
    · exact ParseFieldsArrayLoop_bound json fuel _ _
        (SkipComma_bound json _ (SkipWhitespace_bound json _ h2))
    · exact h2
    · exact h

/-- The fuel does not matter once it covers the rest of the text: the loop
of `ParseFieldsArray` never stops for lack of fuel. -/
theorem ParseFieldsArrayLoop_fuel (json : List Char) :
    ∀ (f1 f2 pos : Nat) (acc : List FieldInfo),
      json.length - pos ≤ f1 → json.length - pos ≤ f2 →
      ParseFieldsArrayLoop json f1 pos acc = ParseFieldsArrayLoop json f2 pos acc
  | 0, 0, _, _, _, _ => rfl
  | 0, f2 + 1, pos, acc, h1, _ => by
    rw [ParseFieldsArrayLoop_succ, if_neg (by omega)]; rfl
  | f1 + 1, 0, pos, acc, _, h2 => by
    rw [ParseFieldsArrayLoop_succ, if_neg (by omega)]; rfl
  | f1 + 1, f2 + 1, pos, acc, h1, h2 => by
    rw [ParseFieldsArrayLoop_succ, ParseFieldsArrayLoop_succ]
    split_ifs with _ _ h3
    · rfl
    · have hlt := ParseFieldsArrayLoop_next_lt json pos h3
      exact ParseFieldsArrayLoop_fuel json f1 f2 _ _ (by omega) (by omega)
    · rfl
    · rfl

theorem ParseFieldsArray_le (json : List Char) (pos : Nat) (acc : List FieldInfo) :
    pos ≤ (ParseFieldsArray json pos acc).2.1 := by
  unfold ParseFieldsArray
  split
  · rename_i p h
    have := Expect_false h
    simp only; omega
  · rename_i p h
    have h1 := Expect_true h
    have h2 := ParseFieldsArrayLoop_le json (json.length - p) p acc
    omega

theorem ParseFieldsArray_bound (json : List Char) (pos : Nat) (acc : List FieldInfo)
    (h : pos ≤ json.length) : (ParseFieldsArray json pos acc).2.1 ≤ json.length := by
  have h0 := Expect_bound json pos '[' (by decide) h
  unfold ParseFieldsArray
  split
  · rename_i p hp
    rw [hp] at h0
    exact h0
  · rename_i p hp
    rw [hp] at h0
    exact ParseFieldsArrayLoop_bound json _ p acc h0

theorem PropertyMember_le (json key : List Char) (pos : Nat) (prop : PropertyInfo) :
    pos ≤ (PropertyMember json key pos prop).1 := by
  unfold PropertyMember
  by_cases h0 : key = "name".toList
  · rw [if_pos h0]; exact ParseString_le json pos
  rw [if_neg h0]
  by_cases h1 : key = "propertyType".toList
  · rw [if_pos h1]; exact ParseString_le json pos
  rw [if_neg h1]
  by_cases h2 : key = "canRead".toList
  · rw [if_pos h2]; exact ParseBool_le json pos
  rw [if_neg h2]
  by_cases h3 : key = "canWrite".toList
  · rw [if_pos h3]; exact ParseBool_le json pos
  rw [if_neg h3]
  exact SkipValue_le json pos

theorem PropertyMember_bound (json key : List Char) (pos : Nat) (prop : PropertyInfo) (h : pos ≤ json.length) :
    (PropertyMember json key pos prop).1 ≤ json.length := by
  unfold PropertyMember
  by_cases h0 : key = "name".toList
  · rw [if_pos h0]; exact ParseString_bound json pos h
  rw [if_neg h0]
  by_cases h1 : key = "propertyType".toList
  · rw [if_pos h1]; exact ParseString_bound json pos h
  rw [if_neg h1]
  by_cases h2 : key = "canRead".toList
  · rw [if_pos h2]; exact ParseBool_bound json pos h
  rw [if_neg h2]
  by_cases h3 : key = "canWrite".toList
  · rw [if_pos h3]; exact ParseBool_bound json pos h
  rw [if_neg h3]
  exact SkipValue_bound json pos h

/-- One iteration of the loop of `ParsePropertyInfo`, with the outcome of
`Expect(':')` written as a test. -/
theorem ParsePropertyInfoLoop_succ (json : List Char) (fuel pos : Nat) (prop : PropertyInfo) :
    ParsePropertyInfoLoop json (fuel + 1) pos prop
      = if pos < json.length then
          if Peek json (SkipWhitespace json pos) = '}' then
            (true, SkipWhitespace json pos + 1, prop)
          else if Peek json (SkipWhitespace json (ParseString json (SkipWhitespace json pos)).2) = ':' then
            ParsePropertyInfoLoop json fuel
              (SkipComma json (SkipWhitespace json (PropertyMember json (ParseString json (SkipWhitespace json pos)).1 (SkipWhitespace json (SkipWhitespace json (ParseString json (SkipWhitespace json pos)).2 + 1)) prop).1))
              (PropertyMember json (ParseString json (SkipWhitespace json pos)).1 (SkipWhitespace json (SkipWhitespace json (ParseString json (SkipWhitespace json pos)).2 + 1)) prop).2
          else (false, SkipWhitespace json (ParseString json (SkipWhitespace json pos)).2, prop)
        else (true, pos, prop) := by
  simp only [ParsePropertyInfoLoop, Expect]
  split_ifs <;> rfl

/-- The cursor after an iteration of the loop of `ParsePropertyInfo` that
continues is beyond the cursor before it. -/
theorem ParsePropertyInfoLoop_next_lt (json : List Char) (pos : Nat) (prop : PropertyInfo) :
    pos < SkipComma json (SkipWhitespace json (PropertyMember json (ParseString json (SkipWhitespace json pos)).1 (SkipWhitespace json (SkipWhitespace json (ParseString json (SkipWhitespace json pos)).2 + 1)) prop).1) := by
  have h1 := SkipWhitespace_le json pos
  have h2 := ParseString_le json (SkipWhitespace json pos)
  have h3 := SkipWhitespace_le json (ParseString json (SkipWhitespace json pos)).2
  have h4 := SkipWhitespace_le json (SkipWhitespace json (ParseString json (SkipWhitespace json pos)).2 + 1)
  have h5 := PropertyMember_le json (ParseString json (SkipWhitespace json pos)).1 (SkipWhitespace json (SkipWhitespace json (ParseString json (SkipWhitespace json pos)).2 + 1)) prop
  have h6 := SkipWhitespace_le json (PropertyMember json (ParseString json (SkipWhitespace json pos)).1 (SkipWhitespace json (SkipWhitespace json (ParseString json (SkipWhitespace json pos)).2 + 1)) prop).1
  have h7 := SkipComma_le json (SkipWhitespace json (PropertyMember json (ParseString json (SkipWhitespace json pos)).1 (SkipWhitespace json (SkipWhitespace json (ParseString json (SkipWhitespace json pos)).2 + 1)) prop).1)
  omega

/-- The cursor after an iteration of the loop of `ParsePropertyInfo` that
continues is within the text. -/
theorem ParsePropertyInfoLoop_next_bound (json : List Char) (pos : Nat) (prop : PropertyInfo)
    (h : pos ≤ json.length) (hc : Peek json (SkipWhitespace json (ParseString json (SkipWhitespace json pos)).2) = ':') :
    SkipComma json (SkipWhitespace json (PropertyMember json (ParseString json (SkipWhitespace json pos)).1 (SkipWhitespace json (SkipWhitespace json (ParseString json (SkipWhitespace json pos)).2 + 1)) prop).1) ≤ json.length := by
  have h1 := SkipWhitespace_bound json pos h
  have h2 := ParseString_bound json (SkipWhitespace json pos) h1
  have h3 := SkipWhitespace_bound json (ParseString json (SkipWhitespace json pos)).2 h2
  have h4 : SkipWhitespace json (ParseString json (SkipWhitespace json pos)).2 + 1 ≤ json.length := lt_length_of_Peek hc (by decide)
  have h5 := SkipWhitespace_bound json (SkipWhitespace json (ParseString json (SkipWhitespace json pos)).2 + 1) h4
  have h6 := PropertyMember_bound json (ParseString json (SkipWhitespace json pos)).1 (SkipWhitespace json (SkipWhitespace json (ParseString json (SkipWhitespace json pos)).2 + 1)) prop h5
  exact SkipComma_bound json _ (SkipWhitespace_bound json _ h6)

theorem ParsePropertyInfoLoop_le (json : List Char) :
    ∀ (fuel pos : Nat) (prop : PropertyInfo), pos ≤ (ParsePropertyInfoLoop json fuel pos prop).2.1
  | 0, pos, prop => by simp [ParsePropertyInfoLoop]
  | fuel + 1, pos, prop => by
    rw [ParsePropertyInfoLoop_succ]
    have h1 := SkipWhitespace_le json pos
    have h2 := ParseString_le json (SkipWhitespace json pos)
    have h3 := SkipWhitespace_le json (ParseString json (SkipWhitespace json pos)).2
    split_ifs
    · simp only; omega
    · exact Nat.le_trans (Nat.le_of_lt (ParsePropertyInfoLoop_next_lt json pos prop)) (ParsePropertyInfoLoop_le json fuel _ _)
    · simp only; omega
    · exact Nat.le_refl _

theorem ParsePropertyInfoLoop_bound (json : List Char) :
    ∀ (fuel pos : Nat) (prop : PropertyInfo), pos ≤ json.length →
      (ParsePropertyInfoLoop json fuel pos prop).2.1 ≤ json.length
  | 0, pos, prop, h => by simpa [ParsePropertyInfoLoop] using h
  | fuel + 1, pos, prop, h => by
    rw [ParsePropertyInfoLoop_succ]
    have h1 := SkipWhitespace_bound json pos h
    have h2 := ParseString_bound json (SkipWhitespace json pos) h1
    have h3 := SkipWhitespace_bound json (ParseString json (SkipWhitespace json pos)).2 h2
    split_ifs with _ hb hc
    · exact lt_length_of_Peek hb (by decide)
    · exact ParsePropertyInfoLoop_bound json fuel _ _ (ParsePropertyInfoLoop_next_bound json pos prop h hc)
    · exact h3
    · exact h

/-- The fuel does not matter once it covers the rest of the text: the loop
of `ParsePropertyInfo` never stops for lack of fuel. -/
theorem ParsePropertyInfoLoop_fuel (json : List Char) :
    ∀ (f1 f2 pos : Nat) (prop : PropertyInfo),
      json.length - pos ≤ f1 → json.length - pos ≤ f2 →
      ParsePropertyInfoLoop json f1 pos prop = ParsePropertyInfoLoop json f2 pos prop
  | 0, 0, _, _, _, _ => rfl
  | 0, f2 + 1, pos, prop, h1, _ => by
    rw [ParsePropertyInfoLoop_succ, if_neg (by omega)]; rfl
  | f1 + 1, 0, pos, prop, _, h2 => by
    rw [ParsePropertyInfoLoop_succ, if_neg (by omega)]; rfl
  | f1 + 1, f2 + 1, pos, prop, h1, h2 => by
    rw [ParsePropertyInfoLoop_succ, ParsePropertyInfoLoop_succ]
    have hlt := ParsePropertyInfoLoop_next_lt json pos prop
    split_ifs
    · rfl
    · exact ParsePropertyInfoLoop_fuel json f1 f2 _ _ (by omega) (by omega)
    · rfl
    · rfl

theorem ParsePropertyInfo_le (json : List Char) (pos : Nat) (prop : PropertyInfo) :
    pos ≤ (ParsePropertyInfo json pos prop).2.1 := by
  unfold ParsePropertyInfo
  split
  · rename_i p h
    have := Expect_false h
    simp only; omega
  · rename_i p h
    have h1 := Expect_true h
    have h2 := ParsePropertyInfoLoop_le json (json.length - p) p prop
    omega

theorem ParsePropertyInfo_bound (json : List Char) (pos : Nat) (prop : PropertyInfo)
    (h : pos ≤ json.length) : (ParsePropertyInfo json pos prop).2.1 ≤ json.length := by
  have h0 := Expect_bound json pos '{' (by decide) h
  unfold ParsePropertyInfo
  split
  · rename_i p hp
    rw [hp] at h0
    exact h0
  · rename_i p hp
    rw [hp] at h0
    exact ParsePropertyInfoLoop_bound json _ p prop h0

/-- `ParsePropertyInfo` returns `true` only after it has consumed a `{`. -/
theorem ParsePropertyInfo_lt (json : List Char) (pos p : Nat) (prop x : PropertyInfo)
    (h : ParsePropertyInfo json pos prop = (true, p, x)) : pos < p := by
  unfold ParsePropertyInfo at h
  split at h
  · simp at h
  · rename_i q hq
    have h1 := Expect_true hq
    have h2 := ParsePropertyInfoLoop_le json (json.length - q) q prop
    rw [h] at h2
    simp only at h2
    omega

/-- One iteration of the loop of `ParsePropertiesArray`, with the outcome of
`ParsePropertyInfo` written as a test. -/
theorem ParsePropertiesArrayLoop_succ (json : List Char) (fuel pos : Nat) (acc : List PropertyInfo) :
    ParsePropertiesArrayLoop json (fuel + 1) pos acc
      = if pos < json.length then
          if Peek json (SkipWhitespace json pos) = ']' then
            (true, SkipWhitespace json pos + 1, acc)
          else if (ParsePropertyInfo json (SkipWhitespace json pos) {}).1 = true then
            ParsePropertiesArrayLoop json fuel (SkipComma json (SkipWhitespace json (ParsePropertyInfo json (SkipWhitespace json pos) {}).2.1))
              (acc ++ [(ParsePropertyInfo json (SkipWhitespace json pos) {}).2.2])
          else (false, (ParsePropertyInfo json (SkipWhitespace json pos) {}).2.1, acc)
        else (true, pos, acc) := by
  simp only [ParsePropertiesArrayLoop]
  split_ifs with h1 h2 h3
  · rfl
  · generalize ParsePropertyInfo json (SkipWhitespace json pos) {} = r at h3 ⊢
    obtain ⟨b, q, x⟩ := r
    simp only at h3
    subst h3
    rfl
  · generalize ParsePropertyInfo json (SkipWhitespace json pos) {} = r at h3 ⊢
    obtain ⟨b, q, x⟩ := r
    simp only [Bool.not_eq_true] at h3
    subst h3
    rfl
  · rfl

/-- The cursor after an iteration of the loop of `ParsePropertiesArray` that
continues is beyond the cursor before it. -/
theorem ParsePropertiesArrayLoop_next_lt (json : List Char) (pos : Nat) (h : (ParsePropertyInfo json (SkipWhitespace json pos) {}).1 = true) :
    pos < SkipComma json (SkipWhitespace json (ParsePropertyInfo json (SkipWhitespace json pos) {}).2.1) := by
  have h1 := SkipWhitespace_le json pos
  have h2 := ParsePropertyInfo_lt json (SkipWhitespace json pos) (ParsePropertyInfo json (SkipWhitespace json pos) {}).2.1 {} (ParsePropertyInfo json (SkipWhitespace json pos) {}).2.2 (Prod.ext h rfl)
  have h3 := SkipWhitespace_le json (ParsePropertyInfo json (SkipWhitespace json pos) {}).2.1
  have h4 := SkipComma_le json (SkipWhitespace json (ParsePropertyInfo json (SkipWhitespace json pos) {}).2.1)
  omega

theorem ParsePropertiesArrayLoop_le (json : List Char) :
    ∀ (fuel pos : Nat) (acc : List PropertyInfo), pos ≤ (ParsePropertiesArrayLoop json fuel pos acc).2.1
  | 0, pos, acc => by simp [ParsePropertiesArrayLoop]
  | fuel + 1, pos, acc => by
    rw [ParsePropertiesArrayLoop_succ]
    have h1 := SkipWhitespace_le json pos
    have h2 := ParsePropertyInfo_le json (SkipWhitespace json pos) {}
    split_ifs with _ _ h3
    · simp only; omega
    · exact Nat.le_trans (Nat.le_of_lt (ParsePropertiesArrayLoop_next_lt json pos h3)) (ParsePropertiesArrayLoop_le json fuel _ _)
    · simp only; omega
    · exact Nat.le_refl _

theorem ParsePropertiesArrayLoop_bound (json : List Char) :
    ∀ (fuel pos : Nat) (acc : List PropertyInfo), pos ≤ json.length →
      (ParsePropertiesArrayLoop json fuel pos acc).2.1 ≤ json.length
  | 0, pos, acc, h => by simpa [ParsePropertiesArrayLoop] using h
  | fuel + 1, pos, acc, h => by
    rw [ParsePropertiesArrayLoop_succ]
    have h1 := SkipWhitespace_bound json pos h
    have h2 := ParsePropertyInfo_bound json (SkipWhitespace json pos) {} h1
    split_ifs with _ hb h3
    · exact lt_length_of_Peek hb (by decide)
    · exact ParsePropertiesArrayLoop_bound json fuel _ _
        (SkipComma_bound json _ (SkipWhitespace_bound json _ h2))
    · exact h2
    · exact h

/-- The fuel does not matter once it covers the rest of the text: the loop
of `ParsePropertiesArray` never stops for lack of fuel. -/
theorem ParsePropertiesArrayLoop_fuel (json : List Char) :
    ∀ (f1 f2 pos : Nat) (acc : List PropertyInfo),
      json.length - pos ≤ f1 → json.length - pos ≤ f2 →
      ParsePropertiesArrayLoop json f1 pos acc = ParsePropertiesArrayLoop json f2 pos acc
  | 0, 0, _, _, _, _ => rfl
  | 0, f2 + 1, pos, acc, h1, _ => by
    rw [ParsePropertiesArrayLoop_succ, if_neg (by omega)]; rfl
  | f1 + 1, 0, pos, acc, _, h2 => by
    rw [ParsePropertiesArrayLoop_succ, if_neg (by omega)]; rfl
  | f1 + 1, f2 + 1, pos, acc, h1, h2 => by
    rw [ParsePropertiesArrayLoop_succ, ParsePropertiesArrayLoop_succ]
    split_ifs with _ _ h3
    · rfl
    · have hlt := ParsePropertiesArrayLoop_next_lt json pos h3
      exact ParsePropertiesArrayLoop_fuel json f1 f2 _ _ (by omega) (by omega)
    · rfl
    · rfl

theorem ParsePropertiesArray_le (json : List Char) (pos : Nat) (acc : List PropertyInfo) :
    pos ≤ (ParsePropertiesArray json pos acc).2.1 := by
  unfold ParsePropertiesArray
  split
  · rename_i p h
    have := Expect_false h
    simp only; omega
  · rename_i p h
    have h1 := Expect_true h
    have h2 := ParsePropertiesArrayLoop_le json (json.length - p) p acc
    omega

theorem ParsePropertiesArray_bound (json : List Char) (pos : Nat) (acc : List PropertyInfo)
    (h : pos ≤ json.length) : (ParsePropertiesArray json pos acc).2.1 ≤ json.length := by
  have h0 := Expect_bound json pos '[' (by decide) h
  unfold ParsePropertiesArray
  split
  · rename_i p hp
    rw [hp] at h0
    exact h0
  · rename_i p hp
    rw [hp] at h0
    exact ParsePropertiesArrayLoop_bound json _ p acc h0

theorem TypeMember_le (json key : List Char) (pos : Nat) (type : TypeInfo) :
    pos ≤ (TypeMember json key pos type).1 := by
  unfold TypeMember
  by_cases h0 : key = "name".toList
  · rw [if_pos h0]; exact ParseString_le json pos
  rw [if_neg h0]
  by_cases h1 : key = "fullName".toList
  · rw [if_pos h1]; exact ParseString_le json pos
  rw [if_neg h1]
  by_cases h2 : key = "namespace".toList
  · rw [if_pos h2]; exact ParseString_le json pos
  rw [if_neg h2]
  by_cases h3 : key = "baseType".toList
  · rw [if_pos h3]; exact ParseString_le json pos
  rw [if_neg h3]
  by_cases h4 : key = "isClass".toList
  · rw [if_pos h4]; exact ParseBool_le json pos
  rw [if_neg h4]
  by_cases h5 : key = "isStruct".toList
  · rw [if_pos h5]; exact ParseBool_le json pos
  rw [if_neg h5]
  by_cases h6 : key = "isEnum".toList
  · rw [if_pos h6]; exact ParseBool_le json pos
  rw [if_neg h6]
  by_cases h7 : key = "isInterface".toList
  · rw [if_pos h7]; exact ParseBool_le json pos
  rw [if_neg h7]
  by_cases h8 : key = "fields".toList
  · rw [if_pos h8]; exact ParseFieldsArray_le json pos _
  rw [if_neg h8]
  by_cases h9 : key = "methods".toList
  · rw [if_pos h9]; exact ParseMethodsArray_le json pos _
  rw [if_neg h9]
  by_cases h10 : key = "properties".toList
  · rw [if_pos h10]; exact ParsePropertiesArray_le json pos _
  rw [if_neg h10]
  exact SkipValue_le json pos

theorem TypeMember_bound (json key : List Char) (pos : Nat) (type : TypeInfo) (h : pos ≤ json.length) :
    (TypeMember json key pos type).1 ≤ json.length := by
  unfold TypeMember
  by_cases h0 : key = "name".toList
  · rw [if_pos h0]; exact ParseString_bound json pos h
  rw [if_neg h0]
  by_cases h1 : key = "fullName".toList
  · rw [if_pos h1]; exact ParseString_bound json pos h
  rw [if_neg h1]
  by_cases h2 : key = "namespace".toList
  · rw [if_pos h2]; exact ParseString_bound json pos h
  rw [if_neg h2]
  by_cases h3 : key = "baseType".toList
  · rw [if_pos h3]; exact ParseString_bound json pos h
  rw [if_neg h3]
  by_cases h4 : key = "isClass".toList
  · rw [if_pos h4]; exact ParseBool_bound json pos h
  rw [if_neg h4]
  by_cases h5 : key = "isStruct".toList
  · rw [if_pos h5]; exact ParseBool_bound json pos h
  rw [if_neg h5]
  by_cases h6 : key = "isEnum".toList
  · rw [if_pos h6]; exact ParseBool_bound json pos h
  rw [if_neg h6]
  by_cases h7 : key = "isInterface".toList
  · rw [if_pos h7]; exact ParseBool_bound json pos h
  rw [if_neg h7]
  by_cases h8 : key = "fields".toList
  · rw [if_pos h8]; exact ParseFieldsArray_bound json pos _ h
  rw [if_neg h8]
  by_cases h9 : key = "methods".toList
  · rw [if_pos h9]; exact ParseMethodsArray_bound json pos _ h
  rw [if_neg h9]
  by_cases h10 : key = "properties".toList
  · rw [if_pos h10]; exact ParsePropertiesArray_bound json pos _ h
  rw [if_neg h10]
  exact SkipValue_bound json pos h

/-- One iteration of the loop of `ParseTypeInfo`, with the outcome of
`Expect(':')` written as a test. -/
theorem ParseTypeInfoLoop_succ (json : List Char) (fuel pos : Nat) (type : TypeInfo) :
    ParseTypeInfoLoop json (fuel + 1) pos type
      = if pos < json.length then
          if Peek json (SkipWhitespace json pos) = '}' then
            (true, SkipWhitespace json pos + 1, type)
          else if Peek json (SkipWhitespace json (ParseString json (SkipWhitespace json pos)).2) = ':' then
            ParseTypeInfoLoop json fuel
              (SkipComma json (SkipWhitespace json (TypeMember json (ParseString json (SkipWhitespace json pos)).1 (SkipWhitespace json (SkipWhitespace json (ParseString json (SkipWhitespace json pos)).2 + 1)) type).1))
              (TypeMember json (ParseString json (SkipWhitespace json pos)).1 (SkipWhitespace json (SkipWhitespace json (ParseString json (SkipWhitespace json pos)).2 + 1)) type).2
          else (false, SkipWhitespace json (ParseString json (SkipWhitespace json pos)).2, type)
        else (true, pos, type) := by
  simp only [ParseTypeInfoLoop, Expect]
  split_ifs <;> rfl

/-- The cursor after an iteration of the loop of `ParseTypeInfo` that
continues is beyond the cursor before it. -/
theorem ParseTypeInfoLoop_next_lt (json : List Char) (pos : Nat) (type : TypeInfo) :
    pos < SkipComma json (SkipWhitespace json (TypeMember json (ParseString json (SkipWhitespace json pos)).1 (SkipWhitespace json (SkipWhitespace json (ParseString json (SkipWhitespace json pos)).2 + 1)) type).1) := by
  have h1 := SkipWhitespace_le json pos
  have h2 := ParseString_le json (SkipWhitespace json pos)
  have h3 := SkipWhitespace_le json (ParseString json (SkipWhitespace json pos)).2
  have h4 := SkipWhitespace_le json (SkipWhitespace json (ParseString json (SkipWhitespace json pos)).2 + 1)
  have h5 := TypeMember_le json (ParseString json (SkipWhitespace json pos)).1 (SkipWhitespace json (SkipWhitespace json (ParseString json (SkipWhitespace json pos)).2 + 1)) type
  have h6 := SkipWhitespace_le json (TypeMember json (ParseString json (SkipWhitespace json pos)).1 (SkipWhitespace json (SkipWhitespace json (ParseString json (SkipWhitespace json pos)).2 + 1)) type).1
  have h7 := SkipComma_le json (SkipWhitespace json (TypeMember json (ParseString json (SkipWhitespace json pos)).1 (SkipWhitespace json (SkipWhitespace json (ParseString json (SkipWhitespace json pos)).2 + 1)) type).1)
  omega

/-- The cursor after an iteration of the loop of `ParseTypeInfo` that
continues is within the text. -/
theorem ParseTypeInfoLoop_next_bound (json : List Char) (pos : Nat) (type : TypeInfo)
    (h : pos ≤ json.length) (hc : Peek json (SkipWhitespace json (ParseString json (SkipWhitespace json pos)).2) = ':') :
    SkipComma json (SkipWhitespace json (TypeMember json (ParseString json (SkipWhitespace json pos)).1 (SkipWhitespace json (SkipWhitespace json (ParseString json (SkipWhitespace json pos)).2 + 1)) type).1) ≤ json.length := by
  have h1 := SkipWhitespace_bound json pos h
  have h2 := ParseString_bound json (SkipWhitespace json pos) h1
  have h3 := SkipWhitespace_bound json (ParseString json (SkipWhitespace json pos)).2 h2
  have h4 : SkipWhitespace json (ParseString json (SkipWhitespace json pos)).2 + 1 ≤ json.length := lt_length_of_Peek hc (by decide)
  have h5 := SkipWhitespace_bound json (SkipWhitespace json (ParseString json (SkipWhitespace json pos)).2 + 1) h4
  have h6 := TypeMember_bound json (ParseString json (SkipWhitespace json pos)).1 (SkipWhitespace json (SkipWhitespace json (ParseString json (SkipWhitespace json pos)).2 + 1)) type h5
  exact SkipComma_bound json _ (SkipWhitespace_bound json _ h6)

theorem ParseTypeInfoLoop_le (json : List Char) :
    ∀ (fuel pos : Nat) (type : TypeInfo), pos ≤ (ParseTypeInfoLoop json fuel pos type).2.1
  | 0, pos, type => by simp [ParseTypeInfoLoop]
  | fuel + 1, pos, type => by
    rw [ParseTypeInfoLoop_succ]
    have h1 := SkipWhitespace_le json pos
    have h2 := ParseString_le json (SkipWhitespace json pos)
    have h3 := SkipWhitespace_le json (ParseString json (SkipWhitespace json pos)).2
    split_ifs
    · simp only; omega
    · exact Nat.le_trans (Nat.le_of_lt (ParseTypeInfoLoop_next_lt json pos type)) (ParseTypeInfoLoop_le json fuel _ _)
    · simp only; omega
    · exact Nat.le_refl _

theorem ParseTypeInfoLoop_bound (json : List Char) :
    ∀ (fuel pos : Nat) (type : TypeInfo), pos ≤ json.length →
      (ParseTypeInfoLoop json fuel pos type).2.1 ≤ json.length
  | 0, pos, type, h => by simpa [ParseTypeInfoLoop] using h
  | fuel + 1, pos, type, h => by
    rw [ParseTypeInfoLoop_succ]
    have h1 := SkipWhitespace_bound json pos h
    have h2 := ParseString_bound json (SkipWhitespace json pos) h1
    have h3 := SkipWhitespace_bound json (ParseString json (SkipWhitespace json pos)).2 h2
    split_ifs with _ hb hc
    · exact lt_length_of_Peek hb (by decide)
    · exact ParseTypeInfoLoop_bound json fuel _ _ (ParseTypeInfoLoop_next_bound json pos type h hc)
    · exact h3
    · exact h

/-- The fuel does not matter once it covers the rest of the text: the loop
of `ParseTypeInfo` never stops for lack of fuel. -/
theorem ParseTypeInfoLoop_fuel (json : List Char) :
    ∀ (f1 f2 pos : Nat) (type : TypeInfo),
      json.length - pos ≤ f1 → json.length - pos ≤ f2 →
      ParseTypeInfoLoop json f1 pos type = ParseTypeInfoLoop json f2 pos type
  | 0, 0, _, _, _, _ => rfl
  | 0, f2 + 1, pos, type, h1, _ => by
    rw [ParseTypeInfoLoop_succ, if_neg (by omega)]; rfl
  | f1 + 1, 0, pos, type, _, h2 => by
    rw [ParseTypeInfoLoop_succ, if_neg (by omega)]; rfl
  | f1 + 1, f2 + 1, pos, type, h1, h2 => by
    rw [ParseTypeInfoLoop_succ, ParseTypeInfoLoop_succ]
    have hlt := ParseTypeInfoLoop_next_lt json pos type
    split_ifs
    · rfl
    · exact ParseTypeInfoLoop_fuel json f1 f2 _ _ (by omega) (by omega)
    · rfl
    · rfl

theorem ParseTypeInfo_le (json : List Char) (pos : Nat) (type : TypeInfo) :
    pos ≤ (ParseTypeInfo json pos type).2.1 := by
  unfold ParseTypeInfo
  split
  · rename_i p h
    have := Expect_false h
    simp only; omega
  · rename_i p h
    have h1 := Expect_true h
    have h2 := ParseTypeInfoLoop_le json (json.length - p) p type
    omega

theorem ParseTypeInfo_bound (json : List Char) (pos : Nat) (type : TypeInfo)
    (h : pos ≤ json.length) : (ParseTypeInfo json pos type).2.1 ≤ json.length := by
  have h0 := Expect_bound json pos '{' (by decide) h
  unfold ParseTypeInfo
  split
  · rename_i p hp
    rw [hp] at h0
    exact h0
  · rename_i p hp
    rw [hp] at h0
    exact ParseTypeInfoLoop_bound json _ p type h0

/-- `ParseTypeInfo` returns `true` only after it has consumed a `{`. -/
theorem ParseTypeInfo_lt (json : List Char) (pos p : Nat) (type x : TypeInfo)
    (h : ParseTypeInfo json pos type = (true, p, x)) : pos < p := by
  unfold ParseTypeInfo at h
  split at h
  · simp at h
  · rename_i q hq
    have h1 := Expect_true hq
    have h2 := ParseTypeInfoLoop_le json (json.length - q) q type
    rw [h] at h2
    simp only at h2
    omega

/-- One iteration of the loop of `ParseTypesArray`, with the outcome of
`ParseTypeInfo` written as a test. -/
theorem ParseTypesArrayLoop_succ (json : List Char) (fuel pos : Nat) (acc : List TypeInfo) :
    ParseTypesArrayLoop json (fuel + 1) pos acc
      = if pos < json.length then
          if Peek json (SkipWhitespace json pos) = ']' then
            (true, SkipWhitespace json pos + 1, acc)
          else if (ParseTypeInfo json (SkipWhitespace json pos) {}).1 = true then
            ParseTypesArrayLoop json fuel (SkipComma json (SkipWhitespace json (ParseTypeInfo json (SkipWhitespace json pos) {}).2.1))
              (acc ++ [(ParseTypeInfo json (SkipWhitespace json pos) {}).2.2])
          else (false, (ParseTypeInfo json (SkipWhitespace json pos) {}).2.1, acc)
        else (true, pos, acc) := by
  simp only [ParseTypesArrayLoop]
  split_ifs with h1 h2 h3
  · rfl
  · generalize ParseTypeInfo json (SkipWhitespace json pos) {} = r at h3 ⊢
    obtain ⟨b, q, x⟩ := r
    simp only at h3
    subst h3
    rfl
  · generalize ParseTypeInfo json (SkipWhitespace json pos) {} = r at h3 ⊢
    obtain ⟨b, q, x⟩ := r
    simp only [Bool.not_eq_true] at h3
    subst h3
    rfl
  · rfl

/-- The cursor after an iteration of the loop of `ParseTypesArray` that
continues is beyond the cursor before it. -/
theorem ParseTypesArrayLoop_next_lt (json : List Char) (pos : Nat) (h : (ParseTypeInfo json (SkipWhitespace json pos) {}).1 = true) :
    pos < SkipComma json (SkipWhitespace json (ParseTypeInfo json (SkipWhitespace json pos) {}).2.1) := by
  have h1 := SkipWhitespace_le json pos
  have h2 := ParseTypeInfo_lt json (SkipWhitespace json pos) (ParseTypeInfo json (SkipWhitespace json pos) {}).2.1 {} (ParseTypeInfo json (SkipWhitespace json pos) {}).2.2 (Prod.ext h rfl)
  have h3 := SkipWhitespace_le json (ParseTypeInfo json (SkipWhitespace json pos) {}).2.1
  have h4 := SkipComma_le json (SkipWhitespace json (ParseTypeInfo json (SkipWhitespace json pos) {}).2.1)
  omega

theorem ParseTypesArrayLoop_le (json : List Char) :
    ∀ (fuel pos : Nat) (acc : List TypeInfo), pos ≤ (ParseTypesArrayLoop json fuel pos acc).2.1
  | 0, pos, acc => by simp [ParseTypesArrayLoop]
  | fuel + 1, pos, acc => by
    rw [ParseTypesArrayLoop_succ]
    have h1 := SkipWhitespace_le json pos
    have h2 := ParseTypeInfo_le json (SkipWhitespace json pos) {}
    split_ifs with _ _ h3
    · simp only; omega
    · exact Nat.le_trans (Nat.le_of_lt (ParseTypesArrayLoop_next_lt json pos h3)) (ParseTypesArrayLoop_le json fuel _ _)
    · simp only; omega
    · exact Nat.le_refl _

theorem ParseTypesArrayLoop_bound (json : List Char) :
    ∀ (fuel pos : Nat) (acc : List TypeInfo), pos ≤ json.length →
      (ParseTypesArrayLoop json fuel pos acc).2.1 ≤ json.length
  | 0, pos, acc, h => by simpa [ParseTypesArrayLoop] using h
  | fuel + 1, pos, acc, h => by
    rw [ParseTypesArrayLoop_succ]
    have h1 := SkipWhitespace_bound json pos h
    have h2 := ParseTypeInfo_bound json (SkipWhitespace json pos) {} h1
    split_ifs with _ hb h3
    · exact lt_length_of_Peek hb (by decide)
    · exact ParseTypesArrayLoop_bound json fuel _ _
        (SkipComma_bound json _ (SkipWhitespace_bound json _ h2))
    · exact h2
    · exact h

/-- The fuel does not matter once it covers the rest of the text: the loop
of `ParseTypesArray` never stops for lack of fuel. -/
theorem ParseTypesArrayLoop_fuel (json : List Char) :
    ∀ (f1 f2 pos : Nat) (acc : List TypeInfo),
      json.length - pos ≤ f1 → json.length - pos ≤ f2 →
      ParseTypesArrayLoop json f1 pos acc = ParseTypesArrayLoop json f2 pos acc
  | 0, 0, _, _, _, _ => rfl
  | 0, f2 + 1, pos, acc, h1, _ => by
    rw [ParseTypesArrayLoop_succ, if_neg (by omega)]; rfl
  | f1 + 1, 0, pos, acc, _, h2 => by
    rw [ParseTypesArrayLoop_succ, if_neg (by omega)]; rfl
  | f1 + 1, f2 + 1, pos, acc, h1, h2 => by
    rw [ParseTypesArrayLoop_succ, ParseTypesArrayLoop_succ]
    split_ifs with _ _ h3
    · rfl
    · have hlt := ParseTypesArrayLoop_next_lt json pos h3
      exact ParseTypesArrayLoop_fuel json f1 f2 _ _ (by omega) (by omega)
    · rfl
    · rfl

theorem ParseTypesArray_le (json : List Char) (pos : Nat) (acc : List TypeInfo) :
    pos ≤ (ParseTypesArray json pos acc).2.1 := by
  unfold ParseTypesArray
  split
  · rename_i p h
    have := Expect_false h
    simp only; omega
  · rename_i p h
    have h1 := Expect_true h
    have h2 := ParseTypesArrayLoop_le json (json.length - p) p acc
    omega

theorem ParseTypesArray_bound (json : List Char) (pos : Nat) (acc : List TypeInfo)
    (h : pos ≤ json.length) : (ParseTypesArray json pos acc).2.1 ≤ json.length := by
  have h0 := Expect_bound json pos '[' (by decide) h
  unfold ParseTypesArray
  split
  · rename_i p hp
    rw [hp] at h0
    exact h0
  · rename_i p hp
    rw [hp] at h0
    exact ParseTypesArrayLoop_bound json _ p acc h0


theorem AssemblyMember_le (json key : List Char) (pos : Nat) (data : AssemblyData) :
    pos ≤ (AssemblyMember json key pos data).2.1 := by
  unfold AssemblyMember
  by_cases h0 : key = "assemblyName".toList
  · rw [if_pos h0]; exact ParseString_le json pos
  rw [if_neg h0]
  by_cases h1 : key = "timestamp".toList
  · rw [if_pos h1]; exact ParseString_le json pos
  rw [if_neg h1]
  by_cases h2 : key = "types".toList
  · rw [if_pos h2]; exact ParseTypesArray_le json pos _
  rw [if_neg h2]
  exact SkipValue_le json pos

theorem AssemblyMember_bound (json key : List Char) (pos : Nat) (data : AssemblyData)
    (h : pos ≤ json.length) : (AssemblyMember json key pos data).2.1 ≤ json.length := by
  unfold AssemblyMember
  by_cases h0 : key = "assemblyName".toList
  · rw [if_pos h0]; exact ParseString_bound json pos h
  rw [if_neg h0]
  by_cases h1 : key = "timestamp".toList
  · rw [if_pos h1]; exact ParseString_bound json pos h
  rw [if_neg h1]
  by_cases h2 : key = "types".toList
  · rw [if_pos h2]; exact ParseTypesArray_bound json pos _ h
  rw [if_neg h2]
  exact SkipValue_bound json pos h

/-- One iteration of the loop of `SimpleJsonParser::ParseAssemblyData`, with
the outcomes of `Expect(':')` and of the key dispatch written as tests. -/
theorem ParseAssemblyDataLoop_succ (json : List Char) (fuel pos : Nat) (data : AssemblyData) :
    ParseAssemblyDataLoop json (fuel + 1) pos data
      = if pos < json.length then
          if Peek json (SkipWhitespace json pos) = '}' then
            (true, SkipWhitespace json pos + 1, data)
          else if Peek json (SkipWhitespace json
              (ParseString json (SkipWhitespace json pos)).2) = ':' then
            if (AssemblyMember json (ParseString json (SkipWhitespace json pos)).1
                (SkipWhitespace json (SkipWhitespace json
                  (ParseString json (SkipWhitespace json pos)).2 + 1)) data).1 = true then
              ParseAssemblyDataLoop json fuel
                (SkipComma json (SkipWhitespace json
                  (AssemblyMember json (ParseString json (SkipWhitespace json pos)).1
                    (SkipWhitespace json (SkipWhitespace json
                      (ParseString json (SkipWhitespace json pos)).2 + 1)) data).2.1))
                (AssemblyMember json (ParseString json (SkipWhitespace json pos)).1
                    (SkipWhitespace json (SkipWhitespace json
                      (ParseString json (SkipWhitespace json pos)).2 + 1)) data).2.2
            else
              (false,
                (AssemblyMember json (ParseString json (SkipWhitespace json pos)).1
                    (SkipWhitespace json (SkipWhitespace json
                      (ParseString json (SkipWhitespace json pos)).2 + 1)) data).2.1,
                (AssemblyMember json (ParseString json (SkipWhitespace json pos)).1
                    (SkipWhitespace json (SkipWhitespace json
                      (ParseString json (SkipWhitespace json pos)).2 + 1)) data).2.2)
          else (false, SkipWhitespace json (ParseString json (SkipWhitespace json pos)).2, data)
        else (true, pos, data) := by
  simp only [ParseAssemblyDataLoop, Expect]
  split_ifs with h1 h2 h3 h4
  · rfl
  · dsimp only
    generalize AssemblyMember json (ParseString json (SkipWhitespace json pos)).1
      (SkipWhitespace json (SkipWhitespace json
        (ParseString json (SkipWhitespace json pos)).2 + 1)) data = r at h4 ⊢
    obtain ⟨b, q, x⟩ := r
    simp only at h4
    subst h4
    rfl
  · dsimp only
    generalize AssemblyMember json (ParseString json (SkipWhitespace json pos)).1
      (SkipWhitespace json (SkipWhitespace json
        (ParseString json (SkipWhitespace json pos)).2 + 1)) data = r at h4 ⊢
    obtain ⟨b, q, x⟩ := r
    simp only [Bool.not_eq_true] at h4
    subst h4
    rfl
  · rfl
  · rfl

/-- The cursor after an iteration of the root loop that continues is beyond
the cursor before it. -/
theorem ParseAssemblyDataLoop_next_lt (json : List Char) (pos : Nat) (data : AssemblyData) :
    pos < SkipComma json (SkipWhitespace json
      (AssemblyMember json (ParseString json (SkipWhitespace json pos)).1
        (SkipWhitespace json (SkipWhitespace json
          (ParseString json (SkipWhitespace json pos)).2 + 1)) data).2.1) := by
  have h1 := SkipWhitespace_le json pos
  have h2 := ParseString_le json (SkipWhitespace json pos)
  have h3 := SkipWhitespace_le json (ParseString json (SkipWhitespace json pos)).2
  have h4 := SkipWhitespace_le json
    (SkipWhitespace json (ParseString json (SkipWhitespace json pos)).2 + 1)
  have h5 := AssemblyMember_le json (ParseString json (SkipWhitespace json pos)).1
    (SkipWhitespace json (SkipWhitespace json
      (ParseString json (SkipWhitespace json pos)).2 + 1)) data
  have h6 := SkipWhitespace_le json
    (AssemblyMember json (ParseString json (SkipWhitespace json pos)).1
      (SkipWhitespace json (SkipWhitespace json
        (ParseString json (SkipWhitespace json pos)).2 + 1)) data).2.1
  have h7 := SkipComma_le json (SkipWhitespace json
    (AssemblyMember json (ParseString json (SkipWhitespace json pos)).1
      (SkipWhitespace json (SkipWhitespace json
        (ParseString json (SkipWhitespace json pos)).2 + 1)) data).2.1)
  omega

theorem ParseAssemblyDataLoop_le (json : List Char) :
    ∀ (fuel pos : Nat) (data : AssemblyData),
      pos ≤ (ParseAssemblyDataLoop json fuel pos data).2.1
  | 0, pos, data => by simp [ParseAssemblyDataLoop]
  | fuel + 1, pos, data => by
    rw [ParseAssemblyDataLoop_succ]
    have h1 := SkipWhitespace_le json pos
    have h2 := ParseString_le json (SkipWhitespace json pos)
    have h3 := SkipWhitespace_le json (ParseString json (SkipWhitespace json pos)).2
    have h4 := SkipWhitespace_le json
      (SkipWhitespace json (ParseString json (SkipWhitespace json pos)).2 + 1)
    have h5 := AssemblyMember_le json (ParseString json (SkipWhitespace json pos)).1
      (SkipWhitespace json (SkipWhitespace json
        (ParseString json (SkipWhitespace json pos)).2 + 1)) data
    split_ifs
    · simp only; omega
    · exact Nat.le_trans (Nat.le_of_lt (ParseAssemblyDataLoop_next_lt json pos data))
        (ParseAssemblyDataLoop_le json fuel _ _)
    · simp only; omega
    · simp only; omega
    · exact Nat.le_refl _

theorem ParseAssemblyDataLoop_bound (json : List Char) :
    ∀ (fuel pos : Nat) (data : AssemblyData), pos ≤ json.length →
      (ParseAssemblyDataLoop json fuel pos data).2.1 ≤ json.length
  | 0, pos, data, h => by simpa [ParseAssemblyDataLoop] using h
  | fuel + 1, pos, data, h => by
    rw [ParseAssemblyDataLoop_succ]
    have h1 := SkipWhitespace_bound json pos h
    have h2 := ParseString_bound json (SkipWhitespace json pos) h1
    have h3 := SkipWhitespace_bound json (ParseString json (SkipWhitespace json pos)).2 h2
    split_ifs with _ hb hc hm
    · exact lt_length_of_Peek hb (by decide)
    · have h4 : SkipWhitespace json (ParseString json (SkipWhitespace json pos)).2 + 1
          ≤ json.length := lt_length_of_Peek hc (by decide)
      have h5 := SkipWhitespace_bound json _ h4
      have h6 := AssemblyMember_bound json (ParseString json (SkipWhitespace json pos)).1 _
        data h5
      exact ParseAssemblyDataLoop_bound json fuel _ _
        (SkipComma_bound json _ (SkipWhitespace_bound json _ h6))
    · have h4 : SkipWhitespace json (ParseString json (SkipWhitespace json pos)).2 + 1
          ≤ json.length := lt_length_of_Peek hc (by decide)
      have h5 := SkipWhitespace_bound json _ h4
      exact AssemblyMember_bound json (ParseString json (SkipWhitespace json pos)).1 _ data h5
    · exact h3
    · exact h

/-- The fuel does not matter once it covers the rest of the text: the root
loop never stops for lack of fuel. -/
theorem ParseAssemblyDataLoop_fuel (json : List Char) :
    ∀ (f1 f2 pos : Nat) (data : AssemblyData),
      json.length - pos ≤ f1 → json.length - pos ≤ f2 →
      ParseAssemblyDataLoop json f1 pos data = ParseAssemblyDataLoop json f2 pos data
  | 0, 0, _, _, _, _ => rfl
  | 0, f2 + 1, pos, data, h1, _ => by
    rw [ParseAssemblyDataLoop_succ, if_neg (by omega)]; rfl
  | f1 + 1, 0, pos, data, _, h2 => by
    rw [ParseAssemblyDataLoop_succ, if_neg (by omega)]; rfl
  | f1 + 1, f2 + 1, pos, data, h1, h2 => by
    rw [ParseAssemblyDataLoop_succ, ParseAssemblyDataLoop_succ]
    have hlt := ParseAssemblyDataLoop_next_lt json pos data
    split_ifs
    · rfl
    · exact ParseAssemblyDataLoop_fuel json f1 f2 _ _ (by omega) (by omega)
    · rfl
    · rfl
    · rfl

/-- The cursor of `SimpleJsonParser::ParseAssemblyData` ends within the
text. -/
theorem SimpleJsonParser.ParseAssemblyData_bound (json : List Char) (data : AssemblyData) :
    (SimpleJsonParser.ParseAssemblyData json 0 data).2.1 ≤ json.length := by
  have h0 := SkipWhitespace_bound json 0 (Nat.zero_le _)
  have h1 := Expect_bound json (SkipWhitespace json 0) '{' (by decide) h0
  unfold SimpleJsonParser.ParseAssemblyData
  simp only
  split
  · rename_i p hp
    rw [hp] at h1
    exact h1
  · rename_i p hp
    rw [hp] at h1
    exact ParseAssemblyDataLoop_bound json _ p data h1


/-! ## Escape decoding -/

theorem wellFormedBody_cons {c : Char} {body : List Char} (hq : c ≠ '"') (hb : c ≠ '\\')
    (h : wellFormedBody body = true) :
    wellFormedBody (c :: body) = true ∧ decodeBody (c :: body) = c :: decodeBody body := by
  cases body with
  | nil => simp [wellFormedBody, decodeBody, hq, hb]
  | cons d r => simp [wellFormedBody, decodeBody, hq, hb, h]

/-- A body described by `Decodes` is well formed for the decoder, and what the
decoder makes of it is the string the relation gives. -/
theorem Decodes_decodeBody {body out : List Char} (h : Decodes body out) :
    wellFormedBody body = true ∧ decodeBody body = out := by
  induction h with
  | done => exact ⟨rfl, rfl⟩
  | copy c body out hq hb _ ih =>
    obtain ⟨h1, h2⟩ := wellFormedBody_cons hq hb ih.1
    exact ⟨h1, by rw [h2, ih.2]⟩
  | newline body out _ ih =>
    obtain ⟨h1, h2⟩ := escape_cons 'n' body ih.1
    exact ⟨h1, by rw [h2, ih.2]; rfl⟩
  | carriageReturn body out _ ih =>
    obtain ⟨h1, h2⟩ := escape_cons 'r' body ih.1
    exact ⟨h1, by rw [h2, ih.2]; rfl⟩
  | tab body out _ ih =>
    obtain ⟨h1, h2⟩ := escape_cons 't' body ih.1
    exact ⟨h1, by rw [h2, ih.2]; rfl⟩
  | backslash body out _ ih =>
    obtain ⟨h1, h2⟩ := escape_cons '\\' body ih.1
    exact ⟨h1, by rw [h2, ih.2]; rfl⟩
  | doubleQuote body out _ ih =>
    obtain ⟨h1, h2⟩ := escape_cons '"' body ih.1
    exact ⟨h1, by rw [h2, ih.2]; rfl⟩
  | other c body out hc _ ih =>
    obtain ⟨h1, h2⟩ := escape_cons c body ih.1
    refine ⟨h1, ?_⟩
    rw [h2, ih.2]
    simp [unescape, hc.1, hc.2.1, hc.2.2.1, hc.2.2.2.1, hc.2.2.2.2]

/-- Every body the decoder takes for well formed is described by `Decodes`. -/
theorem Decodes_of_wellFormedBody :
    ∀ (body : List Char), wellFormedBody body = true → Decodes body (decodeBody body) := by
  intro body
  induction body using wellFormedBody.induct with
  | case1 => intro _; exact Decodes.done
  | case2 c =>
    intro h
    simp [wellFormedBody] at h
    exact Decodes.copy c [] [] h.1 h.2 Decodes.done
  | case3 d rest ih =>
    intro h
    simp [wellFormedBody] at h
    have hd : decodeBody ('\\' :: d :: rest) = unescape d :: decodeBody rest := by
      simp [decodeBody]
    rw [hd]
    by_cases h1 : d = 'n'
    · subst h1; exact Decodes.newline _ _ (ih h)
    by_cases h2 : d = 'r'
    · subst h2; exact Decodes.carriageReturn _ _ (ih h)
    by_cases h3 : d = 't'
    · subst h3; exact Decodes.tab _ _ (ih h)
    by_cases h4 : d = '\\'
    · subst h4; exact Decodes.backslash _ _ (ih h)
    by_cases h5 : d = '"'
    · subst h5; exact Decodes.doubleQuote _ _ (ih h)
    have hu : unescape d = d := by simp [unescape, h1, h2, h3, h4, h5]
    rw [hu]
    exact Decodes.other d _ _ ⟨h1, h2, h3, h4, h5⟩ (ih h)
  | case4 c d rest hc ih =>
    intro h
    simp [wellFormedBody, hc] at h
    have hd : decodeBody (c :: d :: rest) = c :: decodeBody (d :: rest) := by
      simp [decodeBody, hc]
    rw [hd]
    exact Decodes.copy c _ _ h.1 hc (ih h.2)


/-! ## The window and the data callback -/

/-- The loop of `MainWindow::SetAssemblyData` adds to each counter the number
of types that carry the flag, and leaves the other members alone. -/
theorem foldl_countType (types : List TypeInfo) :
    ∀ (w : MainWindow), types.foldl countType w
      = { w with
          totalClasses_ := w.totalClasses_ + (types.countP (fun t => t.isClass) : Nat)
          totalStructs_ := w.totalStructs_ + (types.countP (fun t => t.isStruct) : Nat)
          totalEnums_ := w.totalEnums_ + (types.countP (fun t => t.isEnum) : Nat)
          totalInterfaces_ := w.totalInterfaces_ + (types.countP (fun t => t.isInterface) : Nat) } := by
  induction types with
  | nil => intro w; simp
  | cons t ts ih =>
    intro w
    rw [List.foldl_cons, ih]
    cases h1 : t.isClass <;> cases h2 : t.isStruct <;> cases h3 : t.isEnum <;>
      cases h4 : t.isInterface <;>
      simp [countType, h1, h2, h3, h4, List.countP_cons, add_assoc, add_comm]

/-- `MainWindow::SetAssemblyData` in closed form. -/
theorem SetAssemblyData_eq (w : MainWindow) (data : AssemblyData) :
    SetAssemblyData w data
      = { w with
          assemblyData_ := data
          selectedTypeIndex_ := -1
          totalClasses_ := (data.types.countP (fun t => t.isClass) : Nat)
          totalStructs_ := (data.types.countP (fun t => t.isStruct) : Nat)
          totalEnums_ := (data.types.countP (fun t => t.isEnum) : Nat)
          totalInterfaces_ := (data.types.countP (fun t => t.isInterface) : Nat) } := by
  simp [SetAssemblyData, foldl_countType]

/-- `MainWindow::SetAssemblyData` forgets the snapshot, the selection and the
counters the window held. -/
theorem SetAssemblyData_idem (w : MainWindow) (d1 d2 : AssemblyData) :
    SetAssemblyData (SetAssemblyData w d1) d2 = SetAssemblyData w d2 := by
  simp [SetAssemblyData_eq]


/-! ## The listener loop -/

/-- An iteration of the listener loop that finds the client disconnected
only sleeps: no member changes. -/
theorem ListenThreadBody_disconnected (c : IPCClient) (h : c.isConnected_ = false) :
    ListenThreadBody c = c := by
  simp [ListenThreadBody, h]

/-- A step from a disconnected client reads nothing, calls no callback and
leaves the client disconnected. -/
theorem ListenerStep_disconnected {c c2 : IPCClient} (s : ListenerStep c c2)
    (h : c.isConnected_ = false) :
    c2.isConnected_ = false ∧ c2.delivered = c.delivered ∧ c2.reported = c.reported
      ∧ c2.reads = c.reads ∧ c2.fd_ = c.fd_ ∧ c2.stream = c.stream := by
  cases s with
  | setDataCallback => simp [SetDataCallback, h]
  | setErrorCallback => simp [SetErrorCallback, h]
  | startListening =>
    unfold StartListening
    split <;> simp [h]
  | iteration hl => rw [ListenThreadBody_disconnected c h]; simp [h]
  | stopListening => simp [StopListening, h]

/-- From a disconnected client, steps without `Connect` never reach a state
with a read, a callback call or a connection. -/
theorem Reachable_disconnected {c0 c : IPCClient} (r : Reachable c0 c)
    (h : c0.isConnected_ = false) :
    c.isConnected_ = false ∧ c.delivered = c0.delivered ∧ c.reported = c0.reported
      ∧ c.reads = c0.reads ∧ c.fd_ = c0.fd_ ∧ c.stream = c0.stream := by
  induction r with
  | start => simp [h]
  | step c c2 _ s ih =>
    obtain ⟨h1, h2, h3, h4, h5, h6⟩ := ih
    obtain ⟨g1, g2, g3, g4, g5, g6⟩ := ListenerStep_disconnected s h1
    exact ⟨g1, g2.trans h2, g3.trans h3, g4.trans h4, g5.trans h5, g6.trans h6⟩

/-- An iteration of the listener loop that finds the client connected, member
by member. -/
theorem ListenThreadBody_connected (c : IPCClient) (h : c.isConnected_ = true) :
    (ListenThreadBody c).reads = c.reads + 1
      ∧ (ListenThreadBody c).stream = (ReadData c.errorCallback_ c.stream).stream
      ∧ (ListenThreadBody c).reported
          = c.reported ++ (ReadData c.errorCallback_ c.stream).errors
      ∧ (ListenThreadBody c).delivered
          = (if (ReadData c.errorCallback_ c.stream).data ≠ [] ∧ c.dataCallback_ = true
              then c.delivered ++ [(ReadData c.errorCallback_ c.stream).data]
              else c.delivered)
      ∧ (ListenThreadBody c).isConnected_ = false
      ∧ (ListenThreadBody c).fd_ = -1
      ∧ (ListenThreadBody c).isListening_ = c.isListening_ := by
  simp only [ListenThreadBody, h, Bool.not_true, Bool.false_eq_true, if_false, Disconnect]
  split <;> simp


/-! ## What the decoder does with the object it is given -/

/-- The loop of `ParseTypesArray` appends to the vector it is given: its flag,
its cursor and the types it adds are those of a run on an empty vector. -/
theorem ParseTypesArrayLoop_append (json : List Char) :
    ∀ (fuel pos : Nat) (acc : List TypeInfo),
      ParseTypesArrayLoop json fuel pos acc
        = ((ParseTypesArrayLoop json fuel pos []).1, (ParseTypesArrayLoop json fuel pos []).2.1,
            acc ++ (ParseTypesArrayLoop json fuel pos []).2.2) := by
  intro fuel
  induction fuel with
  | zero => intro pos acc; simp [ParseTypesArrayLoop]
  | succ n ih =>
    intro pos acc
    simp only [ParseTypesArrayLoop]
    by_cases h1 : pos < json.length
    · simp only [if_pos h1]
      by_cases h2 : Peek json (SkipWhitespace json pos) = ']'
      · simp [if_pos h2]
      · simp only [if_neg h2]
        rcases ParseTypeInfo json (SkipWhitespace json pos) {} with ⟨b, q, x⟩
        cases b
        · simp
        · simp only
          rw [ih _ (acc ++ [x]), ih _ ([] ++ [x])]
          simp
    · simp [if_neg h1]

theorem ParseTypesArray_append (json : List Char) (pos : Nat) (acc : List TypeInfo) :
    ParseTypesArray json pos acc
      = ((ParseTypesArray json pos []).1, (ParseTypesArray json pos []).2.1,
          acc ++ (ParseTypesArray json pos []).2.2) := by
  simp only [ParseTypesArray]
  rcases Expect json pos '[' with ⟨b, q⟩
  cases b
  · simp
  · simp only
    rw [ParseTypesArrayLoop_append]

/-- The key dispatch of the root object on two objects whose `types` differ
by the types `pre` in front. -/
theorem AssemblyMember_prepend (json key : List Char) (pos : Nat) (pre : List TypeInfo)
    (d d0 : AssemblyData) (h : d.types = pre ++ d0.types) :
    (AssemblyMember json key pos d).1 = (AssemblyMember json key pos d0).1
      ∧ (AssemblyMember json key pos d).2.1 = (AssemblyMember json key pos d0).2.1
      ∧ (AssemblyMember json key pos d).2.2.types
          = pre ++ (AssemblyMember json key pos d0).2.2.types := by
  unfold AssemblyMember
  by_cases h1 : key = "assemblyName".toList
  · rw [if_pos h1, if_pos h1]
    exact ⟨rfl, rfl, h⟩
  rw [if_neg h1, if_neg h1]
  by_cases h2 : key = "timestamp".toList
  · rw [if_pos h2, if_pos h2]
    exact ⟨rfl, rfl, h⟩
  rw [if_neg h2, if_neg h2]
  by_cases h3 : key = "types".toList
  · rw [if_pos h3, if_pos h3]
    rw [ParseTypesArray_append json pos d.types, ParseTypesArray_append json pos d0.types]
    simp [h]
  rw [if_neg h3, if_neg h3]
  exact ⟨rfl, rfl, h⟩

/-- The loop of the root object on two objects whose `types` differ by the
types `pre` in front: same flag, same cursor, and the results differ by `pre`
in front. -/
theorem ParseAssemblyDataLoop_prepend (json : List Char) (pre : List TypeInfo) :
    ∀ (fuel pos : Nat) (d d0 : AssemblyData), d.types = pre ++ d0.types →
      (ParseAssemblyDataLoop json fuel pos d).1 = (ParseAssemblyDataLoop json fuel pos d0).1
        ∧ (ParseAssemblyDataLoop json fuel pos d).2.1
            = (ParseAssemblyDataLoop json fuel pos d0).2.1
        ∧ (ParseAssemblyDataLoop json fuel pos d).2.2.types
            = pre ++ (ParseAssemblyDataLoop json fuel pos d0).2.2.types := by
  intro fuel
  induction fuel with
  | zero => intro pos d d0 h; simp [ParseAssemblyDataLoop, h]
  | succ n ih =>
    intro pos d d0 h
    rw [ParseAssemblyDataLoop_succ, ParseAssemblyDataLoop_succ]
    by_cases h1 : pos < json.length
    · simp only [if_pos h1]
      by_cases h2 : Peek json (SkipWhitespace json pos) = '}'
      · simp [if_pos h2, h]
      · simp only [if_neg h2]
        by_cases h3 : Peek json (SkipWhitespace json
            (ParseString json (SkipWhitespace json pos)).2) = ':'
        · simp only [if_pos h3]
          obtain ⟨m1, m2, m3⟩ := AssemblyMember_prepend json
            (ParseString json (SkipWhitespace json pos)).1
            (SkipWhitespace json (SkipWhitespace json
              (ParseString json (SkipWhitespace json pos)).2 + 1)) pre d d0 h
          rw [m1, m2]
          by_cases h4 : (AssemblyMember json (ParseString json (SkipWhitespace json pos)).1
            (SkipWhitespace json (SkipWhitespace json
              (ParseString json (SkipWhitespace json pos)).2 + 1)) d0).1 = true
          · simp only [if_pos h4]
            exact ih _ _ _ m3
          · simp only [if_neg h4]
            exact ⟨trivial, trivial, m3⟩
        · simp [if_neg h3, h]
    · simp [if_neg h1, h]

/-- `ParseAssemblyData` appends to the `types` of the object it is given: its
flag and the types it adds are those of a run on an empty object. -/
theorem ParseAssemblyData_prepend (json : List Char) (d : AssemblyData) :
    (ParseAssemblyData json d).1 = (ParseAssemblyData json {}).1
      ∧ (ParseAssemblyData json d).2.types = d.types ++ (ParseAssemblyData json {}).2.types := by
  simp only [ParseAssemblyData, SimpleJsonParser.ParseAssemblyData]
  rcases Expect json (SkipWhitespace json 0) '{' with ⟨b, q⟩
  cases b
  · simp
  · simp only
    obtain ⟨h1, -, h3⟩ := ParseAssemblyDataLoop_prepend json d.types (json.length - q) q d {}
      (by simp)
    exact ⟨h1, h3⟩


/-! ## The decoder with the faults written out raises none -/

theorem Except_ok_bind {α β : Type} (a : α) (f : α → Except Fault β) :
    (Except.ok a >>= f) = f a := rfl

theorem Except_pure_eq_ok {α : Type} (a : α) : (pure a : Except Fault α) = Except.ok a := rfl

theorem charAt_of_lt {json : List Char} {pos : Nat} (h : pos < json.length) :
    charAt json pos = Except.ok json[pos] := by
  simp [charAt, h, pure, Except.pure]

theorem PeekChecked_eq (json : List Char) (pos : Nat) :
    PeekChecked json pos = Except.ok (Peek json pos) := by
  unfold PeekChecked Peek
  by_cases h : pos < json.length
  · simp [h, charAt_of_lt]
  · simp [h, pure, Except.pure]

theorem ExpectChecked_eq (json : List Char) (pos : Nat) (c : Char) :
    ExpectChecked json pos c = Except.ok (Expect json pos c) := by
  unfold ExpectChecked Expect
  rw [PeekChecked_eq]
  by_cases h : Peek json pos = c <;> simp [h, bind, Except.bind, pure, Except.pure]

theorem SkipWhitespaceLoopChecked_eq (json : List Char) :
    ∀ (fuel pos : Nat), json.length - pos < fuel →
      SkipWhitespaceLoopChecked json fuel pos
        = Except.ok (SkipWhitespaceLoop json (json.length - pos) pos)
  | 0, _, h => by omega
  | fuel + 1, pos, h => by
    unfold SkipWhitespaceLoopChecked
    by_cases hlt : pos < json.length
    · obtain ⟨m, hm⟩ : ∃ m, json.length - pos = m + 1 := ⟨json.length - pos - 1, by omega⟩
      rw [hm, SkipWhitespaceLoop, if_pos hlt, dif_pos hlt, charAt_of_lt hlt]
      by_cases hw : isWhitespace json[pos] = true
      · have ih := SkipWhitespaceLoopChecked_eq json fuel (pos + 1) (by omega)
        have e : json.length - (pos + 1) = m := by omega
        rw [e] at ih
        simp [hw, bind, Except.bind, ih]
      · simp [hw, bind, Except.bind, pure, Except.pure]
    · have e : json.length - pos = 0 := by omega
      rw [e, if_neg hlt]
      simp [SkipWhitespaceLoop, pure, Except.pure]

theorem SkipWhitespaceChecked_eq {n : Nat} {json : List Char} (hn : json.length < n)
    (pos : Nat) : SkipWhitespaceChecked n json pos = Except.ok (SkipWhitespace json pos) := by
  unfold SkipWhitespaceChecked SkipWhitespace
  exact SkipWhitespaceLoopChecked_eq json n pos (by omega)

theorem ParseStringLoopChecked_eq (json : List Char) :
    ∀ (fuel pos : Nat) (result : List Char), json.length - pos < fuel →
      ParseStringLoopChecked json fuel pos result
        = Except.ok (ParseStringLoop json (json.length - pos) pos result)
  | 0, _, _, h => by omega
  | fuel + 1, pos, result, h => by
    unfold ParseStringLoopChecked
    by_cases hlt : pos < json.length
    · obtain ⟨m, hm⟩ : ∃ m, json.length - pos = m + 1 := ⟨json.length - pos - 1, by omega⟩
      rw [hm, ParseStringLoop, if_pos hlt, dif_pos hlt, charAt_of_lt hlt]
      by_cases hq : json[pos] ≠ '"'
      · by_cases hb : json[pos] = '\\' ∧ pos + 1 < json.length
        · have ih := ParseStringLoopChecked_eq json fuel (pos + 1 + 1)
            (result ++ [unescape (Peek json (pos + 1))]) (by omega)
          have hf := ParseStringLoop_fuel json m (json.length - (pos + 1 + 1)) (pos + 1 + 1)
            (result ++ [unescape (Peek json (pos + 1))]) (by omega) (by omega)
          have hp : json[pos + 1] = Peek json (pos + 1) := by simp [Peek, hb.2]
          simp [hq, hb, bind, Except.bind, charAt_of_lt hb.2, hp, ih, hf]
        · have ih := ParseStringLoopChecked_eq json fuel (pos + 1) (result ++ [json[pos]])
            (by omega)
          have e : json.length - (pos + 1) = m := by omega
          rw [e] at ih
          simp [hq, hb, bind, Except.bind, ih]
      · simp [hq, bind, Except.bind, pure, Except.pure]
    · have e : json.length - pos = 0 := by omega
      rw [e, if_neg hlt]
      simp [ParseStringLoop, pure, Except.pure]

theorem ParseStringChecked_eq {n : Nat} {json : List Char} (hn : json.length < n)
    (pos : Nat) : ParseStringChecked n json pos = Except.ok (ParseString json pos) := by
  unfold ParseStringChecked ParseString
  rw [ExpectChecked_eq]
  rcases h : Expect json pos '"' with ⟨b, q⟩
  cases b
  · simp [bind, Except.bind, pure, Except.pure]
  · have hl := ParseStringLoopChecked_eq json n q [] (by omega)
    have hf := ParseStringLoop_fuel json (json.length - q) (json.length - q) q []
    simp [bind, Except.bind, pure, Except.pure, hl, ExpectChecked_eq]

theorem compareChecked_eq {json : List Char} {pos : Nat} (hp : pos ≤ json.length)
    (len : Nat) (lit : List Char) :
    compareChecked json pos len lit = Except.ok (compareEq json pos len lit) := by
  simp [compareChecked, hp, pure, Except.pure]

theorem ParseBoolChecked_eq {json : List Char} {pos : Nat} (hp : pos ≤ json.length) :
    ParseBoolChecked json pos = Except.ok (ParseBool json pos) := by
  unfold ParseBoolChecked ParseBool
  simp only [compareChecked_eq hp, Except_ok_bind, Except_pure_eq_ok]
  split_ifs <;> rfl

theorem SkipNestedLoopChecked_eq (o c : Char) (json : List Char) :
    ∀ (fuel pos : Nat) (depth : Int), json.length - pos < fuel →
      SkipNestedLoopChecked o c json fuel pos depth
        = Except.ok (SkipNestedLoop o c json (json.length - pos) pos depth)
  | 0, _, _, h => by omega
  | fuel + 1, pos, depth, h => by
    unfold SkipNestedLoopChecked
    by_cases hlt : pos < json.length
    · obtain ⟨m, hm⟩ : ∃ m, json.length - pos = m + 1 := ⟨json.length - pos - 1, by omega⟩
      rw [hm, SkipNestedLoop, dif_pos hlt]
      by_cases hd : depth > 0
      · have ih := SkipNestedLoopChecked_eq o c json fuel (pos + 1)
          (if json[pos] = o then depth + 1 else if json[pos] = c then depth - 1 else depth)
          (by omega)
        have e : json.length - (pos + 1) = m := by omega
        rw [e] at ih
        simp [hlt, hd, charAt_of_lt hlt, bind, Except.bind, ih]
      · simp [hlt, hd, pure, Except.pure]
    · have e : json.length - pos = 0 := by omega
      rw [e]
      simp [hlt, SkipNestedLoop, pure, Except.pure]

theorem SkipObjectChecked_eq {n : Nat} {json : List Char} (hn : json.length < n)
    (pos : Nat) : SkipObjectChecked n json pos = Except.ok (SkipObject json pos) := by
  unfold SkipObjectChecked SkipObject
  rw [ExpectChecked_eq]
  rcases h : Expect json pos '{' with ⟨b, q⟩
  cases b
  · simp [bind, Except.bind, pure, Except.pure]
  · have hl := SkipNestedLoopChecked_eq '{' '}' json n q 1 (by omega)
    simp [bind, Except.bind, hl]

theorem SkipArrayChecked_eq {n : Nat} {json : List Char} (hn : json.length < n)
    (pos : Nat) : SkipArrayChecked n json pos = Except.ok (SkipArray json pos) := by
  unfold SkipArrayChecked SkipArray
  rw [ExpectChecked_eq]
  rcases h : Expect json pos '[' with ⟨b, q⟩
  cases b
  · simp [bind, Except.bind, pure, Except.pure]
  · have hl := SkipNestedLoopChecked_eq '[' ']' json n q 1 (by omega)
    simp [bind, Except.bind, hl]

theorem SkipScalarLoopChecked_eq (json : List Char) :
    ∀ (fuel pos : Nat), json.length - pos < fuel →
      SkipScalarLoopChecked json fuel pos
        = Except.ok (SkipScalarLoop json (json.length - pos) pos)
  | 0, _, h => by omega
  | fuel + 1, pos, h => by
    unfold SkipScalarLoopChecked
    by_cases hlt : pos < json.length
    · obtain ⟨m, hm⟩ : ∃ m, json.length - pos = m + 1 := ⟨json.length - pos - 1, by omega⟩
      rw [hm, SkipScalarLoop, if_pos hlt, dif_pos hlt, charAt_of_lt hlt]
      by_cases hw : json[pos] ≠ ',' ∧ json[pos] ≠ '}' ∧ json[pos] ≠ ']'
      · have ih := SkipScalarLoopChecked_eq json fuel (pos + 1) (by omega)
        have e : json.length - (pos + 1) = m := by omega
        rw [e] at ih
        simp only [bind, Except.bind, if_pos hw, ih]
      · simp only [bind, Except.bind, if_neg hw, pure, Except.pure]
    · have e : json.length - pos = 0 := by omega
      rw [e, if_neg hlt]
      simp [SkipScalarLoop, pure, Except.pure]

theorem SkipValueChecked_eq {n : Nat} {json : List Char} (hn : json.length < n)
    {pos : Nat} (hp : pos ≤ json.length) :
    SkipValueChecked n json pos = Except.ok (SkipValue json pos) := by
  unfold SkipValueChecked SkipValue
  have hb := SkipWhitespace_bound json pos hp
  simp only [SkipWhitespaceChecked_eq hn, PeekChecked_eq, Except_ok_bind, Except_pure_eq_ok]
  by_cases h1 : Peek json (SkipWhitespace json pos) = '"'
  · rw [if_pos h1, if_pos h1, ParseStringChecked_eq hn]
    rfl
  rw [if_neg h1, if_neg h1]
  by_cases h2 : Peek json (SkipWhitespace json pos) = '{'
  · rw [if_pos h2, if_pos h2]; exact SkipObjectChecked_eq hn _
  rw [if_neg h2, if_neg h2]
  by_cases h3 : Peek json (SkipWhitespace json pos) = '['
  · rw [if_pos h3, if_pos h3]; exact SkipArrayChecked_eq hn _
  rw [if_neg h3, if_neg h3]
  by_cases h4 : Peek json (SkipWhitespace json pos) = 't' ∨ Peek json (SkipWhitespace json pos) = 'f'
  · rw [if_pos h4, if_pos h4, ParseBoolChecked_eq hb]
    rfl
  rw [if_neg h4, if_neg h4]
  exact SkipScalarLoopChecked_eq json n _ (by omega)

theorem SkipCommaChecked_eq (json : List Char) (pos : Nat) :
    SkipCommaChecked json pos = Except.ok (SkipComma json pos) := by
  unfold SkipCommaChecked SkipComma
  rw [PeekChecked_eq]
  by_cases h : Peek json pos = ',' <;> simp [h, bind, Except.bind, pure, Except.pure]

theorem ParameterMemberChecked_eq {n : Nat} {json : List Char} (hn : json.length < n)
    (key : List Char) {pos : Nat} (hp : pos ≤ json.length) (param : ParameterInfo) :
    ParameterMemberChecked n json key pos param = Except.ok (ParameterMember json key pos param) := by
  unfold ParameterMemberChecked ParameterMember
  simp only [ParseStringChecked_eq hn, ParseBoolChecked_eq hp, SkipValueChecked_eq hn hp,
    Except_ok_bind, Except_pure_eq_ok]
  by_cases h0 : key = "name".toList
  · rw [if_pos h0, if_pos h0]
  rw [if_neg h0, if_neg h0]
  by_cases h1 : key = "parameterType".toList
  · rw [if_pos h1, if_pos h1]
  rw [if_neg h1, if_neg h1]

/-- One iteration of the loop of `ParseParameterInfo` with the faults written out, on a
cursor within the text and with fuel for the loops it starts: no fault, and
the steps of the first embedding. -/
theorem ParseParameterInfoLoopChecked_succ {n : Nat} {json : List Char} (hn : json.length < n)
    (fuel : Nat) {pos : Nat} (hp : pos ≤ json.length) (param : ParameterInfo) :
    ParseParameterInfoLoopChecked n json (fuel + 1) pos param
      = if pos < json.length then
          if Peek json (SkipWhitespace json pos) = '}' then
            Except.ok (true, SkipWhitespace json pos + 1, param)
          else if Peek json (SkipWhitespace json (ParseString json (SkipWhitespace json pos)).2) = ':' then
            ParseParameterInfoLoopChecked n json fuel
              (SkipComma json (SkipWhitespace json (ParameterMember json (ParseString json (SkipWhitespace json pos)).1 (SkipWhitespace json (SkipWhitespace json (ParseString json (SkipWhitespace json pos)).2 + 1)) param).1))
              (ParameterMember json (ParseString json (SkipWhitespace json pos)).1 (SkipWhitespace json (SkipWhitespace json (ParseString json (SkipWhitespace json pos)).2 + 1)) param).2
          else Except.ok (false, SkipWhitespace json (ParseString json (SkipWhitespace json pos)).2, param)
        else Except.ok (true, pos, param) := by
  rw [ParseParameterInfoLoopChecked]
  simp only [SkipWhitespaceChecked_eq hn, PeekChecked_eq, ParseStringChecked_eq hn,
    ExpectChecked_eq, SkipCommaChecked_eq, Except_ok_bind, Except_pure_eq_ok, Expect]
  by_cases h0 : pos < json.length
  · rw [if_pos h0, if_pos h0]
    by_cases h1 : Peek json (SkipWhitespace json pos) = '}'
    · rw [if_pos h1, if_pos h1]
    · rw [if_neg h1, if_neg h1]
      by_cases h2 : Peek json (SkipWhitespace json (ParseString json (SkipWhitespace json pos)).2) = ':'
      · have b1 := SkipWhitespace_bound json pos hp
        have b2 := ParseString_bound json (SkipWhitespace json pos) b1
        have b4 : SkipWhitespace json (ParseString json (SkipWhitespace json pos)).2 + 1 ≤ json.length :=
          lt_length_of_Peek h2 (by decide)
        have b5 := SkipWhitespace_bound json _ b4
        simp only [if_pos h2, Except_ok_bind, SkipWhitespaceChecked_eq hn,
          ParameterMemberChecked_eq hn _ b5, SkipCommaChecked_eq]
      · simp only [if_neg h2, Except_ok_bind]
  · rw [if_neg h0, if_neg h0]

/-- The loop of `ParseParameterInfo` with the faults written out raises no fault when its
fuel covers the rest of the text, and returns what the loop of the first
embedding returns. -/
theorem ParseParameterInfoLoopChecked_eq {n : Nat} {json : List Char} (hn : json.length < n) :
    ∀ (fuel pos : Nat) (param : ParameterInfo), pos ≤ json.length → json.length - pos < fuel →
      ParseParameterInfoLoopChecked n json fuel pos param
        = Except.ok (ParseParameterInfoLoop json (json.length - pos) pos param)
  | 0, _, _, _, h => by omega
  | fuel + 1, pos, param, hp, h => by
    rw [ParseParameterInfoLoopChecked_succ hn fuel hp]
    by_cases h0 : pos < json.length
    · obtain ⟨m, hm⟩ : ∃ m, json.length - pos = m + 1 := ⟨json.length - pos - 1, by omega⟩
      rw [hm, ParseParameterInfoLoop_succ, if_pos h0, if_pos h0]
      split_ifs with h1 h2
      · rfl
      · have hlt := ParseParameterInfoLoop_next_lt json pos param
        have hb := ParseParameterInfoLoop_next_bound json pos param hp h2
        rw [ParseParameterInfoLoopChecked_eq hn fuel _ _ hb (by omega)]
        rw [ParseParameterInfoLoop_fuel json m _ _ _ (by omega) (Nat.le_refl _)]
      · rfl
    · have e : json.length - pos = 0 := by omega
      rw [e, if_neg h0]
      rfl

theorem ParseParameterInfoChecked_eq {n : Nat} {json : List Char} (hn : json.length < n)
    {pos : Nat} (hp : pos ≤ json.length) (param : ParameterInfo) :
    ParseParameterInfoChecked n json pos param = Except.ok (ParseParameterInfo json pos param) := by
  have h0 := Expect_bound json pos '{' (by decide) hp
  unfold ParseParameterInfoChecked ParseParameterInfo
  simp only [ExpectChecked_eq, Except_ok_bind, Except_pure_eq_ok]
  rcases h : Expect json pos '{' with ⟨b, q⟩
  rw [h] at h0
  cases b
  · rfl
  · exact ParseParameterInfoLoopChecked_eq hn n q param h0 (by omega)

/-- Every iteration of the loop of `ParseParameterInfo` returns or moves the cursor
forward. -/
theorem ParseParameterInfoLoopChecked_advances {n : Nat} {json : List Char} (hn : json.length < n) :
    Advances json.length (ParseParameterInfoLoopChecked n json) := by
  intro pos param hp
  by_cases h0 : pos < json.length
  · by_cases h1 : Peek json (SkipWhitespace json pos) = '}'
    · exact Or.inl ⟨_, fun fuel => by
        rw [ParseParameterInfoLoopChecked_succ hn fuel hp, if_pos h0, if_pos h1]⟩
    · by_cases h2 : Peek json (SkipWhitespace json (ParseString json (SkipWhitespace json pos)).2) = ':'
      · exact Or.inr ⟨_, _, ParseParameterInfoLoop_next_lt json pos param,
          ParseParameterInfoLoop_next_bound json pos param hp h2, fun fuel => by
            rw [ParseParameterInfoLoopChecked_succ hn fuel hp, if_pos h0, if_neg h1, if_pos h2]⟩
      · exact Or.inl ⟨_, fun fuel => by
          rw [ParseParameterInfoLoopChecked_succ hn fuel hp, if_pos h0, if_neg h1, if_neg h2]⟩
  · exact Or.inl ⟨_, fun fuel => by
      rw [ParseParameterInfoLoopChecked_succ hn fuel hp, if_neg h0]⟩

/-- One iteration of the loop of `ParseParametersArray` with the faults written out, on a
cursor within the text and with fuel for the loops it starts. -/
theorem ParseParametersArrayLoopChecked_succ {n : Nat} {json : List Char} (hn : json.length < n)
    (fuel : Nat) {pos : Nat} (hp : pos ≤ json.length) (acc : List ParameterInfo) :
    ParseParametersArrayLoopChecked n json (fuel + 1) pos acc
      = if pos < json.length then
          if Peek json (SkipWhitespace json pos) = ']' then
            Except.ok (true, SkipWhitespace json pos + 1, acc)
          else if (ParseParameterInfo json (SkipWhitespace json pos) {}).1 = true then
            ParseParametersArrayLoopChecked n json fuel (SkipComma json (SkipWhitespace json (ParseParameterInfo json (SkipWhitespace json pos) {}).2.1))
              (acc ++ [(ParseParameterInfo json (SkipWhitespace json pos) {}).2.2])
          else Except.ok (false, (ParseParameterInfo json (SkipWhitespace json pos) {}).2.1, acc)
        else Except.ok (true, pos, acc) := by
  rw [ParseParametersArrayLoopChecked]
  have b1 := SkipWhitespace_bound json pos hp
  simp only [SkipWhitespaceChecked_eq hn, PeekChecked_eq, ParseParameterInfoChecked_eq hn b1,
    SkipCommaChecked_eq, Except_ok_bind, Except_pure_eq_ok]
  by_cases h0 : pos < json.length
  · rw [if_pos h0, if_pos h0]
    by_cases h1 : Peek json (SkipWhitespace json pos) = ']'
    · rw [if_pos h1, if_pos h1]
    · rw [if_neg h1, if_neg h1]
      rcases ParseParameterInfo json (SkipWhitespace json pos) {} with ⟨b, q, x⟩
      cases b
      · simp
      · simp only [if_true, Except_ok_bind, SkipWhitespaceChecked_eq hn, SkipCommaChecked_eq]
  · rw [if_neg h0, if_neg h0]

/-- The loop of `ParseParametersArray` with the faults written out raises no fault when its
fuel covers the rest of the text, and returns what the loop of the first
embedding returns. -/
theorem ParseParametersArrayLoopChecked_eq {n : Nat} {json : List Char} (hn : json.length < n) :
    ∀ (fuel pos : Nat) (acc : List ParameterInfo), pos ≤ json.length → json.length - pos < fuel →
      ParseParametersArrayLoopChecked n json fuel pos acc
        = Except.ok (ParseParametersArrayLoop json (json.length - pos) pos acc)
  | 0, _, _, _, h => by omega
  | fuel + 1, pos, acc, hp, h => by
    rw [ParseParametersArrayLoopChecked_succ hn fuel hp]
    by_cases h0 : pos < json.length
    · obtain ⟨m, hm⟩ : ∃ m, json.length - pos = m + 1 := ⟨json.length - pos - 1, by omega⟩
      rw [hm, ParseParametersArrayLoop_succ, if_pos h0, if_pos h0]
      split_ifs with h1 h3
      · rfl
      · have hlt := ParseParametersArrayLoop_next_lt json pos h3
        have hb := SkipComma_bound json _ (SkipWhitespace_bound json _
          (ParseParameterInfo_bound json (SkipWhitespace json pos) {}
            (SkipWhitespace_bound json pos hp)))
        rw [ParseParametersArrayLoopChecked_eq hn fuel _ _ hb (by omega)]
        rw [ParseParametersArrayLoop_fuel json m _ _ _ (by omega) (Nat.le_refl _)]
      · rfl
    · have e : json.length - pos = 0 := by omega
      rw [e, if_neg h0]
      rfl

theorem ParseParametersArrayChecked_eq {n : Nat} {json : List Char} (hn : json.length < n)
    {pos : Nat} (hp : pos ≤ json.length) (acc : List ParameterInfo) :
    ParseParametersArrayChecked n json pos acc = Except.ok (ParseParametersArray json pos acc) := by
  have h0 := Expect_bound json pos '[' (by decide) hp
  unfold ParseParametersArrayChecked ParseParametersArray
  simp only [ExpectChecked_eq, Except_ok_bind, Except_pure_eq_ok]
  rcases h : Expect json pos '[' with ⟨b, q⟩
  rw [h] at h0
  cases b
  · rfl
  · exact ParseParametersArrayLoopChecked_eq hn n q acc h0 (by omega)

/-- Every iteration of the loop of `ParseParametersArray` returns or moves the cursor
forward. -/
theorem ParseParametersArrayLoopChecked_advances {n : Nat} {json : List Char} (hn : json.length < n) :
    Advances json.length (ParseParametersArrayLoopChecked n json) := by
  intro pos acc hp
  by_cases h0 : pos < json.length
  · by_cases h1 : Peek json (SkipWhitespace json pos) = ']'
    · exact Or.inl ⟨_, fun fuel => by
        rw [ParseParametersArrayLoopChecked_succ hn fuel hp, if_pos h0, if_pos h1]⟩
    · by_cases h3 : (ParseParameterInfo json (SkipWhitespace json pos) {}).1 = true
      · exact Or.inr ⟨_, _, ParseParametersArrayLoop_next_lt json pos h3,
          SkipComma_bound json _ (SkipWhitespace_bound json _
            (ParseParameterInfo_bound json (SkipWhitespace json pos) {}
              (SkipWhitespace_bound json pos hp))), fun fuel => by
            rw [ParseParametersArrayLoopChecked_succ hn fuel hp, if_pos h0, if_neg h1, if_pos h3]⟩
      · exact Or.inl ⟨_, fun fuel => by
          rw [ParseParametersArrayLoopChecked_succ hn fuel hp, if_pos h0, if_neg h1, if_neg h3]⟩
  · exact Or.inl ⟨_, fun fuel => by
      rw [ParseParametersArrayLoopChecked_succ hn fuel hp, if_neg h0]⟩

theorem MethodMemberChecked_eq {n : Nat} {json : List Char} (hn : json.length < n)
    (key : List Char) {pos : Nat} (hp : pos ≤ json.length) (method : MethodInfo) :
    MethodMemberChecked n json key pos method = Except.ok (MethodMember json key pos method) := by
  unfold MethodMemberChecked MethodMember
  simp only [ParseStringChecked_eq hn, ParseBoolChecked_eq hp, SkipValueChecked_eq hn hp, ParseParametersArrayChecked_eq hn hp,
    Except_ok_bind, Except_pure_eq_ok]
  by_cases h0 : key = "name".toList
  · rw [if_pos h0, if_pos h0]
  rw [if_neg h0, if_neg h0]
  by_cases h1 : key = "returnType".toList
  · rw [if_pos h1, if_pos h1]
  rw [if_neg h1, if_neg h1]
  by_cases h2 : key = "isPublic".toList
  · rw [if_pos h2, if_pos h2]
  rw [if_neg h2, if_neg h2]
  by_cases h3 : key = "isStatic".toList
  · rw [if_pos h3, if_pos h3]
  rw [if_neg h3, if_neg h3]
  by_cases h4 : key = "parameters".toList
  · rw [if_pos h4, if_pos h4]
  rw [if_neg h4, if_neg h4]

/-- One iteration of the loop of `ParseMethodInfo` with the faults written out, on a
cursor within the text and with fuel for the loops it starts: no fault, and
the steps of the first embedding. -/
theorem ParseMethodInfoLoopChecked_succ {n : Nat} {json : List Char} (hn : json.length < n)
    (fuel : Nat) {pos : Nat} (hp : pos ≤ json.length) (method : MethodInfo) :
    ParseMethodInfoLoopChecked n json (fuel + 1) pos method
      = if pos < json.length then
          if Peek json (SkipWhitespace json pos) = '}' then
            Except.ok (true, SkipWhitespace json pos + 1, method)
          else if Peek json (SkipWhitespace json (ParseString json (SkipWhitespace json pos)).2) = ':' then
            ParseMethodInfoLoopChecked n json fuel
              (SkipComma json (SkipWhitespace json (MethodMember json (ParseString json (SkipWhitespace json pos)).1 (SkipWhitespace json (SkipWhitespace json (ParseString json (SkipWhitespace json pos)).2 + 1)) method).1))
              (MethodMember json (ParseString json (SkipWhitespace json pos)).1 (SkipWhitespace json (SkipWhitespace json (ParseString json (SkipWhitespace json pos)).2 + 1)) method).2
          else Except.ok (false, SkipWhitespace json (ParseString json (SkipWhitespace json pos)).2, method)
        else Except.ok (true, pos, method) := by
  rw [ParseMethodInfoLoopChecked]
  simp only [SkipWhitespaceChecked_eq hn, PeekChecked_eq, ParseStringChecked_eq hn,
    ExpectChecked_eq, SkipCommaChecked_eq, Except_ok_bind, Except_pure_eq_ok, Expect]
  by_cases h0 : pos < json.length
  · rw [if_pos h0, if_pos h0]
    by_cases h1 : Peek json (SkipWhitespace json pos) = '}'
    · rw [if_pos h1, if_pos h1]
    · rw [if_neg h1, if_neg h1]
      by_cases h2 : Peek json (SkipWhitespace json (ParseString json (SkipWhitespace json pos)).2) = ':'
      · have b1 := SkipWhitespace_bound json pos hp
        have b2 := ParseString_bound json (SkipWhitespace json pos) b1
        have b4 : SkipWhitespace json (ParseString json (SkipWhitespace json pos)).2 + 1 ≤ json.length :=
          lt_length_of_Peek h2 (by decide)
        have b5 := SkipWhitespace_bound json _ b4
        simp only [if_pos h2, Except_ok_bind, SkipWhitespaceChecked_eq hn,
          MethodMemberChecked_eq hn _ b5, SkipCommaChecked_eq]
      · simp only [if_neg h2, Except_ok_bind]
  · rw [if_neg h0, if_neg h0]

/-- The loop of `ParseMethodInfo` with the faults written out raises no fault when its
fuel covers the rest of the text, and returns what the loop of the first
embedding returns. -/
theorem ParseMethodInfoLoopChecked_eq {n : Nat} {json : List Char} (hn : json.length < n) :
    ∀ (fuel pos : Nat) (method : MethodInfo), pos ≤ json.length → json.length - pos < fuel →
      ParseMethodInfoLoopChecked n json fuel pos method
        = Except.ok (ParseMethodInfoLoop json (json.length - pos) pos method)
  | 0, _, _, _, h => by omega
  | fuel + 1, pos, method, hp, h => by
    rw [ParseMethodInfoLoopChecked_succ hn fuel hp]
    by_cases h0 : pos < json.length
    · obtain ⟨m, hm⟩ : ∃ m, json.length - pos = m + 1 := ⟨json.length - pos - 1, by omega⟩
      rw [hm, ParseMethodInfoLoop_succ, if_pos h0, if_pos h0]
      split_ifs with h1 h2
      · rfl
      · have hlt := ParseMethodInfoLoop_next_lt json pos method
        have hb := ParseMethodInfoLoop_next_bound json pos method hp h2
        rw [ParseMethodInfoLoopChecked_eq hn fuel _ _ hb (by omega)]
        rw [ParseMethodInfoLoop_fuel json m _ _ _ (by omega) (Nat.le_refl _)]
      · rfl
    · have e : json.length - pos = 0 := by omega
      rw [e, if_neg h0]
      rfl

theorem ParseMethodInfoChecked_eq {n : Nat} {json : List Char} (hn : json.length < n)
    {pos : Nat} (hp : pos ≤ json.length) (method : MethodInfo) :
    ParseMethodInfoChecked n json pos method = Except.ok (ParseMethodInfo json pos method) := by
  have h0 := Expect_bound json pos '{' (by decide) hp
  unfold ParseMethodInfoChecked ParseMethodInfo
  simp only [ExpectChecked_eq, Except_ok_bind, Except_pure_eq_ok]
  rcases h : Expect json pos '{' with ⟨b, q⟩
  rw [h] at h0
  cases b
  · rfl
  · exact ParseMethodInfoLoopChecked_eq hn n q method h0 (by omega)

/-- Every iteration of the loop of `ParseMethodInfo` returns or moves the cursor
forward. -/
theorem ParseMethodInfoLoopChecked_advances {n : Nat} {json : List Char} (hn : json.length < n) :
    Advances json.length (ParseMethodInfoLoopChecked n json) := by
  intro pos method hp
  by_cases h0 : pos < json.length
  · by_cases h1 : Peek json (SkipWhitespace json pos) = '}'
    · exact Or.inl ⟨_, fun fuel => by
        rw [ParseMethodInfoLoopChecked_succ hn fuel hp, if_pos h0, if_pos h1]⟩
    · by_cases h2 : Peek json (SkipWhitespace json (ParseString json (SkipWhitespace json pos)).2) = ':'
      · exact Or.inr ⟨_, _, ParseMethodInfoLoop_next_lt json pos method,
          ParseMethodInfoLoop_next_bound json pos method hp h2, fun fuel => by
            rw [ParseMethodInfoLoopChecked_succ hn fuel hp, if_pos h0, if_neg h1, if_pos h2]⟩
      · exact Or.inl ⟨_, fun fuel => by
          rw [ParseMethodInfoLoopChecked_succ hn fuel hp, if_pos h0, if_neg h1, if_neg h2]⟩
  · exact Or.inl ⟨_, fun fuel => by
      rw [ParseMethodInfoLoopChecked_succ hn fuel hp, if_neg h0]⟩

/-- One iteration of the loop of `ParseMethodsArray` with the faults written out, on a
cursor within the text and with fuel for the loops it starts. -/
theorem ParseMethodsArrayLoopChecked_succ {n : Nat} {json : List Char} (hn : json.length < n)
    (fuel : Nat) {pos : Nat} (hp : pos ≤ json.length) (acc : List MethodInfo) :
    ParseMethodsArrayLoopChecked n json (fuel + 1) pos acc
      = if pos < json.length then
          if Peek json (SkipWhitespace json pos) = ']' then
            Except.ok (true, SkipWhitespace json pos + 1, acc)
          else if (ParseMethodInfo json (SkipWhitespace json pos) {}).1 = true then
            ParseMethodsArrayLoopChecked n json fuel (SkipComma json (SkipWhitespace json (ParseMethodInfo json (SkipWhitespace json pos) {}).2.1))
              (acc ++ [(ParseMethodInfo json (SkipWhitespace json pos) {}).2.2])
          else Except.ok (false, (ParseMethodInfo json (SkipWhitespace json pos) {}).2.1, acc)
        else Except.ok (true, pos, acc) := by
  rw [ParseMethodsArrayLoopChecked]
  have b1 := SkipWhitespace_bound json pos hp
  simp only [SkipWhitespaceChecked_eq hn, PeekChecked_eq, ParseMethodInfoChecked_eq hn b1,
    SkipCommaChecked_eq, Except_ok_bind, Except_pure_eq_ok]
  by_cases h0 : pos < json.length
  · rw [if_pos h0, if_pos h0]
    by_cases h1 : Peek json (SkipWhitespace json pos) = ']'
    · rw [if_pos h1, if_pos h1]
    · rw [if_neg h1, if_neg h1]
      rcases ParseMethodInfo json (SkipWhitespace json pos) {} with ⟨b, q, x⟩
      cases b
      · simp
      · simp only [if_true, Except_ok_bind, SkipWhitespaceChecked_eq hn, SkipCommaChecked_eq]
  · rw [if_neg h0, if_neg h0]

/-- The loop of `ParseMethodsArray` with the faults written out raises no fault when its
fuel covers the rest of the text, and returns what the loop of the first
embedding returns. -/
theorem ParseMethodsArrayLoopChecked_eq {n : Nat} {json : List Char} (hn : json.length < n) :
    ∀ (fuel pos : Nat) (acc : List MethodInfo), pos ≤ json.length → json.length - pos < fuel →
      ParseMethodsArrayLoopChecked n json fuel pos acc
        = Except.ok (ParseMethodsArrayLoop json (json.length - pos) pos acc)
  | 0, _, _, _, h => by omega
  | fuel + 1, pos, acc, hp, h => by
    rw [ParseMethodsArrayLoopChecked_succ hn fuel hp]
    by_cases h0 : pos < json.length
    · obtain ⟨m, hm⟩ : ∃ m, json.length - pos = m + 1 := ⟨json.length - pos - 1, by omega⟩
      rw [hm, ParseMethodsArrayLoop_succ, if_pos h0, if_pos h0]
      split_ifs with h1 h3
      · rfl
      · have hlt := ParseMethodsArrayLoop_next_lt json pos h3
        have hb := SkipComma_bound json _ (SkipWhitespace_bound json _
          (ParseMethodInfo_bound json (SkipWhitespace json pos) {}
            (SkipWhitespace_bound json pos hp)))
        rw [ParseMethodsArrayLoopChecked_eq hn fuel _ _ hb (by omega)]
        rw [ParseMethodsArrayLoop_fuel json m _ _ _ (by omega) (Nat.le_refl _)]
      · rfl
    · have e : json.length - pos = 0 := by omega
      rw [e, if_neg h0]
      rfl

theorem ParseMethodsArrayChecked_eq {n : Nat} {json : List Char} (hn : json.length < n)
    {pos : Nat} (hp : pos ≤ json.length) (acc : List MethodInfo) :
    ParseMethodsArrayChecked n json pos acc = Except.ok (ParseMethodsArray json pos acc) := by
  have h0 := Expect_bound json pos '[' (by decide) hp
  unfold ParseMethodsArrayChecked ParseMethodsArray
  simp only [ExpectChecked_eq, Except_ok_bind, Except_pure_eq_ok]
  rcases h : Expect json pos '[' with ⟨b, q⟩
  rw [h] at h0
  cases b
  · rfl
  · exact ParseMethodsArrayLoopChecked_eq hn n q acc h0 (by omega)

/-- Every iteration of the loop of `ParseMethodsArray` returns or moves the cursor
forward. -/
theorem ParseMethodsArrayLoopChecked_advances {n : Nat} {json : List Char} (hn : json.length < n) :
    Advances json.length (ParseMethodsArrayLoopChecked n json) := by
  intro pos acc hp
  by_cases h0 : pos < json.length
  · by_cases h1 : Peek json (SkipWhitespace json pos) = ']'
    · exact Or.inl ⟨_, fun fuel => by
        rw [ParseMethodsArrayLoopChecked_succ hn fuel hp, if_pos h0, if_pos h1]⟩
    · by_cases h3 : (ParseMethodInfo json (SkipWhitespace json pos) {}).1 = true
      · exact Or.inr ⟨_, _, ParseMethodsArrayLoop_next_lt json pos h3,
          SkipComma_bound json _ (SkipWhitespace_bound json _
            (ParseMethodInfo_bound json (SkipWhitespace json pos) {}
              (SkipWhitespace_bound json pos hp))), fun fuel => by
            rw [ParseMethodsArrayLoopChecked_succ hn fuel hp, if_pos h0, if_neg h1, if_pos h3]⟩
      · exact Or.inl ⟨_, fun fuel => by
          rw [ParseMethodsArrayLoopChecked_succ hn fuel hp, if_pos h0, if_neg h1, if_neg h3]⟩
  · exact Or.inl ⟨_, fun fuel => by
      rw [ParseMethodsArrayLoopChecked_succ hn fuel hp, if_neg h0]⟩

theorem FieldMemberChecked_eq {n : Nat} {json : List Char} (hn : json.length < n)
    (key : List Char) {pos : Nat} (hp : pos ≤ json.length) (field : FieldInfo) :
    FieldMemberChecked n json key pos field = Except.ok (FieldMember json key pos field) := by
  unfold FieldMemberChecked FieldMember
  simp only [ParseStringChecked_eq hn, ParseBoolChecked_eq hp, SkipValueChecked_eq hn hp,
    Except_ok_bind, Except_pure_eq_ok]
  by_cases h0 : key = "name".toList
  · rw [if_pos h0, if_pos h0]
  rw [if_neg h0, if_neg h0]
  by_cases h1 : key = "fieldType".toList
  · rw [if_pos h1, if_pos h1]
  rw [if_neg h1, if_neg h1]
  by_cases h2 : key = "isPublic".toList
  · rw [if_pos h2, if_pos h2]
  rw [if_neg h2, if_neg h2]
  by_cases h3 : key = "isStatic".toList
  · rw [if_pos h3, if_pos h3]
  rw [if_neg h3, if_neg h3]
  by_cases h4 : key = "isReadOnly".toList
  · rw [if_pos h4, if_pos h4]
  rw [if_neg h4, if_neg h4]

/-- One iteration of the loop of `ParseFieldInfo` with the faults written out, on a
cursor within the text and with fuel for the loops it starts: no fault, and
the steps of the first embedding. -/
theorem ParseFieldInfoLoopChecked_succ {n : Nat} {json : List Char} (hn : json.length < n)
    (fuel : Nat) {pos : Nat} (hp : pos ≤ json.length) (field : FieldInfo) :
    ParseFieldInfoLoopChecked n json (fuel + 1) pos field
      = if pos < json.length then
          if Peek json (SkipWhitespace json pos) = '}' then
            Except.ok (true, SkipWhitespace json pos + 1, field)
          else if Peek json (SkipWhitespace json (ParseString json (SkipWhitespace json pos)).2) = ':' then
            ParseFieldInfoLoopChecked n json fuel
              (SkipComma json (SkipWhitespace json (FieldMember json (ParseString json (SkipWhitespace json pos)).1 (SkipWhitespace json (SkipWhitespace json (ParseString json (SkipWhitespace json pos)).2 + 1)) field).1))
              (FieldMember json (ParseString json (SkipWhitespace json pos)).1 (SkipWhitespace json (SkipWhitespace json (ParseString json (SkipWhitespace json pos)).2 + 1)) field).2
          else Except.ok (false, SkipWhitespace json (ParseString json (SkipWhitespace json pos)).2, field)
        else Except.ok (true, pos, field) := by
  rw [ParseFieldInfoLoopChecked]
  simp only [SkipWhitespaceChecked_eq hn, PeekChecked_eq, ParseStringChecked_eq hn,
    ExpectChecked_eq, SkipCommaChecked_eq, Except_ok_bind, Except_pure_eq_ok, Expect]
  by_cases h0 : pos < json.length
  · rw [if_pos h0, if_pos h0]
    by_cases h1 : Peek json (SkipWhitespace json pos) = '}'
    · rw [if_pos h1, if_pos h1]
    · rw [if_neg h1, if_neg h1]
      by_cases h2 : Peek json (SkipWhitespace json (ParseString json (SkipWhitespace json pos)).2) = ':'
      · have b1 := SkipWhitespace_bound json pos hp
        have b2 := ParseString_bound json (SkipWhitespace json pos) b1
        have b4 : SkipWhitespace json (ParseString json (SkipWhitespace json pos)).2 + 1 ≤ json.length :=
          lt_length_of_Peek h2 (by decide)
        have b5 := SkipWhitespace_bound json _ b4
        simp only [if_pos h2, Except_ok_bind, SkipWhitespaceChecked_eq hn,
          FieldMemberChecked_eq hn _ b5, SkipCommaChecked_eq]
      · simp only [if_neg h2, Except_ok_bind]
  · rw [if_neg h0, if_neg h0]

/-- The loop of `ParseFieldInfo` with the faults written out raises no fault when its
fuel covers the rest of the text, and returns what the loop of the first
embedding returns. -/
theorem ParseFieldInfoLoopChecked_eq {n : Nat} {json : List Char} (hn : json.length < n) :
    ∀ (fuel pos : Nat) (field : FieldInfo), pos ≤ json.length → json.length - pos < fuel →
      ParseFieldInfoLoopChecked n json fuel pos field
        = Except.ok (ParseFieldInfoLoop json (json.length - pos) pos field)
  | 0, _, _, _, h => by omega
  | fuel + 1, pos, field, hp, h => by
    rw [ParseFieldInfoLoopChecked_succ hn fuel hp]
    by_cases h0 : pos < json.length
    · obtain ⟨m, hm⟩ : ∃ m, json.length - pos = m + 1 := ⟨json.length - pos - 1, by omega⟩
      rw [hm, ParseFieldInfoLoop_succ, if_pos h0, if_pos h0]
      split_ifs with h1 h2
      · rfl
      · have hlt := ParseFieldInfoLoop_next_lt json pos field
        have hb := ParseFieldInfoLoop_next_bound json pos field hp h2
        rw [ParseFieldInfoLoopChecked_eq hn fuel _ _ hb (by omega)]
        rw [ParseFieldInfoLoop_fuel json m _ _ _ (by omega) (Nat.le_refl _)]
      · rfl
    · have e : json.length - pos = 0 := by omega
      rw [e, if_neg h0]
      rfl

theorem ParseFieldInfoChecked_eq {n : Nat} {json : List Char} (hn : json.length < n)
    {pos : Nat} (hp : pos ≤ json.length) (field : FieldInfo) :
    ParseFieldInfoChecked n json pos field = Except.ok (ParseFieldInfo json pos field) := by
  have h0 := Expect_bound json pos '{' (by decide) hp
  unfold ParseFieldInfoChecked ParseFieldInfo
  simp only [ExpectChecked_eq, Except_ok_bind, Except_pure_eq_ok]
  rcases h : Expect json pos '{' with ⟨b, q⟩
  rw [h] at h0
  cases b
  · rfl
  · exact ParseFieldInfoLoopChecked_eq hn n q field h0 (by omega)

/-- Every iteration of the loop of `ParseFieldInfo` returns or moves the cursor
forward. -/
theorem ParseFieldInfoLoopChecked_advances {n : Nat} {json : List Char} (hn : json.length < n) :
    Advances json.length (ParseFieldInfoLoopChecked n json) := by
  intro pos field hp
  by_cases h0 : pos < json.length
  · by_cases h1 : Peek json (SkipWhitespace json pos) = '}'
    · exact Or.inl ⟨_, fun fuel => by
        rw [ParseFieldInfoLoopChecked_succ hn fuel hp, if_pos h0, if_pos h1]⟩
    · by_cases h2 : Peek json (SkipWhitespace json (ParseString json (SkipWhitespace json pos)).2) = ':'
      · exact Or.inr ⟨_, _, ParseFieldInfoLoop_next_lt json pos field,
          ParseFieldInfoLoop_next_bound json pos field hp h2, fun fuel => by
            rw [ParseFieldInfoLoopChecked_succ hn fuel hp, if_pos h0, if_neg h1, if_pos h2]⟩
      · exact Or.inl ⟨_, fun fuel => by
          rw [ParseFieldInfoLoopChecked_succ hn fuel hp, if_pos h0, if_neg h1, if_neg h2]⟩
  · exact Or.inl ⟨_, fun fuel => by
      rw [ParseFieldInfoLoopChecked_succ hn fuel hp, if_neg h0]⟩

/-- One iteration of the loop of `ParseFieldsArray` with the faults written out, on a
cursor within the text and with fuel for the loops it starts. -/
theorem ParseFieldsArrayLoopChecked_succ {n : Nat} {json : List Char} (hn : json.length < n)
    (fuel : Nat) {pos : Nat} (hp : pos ≤ json.length) (acc : List FieldInfo) :
    ParseFieldsArrayLoopChecked n json (fuel + 1) pos acc
      = if pos < json.length then
          if Peek json (SkipWhitespace json pos) = ']' then
            Except.ok (true, SkipWhitespace json pos + 1, acc)
          else if (ParseFieldInfo json (SkipWhitespace json pos) {}).1 = true then
            ParseFieldsArrayLoopChecked n json fuel (SkipComma json (SkipWhitespace json (ParseFieldInfo json (SkipWhitespace json pos) {}).2.1))
              (acc ++ [(ParseFieldInfo json (SkipWhitespace json pos) {}).2.2])
          else Except.ok (false, (ParseFieldInfo json (SkipWhitespace json pos) {}).2.1, acc)
        else Except.ok (true, pos, acc) := by
  rw [ParseFieldsArrayLoopChecked]
  have b1 := SkipWhitespace_bound json pos hp
  simp only [SkipWhitespaceChecked_eq hn, PeekChecked_eq, ParseFieldInfoChecked_eq hn b1,
    SkipCommaChecked_eq, Except_ok_bind, Except_pure_eq_ok]
  by_cases h0 : pos < json.length
  · rw [if_pos h0, if_pos h0]
    by_cases h1 : Peek json (SkipWhitespace json pos) = ']'
    · rw [if_pos h1, if_pos h1]
    · rw [if_neg h1, if_neg h1]
      rcases ParseFieldInfo json (SkipWhitespace json pos) {} with ⟨b, q, x⟩
      cases b
      · simp
      · simp only [if_true, Except_ok_bind, SkipWhitespaceChecked_eq hn, SkipCommaChecked_eq]
  · rw [if_neg h0, if_neg h0]

/-- The loop of `ParseFieldsArray` with the faults written out raises no fault when its
fuel covers the rest of the text, and returns what the loop of the first
embedding returns. -/
theorem ParseFieldsArrayLoopChecked_eq {n : Nat} {json : List Char} (hn : json.length < n) :
    ∀ (fuel pos : Nat) (acc : List FieldInfo), pos ≤ json.length → json.length - pos < fuel →
      ParseFieldsArrayLoopChecked n json fuel pos acc
        = Except.ok (ParseFieldsArrayLoop json (json.length - pos) pos acc)
  | 0, _, _, _, h => by omega
  | fuel + 1, pos, acc, hp, h => by
    rw [ParseFieldsArrayLoopChecked_succ hn fuel hp]
    by_cases h0 : pos < json.length
    · obtain ⟨m, hm⟩ : ∃ m, json.length - pos = m + 1 := ⟨json.length - pos - 1, by omega⟩
      rw [hm, ParseFieldsArrayLoop_succ, if_pos h0, if_pos h0]
      split_ifs with h1 h3
      · rfl
      · have hlt := ParseFieldsArrayLoop_next_lt json pos h3
        have hb := SkipComma_bound json _ (SkipWhitespace_bound json _
          (ParseFieldInfo_bound json (SkipWhitespace json pos) {}
            (SkipWhitespace_bound json pos hp)))
        rw [ParseFieldsArrayLoopChecked_eq hn fuel _ _ hb (by omega)]
        rw [ParseFieldsArrayLoop_fuel json m _ _ _ (by omega) (Nat.le_refl _)]
      · rfl
    · have e : json.length - pos = 0 := by omega
      rw [e, if_neg h0]
      rfl

theorem ParseFieldsArrayChecked_eq {n : Nat} {json : List Char} (hn : json.length < n)
    {pos : Nat} (hp : pos ≤ json.length) (acc : List FieldInfo) :
    ParseFieldsArrayChecked n json pos acc = Except.ok (ParseFieldsArray json pos acc) := by
  have h0 := Expect_bound json pos '[' (by decide) hp
  unfold ParseFieldsArrayChecked ParseFieldsArray
  simp only [ExpectChecked_eq, Except_ok_bind, Except_pure_eq_ok]
  rcases h : Expect json pos '[' with ⟨b, q⟩
  rw [h] at h0
  cases b
  · rfl
  · exact ParseFieldsArrayLoopChecked_eq hn n q acc h0 (by omega)

/-- Every iteration of the loop of `ParseFieldsArray` returns or moves the cursor
forward. -/
theorem ParseFieldsArrayLoopChecked_advances {n : Nat} {json : List Char} (hn : json.length < n) :
    Advances json.length (ParseFieldsArrayLoopChecked n json) := by
  intro pos acc hp
  by_cases h0 : pos < json.length
  · by_cases h1 : Peek json (SkipWhitespace json pos) = ']'
    · exact Or.inl ⟨_, fun fuel => by
        rw [ParseFieldsArrayLoopChecked_succ hn fuel hp, if_pos h0, if_pos h1]⟩
    · by_cases h3 : (ParseFieldInfo json (SkipWhitespace json pos) {}).1 = true
      · exact Or.inr ⟨_, _, ParseFieldsArrayLoop_next_lt json pos h3,
          SkipComma_bound json _ (SkipWhitespace_bound json _
            (ParseFieldInfo_bound json (SkipWhitespace json pos) {}
              (SkipWhitespace_bound json pos hp))), fun fuel => by
            rw [ParseFieldsArrayLoopChecked_succ hn fuel hp, if_pos h0, if_neg h1, if_pos h3]⟩
      · exact Or.inl ⟨_, fun fuel => by
          rw [ParseFieldsArrayLoopChecked_succ hn fuel hp, if_pos h0, if_neg h1, if_neg h3]⟩
  · exact Or.inl ⟨_, fun fuel => by
      rw [ParseFieldsArrayLoopChecked_succ hn fuel hp, if_neg h0]⟩

theorem PropertyMemberChecked_eq {n : Nat} {json : List Char} (hn : json.length < n)
    (key : List Char) {pos : Nat} (hp : pos ≤ json.length) (prop : PropertyInfo) :
    PropertyMemberChecked n json key pos prop = Except.ok (PropertyMember json key pos prop) := by
  unfold PropertyMemberChecked PropertyMember
  simp only [ParseStringChecked_eq hn, ParseBoolChecked_eq hp, SkipValueChecked_eq hn hp,
    Except_ok_bind, Except_pure_eq_ok]
  by_cases h0 : key = "name".toList
  · rw [if_pos h0, if_pos h0]
  rw [if_neg h0, if_neg h0]
  by_cases h1 : key = "propertyType".toList
  · rw [if_pos h1, if_pos h1]
  rw [if_neg h1, if_neg h1]
  by_cases h2 : key = "canRead".toList
  · rw [if_pos h2, if_pos h2]
  rw [if_neg h2, if_neg h2]
  by_cases h3 : key = "canWrite".toList
  · rw [if_pos h3, if_pos h3]
  rw [if_neg h3, if_neg h3]

/-- One iteration of the loop of `ParsePropertyInfo` with the faults written out, on a
cursor within the text and with fuel for the loops it starts: no fault, and
the steps of the first embedding. -/
theorem ParsePropertyInfoLoopChecked_succ {n : Nat} {json : List Char} (hn : json.length < n)
    (fuel : Nat) {pos : Nat} (hp : pos ≤ json.length) (prop : PropertyInfo) :
    ParsePropertyInfoLoopChecked n json (fuel + 1) pos prop
      = if pos < json.length then
          if Peek json (SkipWhitespace json pos) = '}' then
            Except.ok (true, SkipWhitespace json pos + 1, prop)
          else if Peek json (SkipWhitespace json (ParseString json (SkipWhitespace json pos)).2) = ':' then
            ParsePropertyInfoLoopChecked n json fuel
              (SkipComma json (SkipWhitespace json (PropertyMember json (ParseString json (SkipWhitespace json pos)).1 (SkipWhitespace json (SkipWhitespace json (ParseString json (SkipWhitespace json pos)).2 + 1)) prop).1))
              (PropertyMember json (ParseString json (SkipWhitespace json pos)).1 (SkipWhitespace json (SkipWhitespace json (ParseString json (SkipWhitespace json pos)).2 + 1)) prop).2
          else Except.ok (false, SkipWhitespace json (ParseString json (SkipWhitespace json pos)).2, prop)
        else Except.ok (true, pos, prop) := by
  rw [ParsePropertyInfoLoopChecked]
  simp only [SkipWhitespaceChecked_eq hn, PeekChecked_eq, ParseStringChecked_eq hn,
    ExpectChecked_eq, SkipCommaChecked_eq, Except_ok_bind, Except_pure_eq_ok, Expect]
  by_cases h0 : pos < json.length
  · rw [if_pos h0, if_pos h0]
    by_cases h1 : Peek json (SkipWhitespace json pos) = '}'
    · rw [if_pos h1, if_pos h1]
    · rw [if_neg h1, if_neg h1]
      by_cases h2 : Peek json (SkipWhitespace json (ParseString json (SkipWhitespace json pos)).2) = ':'
      · have b1 := SkipWhitespace_bound json pos hp
        have b2 := ParseString_bound json (SkipWhitespace json pos) b1
        have b4 : SkipWhitespace json (ParseString json (SkipWhitespace json pos)).2 + 1 ≤ json.length :=
          lt_length_of_Peek h2 (by decide)
        have b5 := SkipWhitespace_bound json _ b4
        simp only [if_pos h2, Except_ok_bind, SkipWhitespaceChecked_eq hn,
          PropertyMemberChecked_eq hn _ b5, SkipCommaChecked_eq]
      · simp only [if_neg h2, Except_ok_bind]
  · rw [if_neg h0, if_neg h0]

/-- The loop of `ParsePropertyInfo` with the faults written out raises no fault when its
fuel covers the rest of the text, and returns what the loop of the first
embedding returns. -/
theorem ParsePropertyInfoLoopChecked_eq {n : Nat} {json : List Char} (hn : json.length < n) :
    ∀ (fuel pos : Nat) (prop : PropertyInfo), pos ≤ json.length → json.length - pos < fuel →
      ParsePropertyInfoLoopChecked n json fuel pos prop
        = Except.ok (ParsePropertyInfoLoop json (json.length - pos) pos prop)
  | 0, _, _, _, h => by omega
  | fuel + 1, pos, prop, hp, h => by
    rw [ParsePropertyInfoLoopChecked_succ hn fuel hp]
    by_cases h0 : pos < json.length
    · obtain ⟨m, hm⟩ : ∃ m, json.length - pos = m + 1 := ⟨json.length - pos - 1, by omega⟩
      rw [hm, ParsePropertyInfoLoop_succ, if_pos h0, if_pos h0]
      split_ifs with h1 h2
      · rfl
      · have hlt := ParsePropertyInfoLoop_next_lt json pos prop
        have hb := ParsePropertyInfoLoop_next_bound json pos prop hp h2
        rw [ParsePropertyInfoLoopChecked_eq hn fuel _ _ hb (by omega)]
        rw [ParsePropertyInfoLoop_fuel json m _ _ _ (by omega) (Nat.le_refl _)]
      · rfl
    · have e : json.length - pos = 0 := by omega
      rw [e, if_neg h0]
      rfl

theorem ParsePropertyInfoChecked_eq {n : Nat} {json : List Char} (hn : json.length < n)
    {pos : Nat} (hp : pos ≤ json.length) (prop : PropertyInfo) :
    ParsePropertyInfoChecked n json pos prop = Except.ok (ParsePropertyInfo json pos prop) := by
  have h0 := Expect_bound json pos '{' (by decide) hp
  unfold ParsePropertyInfoChecked ParsePropertyInfo
  simp only [ExpectChecked_eq, Except_ok_bind, Except_pure_eq_ok]
  rcases h : Expect json pos '{' with ⟨b, q⟩
  rw [h] at h0
  cases b
  · rfl
  · exact ParsePropertyInfoLoopChecked_eq hn n q prop h0 (by omega)

/-- Every iteration of the loop of `ParsePropertyInfo` returns or moves the cursor
forward. -/
theorem ParsePropertyInfoLoopChecked_advances {n : Nat} {json : List Char} (hn : json.length < n) :
    Advances json.length (ParsePropertyInfoLoopChecked n json) := by
  intro pos prop hp
  by_cases h0 : pos < json.length
  · by_cases h1 : Peek json (SkipWhitespace json pos) = '}'
    · exact Or.inl ⟨_, fun fuel => by
        rw [ParsePropertyInfoLoopChecked_succ hn fuel hp, if_pos h0, if_pos h1]⟩
    · by_cases h2 : Peek json (SkipWhitespace json (ParseString json (SkipWhitespace json pos)).2) = ':'
      · exact Or.inr ⟨_, _, ParsePropertyInfoLoop_next_lt json pos prop,
          ParsePropertyInfoLoop_next_bound json pos prop hp h2, fun fuel => by
            rw [ParsePropertyInfoLoopChecked_succ hn fuel hp, if_pos h0, if_neg h1, if_pos h2]⟩
      · exact Or.inl ⟨_, fun fuel => by
          rw [ParsePropertyInfoLoopChecked_succ hn fuel hp, if_pos h0, if_neg h1, if_neg h2]⟩
  · exact Or.inl ⟨_, fun fuel => by
      rw [ParsePropertyInfoLoopChecked_succ hn fuel hp, if_neg h0]⟩

/-- One iteration of the loop of `ParsePropertiesArray` with the faults written out, on a
cursor within the text and with fuel for the loops it starts. -/
theorem ParsePropertiesArrayLoopChecked_succ {n : Nat} {json : List Char} (hn : json.length < n)
    (fuel : Nat) {pos : Nat} (hp : pos ≤ json.length) (acc : List PropertyInfo) :
    ParsePropertiesArrayLoopChecked n json (fuel + 1) pos acc
      = if pos < json.length then
          if Peek json (SkipWhitespace json pos) = ']' then
            Except.ok (true, SkipWhitespace json pos + 1, acc)
          else if (ParsePropertyInfo json (SkipWhitespace json pos) {}).1 = true then
            ParsePropertiesArrayLoopChecked n json fuel (SkipComma json (SkipWhitespace json (ParsePropertyInfo json (SkipWhitespace json pos) {}).2.1))
              (acc ++ [(ParsePropertyInfo json (SkipWhitespace json pos) {}).2.2])
          else Except.ok (false, (ParsePropertyInfo json (SkipWhitespace json pos) {}).2.1, acc)
        else Except.ok (true, pos, acc) := by
  rw [ParsePropertiesArrayLoopChecked]
  have b1 := SkipWhitespace_bound json pos hp
  simp only [SkipWhitespaceChecked_eq hn, PeekChecked_eq, ParsePropertyInfoChecked_eq hn b1,
    SkipCommaChecked_eq, Except_ok_bind, Except_pure_eq_ok]
  by_cases h0 : pos < json.length
  · rw [if_pos h0, if_pos h0]
    by_cases h1 : Peek json (SkipWhitespace json pos) = ']'
    · rw [if_pos h1, if_pos h1]
    · rw [if_neg h1, if_neg h1]
      rcases ParsePropertyInfo json (SkipWhitespace json pos) {} with ⟨b, q, x⟩
      cases b
      · simp
      · simp only [if_true, Except_ok_bind, SkipWhitespaceChecked_eq hn, SkipCommaChecked_eq]
  · rw [if_neg h0, if_neg h0]

/-- The loop of `ParsePropertiesArray` with the faults written out raises no fault when its
fuel covers the rest of the text, and returns what the loop of the first
embedding returns. -/
theorem ParsePropertiesArrayLoopChecked_eq {n : Nat} {json : List Char} (hn : json.length < n) :
    ∀ (fuel pos : Nat) (acc : List PropertyInfo), pos ≤ json.length → json.length - pos < fuel →
      ParsePropertiesArrayLoopChecked n json fuel pos acc
        = Except.ok (ParsePropertiesArrayLoop json (json.length - pos) pos acc)
  | 0, _, _, _, h => by omega
  | fuel + 1, pos, acc, hp, h => by
    rw [ParsePropertiesArrayLoopChecked_succ hn fuel hp]
    by_cases h0 : pos < json.length
    · obtain ⟨m, hm⟩ : ∃ m, json.length - pos = m + 1 := ⟨json.length - pos - 1, by omega⟩
      rw [hm, ParsePropertiesArrayLoop_succ, if_pos h0, if_pos h0]
      split_ifs with h1 h3
      · rfl
      · have hlt := ParsePropertiesArrayLoop_next_lt json pos h3
        have hb := SkipComma_bound json _ (SkipWhitespace_bound json _
          (ParsePropertyInfo_bound json (SkipWhitespace json pos) {}
            (SkipWhitespace_bound json pos hp)))
        rw [ParsePropertiesArrayLoopChecked_eq hn fuel _ _ hb (by omega)]
        rw [ParsePropertiesArrayLoop_fuel json m _ _ _ (by omega) (Nat.le_refl _)]
      · rfl
    · have e : json.length - pos = 0 := by omega
      rw [e, if_neg h0]
      rfl

theorem ParsePropertiesArrayChecked_eq {n : Nat} {json : List Char} (hn : json.length < n)
    {pos : Nat} (hp : pos ≤ json.length) (acc : List PropertyInfo) :
    ParsePropertiesArrayChecked n json pos acc = Except.ok (ParsePropertiesArray json pos acc) := by
  have h0 := Expect_bound json pos '[' (by decide) hp
  unfold ParsePropertiesArrayChecked ParsePropertiesArray
  simp only [ExpectChecked_eq, Except_ok_bind, Except_pure_eq_ok]
  rcases h : Expect json pos '[' with ⟨b, q⟩
  rw [h] at h0
  cases b
  · rfl
  · exact ParsePropertiesArrayLoopChecked_eq hn n q acc h0 (by omega)

/-- Every iteration of the loop of `ParsePropertiesArray` returns or moves the cursor
forward. -/
theorem ParsePropertiesArrayLoopChecked_advances {n : Nat} {json : List Char} (hn : json.length < n) :
    Advances json.length (ParsePropertiesArrayLoopChecked n json) := by
  intro pos acc hp
  by_cases h0 : pos < json.length
  · by_cases h1 : Peek json (SkipWhitespace json pos) = ']'
    · exact Or.inl ⟨_, fun fuel => by
        rw [ParsePropertiesArrayLoopChecked_succ hn fuel hp, if_pos h0, if_pos h1]⟩
    · by_cases h3 : (ParsePropertyInfo json (SkipWhitespace json pos) {}).1 = true
      · exact Or.inr ⟨_, _, ParsePropertiesArrayLoop_next_lt json pos h3,
          SkipComma_bound json _ (SkipWhitespace_bound json _
            (ParsePropertyInfo_bound json (SkipWhitespace json pos) {}
              (SkipWhitespace_bound json pos hp))), fun fuel => by
            rw [ParsePropertiesArrayLoopChecked_succ hn fuel hp, if_pos h0, if_neg h1, if_pos h3]⟩
      · exact Or.inl ⟨_, fun fuel => by
          rw [ParsePropertiesArrayLoopChecked_succ hn fuel hp, if_pos h0, if_neg h1, if_neg h3]⟩
  · exact Or.inl ⟨_, fun fuel => by
      rw [ParsePropertiesArrayLoopChecked_succ hn fuel hp, if_neg h0]⟩

theorem TypeMemberChecked_eq {n : Nat} {json : List Char} (hn : json.length < n)
    (key : List Char) {pos : Nat} (hp : pos ≤ json.length) (type : TypeInfo) :
    TypeMemberChecked n json key pos type = Except.ok (TypeMember json key pos type) := by
  unfold TypeMemberChecked TypeMember
  simp only [ParseStringChecked_eq hn, ParseBoolChecked_eq hp, SkipValueChecked_eq hn hp, ParseFieldsArrayChecked_eq hn hp, ParseMethodsArrayChecked_eq hn hp, ParsePropertiesArrayChecked_eq hn hp,
    Except_ok_bind, Except_pure_eq_ok]
  by_cases h0 : key = "name".toList
  · rw [if_pos h0, if_pos h0]
  rw [if_neg h0, if_neg h0]
  by_cases h1 : key = "fullName".toList
  · rw [if_pos h1, if_pos h1]
  rw [if_neg h1, if_neg h1]
  by_cases h2 : key = "namespace".toList
  · rw [if_pos h2, if_pos h2]
  rw [if_neg h2, if_neg h2]
  by_cases h3 : key = "baseType".toList
  · rw [if_pos h3, if_pos h3]
  rw [if_neg h3, if_neg h3]
  by_cases h4 : key = "isClass".toList
  · rw [if_pos h4, if_pos h4]
  rw [if_neg h4, if_neg h4]
  by_cases h5 : key = "isStruct".toList
  · rw [if_pos h5, if_pos h5]
  rw [if_neg h5, if_neg h5]
  by_cases h6 : key = "isEnum".toList
  · rw [if_pos h6, if_pos h6]
  rw [if_neg h6, if_neg h6]
  by_cases h7 : key = "isInterface".toList
  · rw [if_pos h7, if_pos h7]
  rw [if_neg h7, if_neg h7]
  by_cases h8 : key = "fields".toList
  · rw [if_pos h8, if_pos h8]
  rw [if_neg h8, if_neg h8]
  by_cases h9 : key = "methods".toList
  · rw [if_pos h9, if_pos h9]
  rw [if_neg h9, if_neg h9]
  by_cases h10 : key = "properties".toList
  · rw [if_pos h10, if_pos h10]
  rw [if_neg h10, if_neg h10]

/-- One iteration of the loop of `ParseTypeInfo` with the faults written out, on a
cursor within the text and with fuel for the loops it starts: no fault, and
the steps of the first embedding. -/
theorem ParseTypeInfoLoopChecked_succ {n : Nat} {json : List Char} (hn : json.length < n)
    (fuel : Nat) {pos : Nat} (hp : pos ≤ json.length) (type : TypeInfo) :
    ParseTypeInfoLoopChecked n json (fuel + 1) pos type
      = if pos < json.length then
          if Peek json (SkipWhitespace json pos) = '}' then
            Except.ok (true, SkipWhitespace json pos + 1, type)
          else if Peek json (SkipWhitespace json (ParseString json (SkipWhitespace json pos)).2) = ':' then
            ParseTypeInfoLoopChecked n json fuel
              (SkipComma json (SkipWhitespace json (TypeMember json (ParseString json (SkipWhitespace json pos)).1 (SkipWhitespace json (SkipWhitespace json (ParseString json (SkipWhitespace json pos)).2 + 1)) type).1))
              (TypeMember json (ParseString json (SkipWhitespace json pos)).1 (SkipWhitespace json (SkipWhitespace json (ParseString json (SkipWhitespace json pos)).2 + 1)) type).2
          else Except.ok (false, SkipWhitespace json (ParseString json (SkipWhitespace json pos)).2, type)
        else Except.ok (true, pos, type) := by
  rw [ParseTypeInfoLoopChecked]
  simp only [SkipWhitespaceChecked_eq hn, PeekChecked_eq, ParseStringChecked_eq hn,
    ExpectChecked_eq, SkipCommaChecked_eq, Except_ok_bind, Except_pure_eq_ok, Expect]
  by_cases h0 : pos < json.length
  · rw [if_pos h0, if_pos h0]
    by_cases h1 : Peek json (SkipWhitespace json pos) = '}'
    · rw [if_pos h1, if_pos h1]
    · rw [if_neg h1, if_neg h1]
      by_cases h2 : Peek json (SkipWhitespace json (ParseString json (SkipWhitespace json pos)).2) = ':'
      · have b1 := SkipWhitespace_bound json pos hp
        have b2 := ParseString_bound json (SkipWhitespace json pos) b1
        have b4 : SkipWhitespace json (ParseString json (SkipWhitespace json pos)).2 + 1 ≤ json.length :=
          lt_length_of_Peek h2 (by decide)
        have b5 := SkipWhitespace_bound json _ b4
        simp only [if_pos h2, Except_ok_bind, SkipWhitespaceChecked_eq hn,
          TypeMemberChecked_eq hn _ b5, SkipCommaChecked_eq]
      · simp only [if_neg h2, Except_ok_bind]
  · rw [if_neg h0, if_neg h0]

/-- The loop of `ParseTypeInfo` with the faults written out raises no fault when its
fuel covers the rest of the text, and returns what the loop of the first
embedding returns. -/
theorem ParseTypeInfoLoopChecked_eq {n : Nat} {json : List Char} (hn : json.length < n) :
    ∀ (fuel pos : Nat) (type : TypeInfo), pos ≤ json.length → json.length - pos < fuel →
      ParseTypeInfoLoopChecked n json fuel pos type
        = Except.ok (ParseTypeInfoLoop json (json.length - pos) pos type)
  | 0, _, _, _, h => by omega
  | fuel + 1, pos, type, hp, h => by
    rw [ParseTypeInfoLoopChecked_succ hn fuel hp]
    by_cases h0 : pos < json.length
    · obtain ⟨m, hm⟩ : ∃ m, json.length - pos = m + 1 := ⟨json.length - pos - 1, by omega⟩
      rw [hm, ParseTypeInfoLoop_succ, if_pos h0, if_pos h0]
      split_ifs with h1 h2
      · rfl
      · have hlt := ParseTypeInfoLoop_next_lt json pos type
        have hb := ParseTypeInfoLoop_next_bound json pos type hp h2
        rw [ParseTypeInfoLoopChecked_eq hn fuel _ _ hb (by omega)]
        rw [ParseTypeInfoLoop_fuel json m _ _ _ (by omega) (Nat.le_refl _)]
      · rfl
    · have e : json.length - pos = 0 := by omega
      rw [e, if_neg h0]
      rfl

theorem ParseTypeInfoChecked_eq {n : Nat} {json : List Char} (hn : json.length < n)
    {pos : Nat} (hp : pos ≤ json.length) (type : TypeInfo) :
    ParseTypeInfoChecked n json pos type = Except.ok (ParseTypeInfo json pos type) := by
  have h0 := Expect_bound json pos '{' (by decide) hp
  unfold ParseTypeInfoChecked ParseTypeInfo
  simp only [ExpectChecked_eq, Except_ok_bind, Except_pure_eq_ok]
  rcases h : Expect json pos '{' with ⟨b, q⟩
  rw [h] at h0
  cases b
  · rfl
  · exact ParseTypeInfoLoopChecked_eq hn n q type h0 (by omega)

/-- Every iteration of the loop of `ParseTypeInfo` returns or moves the cursor
forward. -/
theorem ParseTypeInfoLoopChecked_advances {n : Nat} {json : List Char} (hn : json.length < n) :
    Advances json.length (ParseTypeInfoLoopChecked n json) := by
  intro pos type hp
  by_cases h0 : pos < json.length
  · by_cases h1 : Peek json (SkipWhitespace json pos) = '}'
    · exact Or.inl ⟨_, fun fuel => by
        rw [ParseTypeInfoLoopChecked_succ hn fuel hp, if_pos h0, if_pos h1]⟩
    · by_cases h2 : Peek json (SkipWhitespace json (ParseString json (SkipWhitespace json pos)).2) = ':'
      · exact Or.inr ⟨_, _, ParseTypeInfoLoop_next_lt json pos type,
          ParseTypeInfoLoop_next_bound json pos type hp h2, fun fuel => by
            rw [ParseTypeInfoLoopChecked_succ hn fuel hp, if_pos h0, if_neg h1, if_pos h2]⟩
      · exact Or.inl ⟨_, fun fuel => by
          rw [ParseTypeInfoLoopChecked_succ hn fuel hp, if_pos h0, if_neg h1, if_neg h2]⟩
  · exact Or.inl ⟨_, fun fuel => by
      rw [ParseTypeInfoLoopChecked_succ hn fuel hp, if_neg h0]⟩

/-- One iteration of the loop of `ParseTypesArray` with the faults written out, on a
cursor within the text and with fuel for the loops it starts. -/
theorem ParseTypesArrayLoopChecked_succ {n : Nat} {json : List Char} (hn : json.length < n)
    (fuel : Nat) {pos : Nat} (hp : pos ≤ json.length) (acc : List TypeInfo) :
    ParseTypesArrayLoopChecked n json (fuel + 1) pos acc
      = if pos < json.length then
          if Peek json (SkipWhitespace json pos) = ']' then
            Except.ok (true, SkipWhitespace json pos + 1, acc)
          else if (ParseTypeInfo json (SkipWhitespace json pos) {}).1 = true then
            ParseTypesArrayLoopChecked n json fuel (SkipComma json (SkipWhitespace json (ParseTypeInfo json (SkipWhitespace json pos) {}).2.1))
              (acc ++ [(ParseTypeInfo json (SkipWhitespace json pos) {}).2.2])
          else Except.ok (false, (ParseTypeInfo json (SkipWhitespace json pos) {}).2.1, acc)
        else Except.ok (true, pos, acc) := by
  rw [ParseTypesArrayLoopChecked]
  have b1 := SkipWhitespace_bound json pos hp
  simp only [SkipWhitespaceChecked_eq hn, PeekChecked_eq, ParseTypeInfoChecked_eq hn b1,
    SkipCommaChecked_eq, Except_ok_bind, Except_pure_eq_ok]
  by_cases h0 : pos < json.length
  · rw [if_pos h0, if_pos h0]
    by_cases h1 : Peek json (SkipWhitespace json pos) = ']'
    · rw [if_pos h1, if_pos h1]
    · rw [if_neg h1, if_neg h1]
      rcases ParseTypeInfo json (SkipWhitespace json pos) {} with ⟨b, q, x⟩
      cases b
      · simp
      · simp only [if_true, Except_ok_bind, SkipWhitespaceChecked_eq hn, SkipCommaChecked_eq]
  · rw [if_neg h0, if_neg h0]

/-- The loop of `ParseTypesArray` with the faults written out raises no fault when its
fuel covers the rest of the text, and returns what the loop of the first
embedding returns. -/
theorem ParseTypesArrayLoopChecked_eq {n : Nat} {json : List Char} (hn : json.length < n) :
    ∀ (fuel pos : Nat) (acc : List TypeInfo), pos ≤ json.length → json.length - pos < fuel →
      ParseTypesArrayLoopChecked n json fuel pos acc
        = Except.ok (ParseTypesArrayLoop json (json.length - pos) pos acc)
  | 0, _, _, _, h => by omega
  | fuel + 1, pos, acc, hp, h => by
    rw [ParseTypesArrayLoopChecked_succ hn fuel hp]
    by_cases h0 : pos < json.length
    · obtain ⟨m, hm⟩ : ∃ m, json.length - pos = m + 1 := ⟨json.length - pos - 1, by omega⟩
      rw [hm, ParseTypesArrayLoop_succ, if_pos h0, if_pos h0]
      split_ifs with h1 h3
      · rfl
      · have hlt := ParseTypesArrayLoop_next_lt json pos h3
        have hb := SkipComma_bound json _ (SkipWhitespace_bound json _
          (ParseTypeInfo_bound json (SkipWhitespace json pos) {}
            (SkipWhitespace_bound json pos hp)))
        rw [ParseTypesArrayLoopChecked_eq hn fuel _ _ hb (by omega)]
        rw [ParseTypesArrayLoop_fuel json m _ _ _ (by omega) (Nat.le_refl _)]
      · rfl
    · have e : json.length - pos = 0 := by omega
      rw [e, if_neg h0]
      rfl

theorem ParseTypesArrayChecked_eq {n : Nat} {json : List Char} (hn : json.length < n)
    {pos : Nat} (hp : pos ≤ json.length) (acc : List TypeInfo) :
    ParseTypesArrayChecked n json pos acc = Except.ok (ParseTypesArray json pos acc) := by
  have h0 := Expect_bound json pos '[' (by decide) hp
  unfold ParseTypesArrayChecked ParseTypesArray
  simp only [ExpectChecked_eq, Except_ok_bind, Except_pure_eq_ok]
  rcases h : Expect json pos '[' with ⟨b, q⟩
  rw [h] at h0
  cases b
  · rfl
  · exact ParseTypesArrayLoopChecked_eq hn n q acc h0 (by omega)

/-- Every iteration of the loop of `ParseTypesArray` returns or moves the cursor
forward. -/
theorem ParseTypesArrayLoopChecked_advances {n : Nat} {json : List Char} (hn : json.length < n) :
    Advances json.length (ParseTypesArrayLoopChecked n json) := by
  intro pos acc hp
  by_cases h0 : pos < json.length
  · by_cases h1 : Peek json (SkipWhitespace json pos) = ']'
    · exact Or.inl ⟨_, fun fuel => by
        rw [ParseTypesArrayLoopChecked_succ hn fuel hp, if_pos h0, if_pos h1]⟩
    · by_cases h3 : (ParseTypeInfo json (SkipWhitespace json pos) {}).1 = true
      · exact Or.inr ⟨_, _, ParseTypesArrayLoop_next_lt json pos h3,
          SkipComma_bound json _ (SkipWhitespace_bound json _
            (ParseTypeInfo_bound json (SkipWhitespace json pos) {}
              (SkipWhitespace_bound json pos hp))), fun fuel => by
            rw [ParseTypesArrayLoopChecked_succ hn fuel hp, if_pos h0, if_neg h1, if_pos h3]⟩
      · exact Or.inl ⟨_, fun fuel => by
          rw [ParseTypesArrayLoopChecked_succ hn fuel hp, if_pos h0, if_neg h1, if_neg h3]⟩
  · exact Or.inl ⟨_, fun fuel => by
      rw [ParseTypesArrayLoopChecked_succ hn fuel hp, if_neg h0]⟩


/-! ## The root object with the faults written out -/

theorem AssemblyMemberChecked_eq {n : Nat} {json : List Char} (hn : json.length < n)
    (key : List Char) {pos : Nat} (hp : pos ≤ json.length) (data : AssemblyData) :
    AssemblyMemberChecked n json key pos data
      = Except.ok (AssemblyMember json key pos data) := by
  unfold AssemblyMemberChecked AssemblyMember
  simp only [ParseStringChecked_eq hn, SkipValueChecked_eq hn hp,
    ParseTypesArrayChecked_eq hn hp, Except_ok_bind, Except_pure_eq_ok]
  by_cases h0 : key = "assemblyName".toList
  · rw [if_pos h0, if_pos h0]
  rw [if_neg h0, if_neg h0]
  by_cases h1 : key = "timestamp".toList
  · rw [if_pos h1, if_pos h1]
  rw [if_neg h1, if_neg h1]
  by_cases h2 : key = "types".toList
  · rw [if_pos h2, if_pos h2]
  rw [if_neg h2, if_neg h2]

/-- The cursor after an iteration of the root loop that continues is within
the text. -/
theorem ParseAssemblyDataLoop_next_bound (json : List Char) (pos : Nat) (data : AssemblyData)
    (hc : Peek json (SkipWhitespace json (ParseString json (SkipWhitespace json pos)).2) = ':') :
    SkipComma json (SkipWhitespace json
      (AssemblyMember json (ParseString json (SkipWhitespace json pos)).1
        (SkipWhitespace json (SkipWhitespace json
          (ParseString json (SkipWhitespace json pos)).2 + 1)) data).2.1) ≤ json.length := by
  have h4 : SkipWhitespace json (ParseString json (SkipWhitespace json pos)).2 + 1
      ≤ json.length := lt_length_of_Peek hc (by decide)
  have h5 := SkipWhitespace_bound json _ h4
  have h6 := AssemblyMember_bound json (ParseString json (SkipWhitespace json pos)).1 _ data h5
  exact SkipComma_bound json _ (SkipWhitespace_bound json _ h6)

/-- One iteration of the root loop with the faults written out, on a cursor
within the text and with fuel for the loops it starts: no fault, and the steps
of the first embedding. -/
theorem ParseAssemblyDataLoopChecked_succ {n : Nat} {json : List Char} (hn : json.length < n)
    (fuel : Nat) {pos : Nat} (_ : pos ≤ json.length) (data : AssemblyData) :
    ParseAssemblyDataLoopChecked n json (fuel + 1) pos data
      = if pos < json.length then
          if Peek json (SkipWhitespace json pos) = '}' then
            Except.ok (true, SkipWhitespace json pos + 1, data)
          else if Peek json (SkipWhitespace json
              (ParseString json (SkipWhitespace json pos)).2) = ':' then
            if (AssemblyMember json (ParseString json (SkipWhitespace json pos)).1
                (SkipWhitespace json (SkipWhitespace json
                  (ParseString json (SkipWhitespace json pos)).2 + 1)) data).1 = true then
              ParseAssemblyDataLoopChecked n json fuel
                (SkipComma json (SkipWhitespace json
                  (AssemblyMember json (ParseString json (SkipWhitespace json pos)).1
                    (SkipWhitespace json (SkipWhitespace json
                      (ParseString json (SkipWhitespace json pos)).2 + 1)) data).2.1))
                (AssemblyMember json (ParseString json (SkipWhitespace json pos)).1
                    (SkipWhitespace json (SkipWhitespace json
                      (ParseString json (SkipWhitespace json pos)).2 + 1)) data).2.2
            else
              Except.ok (false,
                (AssemblyMember json (ParseString json (SkipWhitespace json pos)).1
                    (SkipWhitespace json (SkipWhitespace json
                      (ParseString json (SkipWhitespace json pos)).2 + 1)) data).2.1,
                (AssemblyMember json (ParseString json (SkipWhitespace json pos)).1
                    (SkipWhitespace json (SkipWhitespace json
                      (ParseString json (SkipWhitespace json pos)).2 + 1)) data).2.2)
          else Except.ok
            (false, SkipWhitespace json (ParseString json (SkipWhitespace json pos)).2, data)
        else Except.ok (true, pos, data) := by
  rw [ParseAssemblyDataLoopChecked]
  simp only [SkipWhitespaceChecked_eq hn, PeekChecked_eq, ParseStringChecked_eq hn,
    ExpectChecked_eq, SkipCommaChecked_eq, Except_ok_bind, Except_pure_eq_ok, Expect]
  by_cases h0 : pos < json.length
  · rw [if_pos h0, if_pos h0]
    by_cases h1 : Peek json (SkipWhitespace json pos) = '}'
    · rw [if_pos h1, if_pos h1]
    · rw [if_neg h1, if_neg h1]
      by_cases h2 : Peek json (SkipWhitespace json
          (ParseString json (SkipWhitespace json pos)).2) = ':'
      · have b4 : SkipWhitespace json (ParseString json (SkipWhitespace json pos)).2 + 1
            ≤ json.length := lt_length_of_Peek h2 (by decide)
        have b5 := SkipWhitespace_bound json _ b4
        simp only [if_pos h2, Except_ok_bind, SkipWhitespaceChecked_eq hn,
          AssemblyMemberChecked_eq hn _ b5]
        rcases AssemblyMember json (ParseString json (SkipWhitespace json pos)).1
          (SkipWhitespace json (SkipWhitespace json
            (ParseString json (SkipWhitespace json pos)).2 + 1)) data with ⟨b, q, x⟩
        cases b
        · simp
        · simp only [if_true, Except_ok_bind, SkipWhitespaceChecked_eq hn, SkipCommaChecked_eq]
      · simp only [if_neg h2, Except_ok_bind]
  · rw [if_neg h0, if_neg h0]

/-- The root loop with the faults written out raises no fault when its fuel
covers the rest of the text, and returns what the loop of the first embedding
returns. -/
theorem ParseAssemblyDataLoopChecked_eq {n : Nat} {json : List Char} (hn : json.length < n) :
    ∀ (fuel pos : Nat) (data : AssemblyData), pos ≤ json.length → json.length - pos < fuel →
      ParseAssemblyDataLoopChecked n json fuel pos data
        = Except.ok (ParseAssemblyDataLoop json (json.length - pos) pos data)
  | 0, _, _, _, h => by omega
  | fuel + 1, pos, data, hp, h => by
    rw [ParseAssemblyDataLoopChecked_succ hn fuel hp]
    by_cases h0 : pos < json.length
    · obtain ⟨m, hm⟩ : ∃ m, json.length - pos = m + 1 := ⟨json.length - pos - 1, by omega⟩
      rw [hm, ParseAssemblyDataLoop_succ, if_pos h0, if_pos h0]
      split_ifs with h1 h2 h3
      · rfl
      · have hlt := ParseAssemblyDataLoop_next_lt json pos data
        have hb := ParseAssemblyDataLoop_next_bound json pos data h2
        rw [ParseAssemblyDataLoopChecked_eq hn fuel _ _ hb (by omega)]
        rw [ParseAssemblyDataLoop_fuel json m _ _ _ (by omega) (Nat.le_refl _)]
      · rfl
      · rfl
    · have e : json.length - pos = 0 := by omega
      rw [e, if_neg h0]
      rfl

theorem SimpleJsonParser_ParseAssemblyDataChecked_eq {n : Nat} {json : List Char}
    (hn : json.length < n) {pos : Nat} (hp : pos ≤ json.length) (data : AssemblyData) :
    SimpleJsonParser.ParseAssemblyDataChecked n json pos data
      = Except.ok (SimpleJsonParser.ParseAssemblyData json pos data) := by
  have h0 := SkipWhitespace_bound json pos hp
  have h1 := Expect_bound json (SkipWhitespace json pos) '{' (by decide) h0
  unfold SimpleJsonParser.ParseAssemblyDataChecked SimpleJsonParser.ParseAssemblyData
  simp only [SkipWhitespaceChecked_eq hn, ExpectChecked_eq, Except_ok_bind, Except_pure_eq_ok]
  rcases h : Expect json (SkipWhitespace json pos) '{' with ⟨b, q⟩
  rw [h] at h1
  cases b
  · rfl
  · exact ParseAssemblyDataLoopChecked_eq hn n q data h1 (by omega)

/-- With more fuel than the text has characters, `ParseAssemblyData` with the
faults written out raises none and returns what `ParseAssemblyData` returns. -/
theorem ParseAssemblyDataChecked_eq {n : Nat} {json : List Char} (hn : json.length < n)
    (data : AssemblyData) :
    ParseAssemblyDataChecked n json data = Except.ok (ParseAssemblyData json data) := by
  unfold ParseAssemblyDataChecked ParseAssemblyData
  rw [SimpleJsonParser_ParseAssemblyDataChecked_eq hn (Nat.zero_le _)]
  rfl

/-- Every iteration of the root loop returns or moves the cursor forward. -/
theorem ParseAssemblyDataLoopChecked_advances {n : Nat} {json : List Char}
    (hn : json.length < n) : Advances json.length (ParseAssemblyDataLoopChecked n json) := by
  intro pos data hp
  by_cases h0 : pos < json.length
  · by_cases h1 : Peek json (SkipWhitespace json pos) = '}'
    · exact Or.inl ⟨_, fun fuel => by
        rw [ParseAssemblyDataLoopChecked_succ hn fuel hp, if_pos h0, if_pos h1]⟩
    · by_cases h2 : Peek json (SkipWhitespace json
          (ParseString json (SkipWhitespace json pos)).2) = ':'
      · by_cases h3 : (AssemblyMember json (ParseString json (SkipWhitespace json pos)).1
            (SkipWhitespace json (SkipWhitespace json
              (ParseString json (SkipWhitespace json pos)).2 + 1)) data).1 = true
        · exact Or.inr ⟨_, _, ParseAssemblyDataLoop_next_lt json pos data,
            ParseAssemblyDataLoop_next_bound json pos data h2, fun fuel => by
              rw [ParseAssemblyDataLoopChecked_succ hn fuel hp, if_pos h0, if_neg h1, if_pos h2,
                if_pos h3]⟩
        · exact Or.inl ⟨_, fun fuel => by
            rw [ParseAssemblyDataLoopChecked_succ hn fuel hp, if_pos h0, if_neg h1, if_pos h2,
              if_neg h3]⟩
      · exact Or.inl ⟨_, fun fuel => by
          rw [ParseAssemblyDataLoopChecked_succ hn fuel hp, if_pos h0, if_neg h1, if_neg h2]⟩
  · exact Or.inl ⟨_, fun fuel => by
      rw [ParseAssemblyDataLoopChecked_succ hn fuel hp, if_neg h0]⟩

/-! ## The loops of the tokens -/

theorem SkipWhitespaceLoopChecked_advances (json : List Char) :
    Advances json.length (fun fuel pos (_ : Unit) => SkipWhitespaceLoopChecked json fuel pos) := by
  intro pos _ hp
  by_cases h0 : pos < json.length
  · by_cases hw : isWhitespace json[pos] = true
    · exact Or.inr ⟨pos + 1, (), Nat.lt_succ_self _, h0, fun fuel => by
        simp only [SkipWhitespaceLoopChecked, if_pos h0, charAt_of_lt h0, Except_ok_bind,
          if_pos hw]⟩
    · exact Or.inl ⟨pos, fun fuel => by
        simp only [SkipWhitespaceLoopChecked, if_pos h0, charAt_of_lt h0, Except_ok_bind,
          if_neg hw, Except_pure_eq_ok]⟩
  · exact Or.inl ⟨pos, fun fuel => by
      simp only [SkipWhitespaceLoopChecked, if_neg h0, Except_pure_eq_ok]⟩

theorem ParseStringLoopChecked_advances (json : List Char) :
    Advances json.length (ParseStringLoopChecked json) := by
  intro pos result hp
  by_cases h0 : pos < json.length
  · by_cases hq : json[pos] ≠ '"'
    · by_cases hb : json[pos] = '\\' ∧ pos + 1 < json.length
      · have hb2 := hb.2
        refine Or.inr ⟨pos + 1 + 1, result ++ [unescape json[pos + 1]], by omega, hb.2, ?_⟩
        intro fuel
        simp only [ParseStringLoopChecked, if_pos h0, charAt_of_lt h0, Except_ok_bind,
          if_pos hq, if_pos hb, charAt_of_lt hb.2]
      · refine Or.inr ⟨pos + 1, result ++ [json[pos]], Nat.lt_succ_self _, h0, ?_⟩
        intro fuel
        simp only [ParseStringLoopChecked, if_pos h0, charAt_of_lt h0, Except_ok_bind,
          if_pos hq, if_neg hb]
    · refine Or.inl ⟨(result, pos), ?_⟩
      intro fuel
      simp only [ParseStringLoopChecked, if_pos h0, charAt_of_lt h0, Except_ok_bind,
        if_neg hq, Except_pure_eq_ok]
  · refine Or.inl ⟨(result, pos), ?_⟩
    intro fuel
    simp only [ParseStringLoopChecked, if_neg h0, Except_pure_eq_ok]

theorem SkipNestedLoopChecked_advances (o c : Char) (json : List Char) :
    Advances json.length (SkipNestedLoopChecked o c json) := by
  intro pos depth hp
  by_cases h0 : pos < json.length ∧ depth > 0
  · have h1 := h0.1
    refine Or.inr ⟨pos + 1,
      (if json[pos] = o then depth + 1 else if json[pos] = c then depth - 1 else depth),
      Nat.lt_succ_self _, h0.1, ?_⟩
    intro fuel
    simp only [SkipNestedLoopChecked, if_pos h0, charAt_of_lt h0.1, Except_ok_bind]
  · refine Or.inl ⟨pos, ?_⟩
    intro fuel
    simp only [SkipNestedLoopChecked, if_neg h0, Except_pure_eq_ok]

theorem SkipScalarLoopChecked_advances (json : List Char) :
    Advances json.length (fun fuel pos (_ : Unit) => SkipScalarLoopChecked json fuel pos) := by
  intro pos _ hp
  by_cases h0 : pos < json.length
  · by_cases hw : json[pos] ≠ ',' ∧ json[pos] ≠ '}' ∧ json[pos] ≠ ']'
    · exact Or.inr ⟨pos + 1, (), Nat.lt_succ_self _, h0, fun fuel => by
        simp only [SkipScalarLoopChecked, if_pos h0, charAt_of_lt h0, Except_ok_bind,
          if_pos hw]⟩
    · exact Or.inl ⟨pos, fun fuel => by
        simp only [SkipScalarLoopChecked, if_pos h0, charAt_of_lt h0, Except_ok_bind,
          if_neg hw, Except_pure_eq_ok]⟩
  · exact Or.inl ⟨pos, fun fuel => by
      simp only [SkipScalarLoopChecked, if_neg h0, Except_pure_eq_ok]⟩

/-- A loop that advances ends: with more fuel than the characters left, it
returns a result and does not run out of fuel. -/
theorem Advances_terminates {σ α : Type} {len : Nat}
    {loop : Nat → Nat → σ → Except Fault α} (h : Advances len loop) :
    ∀ (fuel pos : Nat) (st : σ), pos ≤ len → len - pos < fuel →
      ∃ r, loop fuel pos st = Except.ok r
  | 0, _, _, _, hf => by omega
  | fuel + 1, pos, st, hp, hf => by
    rcases h pos st hp with ⟨r, hr⟩ | ⟨pos2, st2, hlt, hb, he⟩
    · exact ⟨r, hr fuel⟩
    · rw [he fuel]
      exact Advances_terminates h fuel pos2 st2 hb (by omega)


/-! ## The properties of the specification -/

/-- C1. The concrete scenario: decoding the payload of the specification into
an empty `AssemblyData` returns `true` and gives assembly name "Core",
timestamp "t1", and one type "Foo" (full name "NS.Foo", namespace "NS", empty
base type, class flag set, the three other kind flags clear, no methods, no
properties) with one field "x" of type "int" that is public, not static and
not read-only. -/
theorem C1_concrete_payload : ParseAssemblyData payloadC1 {} = (true, expectedC1) := by
  decide!

/-- C2, as stated, fails on its own examples: the unclosed inputs
`{"assemblyName":"Core"` and `{"types":[` are both accepted. -/
theorem C2_counterexample :
    ParseAssemblyData "\x7b\"assemblyName\":\"Core\"".toList {}
        = (true, { assemblyName := "Core".toList })
      ∧ ParseAssemblyData "\x7b\"types\":[".toList {} = (true, {}) := by
  decide!

/-- C2 (amended). Root rejection is about the opening delimiter: an input
that, after leading whitespace, ends or continues with a character other than
`{` makes `ParseAssemblyData` return `false` and leaves the data as it was.
An input that ends before the closing `}` of the root is not rejected for
that: `{"assemblyName":"x"` returns `true` with the assembly name `x`, and
`{"types":[` followed by `{"name":"n1"},...,{"name":"nk"}` and nothing else
returns `true` with the `k` types. -/
theorem C2_root_rejection_amended (ws rest x : List Char) (names : List (List Char))
    (data : AssemblyData)
    (hws : ∀ w ∈ ws, isWhitespace w = true)
    (hrest : rest = [] ∨ ∃ c r, rest = c :: r ∧ isWhitespace c = false ∧ c ≠ '{')
    (hx : plain x) (hn : ∀ n ∈ names, plain n) :
    ParseAssemblyData (ws ++ rest) data = (false, data)
      ∧ ParseAssemblyData ("\x7b\"assemblyName\":".toList ++ quote x) {}
        = (true, { assemblyName := x })
      ∧ ParseAssemblyData ("\x7b\"types\":[".toList ++ commaSep (names.map nameObject)) {}
        = (true, { types := names.map (fun n => { name := n }) }) :=
  ⟨ParseAssemblyData_no_open ws rest data hws hrest,
    ParseAssemblyData_unclosed_assemblyName x hx, ParseAssemblyData_unclosed_types names hn⟩

/-- The amended C2 on the input ` [1]`, the name `Core` and the names `A`, `B`. -/
theorem C2_root_rejection_amended_witness :
    ParseAssemblyData (" ".toList ++ "[1]".toList) {} = (false, {})
      ∧ ParseAssemblyData ("\x7b\"assemblyName\":".toList ++ quote "Core".toList) {}
        = (true, { assemblyName := "Core".toList })
      ∧ ParseAssemblyData ("\x7b\"types\":[".toList
          ++ commaSep (["A".toList, "B".toList].map nameObject)) {}
        = (true, { types := ["A".toList, "B".toList].map (fun n => { name := n }) }) :=
  C2_root_rejection_amended " ".toList "[1]".toList "Core".toList ["A".toList, "B".toList] {}
    (by decide) (Or.inr ⟨'[', "1]".toList, by decide, by decide, by decide⟩) (by decide)
    (by decide)

/-- C3, as stated, fails on its own example
`{"extra":{"a":"}"},"assemblyName":"X"}`: the `}` inside the string ends the
skipping of the object and the decode returns `false`. -/
theorem C3_counterexample :
    ParseAssemblyData "\x7b\"extra\":\x7b\"a\":\"\x7d\"\x7d,\"assemblyName\":\"X\"\x7d".toList {}
      = (false, {}) := by
  decide!

/-- C3 (amended). Unknown-key tolerance: a root object with one unrecognised
key `k` and one recognised member, in either order, decodes with `true` and
the recognised member holds its value, when the value `v` of the unrecognised
key is a well-formed string literal, `true`, `false`, an object text whose
`{` and `}` nest properly or an array text whose `[` and `]` nest properly,
where the braces (resp. brackets) inside string members count as well.  The
recognised member is `"assemblyName":"x"`, `"timestamp":"x"` or
`"types":[{"name":"n1"},...,{"name":"nk"}]`. -/
theorem C3_unknown_key_tolerance_amended (k v x : List Char) (names : List (List Char))
    (hk : plain k) (hku : unknownRootKey k) (hv : SkippableValue v)
    (hx : plain x) (hn : ∀ n ∈ names, plain n) :
    ParseAssemblyData (twoMembers k v "assemblyName".toList (quote x)) {}
        = (true, { assemblyName := x })
      ∧ ParseAssemblyData (twoMembers "assemblyName".toList (quote x) k v) {}
        = (true, { assemblyName := x })
      ∧ ParseAssemblyData (twoMembers k v "timestamp".toList (quote x)) {}
        = (true, { timestamp := x })
      ∧ ParseAssemblyData (twoMembers "timestamp".toList (quote x) k v) {}
        = (true, { timestamp := x })
      ∧ ParseAssemblyData (twoMembers k v "types".toList (arrayOf (names.map nameObject))) {}
        = (true, { types := names.map (fun n => { name := n }) })
      ∧ ParseAssemblyData (twoMembers "types".toList (arrayOf (names.map nameObject)) k v) {}
        = (true, { types := names.map (fun n => { name := n }) }) := by
  refine ⟨?_, ?_, ?_, ?_, ?_, ?_⟩
  · exact ParseAssemblyData_unknown_first hk hku hv (by decide)
      (fun json p dp => AssemblyMember_assemblyName {} hx dp)
  · exact ParseAssemblyData_unknown_last hk hku hv (by decide)
      (fun json p rest dp => AssemblyMember_assemblyName {} hx dp)
  · exact ParseAssemblyData_unknown_first hk hku hv (by decide)
      (fun json p dp => AssemblyMember_timestamp {} hx dp)
  · exact ParseAssemblyData_unknown_last hk hku hv (by decide)
      (fun json p rest dp => AssemblyMember_timestamp {} hx dp)
  · exact ParseAssemblyData_unknown_first hk hku hv (by decide)
      (fun json p dp => by simpa using AssemblyMember_types {} names hn dp)
  · exact ParseAssemblyData_unknown_last hk hku hv (by decide)
      (fun json p rest dp => by simpa using AssemblyMember_types {} names hn dp)

/-- The amended C3 on the unrecognised member `"extra":{"a":[1,{"b":"]"}]}`. -/
theorem C3_unknown_key_tolerance_amended_witness :
    ParseAssemblyData (twoMembers "extra".toList ('{' :: ("\"a\":[1,\x7b\"b\":\"]\"\x7d]".toList ++ ['}']))
          "assemblyName".toList (quote "X".toList)) {}
        = (true, { assemblyName := "X".toList })
      ∧ ParseAssemblyData (twoMembers "assemblyName".toList (quote "X".toList)
          "extra".toList ('{' :: ("\"a\":[1,\x7b\"b\":\"]\"\x7d]".toList ++ ['}']))) {}
        = (true, { assemblyName := "X".toList })
      ∧ ParseAssemblyData (twoMembers "extra".toList ('{' :: ("\"a\":[1,\x7b\"b\":\"]\"\x7d]".toList ++ ['}']))
          "timestamp".toList (quote "X".toList)) {}
        = (true, { timestamp := "X".toList })
      ∧ ParseAssemblyData (twoMembers "timestamp".toList (quote "X".toList)
          "extra".toList ('{' :: ("\"a\":[1,\x7b\"b\":\"]\"\x7d]".toList ++ ['}']))) {}
        = (true, { timestamp := "X".toList })
      ∧ ParseAssemblyData (twoMembers "extra".toList ('{' :: ("\"a\":[1,\x7b\"b\":\"]\"\x7d]".toList ++ ['}']))
          "types".toList (arrayOf (["A".toList, "B".toList].map nameObject))) {}
        = (true, { types := ["A".toList, "B".toList].map (fun n => { name := n }) })
      ∧ ParseAssemblyData (twoMembers "types".toList
          (arrayOf (["A".toList, "B".toList].map nameObject))
          "extra".toList ('{' :: ("\"a\":[1,\x7b\"b\":\"]\"\x7d]".toList ++ ['}']))) {}
        = (true, { types := ["A".toList, "B".toList].map (fun n => { name := n }) }) :=
  C3_unknown_key_tolerance_amended "extra".toList
    ('{' :: ("\"a\":[1,\x7b\"b\":\"]\"\x7d]".toList ++ ['}'])) "X".toList ["A".toList, "B".toList]
    (by decide) ⟨by decide, by decide, by decide⟩ (SkippableValue.object _ (by decide))
    (by decide) (by decide)

/-- C4, as stated, fails: a number for `assemblyName`, `null` for `name` and a
string for `isClass` each make the decode return `false`, and a string for
`isPublic` of a field makes the decoder take the string for a key and the rest
of the fields array for members of the type.  The inputs are
`{"assemblyName":123}`, `{"types":[{"name":null,"fullName":"A"}]}`,
`{"types":[{"isClass":"yes","fullName":"A"}]}` and
`{"types":[{"fields":[{"isPublic":"yes","name":"x"}]}]}`. -/
theorem C4_counterexample :
    ParseAssemblyData "\x7b\"assemblyName\":123\x7d".toList {} = (false, {})
      ∧ ParseAssemblyData "\x7b\"types\":[\x7b\"name\":null,\"fullName\":\"A\"\x7d]\x7d".toList {}
        = (false, {})
      ∧ ParseAssemblyData "\x7b\"types\":[\x7b\"isClass\":\"yes\",\"fullName\":\"A\"\x7d]\x7d".toList {}
        = (false, {})
      ∧ ParseAssemblyData
          "\x7b\"types\":[\x7b\"fields\":[\x7b\"isPublic\":\"yes\",\"name\":\"x\"\x7d]\x7d]\x7d".toList {}
        = (true, { types := [{ name := "x".toList }] }) := by
  decide!

/-- C4 (amended). A value of the wrong type is not skipped.  In every kind of
object (root, type, field, method, property, parameter), when the loop over
the members meets a string-typed key followed by a number, `null`, `true` or
`false`, or a boolean-typed key followed by a number or `null`, or a
boolean-typed key followed by a string literal and then `,` or `}`, the loop
returns `false` (whatever text `pre` came before and `rest` comes after, with
fuel for two iterations).  A payload whose first object of any kind begins
with a member of the first two sorts, or whose first type object begins with a
boolean-typed key given a string literal, makes `ParseAssemblyData` return
`false`.  Only an absent key leaves its field at the default with the decode
succeeding. -/
theorem C4_wrong_type_amended (kind kindB : ObjectKind) (key keyB keyT s pre rest : List Char)
    (c sep : Char) (fuel : Nat) (data : AssemblyData) (st : StateOf kind)
    (stB : StateOf kindB)
    (hw : wrongScalar kind key c) (hB : keyB ∈ boolKeys kindB)
    (hT : keyT ∈ boolKeys ObjectKind.type) (hs : plain s) (hsep : sep = ',' ∨ sep = '}') :
    objectLoopFlag kind (pre ++ (quote key ++ ':' :: c :: rest)) (fuel + 2) pre.length st
        = false
      ∧ objectLoopFlag kindB (pre ++ (quote keyB ++ ':' :: (quote s ++ sep :: rest))) (fuel + 2)
          pre.length stB = false
      ∧ (ParseAssemblyData (opening kind ++ (quote key ++ ':' :: c :: rest)) data).1 = false
      ∧ (ParseAssemblyData
          (opening ObjectKind.type ++ (quote keyT ++ ':' :: (quote s ++ sep :: rest))) data).1
          = false
      ∧ ParseAssemblyData "\x7b\"types\":[\x7b\"fullName\":\"A\"\x7d]\x7d".toList {}
          = (true, { types := [{ fullName := "A".toList }] }) :=
  ⟨objectLoopFlag_wrong_scalar kind fuel st hw (List.drop_left _ _),
    objectLoopFlag_bool_string kindB fuel stB hB hs hsep (List.drop_left _ _),
    ParseAssemblyData_wrong_scalar kind key rest c data hw,
    ParseAssemblyData_bool_string keyT s rest sep data hT hs hsep, by decide!⟩

/-- The amended C4 on `true` for `parameterType` of a parameter, and `"yes"`
for `isReadOnly` of a field and for `isClass` of a type. -/
theorem C4_wrong_type_amended_witness :
    objectLoopFlag ObjectKind.parameter
          ("\x7b".toList ++ (quote "parameterType".toList ++ ':' :: 't' :: "rue\x7d".toList))
          (0 + 2) "\x7b".toList.length ({} : ParameterInfo) = false
      ∧ objectLoopFlag ObjectKind.field ("\x7b".toList
          ++ (quote "isReadOnly".toList ++ ':' :: (quote "yes".toList ++ ',' :: "rue\x7d".toList)))
          (0 + 2) "\x7b".toList.length ({} : FieldInfo) = false
      ∧ (ParseAssemblyData (opening ObjectKind.parameter
          ++ (quote "parameterType".toList ++ ':' :: 't' :: "rue\x7d".toList)) {}).1 = false
      ∧ (ParseAssemblyData (opening ObjectKind.type
          ++ (quote "isClass".toList ++ ':' :: (quote "yes".toList ++ ',' :: "rue\x7d".toList)))
          {}).1 = false
      ∧ ParseAssemblyData "\x7b\"types\":[\x7b\"fullName\":\"A\"\x7d]\x7d".toList {}
          = (true, { types := [{ fullName := "A".toList }] }) :=
  C4_wrong_type_amended ObjectKind.parameter ObjectKind.field "parameterType".toList
    "isReadOnly".toList "isClass".toList "yes".toList "\x7b".toList "rue\x7d".toList 't' ',' 0 {}
    ({} : ParameterInfo) ({} : FieldInfo) (Or.inl ⟨by decide, Or.inr (Or.inl rfl)⟩) (by decide)
    (by decide) (by decide) (Or.inl rfl)

/-- C5. Order preservation: for names `n1`, ..., `nk` without quote and
backslash, decoding `{"types":[{"name":"n1"},...,{"name":"nk"}]}` into an empty
`AssemblyData` returns `true` with exactly the `k` types named `n1`, ..., `nk`
in that order; likewise the `fields` array and the `methods` array of a type
and the `parameters` array of a method give their elements in the order of the
text. -/
theorem C5_order_preservation (names : List (List Char)) (hpl : ∀ n ∈ names, plain n) :
    ParseAssemblyData (typesPayload names) {}
        = (true, { types := names.map (fun n => { name := n }) })
      ∧ ParseAssemblyData (fieldsPayload names) {}
        = (true, { types := [{ fields := names.map (fun n => { name := n }) }] })
      ∧ ParseAssemblyData (methodsPayload names) {}
        = (true, { types := [{ methods := names.map (fun n => { name := n }) }] })
      ∧ ParseAssemblyData (parametersPayload names) {}
        = (true, { types := [{ methods :=
            [{ parameters := names.map (fun n => { name := n }) }] }] }) :=
  ⟨ParseAssemblyData_typesPayload names hpl, ParseAssemblyData_fieldsPayload names hpl,
    ParseAssemblyData_methodsPayload names hpl, ParseAssemblyData_parametersPayload names hpl⟩

/-- C5 on the three names `A`, `B`, `C` of the specification. -/
theorem C5_order_preservation_witness :
    ParseAssemblyData (typesPayload ["A".toList, "B".toList, "C".toList]) {}
        = (true, { types := ["A".toList, "B".toList, "C".toList].map (fun n => { name := n }) })
      ∧ ParseAssemblyData (fieldsPayload ["A".toList, "B".toList, "C".toList]) {}
        = (true, { types := [{ fields :=
            ["A".toList, "B".toList, "C".toList].map (fun n => { name := n }) }] })
      ∧ ParseAssemblyData (methodsPayload ["A".toList, "B".toList, "C".toList]) {}
        = (true, { types := [{ methods :=
            ["A".toList, "B".toList, "C".toList].map (fun n => { name := n }) }] })
      ∧ ParseAssemblyData (parametersPayload ["A".toList, "B".toList, "C".toList]) {}
        = (true, { types := [{ methods := [{ parameters :=
            ["A".toList, "B".toList, "C".toList].map (fun n => { name := n }) }] }] }) :=
  C5_order_preservation ["A".toList, "B".toList, "C".toList] (by decide)

/-- C6. Framing round trip: a payload `P` of 1 to 104857600 bytes, sent as
the four little-endian bytes of its length followed by its bytes, comes back
from `ReadData` as exactly `P`, with no error reported, whatever the pieces in
which the stream delivers the body: `first` is the part of the body that
arrives together with the prefix (it may be empty), `chunks` are the non-empty
pieces of the later reads. -/
theorem C6_framing_round_trip (P first : List Nat) (chunks : List (List Nat))
    (tail : List ReadEvent) (cb : Bool)
    (hpos : 0 < P.length) (hmax : P.length ≤ 104857600)
    (hne : ∀ c ∈ chunks, c ≠ []) (hP : first ++ chunks.flatten = P) :
    ReadData cb (ReadEvent.bytes (encodeLength P.length ++ first)
        :: (chunks.map ReadEvent.bytes ++ tail))
      = { data := P, errors := [], stream := tail } := by
  rw [ReadData_after_length cb P.length hpos hmax]
  by_cases hf : first = []
  · subst hf
    have h := ReadDataLoop_chunks cb P.length tail chunks P.length [] hne
      (by rw [← hP]; simp) (by simp)
    simpa [hP] using h
  · have h := ReadDataLoop_chunks cb P.length tail (first :: chunks) P.length []
      (by
        intro c hc
        rcases List.mem_cons.mp hc with rfl | hc
        · exact hf
        · exact hne c hc)
      (by rw [← hP]; simp) (by simp)
    simpa [hf, hP] using h

/-- C6 on the payload `[65, 66, 67]` delivered in three pieces. -/
theorem C6_framing_round_trip_witness :
    ReadData true (ReadEvent.bytes (encodeLength [65, 66, 67].length ++ [65])
        :: ([[66], [67]].map ReadEvent.bytes ++ []))
      = { data := [65, 66, 67], errors := [], stream := [] } :=
  C6_framing_round_trip [65, 66, 67] [65] [[66], [67]] [] true (by decide) (by decide)
    (by decide) (by decide)

/-- C7. Length bound enforcement: when the four prefix bytes, read as a signed
32-bit integer `n`, give `n ≤ 0` or `n > 104857600`, `ReadData` returns the
empty string, passes "Invalid data length: n" to the error callback, and
leaves everything after the four bytes unread.  So it is for every prefix
whose last byte has the top bit set (its value is negative) and for the zero
prefix; after the prefix of 104857600 itself `ReadData` goes on to read a body
of that length. -/
theorem C7_length_bound (b0 b1 b2 b3 : Nat) (more : List Nat) (rest : List ReadEvent)
    (h : int32OfBytes [b0, b1, b2, b3] ≤ 0 ∨ int32OfBytes [b0, b1, b2, b3] > 104857600) :
    ReadData true (ReadEvent.bytes ([b0, b1, b2, b3] ++ more) :: rest)
        = { data := [],
            errors := ["Invalid data length: ".toList
              ++ to_string (int32OfBytes [b0, b1, b2, b3])],
            stream := if more = [] then rest else ReadEvent.bytes more :: rest }
      ∧ int32OfBytes [b0, b1, b2, 128 + b3 % 128] < 0
      ∧ ReadData true (ReadEvent.bytes ([b0, b1, b2, 128 + b3 % 128] ++ more) :: rest)
        = { data := [],
            errors := ["Invalid data length: ".toList
              ++ to_string (int32OfBytes [b0, b1, b2, 128 + b3 % 128])],
            stream := if more = [] then rest else ReadEvent.bytes more :: rest }
      ∧ ReadData true (ReadEvent.bytes ([0, 0, 0, 0] ++ more) :: rest)
        = { data := [], errors := ["Invalid data length: 0".toList],
            stream := if more = [] then rest else ReadEvent.bytes more :: rest }
      ∧ int32OfBytes (encodeLength 104857600) = 104857600
      ∧ ReadData true (ReadEvent.bytes (encodeLength 104857600 ++ more) :: rest)
          = ReadDataLoop true 104857600 104857600
              (if more = [] then rest else ReadEvent.bytes more :: rest) [] := by
  have hneg : int32OfBytes [b0, b1, b2, 128 + b3 % 128] < 0 := by
    simp only [int32OfBytes, List.getD_cons_zero, List.getD_cons_succ]
    rw [if_neg (by omega)]
    omega
  refine ⟨?_, hneg, ?_, ?_, ?_, ?_⟩
  · rw [ReadData_invalid_length true b0 b1 b2 b3 more rest h]
    rfl
  · rw [ReadData_invalid_length true b0 b1 b2 (128 + b3 % 128) more rest
      (Or.inl (Int.le_of_lt hneg))]
    rfl
  · rw [ReadData_invalid_length true 0 0 0 0 more rest (Or.inl (by decide))]
    rfl
  · exact int32OfBytes_encodeLength 104857600 (by decide)
  · exact ReadData_after_length true 104857600 (by decide) (by decide) more rest

/-- C7 on the prefix `03 00 00 80`, a negative length. -/
theorem C7_length_bound_witness :
    ReadData true (ReadEvent.bytes ([3, 0, 0, 128] ++ [65]) :: [])
        = { data := [],
            errors := ["Invalid data length: ".toList
              ++ to_string (int32OfBytes [3, 0, 0, 128])],
            stream := if [65] = [] then [] else ReadEvent.bytes [65] :: [] }
      ∧ int32OfBytes [3, 0, 0, 128 + 128 % 128] < 0
      ∧ ReadData true (ReadEvent.bytes ([3, 0, 0, 128 + 128 % 128] ++ [65]) :: [])
        = { data := [],
            errors := ["Invalid data length: ".toList
              ++ to_string (int32OfBytes [3, 0, 0, 128 + 128 % 128])],
            stream := if [65] = [] then [] else ReadEvent.bytes [65] :: [] }
      ∧ ReadData true (ReadEvent.bytes ([0, 0, 0, 0] ++ [65]) :: [])
        = { data := [], errors := ["Invalid data length: 0".toList],
            stream := if [65] = [] then [] else ReadEvent.bytes [65] :: [] }
      ∧ int32OfBytes (encodeLength 104857600) = 104857600
      ∧ ReadData true (ReadEvent.bytes (encodeLength 104857600 ++ [65]) :: [])
          = ReadDataLoop true 104857600 104857600
              (if [65] = [] then [] else ReadEvent.bytes [65] :: []) [] :=
  C7_length_bound 3 0 0 128 [65] [] (by decide)

/-- C8. All-or-nothing frame: after a valid length prefix `n`, when the stream
gives fewer than `n` body bytes (`first` with the prefix, then the non-empty
`chunks`) and then ends or fails, `ReadData` returns the empty string and
passes "Failed to read data" to the error callback; the pass of the listener
loop that made the read calls no data callback. -/
theorem C8_all_or_nothing (n : Nat) (first : List Nat) (chunks : List (List Nat))
    (term : List ReadEvent) (c : IPCClient)
    (hn : 0 < n) (hmax : n ≤ 104857600) (hne : ∀ x ∈ chunks, x ≠ [])
    (hshort : first.length + chunks.flatten.length < n)
    (hterm : term = [] ∨ ∃ t, term = ReadEvent.error :: t)
    (hconn : c.isConnected_ = true) (hcb : c.errorCallback_ = true)
    (hs : c.stream = ReadEvent.bytes (encodeLength n ++ first)
        :: (chunks.map ReadEvent.bytes ++ term)) :
    ReadData true c.stream
        = { data := [], errors := ["Failed to read data".toList], stream := term.tail }
      ∧ (ListenThreadBody c).delivered = c.delivered
      ∧ (ListenThreadBody c).reported = c.reported ++ ["Failed to read data".toList] := by
  have hr : ReadData true c.stream
      = { data := [], errors := ["Failed to read data".toList], stream := term.tail } := by
    rw [hs, ReadData_after_length true n hn hmax]
    by_cases hf : first = []
    · subst hf
      rw [if_pos rfl]
      exact ReadDataLoop_short true n term hterm chunks n [] hne (by simpa using hshort)
        (by simp)
    · rw [if_neg hf]
      have h := ReadDataLoop_short true n term hterm (first :: chunks) n []
        (by
          intro x hx
          rcases List.mem_cons.mp hx with rfl | hx
          · exact hf
          · exact hne x hx)
        (by simpa using hshort) (by simp)
      simpa using h
  exact ⟨hr, ListenThreadBody_of_failed_read c _ _ hconn (by rw [hcb]; exact hr)⟩

/-- C8 on a frame of length 3 whose stream ends after two body bytes. -/
theorem C8_all_or_nothing_witness :
    ReadData true (connectedClient (ReadEvent.bytes (encodeLength 3 ++ [65])
          :: ([[66]].map ReadEvent.bytes ++ []))).stream
        = { data := [], errors := ["Failed to read data".toList],
            stream := ([] : List ReadEvent).tail }
      ∧ (ListenThreadBody (connectedClient (ReadEvent.bytes (encodeLength 3 ++ [65])
          :: ([[66]].map ReadEvent.bytes ++ [])))).delivered
          = (connectedClient (ReadEvent.bytes (encodeLength 3 ++ [65])
          :: ([[66]].map ReadEvent.bytes ++ []))).delivered
      ∧ (ListenThreadBody (connectedClient (ReadEvent.bytes (encodeLength 3 ++ [65])
          :: ([[66]].map ReadEvent.bytes ++ [])))).reported
          = (connectedClient (ReadEvent.bytes (encodeLength 3 ++ [65])
          :: ([[66]].map ReadEvent.bytes ++ []))).reported ++ ["Failed to read data".toList] :=
  C8_all_or_nothing 3 [65] [[66]] []
    (connectedClient (ReadEvent.bytes (encodeLength 3 ++ [65])
      :: ([[66]].map ReadEvent.bytes ++ [])))
    (by decide) (by decide) (by decide) (by decide) (Or.inl rfl) rfl rfl rfl

/-- C9, as stated, fails on the text of the message: on a 3-byte stream the
error callback receives "Failed to read data length", which is not the
message "failed to read length" of the claim. -/
theorem C9_counterexample :
    (ReadData true [ReadEvent.bytes [1, 2, 3]]).errors = ["Failed to read data length".toList]
      ∧ (ReadData true [ReadEvent.bytes [1, 2, 3]]).errors ≠ ["failed to read length".toList] := by
  decide

/-- C9 (amended). Short length prefix: when the stream gives fewer than four
bytes and then ends (or fails), `ReadData` returns the empty string and passes
the message "Failed to read data length" to the error callback; the pass of
the listener loop that made the read calls no data callback, so nothing is
decoded. -/
theorem C9_short_length_amended (chunks : List (List Nat)) (term : List ReadEvent)
    (c : IPCClient)
    (hshort : chunks.flatten.length < 4)
    (hterm : term = [] ∨ ∃ t, term = ReadEvent.error :: t)
    (hconn : c.isConnected_ = true) (hcb : c.errorCallback_ = true)
    (hs : c.stream = chunks.map ReadEvent.bytes ++ term) :
    ReadData true c.stream
        = { data := [], errors := ["Failed to read data length".toList],
            stream := c.stream.tail }
      ∧ (ListenThreadBody c).delivered = c.delivered
      ∧ (ListenThreadBody c).reported = c.reported ++ ["Failed to read data length".toList] := by
  have hr : ReadData true c.stream
      = { data := [], errors := ["Failed to read data length".toList],
          stream := c.stream.tail } := by
    rw [hs, ReadData_short_length true chunks term hterm hshort]
    rfl
  exact ⟨hr, ListenThreadBody_of_failed_read c _ _ hconn (by rw [hcb]; exact hr)⟩

/-- The amended C9 on the 3-byte stream of the specification. -/
theorem C9_short_length_amended_witness :
    ReadData true (connectedClient ([[1, 2, 3]].map ReadEvent.bytes ++ [])).stream
        = { data := [], errors := ["Failed to read data length".toList],
            stream := (connectedClient ([[1, 2, 3]].map ReadEvent.bytes ++ [])).stream.tail }
      ∧ (ListenThreadBody (connectedClient ([[1, 2, 3]].map ReadEvent.bytes ++ []))).delivered
          = (connectedClient ([[1, 2, 3]].map ReadEvent.bytes ++ [])).delivered
      ∧ (ListenThreadBody (connectedClient ([[1, 2, 3]].map ReadEvent.bytes ++ []))).reported
          = (connectedClient ([[1, 2, 3]].map ReadEvent.bytes ++ [])).reported
            ++ ["Failed to read data length".toList] :=
  C9_short_length_amended [[1, 2, 3]] []
    (connectedClient ([[1, 2, 3]].map ReadEvent.bytes ++ []))
    (by decide) (Or.inl rfl) rfl rfl rfl

/-- C10, as stated, fails on its own example: the literal `"\u0041"` decodes
to the five characters `u0041`, without the backslash. -/
theorem C10_counterexample :
    (ParseString "\"\\u0041\"".toList 0).1 = "u0041".toList
      ∧ '\\' ∉ (ParseString "\"\\u0041\"".toList 0).1
      ∧ (ParseString "\"\\u0041\"".toList 0).1.length = 5 := by
  decide

/-- C10 (amended). A `\uXXXX` sequence is not decoded as a code point and its
backslash is not kept: in a string literal whose inside is `s1`, then `\u` and
four characters `x1 x2 x3 x4` other than quote and backslash, then `s2`,
`ParseString` returns what `s1` stands for, then the five characters
`u x1 x2 x3 x4`, then what `s2` stands for, and consumes the whole literal. -/
theorem C10_unicode_escape_amended (s1 s2 rest : List Char) (x1 x2 x3 x4 : Char)
    (hs1 : wellFormedBody s1 = true) (hs2 : wellFormedBody s2 = true)
    (hx : plain [x1, x2, x3, x4]) :
    ParseString ('"' :: (s1 ++ '\\' :: 'u' :: x1 :: x2 :: x3 :: x4 :: (s2 ++ '"' :: rest))) 0
      = (decodeBody s1 ++ 'u' :: x1 :: x2 :: x3 :: x4 :: decodeBody s2,
          s1.length + s2.length + 8) :=
  ParseString_unicode s1 s2 rest x1 x2 x3 x4 hs1 hs2 hx

/-- The amended C10 on the literal `"a\n\u0041b"`. -/
theorem C10_unicode_escape_amended_witness :
    ParseString ('"' :: ("a\\n".toList ++ '\\' :: 'u' :: '0' :: '0' :: '4' :: '1'
        :: ("b".toList ++ '"' :: ",".toList))) 0
      = (decodeBody "a\\n".toList ++ 'u' :: '0' :: '0' :: '4' :: '1' :: decodeBody "b".toList,
          "a\\n".toList.length + "b".toList.length + 8) :=
  C10_unicode_escape_amended "a\\n".toList "b".toList ",".toList '0' '0' '4' '1'
    (by decide) (by decide) (by decide)

/-- C11. Escape decoding: on a double-quoted string literal whose inside `body`
ends at an unescaped `"` (the relation `Decodes body out`), `ParseString`
returns `out`, that is `body` with `\n`, `\r`, `\t`, `\\` and `\"` replaced by
newline, carriage return, tab, backslash and double quote, every other escaped
character replaced by itself and every unescaped character copied; the cursor
moves over the literal with both quotes and stops on the text `rest` that
follows it. -/
theorem C11_escape_decoding (json : List Char) (pos : Nat) (body out rest : List Char)
    (hlit : json.drop pos = '"' :: (body ++ '"' :: rest)) (hbody : Decodes body out) :
    ParseString json pos = (out, pos + (body.length + 2))
      ∧ json.drop (ParseString json pos).2 = rest := by
  obtain ⟨hw, hd⟩ := Decodes_decodeBody hbody
  have e := ParseString_body hlit hw
  rw [hd] at e
  refine ⟨e, ?_⟩
  rw [e]
  have h2 : json.drop pos = ('"' :: (body ++ ['"'])) ++ rest := by simpa using hlit
  have h3 := drop_add_of_drop _ h2
  simpa using h3

/-- C11 on the literal `"a\"b\n\q"` followed by a comma: it stands for `a"b`,
a newline and `q`, and its ten characters are consumed. -/
theorem C11_escape_decoding_witness :
    ParseString "\"a\\\"b\\n\\q\",".toList 0
        = (['a', '"', 'b', '\n', 'q'], 0 + ("a\\\"b\\n\\q".toList.length + 2))
      ∧ List.drop (ParseString "\"a\\\"b\\n\\q\",".toList 0).2 "\"a\\\"b\\n\\q\",".toList
        = ",".toList :=
  C11_escape_decoding "\"a\\\"b\\n\\q\",".toList 0 "a\\\"b\\n\\q".toList
    ['a', '"', 'b', '\n', 'q'] ",".toList (by decide)
    (Decodes.copy 'a' _ _ (by decide) (by decide)
      (Decodes.doubleQuote _ _
        (Decodes.copy 'b' _ _ (by decide) (by decide)
          (Decodes.newline _ _
            (Decodes.other 'q' _ _ (by decide) Decodes.done)))))


/-- C12. Atomic replacement at the consumer: on a payload `bad` for which
`ParseAssemblyData` returns `false` the data callback leaves the window as it
was, every member included; on a payload `good` for which it returns `true`
the snapshot held by the window becomes the result of decoding `good` into an
empty `AssemblyData`, the selection becomes -1 and the four counters become
the numbers of types of that result with the flag set, whatever the window
held before; the members that are not derived from the snapshot keep their
values. -/
theorem C12_atomic_replacement (w : MainWindow) (bad good : List Char)
    (hbad : (ParseAssemblyData bad {}).1 = false)
    (hgood : (ParseAssemblyData good {}).1 = true) :
    dataCallback w bad = w
      ∧ (dataCallback w good).assemblyData_ = (ParseAssemblyData good {}).2
      ∧ (dataCallback w good).selectedTypeIndex_ = -1
      ∧ (dataCallback w good).totalClasses_
          = ((ParseAssemblyData good {}).2.types.countP (fun t => t.isClass) : Nat)
      ∧ (dataCallback w good).totalStructs_
          = ((ParseAssemblyData good {}).2.types.countP (fun t => t.isStruct) : Nat)
      ∧ (dataCallback w good).totalEnums_
          = ((ParseAssemblyData good {}).2.types.countP (fun t => t.isEnum) : Nat)
      ∧ (dataCallback w good).totalInterfaces_
          = ((ParseAssemblyData good {}).2.types.countP (fun t => t.isInterface) : Nat)
      ∧ (dataCallback w good).searchBuffer_ = w.searchBuffer_
      ∧ (dataCallback w good).showPublicOnly_ = w.showPublicOnly_
      ∧ (dataCallback w good).showInheritedMembers_ = w.showInheritedMembers_
      ∧ (dataCallback w good).currentTab_ = w.currentTab_ := by
  have e1 : dataCallback w bad = w := by simp [dataCallback, hbad]
  have e2 : dataCallback w good = SetAssemblyData w (ParseAssemblyData good {}).2 := by
    simp [dataCallback, hgood]
  rw [e1, e2, SetAssemblyData_eq]
  simp

/-- C12 on a window that holds the snapshot of the concrete scenario with its
only type selected: the payload `{"types":5}` is rejected and leaves it untouched, and
the payload `{"assemblyName":"B","types":[{"isEnum":true},{"isEnum":true}]}`
replaces the snapshot, the selection and the counters. -/
theorem C12_atomic_replacement_witness :
    dataCallback { assemblyData_ := expectedC1, selectedTypeIndex_ := 0, totalClasses_ := 1 }
        "\x7b\"types\":5\x7d".toList
        = { assemblyData_ := expectedC1, selectedTypeIndex_ := 0, totalClasses_ := 1 }
      ∧ (dataCallback { assemblyData_ := expectedC1, selectedTypeIndex_ := 0, totalClasses_ := 1 }
          "\x7b\"assemblyName\":\"B\",\"types\":[\x7b\"isEnum\":true\x7d,\x7b\"isEnum\":true\x7d]\x7d".toList).assemblyData_
        = { assemblyName := "B".toList, types := [{ isEnum := true }, { isEnum := true }] }
      ∧ (dataCallback { assemblyData_ := expectedC1, selectedTypeIndex_ := 0, totalClasses_ := 1 }
          "\x7b\"assemblyName\":\"B\",\"types\":[\x7b\"isEnum\":true\x7d,\x7b\"isEnum\":true\x7d]\x7d".toList).selectedTypeIndex_
        = -1
      ∧ (dataCallback { assemblyData_ := expectedC1, selectedTypeIndex_ := 0, totalClasses_ := 1 }
          "\x7b\"assemblyName\":\"B\",\"types\":[\x7b\"isEnum\":true\x7d,\x7b\"isEnum\":true\x7d]\x7d".toList).totalClasses_
        = 0
      ∧ (dataCallback { assemblyData_ := expectedC1, selectedTypeIndex_ := 0, totalClasses_ := 1 }
          "\x7b\"assemblyName\":\"B\",\"types\":[\x7b\"isEnum\":true\x7d,\x7b\"isEnum\":true\x7d]\x7d".toList).totalEnums_
        = 2 := by
  have h := C12_atomic_replacement
    { assemblyData_ := expectedC1, selectedTypeIndex_ := 0, totalClasses_ := 1 }
    "\x7b\"types\":5\x7d".toList
    "\x7b\"assemblyName\":\"B\",\"types\":[\x7b\"isEnum\":true\x7d,\x7b\"isEnum\":true\x7d]\x7d".toList
    (by decide!) (by decide!)
  have hd : ParseAssemblyData
      "\x7b\"assemblyName\":\"B\",\"types\":[\x7b\"isEnum\":true\x7d,\x7b\"isEnum\":true\x7d]\x7d".toList {}
      = (true, { assemblyName := "B".toList, types := [{ isEnum := true }, { isEnum := true }] }) := by
    decide!
  obtain ⟨h1, h2, h3, h4, -, h6, -⟩ := h
  rw [hd] at h2 h4 h6
  exact ⟨h1, h2, h3, by simpa using h4, by simpa using h6⟩


/-- C13. The decoder never reads outside its input.  For every input `json`
(any characters, any length, the empty string included) and every object
`data`, the run of `ParseAssemblyData` with the faults written out, each loop
being allowed one iteration more than the input has characters, raises no
fault: no `json_[pos_]` outside the text, no `compare` beyond its end, no loop
left unfinished; it returns the flag and the object of `ParseAssemblyData`.
The cursor ends within the text, and from a cursor `pos` within the text each
of `SkipWhitespace`, `ParseString`, `ParseBool`, `SkipObject`, `SkipArray` and
`SkipValue` leaves the cursor within the text, `ParseBool` making its
comparisons without a fault.  On the empty input the result is `false` with
`data` untouched. -/
theorem C13_never_out_of_range (json : List Char) (data : AssemblyData) (pos : Nat)
    (hp : pos ≤ json.length) :
    ParseAssemblyDataChecked (json.length + 1) json data
        = Except.ok (ParseAssemblyData json data)
      ∧ (SimpleJsonParser.ParseAssemblyData json 0 data).2.1 ≤ json.length
      ∧ ParseBoolChecked json pos = Except.ok (ParseBool json pos)
      ∧ SkipWhitespace json pos ≤ json.length
      ∧ (ParseString json pos).2 ≤ json.length
      ∧ (ParseBool json pos).2 ≤ json.length
      ∧ SkipObject json pos ≤ json.length
      ∧ SkipArray json pos ≤ json.length
      ∧ SkipValue json pos ≤ json.length
      ∧ ParseAssemblyDataChecked 1 [] data = Except.ok (false, data) :=
  ⟨ParseAssemblyDataChecked_eq (Nat.lt_succ_self _) data,
    SimpleJsonParser.ParseAssemblyData_bound json data,
    ParseBoolChecked_eq hp,
    SkipWhitespace_bound json pos hp,
    ParseString_bound json pos hp,
    ParseBool_bound json pos hp,
    SkipObject_bound json pos hp,
    SkipArray_bound json pos hp,
    SkipValue_bound json pos hp,
    rfl⟩

/-- C13 on the input `{"types":[{"isClass":tr`, cut off inside `true`, with
the cursor on the `t`: the comparison with `true` reaches the end of the text
and raises no fault. -/
theorem C13_never_out_of_range_witness :
    ParseAssemblyDataChecked ("\x7b\"types\":[\x7b\"isClass\":tr".toList.length + 1)
          "\x7b\"types\":[\x7b\"isClass\":tr".toList {}
        = Except.ok (ParseAssemblyData "\x7b\"types\":[\x7b\"isClass\":tr".toList {})
      ∧ (SimpleJsonParser.ParseAssemblyData "\x7b\"types\":[\x7b\"isClass\":tr".toList 0 {}).2.1
          ≤ "\x7b\"types\":[\x7b\"isClass\":tr".toList.length
      ∧ ParseBoolChecked "\x7b\"types\":[\x7b\"isClass\":tr".toList 21
          = Except.ok (ParseBool "\x7b\"types\":[\x7b\"isClass\":tr".toList 21)
      ∧ SkipWhitespace "\x7b\"types\":[\x7b\"isClass\":tr".toList 21
          ≤ "\x7b\"types\":[\x7b\"isClass\":tr".toList.length
      ∧ (ParseString "\x7b\"types\":[\x7b\"isClass\":tr".toList 21).2
          ≤ "\x7b\"types\":[\x7b\"isClass\":tr".toList.length
      ∧ (ParseBool "\x7b\"types\":[\x7b\"isClass\":tr".toList 21).2
          ≤ "\x7b\"types\":[\x7b\"isClass\":tr".toList.length
      ∧ SkipObject "\x7b\"types\":[\x7b\"isClass\":tr".toList 21
          ≤ "\x7b\"types\":[\x7b\"isClass\":tr".toList.length
      ∧ SkipArray "\x7b\"types\":[\x7b\"isClass\":tr".toList 21
          ≤ "\x7b\"types\":[\x7b\"isClass\":tr".toList.length
      ∧ SkipValue "\x7b\"types\":[\x7b\"isClass\":tr".toList 21
          ≤ "\x7b\"types\":[\x7b\"isClass\":tr".toList.length
      ∧ ParseAssemblyDataChecked 1 [] {} = Except.ok (false, {}) :=
  C13_never_out_of_range "\x7b\"types\":[\x7b\"isClass\":tr".toList {} 21 (by decide)


/-- C14. Idempotent re-decode: when `first` and `second` are the results of
two runs of `ParseAssemblyData` on the same payload, each into a new empty
`AssemblyData`, they carry the same flag and equal snapshots (assembly name,
timestamp and the sequence of types with all that they contain): every run
starts a parser of its own at cursor 0 and reads nothing but the payload and
the object it is given.  At the consumer, receiving the same payload a second
time leaves the window as the first time left it. -/
theorem C14_idempotent_redecode (json : List Char) (first second : Bool × AssemblyData)
    (w : MainWindow) (h1 : first = ParseAssemblyData json {})
    (h2 : second = ParseAssemblyData json {}) :
    first.1 = second.1
      ∧ first.2.assemblyName = second.2.assemblyName
      ∧ first.2.timestamp = second.2.timestamp
      ∧ first.2.types = second.2.types
      ∧ dataCallback (dataCallback w json) json = dataCallback w json := by
  subst h1 h2
  refine ⟨rfl, rfl, rfl, rfl, ?_⟩
  unfold dataCallback
  cases h : (ParseAssemblyData json {}).1
  · simp [h]
  · simp [h, SetAssemblyData_idem]

/-- C14 on the payload of the concrete scenario, received twice by a window
that held nothing. -/
theorem C14_idempotent_redecode_witness :
    (true, expectedC1).1 = (true, expectedC1).1
      ∧ (true, expectedC1).2.assemblyName = (true, expectedC1).2.assemblyName
      ∧ (true, expectedC1).2.timestamp = (true, expectedC1).2.timestamp
      ∧ (true, expectedC1).2.types = (true, expectedC1).2.types
      ∧ dataCallback (dataCallback {} payloadC1) payloadC1 = dataCallback {} payloadC1 :=
  C14_idempotent_redecode payloadC1 (true, expectedC1) (true, expectedC1) {}
    (by decide!) (by decide!)


/-- C15. The listener loop never connects by itself.  An iteration of the
loop that starts in a state `c` with `isConnected_ = false` changes nothing:
no `ReadData`, no call of the data or of the error callback, and
`isConnected_` is still `false`.  Hence in every state `c1` reached from a
disconnected state `c0` (such as the state the constructor leaves) by
registering callbacks, `StartListening`, iterations of the loop and
`StopListening`, with no call of `Connect`, the client is still disconnected,
and no read and no callback call has been added to those of `c0`. -/
theorem C15_listener_never_connects (c c0 c1 : IPCClient) (hc : c.isConnected_ = false)
    (h0 : c0.isConnected_ = false) (hr : Reachable c0 c1) :
    ListenThreadBody c = c
      ∧ (ListenThreadBody c).reads = c.reads
      ∧ (ListenThreadBody c).delivered = c.delivered
      ∧ (ListenThreadBody c).reported = c.reported
      ∧ (ListenThreadBody c).isConnected_ = false
      ∧ c1.isConnected_ = false
      ∧ c1.delivered = c0.delivered
      ∧ c1.reported = c0.reported
      ∧ c1.reads = c0.reads := by
  have e := ListenThreadBody_disconnected c hc
  obtain ⟨h1, h2, h3, h4, -, -⟩ := Reachable_disconnected hr h0
  rw [e]
  exact ⟨rfl, rfl, rfl, rfl, hc, h1, h2, h3, h4⟩

/-- C15 on the client of `main`: constructed, both callbacks registered,
`StartListening`, then two iterations of the loop, with a frame waiting in the
pipe that nobody opens. -/
theorem C15_listener_never_connects_witness :
    ListenThreadBody { isListening_ := true, stream := [ReadEvent.bytes [1, 0, 0, 0, 65]] }
        = { isListening_ := true, stream := [ReadEvent.bytes [1, 0, 0, 0, 65]] }
      ∧ (ListenThreadBody
          { isListening_ := true, stream := [ReadEvent.bytes [1, 0, 0, 0, 65]] }).reads = 0
      ∧ (ListenThreadBody
          { isListening_ := true, stream := [ReadEvent.bytes [1, 0, 0, 0, 65]] }).delivered = []
      ∧ (ListenThreadBody
          { isListening_ := true, stream := [ReadEvent.bytes [1, 0, 0, 0, 65]] }).reported = []
      ∧ (ListenThreadBody
          { isListening_ := true, stream := [ReadEvent.bytes [1, 0, 0, 0, 65]]
            }).isConnected_ = false
      ∧ (ListenThreadBody (ListenThreadBody (StartListening (SetErrorCallback
          (SetDataCallback {}))))).isConnected_ = false
      ∧ (ListenThreadBody (ListenThreadBody (StartListening (SetErrorCallback
          (SetDataCallback {}))))).delivered = []
      ∧ (ListenThreadBody (ListenThreadBody (StartListening (SetErrorCallback
          (SetDataCallback {}))))).reported = []
      ∧ (ListenThreadBody (ListenThreadBody (StartListening (SetErrorCallback
          (SetDataCallback {}))))).reads = 0 :=
  C15_listener_never_connects
    { isListening_ := true, stream := [ReadEvent.bytes [1, 0, 0, 0, 65]] } {}
    (ListenThreadBody (ListenThreadBody (StartListening (SetErrorCallback (SetDataCallback {})))))
    rfl rfl
    (Reachable.step _ _
      (Reachable.step _ _
        (Reachable.step _ _
          (Reachable.step _ _
            (Reachable.step _ _ Reachable.start (ListenerStep.setDataCallback _))
            (ListenerStep.setErrorCallback _))
          (ListenerStep.startListening _))
        (ListenerStep.iteration _ (by decide)))
      (ListenerStep.iteration _ (by decide)))


/-- C16. One frame per connection: an iteration of the listener loop that
starts in a state `c` with `isConnected_ = true` makes exactly one call of
`ReadData` (the count of calls grows by one, and the stream and the error
messages afterwards are those of that one call) and ends disconnected with the
descriptor reset to -1, whether the read succeeded or failed; the data
callback is called at most once, with the string `ReadData` returned, and only
when that string is not empty. -/
theorem C16_one_frame_per_connection (c : IPCClient) (h : c.isConnected_ = true) :
    (ListenThreadBody c).reads = c.reads + 1
      ∧ (ListenThreadBody c).stream = (ReadData c.errorCallback_ c.stream).stream
      ∧ (ListenThreadBody c).reported
          = c.reported ++ (ReadData c.errorCallback_ c.stream).errors
      ∧ (ListenThreadBody c).isConnected_ = false
      ∧ (ListenThreadBody c).fd_ = -1
      ∧ ((ListenThreadBody c).delivered = c.delivered
          ∨ ((ReadData c.errorCallback_ c.stream).data ≠ []
              ∧ (ListenThreadBody c).delivered
                  = c.delivered ++ [(ReadData c.errorCallback_ c.stream).data])) := by
  obtain ⟨h1, h2, h3, h4, h5, h6, -⟩ := ListenThreadBody_connected c h
  refine ⟨h1, h2, h3, h5, h6, ?_⟩
  rw [h4]
  by_cases hd : (ReadData c.errorCallback_ c.stream).data ≠ [] ∧ c.dataCallback_ = true
  · rw [if_pos hd]; exact Or.inr ⟨hd.1, rfl⟩
  · rw [if_neg hd]; exact Or.inl rfl

/-- C16 on a connected client whose pipe holds the frame of the payload `AB`
and then a second frame: the iteration delivers `AB`, leaves the second frame
unread and disconnects. -/
theorem C16_one_frame_per_connection_witness :
    (ListenThreadBody (connectedClient
        [ReadEvent.bytes [2, 0, 0, 0, 65, 66], ReadEvent.bytes [1, 0, 0, 0, 67]])).reads = 0 + 1
      ∧ (ListenThreadBody (connectedClient
          [ReadEvent.bytes [2, 0, 0, 0, 65, 66], ReadEvent.bytes [1, 0, 0, 0, 67]])).stream
        = (ReadData true
            [ReadEvent.bytes [2, 0, 0, 0, 65, 66], ReadEvent.bytes [1, 0, 0, 0, 67]]).stream
      ∧ (ListenThreadBody (connectedClient
          [ReadEvent.bytes [2, 0, 0, 0, 65, 66], ReadEvent.bytes [1, 0, 0, 0, 67]])).reported
        = [] ++ (ReadData true
            [ReadEvent.bytes [2, 0, 0, 0, 65, 66], ReadEvent.bytes [1, 0, 0, 0, 67]]).errors
      ∧ (ListenThreadBody (connectedClient
          [ReadEvent.bytes [2, 0, 0, 0, 65, 66], ReadEvent.bytes [1, 0, 0, 0, 67]])).isConnected_
        = false
      ∧ (ListenThreadBody (connectedClient
          [ReadEvent.bytes [2, 0, 0, 0, 65, 66], ReadEvent.bytes [1, 0, 0, 0, 67]])).fd_ = -1
      ∧ ((ListenThreadBody (connectedClient
          [ReadEvent.bytes [2, 0, 0, 0, 65, 66], ReadEvent.bytes [1, 0, 0, 0, 67]])).delivered = []
          ∨ ((ReadData true
              [ReadEvent.bytes [2, 0, 0, 0, 65, 66], ReadEvent.bytes [1, 0, 0, 0, 67]]).data ≠ []
            ∧ (ListenThreadBody (connectedClient
                [ReadEvent.bytes [2, 0, 0, 0, 65, 66], ReadEvent.bytes [1, 0, 0, 0, 67]])).delivered
              = [] ++ [(ReadData true
                  [ReadEvent.bytes [2, 0, 0, 0, 65, 66], ReadEvent.bytes [1, 0, 0, 0, 67]]).data])) :=
  C16_one_frame_per_connection
    (connectedClient [ReadEvent.bytes [2, 0, 0, 0, 65, 66], ReadEvent.bytes [1, 0, 0, 0, 67]]) rfl


/-- C17. `ParseAssemblyData` terminates on every input.  In the decoder with
the faults written out, where a loop that uses up its fuel raises
`out_of_fuel`, allow every loop `n` iterations, `n` greater than the length
of the input: the run raises no fault and returns what `ParseAssemblyData`
returns.  The reason is that each iteration of each loop either returns or
hands over to the next iteration with the cursor strictly further and still
within the text (`Advances`): the loop of the root object, the loops of the
five arrays and of the five kinds of object in them, and the loops of
`SkipWhitespace`, `ParseString`, `SkipObject`, `SkipArray` and of the scalar
branch of `SkipValue`.  The nesting of the loops is that of the functions,
which do not call themselves. -/
theorem C17_termination (json : List Char) (n : Nat) (data : AssemblyData)
    (hn : json.length < n) :
    ParseAssemblyDataChecked n json data = Except.ok (ParseAssemblyData json data)
      ∧ Advances json.length (ParseAssemblyDataLoopChecked n json)
      ∧ Advances json.length (ParseTypesArrayLoopChecked n json)
      ∧ Advances json.length (ParseTypeInfoLoopChecked n json)
      ∧ Advances json.length (ParseFieldsArrayLoopChecked n json)
      ∧ Advances json.length (ParseFieldInfoLoopChecked n json)
      ∧ Advances json.length (ParseMethodsArrayLoopChecked n json)
      ∧ Advances json.length (ParseMethodInfoLoopChecked n json)
      ∧ Advances json.length (ParseParametersArrayLoopChecked n json)
      ∧ Advances json.length (ParseParameterInfoLoopChecked n json)
      ∧ Advances json.length (ParsePropertiesArrayLoopChecked n json)
      ∧ Advances json.length (ParsePropertyInfoLoopChecked n json)
      ∧ Advances json.length (fun fuel pos (_ : Unit) => SkipWhitespaceLoopChecked json fuel pos)
      ∧ Advances json.length (ParseStringLoopChecked json)
      ∧ Advances json.length (SkipNestedLoopChecked '{' '}' json)
      ∧ Advances json.length (SkipNestedLoopChecked '[' ']' json)
      ∧ Advances json.length (fun fuel pos (_ : Unit) => SkipScalarLoopChecked json fuel pos) :=
  ⟨ParseAssemblyDataChecked_eq hn data,
    ParseAssemblyDataLoopChecked_advances hn,
    ParseTypesArrayLoopChecked_advances hn,
    ParseTypeInfoLoopChecked_advances hn,
    ParseFieldsArrayLoopChecked_advances hn,
    ParseFieldInfoLoopChecked_advances hn,
    ParseMethodsArrayLoopChecked_advances hn,
    ParseMethodInfoLoopChecked_advances hn,
    ParseParametersArrayLoopChecked_advances hn,
    ParseParameterInfoLoopChecked_advances hn,
    ParsePropertiesArrayLoopChecked_advances hn,
    ParsePropertyInfoLoopChecked_advances hn,
    SkipWhitespaceLoopChecked_advances json,
    ParseStringLoopChecked_advances json,
    SkipNestedLoopChecked_advances '{' '}' json,
    SkipNestedLoopChecked_advances '[' ']' json,
    SkipScalarLoopChecked_advances json⟩

/-- C17 on the payload `{"types":[{"name":"A"}]}` of 24 characters, with 25
iterations allowed to every loop. -/
theorem C17_termination_witness :
    ParseAssemblyDataChecked 25 (typesPayload ["A".toList]) {}
        = Except.ok (ParseAssemblyData (typesPayload ["A".toList]) {})
      ∧ Advances (typesPayload ["A".toList]).length
          (ParseAssemblyDataLoopChecked 25 (typesPayload ["A".toList]))
      ∧ Advances (typesPayload ["A".toList]).length
          (ParseTypesArrayLoopChecked 25 (typesPayload ["A".toList]))
      ∧ Advances (typesPayload ["A".toList]).length
          (ParseTypeInfoLoopChecked 25 (typesPayload ["A".toList]))
      ∧ Advances (typesPayload ["A".toList]).length
          (ParseFieldsArrayLoopChecked 25 (typesPayload ["A".toList]))
      ∧ Advances (typesPayload ["A".toList]).length
          (ParseFieldInfoLoopChecked 25 (typesPayload ["A".toList]))
      ∧ Advances (typesPayload ["A".toList]).length
          (ParseMethodsArrayLoopChecked 25 (typesPayload ["A".toList]))
      ∧ Advances (typesPayload ["A".toList]).length
          (ParseMethodInfoLoopChecked 25 (typesPayload ["A".toList]))
      ∧ Advances (typesPayload ["A".toList]).length
          (ParseParametersArrayLoopChecked 25 (typesPayload ["A".toList]))
      ∧ Advances (typesPayload ["A".toList]).length
          (ParseParameterInfoLoopChecked 25 (typesPayload ["A".toList]))
      ∧ Advances (typesPayload ["A".toList]).length
          (ParsePropertiesArrayLoopChecked 25 (typesPayload ["A".toList]))
      ∧ Advances (typesPayload ["A".toList]).length
          (ParsePropertyInfoLoopChecked 25 (typesPayload ["A".toList]))
      ∧ Advances (typesPayload ["A".toList]).length
          (fun fuel pos (_ : Unit) => SkipWhitespaceLoopChecked (typesPayload ["A".toList]) fuel pos)
      ∧ Advances (typesPayload ["A".toList]).length
          (ParseStringLoopChecked (typesPayload ["A".toList]))
      ∧ Advances (typesPayload ["A".toList]).length
          (SkipNestedLoopChecked '{' '}' (typesPayload ["A".toList]))
      ∧ Advances (typesPayload ["A".toList]).length
          (SkipNestedLoopChecked '[' ']' (typesPayload ["A".toList]))
      ∧ Advances (typesPayload ["A".toList]).length
          (fun fuel pos (_ : Unit) => SkipScalarLoopChecked (typesPayload ["A".toList]) fuel pos) :=
  C17_termination (typesPayload ["A".toList]) 25 {} (by decide)


/-- C18. `ParseAssemblyData` never clears or rolls back its output argument.
For every input and every initial object `d0`, whether the call returns `true`
or `false`, the types `d0` held are a prefix of the types afterwards: the call
returns the flag of a run on an empty object and appends the types of that run
to `d0.types`.  So a second decode of the same payload into the object the
first decode filled leaves every type twice, `2k` types for `k`.  A failure
keeps what was decoded before it: `{"types":[{"name":"A"},5]}` returns `false`
with the type `A` added to the type `old` already there, and
`{"assemblyName":"X","types":5}` returns `false` with `assemblyName`
overwritten. -/
theorem C18_output_never_cleared (json : List Char) (d0 : AssemblyData) :
    d0.types <+: (ParseAssemblyData json d0).2.types
      ∧ (ParseAssemblyData json d0).1 = (ParseAssemblyData json {}).1
      ∧ (ParseAssemblyData json d0).2.types = d0.types ++ (ParseAssemblyData json {}).2.types
      ∧ (ParseAssemblyData json (ParseAssemblyData json {}).2).2.types
          = (ParseAssemblyData json {}).2.types ++ (ParseAssemblyData json {}).2.types
      ∧ (ParseAssemblyData json (ParseAssemblyData json {}).2).2.types.length
          = 2 * (ParseAssemblyData json {}).2.types.length
      ∧ ParseAssemblyData "\x7b\"types\":[\x7b\"name\":\"A\"\x7d,5]\x7d".toList
          { types := [{ name := "old".toList }] }
          = (false, { types := [{ name := "old".toList }, { name := "A".toList }] })
      ∧ ParseAssemblyData "\x7b\"assemblyName\":\"X\",\"types\":5\x7d".toList
          { assemblyName := "old".toList }
          = (false, { assemblyName := "X".toList }) := by
  obtain ⟨h1, h2⟩ := ParseAssemblyData_prepend json d0
  obtain ⟨-, h4⟩ := ParseAssemblyData_prepend json (ParseAssemblyData json {}).2
  refine ⟨?_, h1, h2, h4, ?_, by decide!, by decide!⟩
  · rw [h2]; exact List.prefix_append _ _
  · rw [h4, List.length_append]; omega

end UnityReflection
